import Mathlib

/-! # rtpip — RT-11 container utility

A shallow embedding of the filesystem core of `rtpip` (radix-50 name codec,
floppy sector interleave, directory parser and serializer, allocator and
squeeze) together with machine-checked statements about it.

Conventions of the embedding

* C `unsigned short` values are natural numbers; every store into a 16-bit
  field is written with an explicit `% 65536`.
* A byte buffer is a function from byte offsets to natural numbers; a byte is
  read with `% 256`, 16-bit words are little-endian.
* C strings are lists of characters; the terminating NUL is implicit.
* `malloc`/`calloc`/`realloc` are assumed to succeed, `printf` output is not
  modelled.
-/

namespace Rtpip

set_option maxRecDepth 100000

/-! ## Definitions -/

/-! ### rtpip.h constants -/

/-- First block of the RT-11 directory (`DIRBLK`). -/
def DIRBLK : Nat := 6
/-- Maximum number of directory segments (`MAXSEGMENTS`). -/
def MAXSEGMENTS : Nat := 32
/-- Maximum number of segments on a single density floppy. -/
def MAX_SGL_FLPY_SEGS : Nat := 2
/-- Maximum number of segments on a double density floppy. -/
def MAX_DBL_FLPY_SEGS : Nat := 4
/-- Bytes per disk block (`BLKSIZ`). -/
def BLKSIZ : Nat := 512
/-- Blocks per segment (`BLKS_P_SEGMENT`). -/
def BLKS_P_SEGMENT : Nat := 2
/-- Directory segment size in bytes (`SEGSIZ`). -/
def SEGSIZ : Nat := BLKSIZ * BLKS_P_SEGMENT
/-- Size of the segment header `Rt11SegEnt_t` (five 16-bit words). -/
def SEGLEN : Nat := 10
/-- Size of a directory entry `Rt11DirEnt_t` without extra bytes. -/
def DIRLEN : Nat := 14

/-- Control bit: protected file. -/
def PROTEK : Nat := 0o100000
/-- Control bit: end of segment marker. -/
def ENDBLK : Nat := 0o004000
/-- Control bit: permanent file. -/
def PERM : Nat := 0o002000
/-- Control bit: empty entry. -/
def EMPTY : Nat := 0o001000
/-- Control bit: tentative file. -/
def TENT : Nat := 0o000400

/-- Command option bit: container is a single density floppy. -/
def CMDOPT_SINGLE_FLPY : Nat := 0x04
/-- Command option bit: container is a double density floppy. -/
def CMDOPT_DOUBLE_FLPY : Nat := 0x08
/-- Command option bit: do not write anything. -/
def CMDOPT_NOWRITE : Nat := 0x10
/-- File option bit: take the date from the file timestamp. -/
def FILEOPTS_TIMESTAMP : Nat := 2

/-- Sectors per track on a floppy. -/
def NUM_SECTORS : Nat := 26
/-- Tracks per diskette. -/
def NUM_TRACKS : Nat := 77

/-- Radix-50 code of the dollar sign. -/
def R50_DOLLAR : Nat := 27
/-- Radix-50 code of the dot. -/
def R50_DOT : Nat := 28
/-- Radix-50 code of the percent sign. -/
def R50_PERCENT : Nat := 29

/-- Answer of `getYN`: yes. -/
def YN_YES : Nat := 0
/-- Answer of `getYN`: no. -/
def YN_NO : Nat := 1
/-- Answer of `getYN`: quit. -/
def YN_QUIT : Nat := 2

/-! ### utils.c: radix-50 codec -/

/-- The table `r50[]` of utils.c: 40 symbols followed by 24 question marks. -/
def r50 : List Char :=
  " ABCDEFGHIJKLMNOPQRSTUVWXYZ$.%0123456789????????????????????????".toList

/-- Table lookup `r50[i]`. -/
def r50At (i : Nat) : Char := r50.getD i (Char.ofNat 0)

/-- `char2r50` of utils.c: one ASCII character to its radix-50 code;
characters that cannot be converted give 0. -/
def char2r50 (src : Char) : Nat :=
  if src ≠ ' ' then
    if src = '$' then R50_DOLLAR
    else if src = '.' then R50_DOT
    else if src = '%' then R50_PERCENT
    else if '0' ≤ src ∧ src ≤ '9' then src.toNat - '0'.toNat + 30
    else
      let tmp := src.toUpper
      if 'A' ≤ tmp ∧ tmp ≤ 'Z' then tmp.toNat - 'A'.toNat + 1 else 0
  else 0

/-- `fromRad50` of utils.c: the three characters `ans[0..2]` deposited for the
16-bit value `src` (`src` is an `unsigned short`, updated in place). -/
def fromRad50 (src : Nat) : List Char :=
  let ii := src / (0o50 * 0o50)
  let ans0 := r50At (ii &&& 63)
  let src1 := (src - ii * 0o50 * 0o50) % 65536
  let ii1 := src1 / 0o50
  let ans1 := r50At (ii1 &&& 63)
  let src2 := (src1 - ii1 * 0o50) % 65536
  let ans2 := r50At (src2 &&& 63)
  [ans0, ans1, ans2]

/-- Three packed radix-50 words: `name[3]` of a directory entry and
`iNameR50[3]` of the input handle. -/
structure R50Name where
  w0 : Nat
  w1 : Nat
  w2 : Nat
deriving DecidableEq, Repr

/-- The part of a C string after its last slash (`strrchr(fileName, '/')`
followed by `++ccp`), or the whole string when it has no slash. -/
def lastComponent (s : List Char) : List Char :=
  (s.reverse.takeWhile (fun c => c ≠ '/')).reverse

/-- The `switch (retv)` of `cvtName`: store the code `r` at position `retv`
(0-5 name, 7-9 type) and give the next position; `none` is the `default`
case, which leaves the loop. -/
def cvtNameSwitch (retv r : Nat) (nm : R50Name) : Option (Nat × R50Name) :=
  match retv with
  | 0 => some (1, { nm with w0 := (r * 0o50 * 0o50) % 65536 })
  | 1 => some (2, { nm with w0 := (nm.w0 + r * 0o50) % 65536 })
  | 2 => some (3, { nm with w0 := (nm.w0 + r) % 65536 })
  | 3 => some (4, { nm with w1 := (r * 0o50 * 0o50) % 65536 })
  | 4 => some (5, { nm with w1 := (nm.w1 + r * 0o50) % 65536 })
  | 5 => some (6, { nm with w1 := (nm.w1 + r) % 65536 })
  | 7 => some (8, { nm with w2 := (r * 0o50 * 0o50) % 65536 })
  | 8 => some (9, { nm with w2 := (nm.w2 + r * 0o50) % 65536 })
  | 9 => some (10, { nm with w2 := (nm.w2 + r) % 65536 })
  | _ => none

/-- The conversion loop of `cvtName`: `cp` walks the name, `retv` counts the
position.  Every character is first folded to upper case.  Returns the unread
rest of the string at the point where the loop stops (empty when the
terminating NUL was reached) and the packed words. -/
def cvtNameLoop : List Char → Nat → R50Name → List Char × R50Name
  | [], _, nm => ([], nm)
  | c :: cp, retv, nm =>
    let cc := c.toUpper
    let r := char2r50 cc
    if r = 0 then (c :: cp, nm)
    else if r = R50_DOT then
      if retv ≥ 7 then (c :: cp, nm) else cvtNameLoop cp 7 nm
    else
      match cvtNameSwitch retv r nm with
      | some next => cvtNameLoop cp next.1 next.2
      | none => (c :: cp, nm)

/-- Outcome of `cvtName`: the return value and `iHandle.iNameR50`. -/
structure CvtResult where
  ret : Nat
  iNameR50 : R50Name
deriving DecidableEq, Repr

/-- `cvtName` of utils.c: convert the last path component of `fileName` to
three radix-50 words; returns 1 when something is left unconverted. -/
def cvtName (fileName : List Char) : CvtResult :=
  let ccp := lastComponent fileName
  let out := cvtNameLoop ccp 0 { w0 := 0, w1 := 0, w2 := 0 }
  if out.1 ≠ [] then { ret := 1, iNameR50 := out.2 }
  else { ret := 0, iNameR50 := out.2 }

/-- The 40-symbol radix-50 alphabet: the first 40 entries of the table. -/
def alphabet40 : List Char := r50.take 40

/-- The symbols `cvtName` accepts inside a name or a type: the alphabet
without the space and the dot. -/
def nameAlphabet : List Char := "ABCDEFGHIJKLMNOPQRSTUVWXYZ$%0123456789".toList

/-- The characters `cvtName` can convert: the 40-symbol alphabet and the lower
case letters, which it folds to upper case. -/
def acceptedChars : List Char := alphabet40 ++ "abcdefghijklmnopqrstuvwxyz".toList

/-- A name padded with spaces on the right to `n` characters. -/
def padTo (n : Nat) (s : List Char) : List Char :=
  s ++ List.replicate (n - s.length) ' '

/-! ### Byte buffers -/

/-- A byte buffer: the value stored at each byte offset. -/
abbrev Mem := Nat → Nat

/-- `memcpy(dst + d, src + s, n)` between two distinct buffers. -/
def memcpy (dst : Mem) (d : Nat) (src : Mem) (s n : Nat) : Mem :=
  fun a => if d ≤ a ∧ a < d + n then src (s + (a - d)) else dst a

/-- Read one byte. -/
def rd8 (m : Mem) (a : Nat) : Nat := m a % 256

/-- Read a little-endian 16-bit word. -/
def rd16 (m : Mem) (a : Nat) : Nat := rd8 m a + 256 * rd8 m (a + 1)

/-- Store one byte. -/
def wr8 (m : Mem) (a v : Nat) : Mem := fun x => if x = a then v % 256 else m x

/-- Store a little-endian 16-bit word (the value is truncated to 16 bits). -/
def wr16 (m : Mem) (a v : Nat) : Mem := wr8 (wr8 m a (v % 256)) (a + 1) (v / 256 % 256)

/-- `memset(p + a, 0, n)`. -/
def memset0 (m : Mem) (a n : Nat) : Mem := fun x => if a ≤ x ∧ x < a + n then 0 else m x

/-! ### rtpip.h: directory records -/

/-- The directory entry `Rt11DirEnt_t`. -/
structure Rt11DirEnt where
  control : Nat
  name : R50Name
  blocks : Nat
  channel : Nat
  procid : Nat
  date : Nat
deriving DecidableEq, Repr

/-- Every field of the entry fits its C type (`unsigned short`, `unsigned char`). -/
def Rt11DirEnt.WellTyped (e : Rt11DirEnt) : Prop :=
  e.control < 65536 ∧ e.name.w0 < 65536 ∧ e.name.w1 < 65536 ∧ e.name.w2 < 65536
    ∧ e.blocks < 65536 ∧ e.channel < 256 ∧ e.procid < 256 ∧ e.date < 65536

instance (e : Rt11DirEnt) : Decidable e.WellTyped := by
  unfold Rt11DirEnt.WellTyped
  exact inferInstance

/-- Load a directory entry from the byte offset `a` (field offsets of
`Rt11DirEnt_t`: control 0, name 2/4/6, blocks 8, channel 10, procid 11,
date 12). -/
def rdDirEnt (m : Mem) (a : Nat) : Rt11DirEnt :=
  { control := rd16 m a,
    name := { w0 := rd16 m (a + 2), w1 := rd16 m (a + 4), w2 := rd16 m (a + 6) },
    blocks := rd16 m (a + 8),
    channel := rd8 m (a + 10),
    procid := rd8 m (a + 11),
    date := rd16 m (a + 12) }

/-- Store a directory entry at the byte offset `a` (`*dirptr = ...`, 14 bytes). -/
def wrDirEnt (m : Mem) (a : Nat) (e : Rt11DirEnt) : Mem :=
  let m := wr16 m a e.control
  let m := wr16 m (a + 2) e.name.w0
  let m := wr16 m (a + 4) e.name.w1
  let m := wr16 m (a + 6) e.name.w2
  let m := wr16 m (a + 8) e.blocks
  let m := wr8 m (a + 10) e.channel
  let m := wr8 m (a + 11) e.procid
  wr16 m (a + 12) e.date

/-- Offset of `link` in the segment header `Rt11SegEnt_t` (smax 0, link 2,
last 4, extra 6, start 8). -/
def OFF_LINK : Nat := 2
/-- Offset of `last` in the segment header. -/
def OFF_LAST : Nat := 4
/-- Offset of `extra` in the segment header. -/
def OFF_EXTRA : Nat := 6
/-- Offset of `start` in the segment header. -/
def OFF_START : Nat := 8
/-- Offset of `blocks` in a directory entry. -/
def OFF_BLOCKS : Nat := 8

/-- The working directory entry `InWorkingDir_t`. -/
structure InWorkingDir where
  rt11 : Rt11DirEnt
  ffull : List Char
  lba : Nat
  segNo : Nat
  segIdx : Nat
deriving DecidableEq, Repr

/-- Broken-down local time of the file timestamp (`struct tm` fields used by
`do_in`). -/
structure Tm where
  tm_year : Int
  tm_mon : Nat
  tm_mday : Nat
deriving DecidableEq, Repr

/-- The input handle `InHandle_t`; `sizeMatch` is the index into `wDirArray`
the C pointer designates, `none` for `NULL`. -/
structure InHandle where
  totIns : Nat
  totUsed : Nat
  sizeMatch : Option Nat
  fileBlks : Nat
  iNameR50 : R50Name
  fileTimeStamp : Tm

/-- The fields of `Options_t` used by the filesystem core.  `wDirArray` holds
the first `numWdirs` elements of the C array, so `numWdirs` is its length;
`directory` is the directory buffer, addressed from its first byte. -/
structure Options where
  directory : Mem
  wDirArray : List InWorkingDir
  totEmpty : Int
  totEmptyEntries : Nat
  emptyAdds : Int
  totPerm : Int
  totPermEntries : Nat
  largestPerm : Nat
  lastEmpty : Option Nat
  diskSize : Int
  dirDirty : Nat
  iHandle : InHandle
  openedWrite : Nat
  seg1LBA : Nat
  containerBlocks : Nat
  maxseg : Nat
  numdent : Nat
  cmdOpts : Nat
  fileOpts : Nat
  inOpts : Nat
  delOpts : Nat
  inDate : Nat
  newMaxSeg : Nat
  floppyImageSize : Nat

/-- The field `numWdirs`: number of items in `wDirArray`. -/
def Options.numWdirs (o : Options) : Nat := o.wDirArray.length

/-- The zeroed `Options_t` of `main` with the container geometry filled in, as
`parse_directory` finds it. -/
def Options.init (directory : Mem) (maxseg numdent seg1LBA containerBlocks cmdOpts : Nat) :
    Options :=
  { directory := directory, wDirArray := [], totEmpty := 0, totEmptyEntries := 0,
    emptyAdds := 0, totPerm := 0, totPermEntries := 0, largestPerm := 0, lastEmpty := none,
    diskSize := 0, dirDirty := 0,
    iHandle := { totIns := 0, totUsed := 0, sizeMatch := none, fileBlks := 0,
                 iNameR50 := { w0 := 0, w1 := 0, w2 := 0 },
                 fileTimeStamp := { tm_year := 0, tm_mon := 0, tm_mday := 0 } },
    openedWrite := 0, seg1LBA := seg1LBA, containerBlocks := containerBlocks,
    maxseg := maxseg, numdent := numdent, cmdOpts := cmdOpts, fileOpts := 0, inOpts := 0,
    delOpts := 0, inDate := 0, newMaxSeg := 0, floppyImageSize := 0 }

/-! ### parse.c: geometry, parser and serializer -/

/-- The geometry `checkHeader` records from segment 1 of the directory buffer:
`maxseg = firstseg->smax` and
`numdent = (SEGSIZ - sizeof(Rt11SegEnt_t)) / (sizeof(Rt11DirEnt_t) + firstseg->extra)`. -/
def checkHeaderGeometry (directory : Mem) : Nat × Nat :=
  (rd16 directory 0, (SEGSIZ - SEGLEN) / (DIRLEN + rd16 directory OFF_EXTRA))

/-- The display name `ffull` built by `parse_directory` for a permanent entry:
the three decoded words with a dot before the type, spaces squeezed out
(`sqzSpaces`). -/
def mkFfull (name : R50Name) : List Char :=
  (fromRad50 name.w0 ++ fromRad50 name.w1 ++ '.' :: fromRad50 name.w2).filter (fun c => c ≠ ' ')

/-- The inner loop of `parse_directory` over the entries of one segment.  `k` is
the number of iterations left (`numdent - ii`), `dirptr` the byte offset of the
current entry, `accumLBA` the running LBA. -/
def parseEntries (m : Mem) (relseg : Nat) :
    Nat → Nat → Nat → Nat → Options → Options
  | 0, _, _, _, o => o
  | k + 1, ii, dirptr, accumLBA, o =>
    let d := rdDirEnt m dirptr
    if d.control &&& (ENDBLK ||| PERM ||| EMPTY ||| TENT) = ENDBLK then o
    else
      let wdp : InWorkingDir :=
        { rt11 := { d with control := d.control &&& (65535 ^^^ ENDBLK) },
          ffull := if d.control &&& PERM = 0 then [] else mkFfull d.name,
          lba := accumLBA, segNo := relseg % 256, segIdx := ii % 256 }
      let idx := o.wDirArray.length
      let o1 : Options :=
        if d.control &&& PERM = 0 then
          { o with lastEmpty := some idx, totEmpty := o.totEmpty + d.blocks,
                   totEmptyEntries := o.totEmptyEntries + 1 }
        else
          { o with lastEmpty := none, totPerm := o.totPerm + d.blocks,
                   totPermEntries := o.totPermEntries + 1,
                   largestPerm := if o.largestPerm < d.blocks then d.blocks else o.largestPerm }
      let o2 : Options := { o1 with wDirArray := o1.wDirArray ++ [wdp] }
      if d.control &&& ENDBLK ≠ 0 then o2
      else parseEntries m relseg k (ii + 1) (dirptr + DIRLEN + rd16 m OFF_EXTRA)
             (accumLBA + d.blocks) o2

/-- The segment loop of `parse_directory`.  `k` is the number of iterations left
(`maxseg - segnum`), `segptr` the byte offset of the segment visited last
(`none` for `NULL`).  The buffer of the C code holds `maxseg * SEGSIZ` bytes;
a link to a segment behind it, which the test against `last` lets through
only when `last > maxseg`, makes the C code read outside its buffer, where
this function reads the total memory. -/
def parseSegments (m : Mem) (numdent : Nat) : Nat → Option Nat → Options → Options
  | 0, _, o => o
  | k + 1, segptr, o =>
    let next : Option (Nat × Nat) :=
      match segptr with
      | none => some (0, 1)
      | some sp =>
        let relseg := rd16 m (sp + OFF_LINK)
        if relseg ≠ 0 ∧ relseg ≤ rd16 m OFF_LAST then some ((relseg - 1) * SEGSIZ, relseg)
        else none
    match next with
    | none => o
    | some (sp, relseg) =>
      parseSegments m numdent k (some sp)
        (parseEntries m relseg numdent 0 (sp + SEGLEN) (rd16 m (sp + OFF_START)) o)

/-- The segment numbers `relseg` the segment loop of `parse_directory` visits,
in order: the control flow of `parseSegments` without the entries. -/
def visitedSegments (m : Mem) : Nat → Option Nat → List Nat
  | 0, _ => []
  | k + 1, segptr =>
    let next : Option (Nat × Nat) :=
      match segptr with
      | none => some (0, 1)
      | some sp =>
        let relseg := rd16 m (sp + OFF_LINK)
        if relseg ≠ 0 ∧ relseg ≤ rd16 m OFF_LAST then some ((relseg - 1) * SEGSIZ, relseg)
        else none
    match next with
    | none => []
    | some (sp, relseg) => relseg :: visitedSegments m k (some sp)

/-- What the segment loop of `parse_directory` does with segment `relseg`: the
entry loop started at its first slot with the running LBA set to its `start`
field. -/
def parseSegment (m : Mem) (numdent : Nat) (o : Options) (relseg : Nat) : Options :=
  parseEntries m relseg numdent 0 ((relseg - 1) * SEGSIZ + SEGLEN)
    (rd16 m ((relseg - 1) * SEGSIZ + OFF_START)) o

/-- `parse_directory` of parse.c: walk the directory buffer and build the linear
working list and the aggregates (always returns 0). -/
def parse_directory (o : Options) : Options :=
  let o1 := parseSegments o.directory o.numdent o.maxseg none o
  let diskSize : Int := o1.totEmpty + o1.totPerm + o1.seg1LBA + o1.maxseg * 2
  if diskSize ≠ o1.containerBlocks then
    let adds : Int := o1.containerBlocks - diskSize
    { o1 with emptyAdds := if adds < 0 then 0 else adds, diskSize := o1.containerBlocks }
  else { o1 with diskSize := diskSize }

/-- The options with which a container whose directory buffer is `directory` is
opened again: zeroed, with the geometry `checkHeader` reads from the buffer
and the command-line values of `o`. -/
def reopenOptions (directory : Mem) (o : Options) : Options :=
  Options.init directory (checkHeaderGeometry directory).1 (checkHeaderGeometry directory).2
    o.seg1LBA o.containerBlocks o.cmdOpts

/-- Loop state of `linearToDisk`: the directory buffer and the local variables
`relseg`, `segptr`, `dirptr` (byte offsets, `none` for `NULL`), `dentnum`,
`accumLBA`. -/
structure L2DState where
  mem : Mem
  relseg : Nat
  segptr : Option Nat
  dirptr : Option Nat
  dentnum : Nat
  accumLBA : Nat

/-- First half of the block `if ( dentnum >= dentsPerSeg )` of `linearToDisk`:
link the current segment to the next one, `relseg`, and put an end marker
behind its entries when a slot is left. -/
def l2dCloseMem (numdent : Nat) (st : L2DState) (relseg : Nat) : Mem :=
  let m1 := match st.segptr with
    | some sp => wr16 st.mem (sp + OFF_LINK) relseg
    | none => st.mem
  match st.dirptr with
  | some dp => if st.dentnum < numdent then wr16 (memset0 m1 dp DIRLEN) dp ENDBLK else m1
  | none => m1

/-- Second half of the block: record `relseg` as the last segment in segment 1
and fill in the header of segment `relseg` (`smax` and `extra` copied from
segment 1, `last`, `link = 0`, `start`). -/
def l2dHeaderMem (m2 : Mem) (relseg lba : Nat) : Mem :=
  let m3 := wr16 m2 OFF_LAST relseg
  let sp := (relseg - 1) * SEGSIZ
  let m4 := wr16 m3 sp (rd16 m3 0)
  let m5 := wr16 m4 (sp + OFF_EXTRA) (rd16 m4 OFF_EXTRA)
  let m6 := wr16 m5 (sp + OFF_LAST) relseg
  let m7 := wr16 m6 (sp + OFF_LINK) 0
  wr16 m7 (sp + OFF_START) lba

/-- The block of `linearToDisk` that closes the current segment and opens the
next one (`if ( dentnum >= dentsPerSeg )`). -/
def l2dOpenSegment (numdent : Nat) (st : L2DState) (wdp : InWorkingDir) : L2DState :=
  let relseg := st.relseg + 1
  let sp := (relseg - 1) * SEGSIZ
  { mem := l2dHeaderMem (l2dCloseMem numdent st relseg) relseg wdp.lba,
    relseg := relseg, segptr := some sp, dirptr := some (sp + SEGLEN),
    dentnum := 0, accumLBA := wdp.lba }

/-- One iteration of the loop of `linearToDisk`. -/
def l2dStep (numdent dentsPerSeg : Nat) (st : L2DState) (wdp : InWorkingDir) : L2DState :=
  let st1 := if st.dentnum ≥ dentsPerSeg then l2dOpenSegment numdent st wdp else st
  match st1.dirptr with
  | none => st1
  | some dp =>
    let m := wrDirEnt st1.mem dp wdp.rt11
    { st1 with mem := m, dirptr := some (dp + DIRLEN + rd16 m OFF_EXTRA),
               dentnum := st1.dentnum + 1, accumLBA := st1.accumLBA + wdp.rt11.blocks }

/-- The density `dentsPerSeg` chosen by `linearToDisk`; `none` when the
computation divides by zero (`numdent < 2`). -/
def l2dDentsPerSeg (numdent maxseg numWdirs : Nat) : Option Nat :=
  let dentsPerSeg := numdent / 2
  if dentsPerSeg = 0 then none
  else if (numWdirs + dentsPerSeg - 1) / dentsPerSeg ≥ maxseg then
    if maxseg > 1 then some (numWdirs / (maxseg - 1)) else some numdent
  else some dentsPerSeg

/-- The segment count `sugg` reported by `linearToDisk` when it fails. -/
def l2dSuggestion (numdent numWdirs : Nat) : Nat :=
  let sugg := (2 * numWdirs + numdent - 1) / numdent
  if sugg > 31 then 31 else sugg

/-- `linearToDisk` of parse.c: the options after the call and the return value
(0 success, 1 failure); `none` when the density computation divides by zero. -/
def linearToDisk (o : Options) : Option (Options × Nat) :=
  match l2dDentsPerSeg o.numdent o.maxseg o.numWdirs with
  | none => none
  | some dentsPerSeg =>
    if dentsPerSeg > o.numdent ∨ dentsPerSeg * o.maxseg < o.numWdirs then some (o, 1)
    else
      let st0 : L2DState :=
        { mem := o.directory, relseg := 0, segptr := none, dirptr := none,
          dentnum := o.numdent, accumLBA := o.seg1LBA }
      let st := o.wDirArray.foldl (l2dStep o.numdent dentsPerSeg) st0
      let m := match st.dirptr with
        | some dp =>
          if st.dentnum < o.numdent then wr16 (wr16 st.mem (dp + OFF_BLOCKS) 0) dp ENDBLK
          else st.mem
        | none => st.mem
      some ({ o with directory := m, dirDirty := 1 }, 0)

/-! ### do_del.c: delete and pre-delete -/

/-- Command option bits of the delete and insert commands: no prompts. -/
def DELOPTS_NOASK : Nat := 4
/-- Insert option bit: no prompts. -/
def INOPTS_NOASK : Nat := 4

/-- The block count `sizeMatch->rt11.blocks` read through the pointer. -/
def blocksAt (l : List InWorkingDir) (j : Nat) : Nat :=
  match l[j]? with
  | some w => w.rt11.blocks
  | none => 0

/-- First half of the body of the sweep of `preDelete`: release the entry at
index `ii` when it is permanent and carries the wanted name. -/
def preDeleteRelease (o : Options) (ii : Nat) (wdp : InWorkingDir) : Options :=
  if wdp.rt11.control &&& PERM ≠ 0
      ∧ wdp.rt11.name.w0 = o.iHandle.iNameR50.w0
      ∧ wdp.rt11.name.w1 = o.iHandle.iNameR50.w1
      ∧ wdp.rt11.name.w2 = o.iHandle.iNameR50.w2 then
    { o with
      wDirArray := o.wDirArray.set ii { wdp with rt11 := { wdp.rt11 with control := EMPTY } },
      dirDirty := 1,
      totEmpty := o.totEmpty + wdp.rt11.blocks,
      totPerm := o.totPerm - wdp.rt11.blocks }
  else o

/-- The test `!sizeMatch || dirptr->blocks < sizeMatch->rt11.blocks`. -/
def preDeleteSmaller (o : Options) (cur : InWorkingDir) : Bool :=
  match o.iHandle.sizeMatch with
  | none => true
  | some j => decide (cur.rt11.blocks < blocksAt o.wDirArray j)

/-- Second half of the body of the sweep of `preDelete`: keep the entry at index
`ii` as the size match when it is not permanent, large enough and smaller
than the match so far. -/
def preDeleteTrack (o : Options) (ii : Nat) (cur : InWorkingDir) : Options :=
  if cur.rt11.control &&& PERM = 0 then
    if o.iHandle.fileBlks ≤ cur.rt11.blocks ∧ preDeleteSmaller o cur = true then
      { o with iHandle := { o.iHandle with sizeMatch := some ii } }
    else o
  else o

/-- One iteration of the sweep of `preDelete` at index `ii`. -/
def preDeleteStep (o : Options) (ii : Nat) : Options :=
  match o.wDirArray[ii]? with
  | none => o
  | some wdp =>
    let o1 := preDeleteRelease o ii wdp
    match o1.wDirArray[ii]? with
    | none => o1
    | some cur => preDeleteTrack o1 ii cur

/-- `preDelete` of do_del.c (always returns 0): the options after the call. -/
def preDelete (o : Options) : Options :=
  (List.range o.numWdirs).foldl preDeleteStep
    { o with iHandle := { o.iHandle with sizeMatch := none } }

/-- The deletion of the entry at index `ii` in the loop of `do_del`. -/
def delEntry (o : Options) (ii : Nat) (wdp : InWorkingDir) : Options :=
  { o with
    wDirArray := o.wDirArray.set ii { wdp with rt11 := { wdp.rt11 with control := EMPTY } },
    dirDirty := 1,
    totEmpty := o.totEmpty + wdp.rt11.blocks,
    totPerm := o.totPerm - wdp.rt11.blocks }

/-- The loop of `do_del` over the indices still to visit.  `filterFilename` is
the name filter of the command line; `answers` are the replies `getYN` will
read, in order (an exhausted input gives the default, no). -/
def do_del_loop (filterFilename : List Char → Bool) :
    List Nat → List Nat → Options → Options
  | [], _, o => o
  | ii :: rest, answers, o =>
    match o.wDirArray[ii]? with
    | none => do_del_loop filterFilename rest answers o
    | some wdp =>
      if wdp.rt11.control &&& PERM = 0 then do_del_loop filterFilename rest answers o
      else if !filterFilename wdp.ffull then do_del_loop filterFilename rest answers o
      else if o.delOpts &&& DELOPTS_NOASK = 0 then
        let yn := answers.headD YN_NO
        if yn = YN_QUIT then o
        else if yn ≠ YN_YES then do_del_loop filterFilename rest answers.tail o
        else do_del_loop filterFilename rest answers.tail (delEntry o ii wdp)
      else do_del_loop filterFilename rest answers (delEntry o ii wdp)

/-- `do_del` of do_del.c: the loop, then `linearToDisk` whose return value is
ignored; returns 0.  `none` when `linearToDisk` divides by zero. -/
def do_del (filterFilename : List Char → Bool) (answers : List Nat) (o : Options) :
    Option (Options × Nat) :=
  let o1 := do_del_loop filterFilename (List.range o.numWdirs) answers o
  match linearToDisk o1 with
  | none => none
  | some r => some (r.1, 0)

/-! ### output.c: writing a file into the container -/

/-- Outcomes of the three I/O calls of `writeFileToContainer`. -/
structure WriteResults where
  reopenOk : Bool
  seekOk : Bool
  writeOk : Bool
deriving DecidableEq, Repr

/-- `writeFileToContainer` of output.c: the options after the call and the
return value. -/
def writeFileToContainer (o : Options) (res : WriteResults) : Options × Nat :=
  if o.openedWrite = 0 ∧ !res.reopenOk then (o, 1)
  else
    let o1 : Options := if o.openedWrite = 0 then { o with openedWrite := 1 } else o
    if !res.seekOk then (o1, 0)
    else if !res.writeOk then (o1, 0)
    else (o1, 0)

/-! ### do_in.c: insert -/

/-- The date word `do_in` packs from the file timestamp. -/
def packDate (tm : Tm) : Nat :=
  let yr : Int := tm.tm_year + 1900
  let mo := tm.tm_mon + 1
  let day := tm.tm_mday
  let ya : Int × Nat :=
    if yr ≥ 1972 ∧ yr < 2004 then (yr - 1972, 0)
    else if yr ≥ 2004 ∧ yr < 2036 then (yr - 2004, 1)
    else if yr ≥ 2036 ∧ yr < 2068 then (yr - 2036, 2)
    else (yr - 2068, 3)
  ((ya.2 <<< 14) ||| ((mo &&& 15) <<< 10) ||| ((day &&& 31) <<< 5) ||| (ya.1 % 32).toNat) % 65536

/-- The date `do_in` stores in the new entry. -/
def inDateWord (o : Options) : Nat :=
  if o.inDate ≠ 0 then o.inDate
  else if o.fileOpts &&& FILEOPTS_TIMESTAMP ≠ 0 then packDate o.iHandle.fileTimeStamp
  else (1 <<< 10) ||| (1 <<< 5) ||| (0 &&& 31)

/-- How one iteration of the loop of `do_in` ends. -/
inductive Flow where
  | next
  | stop
  | ret1
deriving DecidableEq, Repr

/-- The block of `do_in` that splits the matched entry `wdp` at index `i` when
its size differs from the file: shrink it, advance its LBA and shift it and
everything after it one place up (`memmove`).  `none` when the directory has
no entry left (the loop is left with `break`). -/
def do_in_split (o : Options) (i : Nat) (wdp : InWorkingDir) : Option (List InWorkingDir) :=
  if wdp.rt11.blocks ≠ o.iHandle.fileBlks then
    if ((o.maxseg * o.numdent : Nat) : Int) - 1 ≤ (o.numWdirs : Int) then none
    else
      let rest : InWorkingDir :=
        { wdp with
          rt11 := { wdp.rt11 with blocks := (wdp.rt11.blocks - o.iHandle.fileBlks) % 65536 },
          lba := wdp.lba + o.iHandle.fileBlks }
      let l1 := o.wDirArray.set i rest
      some (l1.take (i + 1) ++ l1.drop i)
  else some o.wDirArray

/-- The entry `do_in` writes through `dirptr`/`wdp` over the entry `cur`: the new
name, size, date, the control word `PERM` and the LBA saved in `outLBA`. -/
def do_in_entry (o : Options) (cur : InWorkingDir) (outLBA : Nat) : InWorkingDir :=
  { cur with
    rt11 := { cur.rt11 with
              name := o.iHandle.iNameR50,
              blocks := o.iHandle.fileBlks % 65536,
              date := inDateWord o,
              control := PERM },
    lba := outLBA }

/-- The last part of the loop body of `do_in`: copy the file out unless writes
are disabled; on a floppy the copy goes to the in-memory image. -/
def do_in_write (o : Options) (res : WriteResults) : Options × Flow :=
  if o.cmdOpts &&& CMDOPT_NOWRITE = 0 then
    if o.cmdOpts &&& (CMDOPT_DOUBLE_FLPY ||| CMDOPT_SINGLE_FLPY) ≠ 0 then (o, Flow.next)
    else
      let w := writeFileToContainer o res
      if w.2 = 1 then (w.1, Flow.ret1) else (w.1, Flow.next)
  else (o, Flow.next)

/-- The allocation part of the loop body of `do_in`, after `preDelete`: take the
size match, split it when it is larger than the file, turn the entry at the
match into the permanent entry of the new file and write the file out. -/
def do_in_alloc (o : Options) (res : WriteResults) : Options × Flow :=
  match o.iHandle.sizeMatch with
  | none => (o, Flow.next)
  | some i =>
    match o.wDirArray[i]? with
    | none => (o, Flow.next)
    | some wdp =>
      if wdp.rt11.blocks < o.iHandle.fileBlks then (o, Flow.next)
      else
        match do_in_split o i wdp with
        | none => (o, Flow.stop)
        | some l =>
          match l[i]? with
          | none => (o, Flow.next)
          | some cur =>
            do_in_write
              { o with
                wDirArray := l.set i (do_in_entry o cur wdp.lba),
                totEmpty := o.totEmpty - o.iHandle.fileBlks,
                totPerm := o.totPerm + o.iHandle.fileBlks,
                iHandle := { o.iHandle with
                             totUsed := o.iHandle.totUsed + o.iHandle.fileBlks,
                             totIns := o.iHandle.totIns + 1 } }
              res

/-- What the outside world supplies for one file named on the command line:
the name, the reply to the prompt, the outcome of `readInpFile` (`none` for a
failure, else the block count and the timestamp) and the outcomes of the
container writes. -/
structure InFile where
  fileName : List Char
  answer : Nat
  read : Option (Nat × Tm)
  write : WriteResults

/-- One iteration of the loop of `do_in`. -/
def do_in_body (o : Options) (f : InFile) : Options × Flow :=
  let cv := cvtName f.fileName
  let o0 : Options := { o with iHandle := { o.iHandle with iNameR50 := cv.iNameR50 } }
  if cv.ret ≠ 0 then (o0, Flow.next)
  else if o0.inOpts &&& INOPTS_NOASK = 0 ∧ f.answer = YN_QUIT then (o0, Flow.stop)
  else if o0.inOpts &&& INOPTS_NOASK = 0 ∧ f.answer ≠ YN_YES then (o0, Flow.next)
  else
    match f.read with
    | none => (o0, Flow.next)
    | some (blks, ts) =>
      let o1 : Options :=
        { o0 with iHandle := { o0.iHandle with fileBlks := blks, fileTimeStamp := ts } }
      do_in_alloc (preDelete o1) f.write

/-- The loop of `do_in` over the files of the command line. -/
def do_in_loop : List InFile → Options → Options × Flow
  | [], o => (o, Flow.next)
  | f :: rest, o =>
    match do_in_body o f with
    | (o1, Flow.next) => do_in_loop rest o1
    | (o1, fl) => (o1, fl)

/-- `do_in` of do_in.c: the loop, then `linearToDisk` (return value ignored)
unless a container write made the function return 1 at once.  `none` when
`linearToDisk` divides by zero. -/
def do_in (files : List InFile) (o : Options) : Option (Options × Nat) :=
  match do_in_loop files o with
  | (o1, Flow.ret1) => some (o1, 1)
  | (o1, _) =>
    match linearToDisk o1 with
    | none => none
    | some r => some (r.1, 0)

/-- Best fit among the first `k` entries of `l` for a request of `n` blocks:
`sm` designates a non-permanent entry of at least `n` blocks that is smaller
than every other such entry, the first of them among equals; it is `none`
only when no such entry exists. -/
def BestFitUpTo (l : List InWorkingDir) (n k : Nat) (sm : Option Nat) : Prop :=
  (∀ i, sm = some i → i < k ∧ ∃ w, l[i]? = some w ∧ w.rt11.control &&& PERM = 0
      ∧ n ≤ w.rt11.blocks
      ∧ ∀ (j : Nat) (w' : InWorkingDir), j < k → l[j]? = some w' → w'.rt11.control &&& PERM = 0 → n ≤ w'.rt11.blocks →
          w.rt11.blocks < w'.rt11.blocks ∨ (w.rt11.blocks = w'.rt11.blocks ∧ i ≤ j))
  ∧ (sm = none → ∀ (j : Nat) (w' : InWorkingDir), j < k → l[j]? = some w' → w'.rt11.control &&& PERM = 0 →
        ¬ n ≤ w'.rt11.blocks)

/-- The tiling invariant of the working list: every entry starts where the
previous one ends. -/
def Tiled (l : List InWorkingDir) : Prop :=
  List.Chain' (fun a b => b.lba = a.lba + a.rt11.blocks) l

/-! ### output.c: squeeze -/

/-- What `createNewContainer` does to the file system, in order. -/
inductive SqzEvent where
  | unlinkTmp
  | createTmp
  | seekContainer (pos : Nat)
  | readContainer (bytes : Nat)
  | writeTmp (bytes : Nat)
  | seekTmp (pos : Nat)
  | closeTmp
  | closeContainer
  | unlinkBackup
  | renameContainerToBackup
  | renameTmpToContainer
deriving DecidableEq, Repr

/-- Where the behaviour of `createNewContainer` is not defined: a division by
zero; a store through a null pointer; a store at byte offset `addr` of the new
directory buffer `firstDstSeg` that does not lie in the memory allocated for
it; a copy of file data into the floppy image that ends behind the image, at
block `lba`; the zero-fill loop advancing by chunks of 0 blocks, which never
ends. -/
inductive SqzFault where
  | divByZero
  | nullStore
  | outside (addr : Nat)
  | copyOutside (lba : Nat)
  | endless
deriving DecidableEq, Repr

/-- Outcomes of the I/O calls of `createNewContainer`.  The calls of the copy
pass are indexed by the position `dirNum` of the file in the working list, the
zero-fill writes by their chunk number; `tmpError` is what `ferror(tmp)`
answers. -/
structure SqzResults where
  createTmpOk : Bool
  bootReadOk : Bool
  bootWriteOk : Bool
  blankDirWriteOk : Bool
  fileSeekOk : Nat → Bool
  tmpError : Nat → Bool
  fileReadOk : Nat → Bool
  fileWriteOk : Nat → Bool
  zeroWriteOk : Nat → Bool
  imageWriteOk : Bool
  dirSeekOk : Bool
  dirTmpError : Bool
  dirWriteOk : Bool

/-- Loop state of the copy pass of `createNewContainer`: the new directory
buffer `firstDstSeg` (addressed from its first byte), the locals `iDstDent`,
`dstseg`, `oSegNum`, `dstdir`, `dstLBA`, `iBufSize`, `movedFiles`, and the
events so far. -/
structure SqzState where
  mem : Mem
  iDstDent : Nat
  dstseg : Option Nat
  oSegNum : Nat
  dstdir : Option Nat
  dstLBA : Nat
  iBufSize : Nat
  movedFiles : Nat
  events : List SqzEvent

/-- The values fixed before the copy pass: the chosen segment count, the
per-segment budget, the source `extra`, the floppy flag, and `limit`, the
number of bytes allocated from `firstDstSeg` on: `maxSeg * SEGSIZ` for a plain
container (`calloc(maxSeg * SEGSIZ, 1)`), the part of the floppy image behind
block `seg1LBA` on a floppy (`oBuf + seg1LBA * BLKSIZ` in a buffer of
`floppyImageSize` bytes). -/
structure SqzPlan where
  maxSeg : Nat
  maxEntPSeg : Nat
  extra : Nat
  isFloppy : Bool
  limit : Nat
deriving DecidableEq, Repr

/-- The error exit of the copy pass: close and remove the temporary file. -/
def sqzAbort (st : SqzState) : SqzState :=
  { st with events := st.events ++ [SqzEvent.closeTmp, SqzEvent.unlinkTmp] }

/-- A sequence of 16-bit stores into the new directory buffer, in program
order, each given by its byte offset and its value.  A store that does not lie
in the allocated `limit` bytes is a fault. -/
def sqzStores (p : SqzPlan) : Mem → List (Nat × Nat) → Except SqzFault Mem
  | m, [] => Except.ok m
  | m, (a, v) :: rest =>
    if a + 2 ≤ p.limit then sqzStores p (wr16 m a v) rest
    else Except.error (SqzFault.outside a)

/-- The structure assignment `*dstdir = wdp->rt11` (14 bytes) at byte offset
`a` of the new directory buffer. -/
def sqzStoreEnt (p : SqzPlan) (m : Mem) (a : Nat) (e : Rt11DirEnt) : Except SqzFault Mem :=
  if a + DIRLEN ≤ p.limit then Except.ok (wrDirEnt m a e)
  else Except.error (SqzFault.outside a)

/-- The block of the copy pass that closes the current output segment and opens
the next one (`if ( iDstDent >= maxEntPSeg )`).  The inner `error` is the exit
through the internal check on `oSegNum`. -/
def sqzOpenSegment (p : SqzPlan) (st : SqzState) :
    Except SqzFault (Except SqzState SqzState) :=
  let closed : Except SqzFault Mem :=
    if st.oSegNum > 0 then
      match st.dstdir, st.dstseg with
      | some dp, some sp =>
        sqzStores p st.mem
          [(dp + OFF_BLOCKS, 0), (dp, ENDBLK), (sp + OFF_LINK, st.oSegNum + 1)]
      | _, _ => Except.error SqzFault.nullStore
    else Except.ok st.mem
  match closed with
  | Except.error f => Except.error f
  | Except.ok m1 =>
    let sp := st.oSegNum * SEGSIZ
    let oSegNum := st.oSegNum + 1
    if oSegNum ≥ MAXSEGMENTS - 1 then
      Except.ok
        (Except.error (sqzAbort { st with mem := m1, dstseg := some sp, oSegNum := oSegNum }))
    else
      match sqzStores p m1
          [(sp, p.maxSeg), (sp + OFF_LINK, 0), (sp + OFF_LAST, 0), (sp + OFF_EXTRA, p.extra),
           (sp + OFF_START, st.dstLBA)] with
      | Except.error f => Except.error f
      | Except.ok m6 =>
        Except.ok (Except.ok { st with mem := m6, dstseg := some sp, oSegNum := oSegNum,
                                       dstdir := some (sp + SEGLEN), iDstDent := 0 })

/-- The data copy of one permanent file in the copy pass.  On a floppy the
blocks are copied inside memory after two bounds checks, to the blocks from
`dstLBA` on of the new image (`oBufRunning`); otherwise the file is read from
the container and written to the temporary file. -/
def sqzCopyFile (o : Options) (p : SqzPlan) (res : SqzResults) (dirNum : Nat)
    (wdp : InWorkingDir) (st : SqzState) : Except SqzFault (Except SqzState SqzState) :=
  if p.isFloppy then
    let eof := wdp.lba + wdp.rt11.blocks
    if eof > o.floppyImageSize / BLKSIZ then Except.ok (Except.error (sqzAbort st))
    else if st.dstLBA > o.floppyImageSize then Except.ok (Except.error (sqzAbort st))
    else if (st.dstLBA + wdp.rt11.blocks) * BLKSIZ > o.floppyImageSize then
      Except.error (SqzFault.copyOutside (st.dstLBA + wdp.rt11.blocks))
    else Except.ok (Except.ok st)
  else
    let st1 := { st with events := st.events ++ [SqzEvent.seekContainer (wdp.lba * BLKSIZ)] }
    if res.tmpError dirNum then Except.ok (Except.error (sqzAbort st1))
    else
      let wCnt := wdp.rt11.blocks * BLKSIZ
      let st2 := if wCnt > st1.iBufSize then { st1 with iBufSize := wCnt } else st1
      let st3 := { st2 with events := st2.events ++ [SqzEvent.readContainer wCnt] }
      if !res.fileReadOk dirNum then Except.ok (Except.error (sqzAbort st3))
      else
        let st4 := { st3 with events := st3.events ++ [SqzEvent.writeTmp wCnt] }
        if !res.fileWriteOk dirNum then Except.ok (Except.error (sqzAbort st4))
        else Except.ok (Except.ok st4)

/-- One iteration of the copy pass for the working entry `wdp` at position
`dirNum`. -/
def sqzStep (o : Options) (p : SqzPlan) (res : SqzResults) (dirNum : Nat)
    (wdp : InWorkingDir) (st : SqzState) : Except SqzFault (Except SqzState SqzState) :=
  let opened : Except SqzFault (Except SqzState SqzState) :=
    if st.iDstDent ≥ p.maxEntPSeg then sqzOpenSegment p st else Except.ok (Except.ok st)
  match opened with
  | Except.error f => Except.error f
  | Except.ok (Except.error e) => Except.ok (Except.error e)
  | Except.ok (Except.ok st1) =>
    if wdp.rt11.control &&& PERM ≠ 0 then
      match st1.dstdir with
      | none => Except.error SqzFault.nullStore
      | some dp =>
        match sqzStoreEnt p st1.mem dp wdp.rt11 with
        | Except.error f => Except.error f
        | Except.ok m =>
          let st2 : SqzState :=
            { st1 with mem := m, dstdir := some (dp + DIRLEN + p.extra),
                       iDstDent := st1.iDstDent + 1 }
          match sqzCopyFile o p res dirNum wdp st2 with
          | Except.error f => Except.error f
          | Except.ok (Except.error e) => Except.ok (Except.error e)
          | Except.ok (Except.ok st3) =>
            Except.ok (Except.ok { st3 with movedFiles := st3.movedFiles + 1,
                                            dstLBA := st3.dstLBA + wdp.rt11.blocks })
    else Except.ok (Except.ok st1)

/-- The copy pass: the loop over the working list. -/
def sqzLoop (o : Options) (p : SqzPlan) (res : SqzResults) :
    List InWorkingDir → Nat → SqzState → Except SqzFault (Except SqzState SqzState)
  | [], _, st => Except.ok (Except.ok st)
  | wdp :: rest, dirNum, st =>
    match sqzStep o p res dirNum wdp st with
    | Except.error f => Except.error f
    | Except.ok (Except.error e) => Except.ok (Except.error e)
    | Except.ok (Except.ok st1) => sqzLoop o p res rest (dirNum + 1) st1

/-- The loop that fills the free area of the temporary file with zeros, `chunk`
blocks at a time; `fuel` bounds the number of iterations (`none` when it runs
out, which happens only for a chunk of 0 blocks). -/
def sqzZeroFill (res : SqzResults) (chunk blocks : Nat) :
    Nat → Nat → Nat → List SqzEvent → Option (Except (List SqzEvent) (List SqzEvent))
  | 0, ii, _, ev => if ii < blocks then none else some (Except.ok ev)
  | fuel + 1, ii, n, ev =>
    if ii < blocks then
      let wCnt := (if chunk > blocks - ii then blocks - ii else chunk) * BLKSIZ
      let ev1 := ev ++ [SqzEvent.writeTmp wCnt]
      if !res.zeroWriteOk n then some (Except.error ev1)
      else sqzZeroFill res chunk blocks fuel (ii + chunk) (n + 1) ev1
    else some (Except.ok ev)

/-- The target segment count `maxSeg` of `createNewContainer`; `none` when the
computation divides by zero (`numdent < 2` without an override). -/
def sqzMaxSeg (o : Options) : Option Nat :=
  let computed : Option Nat :=
    if o.newMaxSeg = 0 then
      let maxEntPSeg := o.numdent / 2
      if maxEntPSeg = 0 then none
      else
        let maxSeg := o.totPermEntries / maxEntPSeg
        let maxSeg := if o.totPermEntries % maxEntPSeg ≠ 0 then maxSeg + 1 else maxSeg
        let maxSeg := if maxSeg > MAXSEGMENTS - 1 then MAXSEGMENTS - 1 else maxSeg
        some (if maxSeg = 0 then 1 else maxSeg)
    else some o.newMaxSeg
  match computed with
  | none => none
  | some maxSeg =>
    let smax := rd16 o.directory 0
    some (if maxSeg < smax then smax else maxSeg)

/-- The per-segment budget `maxEntPSeg` of `createNewContainer` for a segment
count `maxSeg >= 1`. -/
def sqzMaxEntPSeg (o : Options) (maxSeg : Nat) : Nat :=
  let maxEntPSeg := o.totPermEntries / maxSeg
  if o.totPermEntries / maxSeg ≥ 1 then
    if maxEntPSeg % (o.totPermEntries / maxSeg) ≠ 0 then maxEntPSeg + 1 else maxEntPSeg
  else maxEntPSeg

/-- What `createNewContainer` leaves behind: the return value, the file
operations, the options, the locals `maxSeg`, `oSegNum` and `iDstDent`, the
new directory buffer, and the trailing free entry it wrote (`freeAt` is the
byte offset of that entry in the buffer, `freeBlocks` its `blocks` field; both
are 0 when the function left before writing it). -/
structure SqzOutcome where
  ret : Nat
  events : List SqzEvent
  options : Options
  maxSeg : Nat
  oSegNum : Nat
  iDstDent : Nat
  mem : Mem
  freeAt : Nat
  freeBlocks : Nat

/-- An outcome before the temporary file exists. -/
def sqzEarly (ret : Nat) (o : Options) : SqzOutcome :=
  { ret := ret, events := [], options := o, maxSeg := 0, oSegNum := 0, iDstDent := 0,
    mem := fun _ => 0, freeAt := 0, freeBlocks := 0 }

/-- The end of `createNewContainer` after the copy pass: the trailing free entry,
the zero fill, the end marker, the directory write and the swap. -/
def sqzFinish (o : Options) (p : SqzPlan) (res : SqzResults) (st : SqzState) :
    Except SqzFault SqzOutcome :=
  match st.dstdir, st.dstseg with
  | some dp, some sp =>
    match sqzStores p st.mem
        [(dp, EMPTY), (dp + OFF_BLOCKS, ((o.diskSize - st.dstLBA) % 65536).toNat)] with
    | Except.error f => Except.error f
    | Except.ok m2 =>
      let blocks := rd16 m2 (dp + OFF_BLOCKS)
      let filled : Option (Except (List SqzEvent) (List SqzEvent)) :=
        if p.isFloppy then some (Except.ok st.events)
        else sqzZeroFill res (st.iBufSize / BLKSIZ) blocks blocks 0 0 st.events
      match filled with
      | none => Except.error SqzFault.endless
      | some (Except.error ev) =>
        Except.ok { ret := 1, events := ev ++ [SqzEvent.closeTmp, SqzEvent.unlinkTmp],
                    options := o, maxSeg := p.maxSeg, oSegNum := st.oSegNum,
                    iDstDent := st.iDstDent, mem := m2, freeAt := dp, freeBlocks := blocks }
      | some (Except.ok ev) =>
        let dp1 := dp + DIRLEN + rd16 m2 OFF_EXTRA
        match sqzStores p m2
            [(dp1, ENDBLK), (dp1 + OFF_BLOCKS, 0), (sp + OFF_LINK, 0),
             (OFF_LAST, st.oSegNum)] with
        | Except.error f => Except.error f
        | Except.ok m6 =>
          let written : Except (List SqzEvent) (List SqzEvent) :=
            if p.isFloppy then
              let ev1 := ev ++ [SqzEvent.writeTmp o.floppyImageSize]
              if !res.imageWriteOk then Except.error ev1 else Except.ok ev1
            else
              let ev1 := ev ++ [SqzEvent.seekTmp (o.seg1LBA * BLKSIZ)]
              if res.dirTmpError then Except.error ev1
              else
                let ev2 := ev1 ++ [SqzEvent.writeTmp (p.maxSeg * SEGSIZ)]
                if !res.dirWriteOk then Except.error ev2 else Except.ok ev2
          match written with
          | Except.error ev1 =>
            Except.ok { ret := 1, events := ev1 ++ [SqzEvent.closeTmp, SqzEvent.unlinkTmp],
                        options := o, maxSeg := p.maxSeg, oSegNum := st.oSegNum,
                        iDstDent := st.iDstDent + 1, mem := m6, freeAt := dp,
                        freeBlocks := blocks }
          | Except.ok ev1 =>
            let ev2 := ev1 ++ [SqzEvent.closeTmp]
            let ev3 := if p.isFloppy then ev2 else ev2 ++ [SqzEvent.closeContainer]
            let ev4 :=
              if o.cmdOpts &&& CMDOPT_NOWRITE = 0 then
                ev3 ++ [SqzEvent.unlinkBackup, SqzEvent.renameContainerToBackup,
                        SqzEvent.renameTmpToContainer]
              else ev3
            Except.ok { ret := 0, events := ev4, options := o, maxSeg := p.maxSeg,
                        oSegNum := st.oSegNum, iDstDent := st.iDstDent + 1, mem := m6,
                        freeAt := dp, freeBlocks := blocks }
  | _, _ => Except.error SqzFault.nullStore

/-- The part of `createNewContainer` behind the two early returns, run on the
options `o2` with the padding already added to `totEmpty`: the capacity
check, the choice of `maxSeg` and `maxEntPSeg`, the temporary file, the copy
pass and the end. -/
def sqzRebuild (o2 : Options) (res : SqzResults) : Except SqzFault SqzOutcome :=
  let cap := MAXSEGMENTS - 1
  let cap := if o2.cmdOpts &&& CMDOPT_SINGLE_FLPY ≠ 0 then MAX_SGL_FLPY_SEGS else cap
  let cap := if o2.cmdOpts &&& CMDOPT_DOUBLE_FLPY ≠ 0 then MAX_DBL_FLPY_SEGS else cap
  if o2.totPermEntries ≥ o2.numdent * cap then Except.ok (sqzEarly 1 o2)
  else
    match sqzMaxSeg o2 with
    | none => Except.error SqzFault.divByZero
    | some maxSeg =>
      let maxEntPSeg := sqzMaxEntPSeg o2 maxSeg
      if maxEntPSeg ≥ o2.numdent then Except.ok (sqzEarly 1 o2)
      else
        let ev0 := [SqzEvent.unlinkTmp]
        if !res.createTmpOk then
          Except.ok { sqzEarly 1 o2 with events := ev0, maxSeg := maxSeg }
        else
          let ev1 := ev0 ++ [SqzEvent.createTmp]
          let isFloppy : Bool :=
            decide (o2.cmdOpts &&& (CMDOPT_DOUBLE_FLPY ||| CMDOPT_SINGLE_FLPY) ≠ 0)
          let iBufSize := o2.largestPerm * BLKSIZ
          let iBufSize := if iBufSize < o2.seg1LBA * BLKSIZ then o2.seg1LBA * BLKSIZ else iBufSize
          let p : SqzPlan :=
            { maxSeg := maxSeg, maxEntPSeg := maxEntPSeg, extra := rd16 o2.directory OFF_EXTRA,
              isFloppy := isFloppy,
              limit := if isFloppy then o2.floppyImageSize - o2.seg1LBA * BLKSIZ
                       else maxSeg * SEGSIZ }
          let fail (ev : List SqzEvent) : Except SqzFault SqzOutcome :=
            Except.ok { sqzEarly 1 o2 with
                        events := ev ++ [SqzEvent.closeTmp, SqzEvent.unlinkTmp],
                        maxSeg := maxSeg }
          let prologue : Except (List SqzEvent) (List SqzEvent) :=
            if isFloppy then Except.ok ev1
            else
              let ev2 := ev1 ++ [SqzEvent.seekContainer 0,
                                 SqzEvent.readContainer (o2.seg1LBA * BLKSIZ)]
              if !res.bootReadOk then Except.error ev2
              else
                let ev3 := ev2 ++ [SqzEvent.writeTmp (o2.seg1LBA * BLKSIZ)]
                if !res.bootWriteOk then Except.error ev3
                else
                  let ev4 := ev3 ++ [SqzEvent.writeTmp (maxSeg * SEGSIZ)]
                  if !res.blankDirWriteOk then Except.error ev4 else Except.ok ev4
          match prologue with
          | Except.error ev => fail ev
          | Except.ok ev =>
            let st0 : SqzState :=
              { mem := fun _ => 0, iDstDent := maxEntPSeg, dstseg := none, oSegNum := 0,
                dstdir := none, dstLBA := o2.seg1LBA + maxSeg * (SEGSIZ / BLKSIZ),
                iBufSize := iBufSize, movedFiles := 0, events := ev }
            match sqzLoop o2 p res o2.wDirArray 0 st0 with
            | Except.error f => Except.error f
            | Except.ok (Except.error e) =>
              Except.ok { ret := 1, events := e.events, options := o2, maxSeg := maxSeg,
                          oSegNum := e.oSegNum, iDstDent := e.iDstDent, mem := e.mem,
                          freeAt := 0, freeBlocks := 0 }
            | Except.ok (Except.ok st) => sqzFinish o2 p res st

/-- `createNewContainer` of output.c: the outcome, or the fault where the
behaviour of the C code is not defined. -/
def createNewContainer (o : Options) (res : SqzResults) : Except SqzFault SqzOutcome :=
  if o.emptyAdds = 0 ∧ (o.totEmpty = 0 ∨ o.totEmptyEntries = 0) then Except.ok (sqzEarly 1 o)
  else if o.emptyAdds = 0 ∧ o.totEmptyEntries < 2 then Except.ok (sqzEarly 0 o)
  else
    let o1 : Options :=
      if o.emptyAdds = 0 then o else { o with totEmptyEntries := o.totEmptyEntries + 1 }
    let o2 : Options := { o1 with totEmpty := o1.totEmpty + o1.emptyAdds }
    sqzRebuild o2 res

/-- The directory area of the container `createNewContainer` built: the first
`maxSeg` segments of the new directory buffer (what follows is file data,
which is not modelled and reads as 0). -/
def SqzOutcome.newDirectory (r : SqzOutcome) : Mem :=
  fun a => if a < r.maxSeg * SEGSIZ then r.mem a else 0

/-- The options with which the container `createNewContainer` built is opened
again: its directory, the geometry `checkHeader` reads from it, and the size
of the old container. -/
def SqzOutcome.reopen (r : SqzOutcome) : Options :=
  Options.init r.newDirectory (checkHeaderGeometry r.newDirectory).1
    (checkHeaderGeometry r.newDirectory).2 r.options.seg1LBA r.options.containerBlocks
    r.options.cmdOpts

/-- I/O outcomes where every call succeeds. -/
def sqzAllOk : SqzResults :=
  { createTmpOk := true, bootReadOk := true, bootWriteOk := true, blankDirWriteOk := true,
    fileSeekOk := fun _ => true, tmpError := fun _ => false, fileReadOk := fun _ => true,
    fileWriteOk := fun _ => true, zeroWriteOk := fun _ => true, imageWriteOk := true,
    dirSeekOk := true, dirTmpError := false, dirWriteOk := true }

/-! ### floppy.c: sector interleave -/

/-- Sector length selected by the density flag: 128 bytes for a single density
floppy, 256 otherwise. -/
def sectorLen (cmdOpts : Nat) : Nat :=
  if cmdOpts &&& CMDOPT_SINGLE_FLPY ≠ 0 then 128 else 256

/-- Number of usable sectors (`totBlocks`): track 0 is skipped. -/
def totBlocks : Nat := NUM_SECTORS * (NUM_TRACKS - 1)

/-- The physical sector index `trackNo * NUM_SECTORS + sectorNo` computed in the
body of both loops of floppy.c for the logical block `blkNo`. -/
def physSector (blkNo : Nat) : Nat :=
  let trackNo := blkNo / NUM_SECTORS
  let ii := (blkNo % NUM_SECTORS) <<< 1
  let ii := if ii ≥ NUM_SECTORS then ii + 1 else ii
  let sectorNo := (ii + 6 * trackNo) % NUM_SECTORS
  let trackNo := trackNo + 1
  trackNo * NUM_SECTORS + sectorNo

/-- One iteration of the loop of `descramble`; the state is the unscrambled
buffer and the running output pointer `dst`. -/
def descrambleStep (sl : Nat) (floppyImage : Mem) (st : Mem × Nat) (blkNo : Nat) : Mem × Nat :=
  (memcpy st.1 st.2 floppyImage (physSector blkNo * sl) sl, st.2 + sl)

/-- `descramble` of floppy.c: the contents of `floppyImageUnscrambled` after the
call. -/
def descramble (cmdOpts : Nat) (floppyImage floppyImageUnscrambled : Mem) : Mem :=
  ((List.range totBlocks).foldl (descrambleStep (sectorLen cmdOpts) floppyImage)
    (floppyImageUnscrambled, 0)).1

/-- One iteration of the loop of `rescramble`; the state is the image buffer and
the running input pointer `src`. -/
def rescrambleStep (sl : Nat) (input : Mem) (st : Mem × Nat) (blkNo : Nat) : Mem × Nat :=
  (memcpy st.1 (physSector blkNo * sl) input st.2 sl, st.2 + sl)

/-- `rescramble` of floppy.c: the contents of `floppyImage` after the call;
`input` is `optionalInput` when given and `floppyImageUnscrambled` otherwise. -/
def rescramble (cmdOpts : Nat) (floppyImage input : Mem) : Mem :=
  ((List.range totBlocks).foldl (rescrambleStep (sectorLen cmdOpts) input)
    (floppyImage, 0)).1

/-! ### parse.c: checkHeader -/

/-- Debug option bit of the command line. -/
def CMDOPT_DBG_NORMAL : Nat := 0x01
/-- Block number of the home block. -/
def HOME_BLK_LBA : Nat := 1
/-- Byte offset of `firstSegment` in `Rt11HomeBlock_t`. -/
def HOME_FIRSTSEGMENT : Nat := 0o724
/-- Byte offset of `sysID` in `Rt11HomeBlock_t`. -/
def HOME_SYSID : Nat := 0o760

/-- The C library function `strncmp` on byte strings given as functions from
index to byte: compare at most `n` bytes, stopping behind a NUL. -/
def strncmp (s1 s2 : Nat → Nat) : Nat → Int
  | 0 => 0
  | n + 1 =>
    if s1 0 ≠ s2 0 then (s1 0 : Int) - (s2 0 : Int)
    else if s1 0 = 0 then 0
    else strncmp (fun i => s1 (i + 1)) (fun i => s2 (i + 1)) n

/-- A C string literal as a byte string: its characters, then NUL. -/
def cstr (s : List Char) : Nat → Nat := fun i =>
  match s[i]? with
  | some ch => ch.toNat
  | none => 0

/-- The system identifier `checkHeader` expects in the home block. -/
def sysIDExpected : List Char := "DECRT11A    ".toList

/-- Outcomes of the library calls of `checkHeader` that touch the container
file. -/
structure HeaderResults where
  statOk : Bool
  openOk : Bool
  imageReadOk : Bool
  homeSeekOk : Bool
  homeReadOk : Bool
  dirSeekOk : Bool
  dirReadOk : Bool
  restReadOk : Bool
deriving DecidableEq, Repr

/-- What `checkHeader` leaves behind: the return value, the fields
`containerBlocks` and `floppyImageSize`, the directory buffer (`none` while
`options->directory` is `NULL`) and the geometry `(maxseg, numdent)` (`none`
while it has not been recorded). -/
structure HeaderOutcome where
  ret : Nat
  containerBlocks : Nat
  floppyImageSize : Nat
  directory : Option Mem
  geometry : Option (Nat × Nat)

/-- The size in bytes `checkHeader` gives a floppy image. -/
def floppyImageBytes (cmdOpts : Nat) : Nat :=
  NUM_SECTORS * NUM_TRACKS * (if cmdOpts &&& CMDOPT_SINGLE_FLPY ≠ 0 then 128 else 256)

/-- The unscrambled floppy image `checkHeader` builds from the container file:
at most `floppyImageSize` bytes are read into a zeroed buffer, then
`descramble` runs. -/
def unscrambledImage (cmdOpts : Nat) (file : Mem) (fileSize : Nat) : Mem :=
  let lim := if floppyImageBytes cmdOpts > fileSize then fileSize else floppyImageBytes cmdOpts
  descramble cmdOpts (fun a => if a < lim then file a else 0) (fun _ => 0)

/-- The home block `checkHeader` reads: block 1 of the unscrambled image of a
floppy, block 1 of the container file otherwise. -/
def homeBlock (cmdOpts : Nat) (file : Mem) (fileSize : Nat) : Mem :=
  if cmdOpts &&& (CMDOPT_SINGLE_FLPY ||| CMDOPT_DOUBLE_FLPY) ≠ 0 then
    fun a => unscrambledImage cmdOpts file fileSize (BLKSIZ + a)
  else fun a => file (HOME_BLK_LBA * BLKSIZ + a)

/-- The test `strncmp(home->sysID, "DECRT11A    ", 12)` of `checkHeader`. -/
def sysIDMismatch (home : Mem) : Prop :=
  strncmp (fun i => rd8 home (HOME_SYSID + i)) (cstr sysIDExpected) 12 ≠ 0

/-- The decision procedure for the signature test. -/
instance (home : Mem) : Decidable (sysIDMismatch home) := by
  unfold sysIDMismatch
  infer_instance

/-- `checkHeader` of parse.c on a container file with the bytes `file` and the
size `fileSize`; allocations succeed.  `none` stands for undefined behaviour:
on a plain container `smax = 0` makes the code shrink the buffer to nothing
and read a negative byte count behind it; on a floppy a first segment beyond
the image makes it read the segment header outside the buffer. -/
def checkHeader (cmdOpts verbose : Nat) (file : Mem) (fileSize : Nat) (res : HeaderResults) :
    Option HeaderOutcome :=
  let fail (cb fis : Nat) : Option HeaderOutcome :=
    some { ret := 1, containerBlocks := cb, floppyImageSize := fis, directory := none,
           geometry := none }
  if !res.statOk then fail 0 0
  else
    let cb := fileSize / BLKSIZ
    if !res.openOk then fail cb 0
    else
      let isFloppy : Bool := decide (cmdOpts &&& (CMDOPT_SINGLE_FLPY ||| CMDOPT_DOUBLE_FLPY) ≠ 0)
      let fis := if isFloppy then floppyImageBytes cmdOpts else 0
      if isFloppy ∧ !res.imageReadOk then fail cb fis
      else if !isFloppy ∧ !res.homeSeekOk then fail cb fis
      else if !isFloppy ∧ !res.homeReadOk then fail cb fis
      else
        let home := homeBlock cmdOpts file fileSize
        let firstSegment := rd16 home HOME_FIRSTSEGMENT
        if (verbose > 1 ∨ cmdOpts &&& CMDOPT_DBG_NORMAL ≠ 0 ∨ firstSegment ≠ DIRBLK
              ∨ sysIDMismatch home) ∧ sysIDMismatch home then fail cb fis
        else if !isFloppy then
          if !res.dirSeekOk then fail cb fis
          else if !res.dirReadOk then fail cb fis
          else
            let smax := rd16 file (firstSegment * BLKSIZ)
            if smax = 0 then none
            else if !res.restReadOk then fail cb fis
            else
              let directory : Mem :=
                fun a => if a < smax * SEGSIZ then file (firstSegment * BLKSIZ + a) else 0
              some { ret := 0, containerBlocks := cb, floppyImageSize := fis,
                     directory := some directory,
                     geometry := some (checkHeaderGeometry directory) }
        else
          if firstSegment * BLKSIZ + SEGLEN > fis then none
          else
            let directory : Mem :=
              fun a => unscrambledImage cmdOpts file fileSize (firstSegment * BLKSIZ + a)
            some { ret := 0, containerBlocks := cb, floppyImageSize := fis,
                   directory := some directory,
                   geometry := some (checkHeaderGeometry directory) }

/-- Outcomes where every call of `checkHeader` succeeds. -/
def headerAllOk : HeaderResults :=
  { statOk := true, openOk := true, imageReadOk := true, homeSeekOk := true,
    homeReadOk := true, dirSeekOk := true, dirReadOk := true, restReadOk := true }

/-! ### getcmd.c, sort.c: plain filename filters -/

/-- The copy loop of `get_files` for one part of a plain filter: the
characters of `src` go to `buf` from position `pos`, lower case folded to
upper case; a `*` fills the rest of the part, up to `limit`, with `?`. -/
def normExprFill (limit : Nat) : List Char → Nat → List Char → List Char
  | [], _, buf => buf
  | cc :: rest, pos, buf =>
    if cc = '*' then
      (List.range (limit - pos)).foldl (fun b i => b.set (pos + i) '?') buf
    else normExprFill limit rest (pos + 1) (buf.set pos cc.toUpper)

/-- The 9-character normalised filter `get_files` builds from a plain
(non-regex) filter argument: 6 characters of name, 3 of type, blank padded.
`none` when the argument is refused as too long.  Without a dot in the
argument the name is not copied (`while ( *src && (ext && src < ext) )`). -/
def normExpr (src : List Char) : Option (List Char) :=
  let blank := List.replicate 9 ' '
  if src.contains '.' then
    let name := src.takeWhile (fun ch => ch ≠ '.')
    let type := (src.dropWhile (fun ch => ch ≠ '.')).drop 1
    if name.length > 6 then none
    else if type.length > 3 then none
    else some (normExprFill 9 type 6 (normExprFill 6 name 0 blank))
  else if src.length > 6 then none
  else some blank

/-- `normexec` of sort.c: 0 when the stored filename `name` matches the
normalised filter, 1 when it does not. -/
def normexec (filter name : List Char) : Nat :=
  let tName := padTo 6 ((name.takeWhile (fun ch => ch ≠ '.')).take 6)
  let tType :=
    if name.contains '.' then padTo 3 (((name.dropWhile (fun ch => ch ≠ '.')).drop 1).take 3)
    else padTo 3 []
  if (List.range 6).any (fun ii =>
      filter.getD ii (Char.ofNat 0) ≠ '?'
        && filter.getD ii (Char.ofNat 0) ≠ tName.getD ii (Char.ofNat 0)) then 1
  else if (List.range 3).any (fun ii =>
      filter.getD (ii + 6) (Char.ofNat 0) ≠ '?'
        && filter.getD (ii + 6) (Char.ofNat 0) ≠ tType.getD ii (Char.ofNat 0)) then 1
  else 0

/-! ### utils.c, do_out.c: decoding the date word -/

/-- The table `months` of utils.c. -/
def months : List String :=
  ["NUL", "Jan", "Feb", "Mar", "Apr", "May", "Jun", "Jul", "Aug", "Sep", "Oct", "Nov", "Dec",
   "?C?", "?D?", "?E?", "?F?"]

/-- The three values `dateStr` prints for a date word: day, month name and
year. -/
def dateStr (date : Nat) : Nat × String × Nat :=
  let yr := date &&& 31
  let decade := (date >>> 14) &&& 3
  let yr :=
    if decade = 0 then yr + 1972
    else if decade = 1 then yr + 2004
    else if decade = 2 then yr + 2036
    else yr + 2068
  ((date >>> 5) &&& 31, months.getD ((date >>> 10) &&& 15) "", yr)

/-- The fields `tm_mday`, `tm_mon` and `tm_year` that `do_out` derives from a
date word to set the timestamp of an extracted file. -/
def do_out_tm (date : Nat) : Nat × Int × Int :=
  let yr := date &&& 31
  let age := (date >>> 14) &&& 3
  let yr :=
    if age = 1 then yr + 2004
    else if age = 2 then yr + 2036
    else if age = 3 then yr + 2068
    else yr + 1972
  ((date >>> 5) &&& 31, (((date >>> 10) &&& 15 : Nat) : Int) - 1, (yr : Int) - 1900)

/-- The epoch selector and epoch base of a year, as the specification lists
them. -/
def epochOf (y : Nat) : Nat × Nat :=
  if y < 2004 then (0, 1972)
  else if y < 2036 then (1, 2004)
  else if y < 2068 then (2, 2036)
  else (3, 2068)

/-! ### Layout predicates used by the round-trip proof -/

/-- Byte offset of entry slot `i` of segment `j` (0-based) when entries are `es`
bytes apart. -/
def slotAddr (es j i : Nat) : Nat := j * SEGSIZ + SEGLEN + i * es

/-- Segment `j` of the buffer holds exactly the entries `ents`, followed by a
lone end marker when a slot is left. -/
def SegHolds (m : Mem) (es numdent j : Nat) (ents : List Rt11DirEnt) : Prop :=
  ents.length ≤ numdent
  ∧ (∀ (i : Nat) (e : Rt11DirEnt), ents[i]? = some e → rdDirEnt m (slotAddr es j i) = e)
  ∧ (ents.length < numdent → rd16 m (slotAddr es j ents.length) = ENDBLK)

/-- The segments `j`, `j+1`, ... of the buffer hold the given lists of entries
and are linked in that order, the last link being 0. -/
def ChainHolds (m : Mem) (es numdent : Nat) : Nat → List (List Rt11DirEnt) → Prop
  | _, [] => True
  | j, c :: cs =>
    SegHolds m es numdent j c
    ∧ rd16 m (j * SEGSIZ + OFF_LINK) = (if cs = [] then 0 else j + 2)
    ∧ ChainHolds m es numdent (j + 1) cs

/-- Invariant of the loop of `linearToDisk` once a segment is open: the segments
before the current one hold the lists `segs` (each of `dps` entries, closed by
an end marker when a slot is left, linked to the next), the current segment
`segs.length` holds `cur` so far, and the locals point behind it. -/
structure L2DLaid (es numdent dps smax : Nat) (segs : List (List Rt11DirEnt))
    (cur : List Rt11DirEnt) (st : L2DState) : Prop where
  relseg : st.relseg = segs.length + 1
  segptr : st.segptr = some (segs.length * SEGSIZ)
  dirptr : st.dirptr = some (slotAddr es segs.length cur.length)
  dentnum : st.dentnum = cur.length
  curPos : 1 ≤ cur.length
  curLe : cur.length ≤ dps
  extra : DIRLEN + rd16 st.mem OFF_EXTRA = es
  smaxOk : rd16 st.mem 0 = smax
  last : rd16 st.mem OFF_LAST = segs.length + 1
  doneOk : ∀ (j : Nat) (sg : List Rt11DirEnt), segs[j]? = some sg →
    sg.length = dps
    ∧ (∀ (i : Nat) (e : Rt11DirEnt), sg[i]? = some e → rdDirEnt st.mem (slotAddr es j i) = e)
    ∧ (dps < numdent → rd16 st.mem (slotAddr es j dps) = ENDBLK)
    ∧ rd16 st.mem (j * SEGSIZ + OFF_LINK) = j + 2
  curOk : ∀ (i : Nat) (e : Rt11DirEnt), cur[i]? = some e →
    rdDirEnt st.mem (slotAddr es segs.length i) = e
  link0 : rd16 st.mem (segs.length * SEGSIZ + OFF_LINK) = 0

/-- What the new directory buffer of `createNewContainer` holds during the copy
pass: the header of segment 1 carries `smax` and `extra`, the output segments
closed so far hold the lists `segs` (each followed by an end marker and linked
to the next segment), and the open segment `segs.length` holds `cur`. -/
structure SqzMem (es numdent smax extra : Nat) (segs : List (List Rt11DirEnt))
    (cur : List Rt11DirEnt) (m : Mem) : Prop where
  extraOk : rd16 m OFF_EXTRA = extra
  smaxOk : rd16 m 0 = smax
  doneOk : ∀ (j : Nat) (sg : List Rt11DirEnt), segs[j]? = some sg →
    sg.length < numdent
    ∧ (∀ (i : Nat) (e : Rt11DirEnt), sg[i]? = some e → rdDirEnt m (slotAddr es j i) = e)
    ∧ rd16 m (slotAddr es j sg.length) = ENDBLK
    ∧ rd16 m (j * SEGSIZ + OFF_LINK) = j + 2
  curOk : ∀ (i : Nat) (e : Rt11DirEnt), cur[i]? = some e →
    rdDirEnt m (slotAddr es segs.length i) = e

/-- Invariant of the copy pass of `createNewContainer` once a segment is open:
the buffer holds `segs` and `cur` as in `SqzMem` and the locals `oSegNum`,
`dstseg`, `dstdir`, `iDstDent` point behind the last entry of `cur`. -/
structure SqzLaid (es numdent smax extra : Nat) (segs : List (List Rt11DirEnt))
    (cur : List Rt11DirEnt) (st : SqzState) : Prop where
  oSegNum : st.oSegNum = segs.length + 1
  dstseg : st.dstseg = some (segs.length * SEGSIZ)
  dstdir : st.dstdir = some (slotAddr es segs.length cur.length)
  iDstDent : st.iDstDent = cur.length
  memOk : SqzMem es numdent smax extra segs cur st.mem

/-! ### Arithmetic of the specification -/

/-- The ceiling of `a / b` for `b > 0`. -/
def ceilDiv (a b : Nat) : Nat := if a % b = 0 then a / b else a / b + 1

/-- The density of `linearToDisk` as the specification words it: half the
capacity of a segment when that needs at most `maxseg - 1` segments, and
`N / (maxseg - 1)` otherwise. -/
def specDentsPerSeg (numdent maxseg N : Nat) : Nat :=
  if (ceilDiv N (numdent / 2) : Int) ≤ (maxseg : Int) - 1 then numdent / 2
  else N / (maxseg - 1)

/-- Blocks released at index `i` between two states of the working list: the
size of the entry there when its control word changed, else 0. -/
def releasedAt (before after : List InWorkingDir) (i : Nat) : Int :=
  match before[i]?, after[i]? with
  | some a, some b => if a.rt11.control = b.rt11.control then 0 else (a.rt11.blocks : Int)
  | _, _ => 0

/-- Total size of the entries whose control word changed between two states of
the working list. -/
def releasedBlocks (before after : List InWorkingDir) : Int :=
  Finset.sum (Finset.range before.length) (releasedAt before after)

/-- The directory entry in slot `i` of the segment whose first slot is at byte
offset `base`. -/
def slotAt (m : Mem) (base i : Nat) : Rt11DirEnt :=
  rdDirEnt m (base + i * (DIRLEN + rd16 m OFF_EXTRA))

/-- A lone end marker: the control word has `ENDBLK` set and none of `PERM`,
`EMPTY`, `TENT`. -/
def LoneEnd (d : Rt11DirEnt) : Prop :=
  d.control &&& ENDBLK ≠ 0 ∧ d.control &&& PERM = 0 ∧ d.control &&& EMPTY = 0
    ∧ d.control &&& TENT = 0

/-- The working entry `parse_directory` makes of slot `i` of segment `relseg`
when the entry loop started at index `ii` with the running LBA `acc`. -/
def retainedEntry (m : Mem) (relseg ii base acc i : Nat) : InWorkingDir :=
  { rt11 := { slotAt m base i with
              control := (slotAt m base i).control &&& (65535 ^^^ ENDBLK) },
    ffull := if (slotAt m base i).control &&& PERM = 0 then [] else mkFfull (slotAt m base i).name,
    lba := acc + ((List.range i).map (fun j => (slotAt m base j).blocks)).sum,
    segNo := relseg % 256, segIdx := (ii + i) % 256 }

/-- Whether `do_del` treats entry `j` of the working list as a candidate: the
entry is permanent and its name passes the filter of the command line. -/
def delCandidate (filterFilename : List Char → Bool) (o : Options) (j : Nat) : Bool :=
  match o.wDirArray[j]? with
  | none => false
  | some wdp => decide (wdp.rt11.control &&& PERM ≠ 0) && filterFilename wdp.ffull

/-- The number of prompts `do_del` issues while visiting the indices `idx`
when it asks before each deletion. -/
def delPrompts (filterFilename : List Char → Bool) (o : Options) (idx : List Nat) : Nat :=
  (idx.filter (delCandidate filterFilename o)).length

/-- The directory entries of the permanent entries of a working list, in
order. -/
def permEntries (l : List InWorkingDir) : List Rt11DirEnt :=
  (l.filter (fun w => decide (w.rt11.control &&& PERM ≠ 0))).map (fun w => w.rt11)

/-- The blocks occupied by the permanent entries of a working list. -/
def permBlocks (l : List InWorkingDir) : Nat :=
  ((l.filter (fun w => decide (w.rt11.control &&& PERM ≠ 0))).map (fun w => w.rt11.blocks)).sum

/-! ### Worked examples -/

/-- A working entry with the given control word, name, size and LBA. -/
def exampleEntry (control : Nat) (name : R50Name) (blocks lba : Nat) : InWorkingDir :=
  { rt11 := { control := control, name := name, blocks := blocks, channel := 0, procid := 0,
              date := 0 },
    ffull := [], lba := lba, segNo := 1, segIdx := 0 }

/-- A free working entry of the given size. -/
def freeEntry (blocks lba : Nat) : InWorkingDir :=
  exampleEntry EMPTY { w0 := 0, w1 := 0, w2 := 0 } blocks lba

/-- Options of a volume with 4 segments of 72 entries whose working list is `l`,
about to insert a file of `fileBlks` blocks called `name`. -/
def exampleOptions (l : List InWorkingDir) (fileBlks : Nat) (name : R50Name) : Options :=
  { Options.init (wr16 (fun _ => 0) 0 4) 4 72 6 0 0 with
    wDirArray := l,
    iHandle := { totIns := 0, totUsed := 0, sizeMatch := none, fileBlks := fileBlks,
                 iNameR50 := name,
                 fileTimeStamp := { tm_year := 0, tm_mon := 0, tm_mday := 0 } } }

/-- The packed name `FILE.TXT`. -/
def exampleName : R50Name := (cvtName "FILE.TXT".toList).iNameR50

/-- A permanent working entry whose first name word is `name0`. -/
def permEntry (name0 blocks lba : Nat) : InWorkingDir :=
  exampleEntry PERM { w0 := name0, w1 := 0, w2 := 0 } blocks lba

/-- The working list of the squeeze examples: three files and two free areas on
a volume whose data starts at block 8; the last free area has `lastFree`
blocks. -/
def sqzExampleList (lastFree : Nat) : List InWorkingDir :=
  [permEntry 1 5 8, freeEntry 7 13, permEntry 2 3 20, permEntry 3 4 23, freeEntry lastFree 27]

/-- The directory buffer of a volume with one directory segment (`smax = 1`,
`extra = 0`) holding `sqzExampleList`, as `linearToDisk` lays it out. -/
def sqzExampleDirectory (lastFree : Nat) : Mem :=
  match linearToDisk { Options.init (wr16 (fun _ => 0) 0 1) 1 72 6 0 0 with
                       wDirArray := sqzExampleList lastFree } with
  | some r => r.1.directory
  | none => fun _ => 0

/-- The options after `checkHeader` and `parse_directory` have read that volume
from a container of `containerBlocks` blocks. -/
def sqzExampleVolume (cmdOpts containerBlocks lastFree : Nat) : Options :=
  { parse_directory
      (Options.init (sqzExampleDirectory lastFree)
        (checkHeaderGeometry (sqzExampleDirectory lastFree)).1
        (checkHeaderGeometry (sqzExampleDirectory lastFree)).2 6 containerBlocks cmdOpts) with
    floppyImageSize :=
      if cmdOpts &&& (CMDOPT_SINGLE_FLPY ||| CMDOPT_DOUBLE_FLPY) ≠ 0 then
        NUM_SECTORS * NUM_TRACKS * sectorLen cmdOpts
      else 0 }

/-- Options of a volume with one directory segment of 72 entries whose
working list is `sqzExampleList 33`, before `linearToDisk` lays it out. -/
def packExample : Options :=
  { Options.init (wr16 (fun _ => 0) 0 1) 1 72 6 60 0 with wDirArray := sqzExampleList 33 }

/-- The options `linearToDisk` leaves behind on `packExample`. -/
def packExampleResult : Options :=
  match linearToDisk packExample with
  | some r => r.1
  | none => packExample

/-- Options with an empty working list over a directory buffer that holds the
five entries of `sqzExampleList 33`. -/
def staleExample : Options := Options.init (sqzExampleDirectory 33) 1 72 6 60 0

/-- Options of a volume with `maxseg` directory segments of 72 entries, a
blank directory buffer and the working list `l`. -/
def volumeExample (maxseg : Nat) (l : List InWorkingDir) : Options :=
  { Options.init (wr16 (fun _ => 0) 0 maxseg) maxseg 72 6 0 0 with wDirArray := l }

/-- A working list of `n` files of one block each, the first at block `lba`. -/
def filesExample (n lba : Nat) : List InWorkingDir :=
  (List.range n).map (fun i => permEntry (i + 1) 1 (lba + i))

/-- Options of a volume with 4 segments of 72 entries holding 217 files and a
free area of 100 blocks, for an insert command that asks no question. -/
def insertExample : Options :=
  { volumeExample 4 (filesExample 217 14 ++ [freeEntry 100 231]) with inOpts := INOPTS_NOASK }

/-- A file `FILE.TXT` of 10 blocks that is read and written without error. -/
def insertFile : InFile :=
  { fileName := "FILE.TXT".toList, answer := YN_YES,
    read := some (10, { tm_year := 0, tm_mon := 0, tm_mday := 0 }),
    write := { reopenOk := true, seekOk := true, writeOk := true } }

/-- Options of a volume with one segment of 72 entries holding 70 files and a
free area of 100 blocks (71 entries, the most the insertion accepts), for an
insert command that asks no question. -/
def crowdedExample : Options :=
  { volumeExample 1 (filesExample 70 8 ++ [freeEntry 100 78]) with inOpts := INOPTS_NOASK }

/-- The same 71 entries on a volume with two segments of 72 entries. -/
def roomyExample : Options :=
  { volumeExample 2 (filesExample 70 10 ++ [freeEntry 100 80]) with inOpts := INOPTS_NOASK }

/-- Options of a volume with two adjacent files of 5 and 3 blocks followed by
10 free blocks, for a delete command that asks no question. -/
def delExample : Options :=
  { volumeExample 1 [permEntry 1 5 8, permEntry 2 3 13, freeEntry 10 16] with
    delOpts := DELOPTS_NOASK, totEmpty := 10, totPerm := 8 }

/-- Options about to insert an 8-block file `FILE.TXT` into a volume that
holds a free area of 8 blocks at block 100 followed by the 8-block file
`FILE.TXT` at block 108. -/
def replaceExample : Options :=
  { exampleOptions [freeEntry 8 100, exampleEntry PERM exampleName 8 108] 8 exampleName with
    totEmpty := 8, totPerm := 8 }

/-- The same volume with the file first and the free area behind it. -/
def replaceInPlaceExample : Options :=
  { exampleOptions [exampleEntry PERM exampleName 8 100, freeEntry 8 108] 8 exampleName with
    totEmpty := 8, totPerm := 8 }

/-- A directory buffer whose only segment links to itself: `smax = 4`,
`last = 1`, `link = 1`, one file of 5 blocks and an end marker. -/
def cyclicDirectory : Mem :=
  wr16 (wrDirEnt (wr16 (wr16 (wr16 (wr16 (fun _ => 0) 0 4) OFF_LINK 1) OFF_LAST 1) OFF_START 14)
      SEGLEN (permEntry 1 5 14).rt11)
    (SEGLEN + DIRLEN) ENDBLK

/-- A container file whose home block carries the expected system identifier
and the first directory segment 7 instead of 6; that segment has `smax = 1`
and `extra = 0`. -/
def headerExampleFile : Mem :=
  wr16
    (wr16
      ((List.range 12).foldl
        (fun m i => wr8 m (HOME_BLK_LBA * BLKSIZ + HOME_SYSID + i) (cstr sysIDExpected i))
        (fun _ => 0))
      (HOME_BLK_LBA * BLKSIZ + HOME_FIRSTSEGMENT) 7)
    (7 * BLKSIZ) 1

/-- Options about to insert a 10-block file `FILE.TXT` into a volume that
holds the 8-block file `FILE.TXT` at block 100 and 4 free blocks behind it:
no free area is large enough. -/
def replaceFailExample : Options :=
  { exampleOptions [exampleEntry PERM exampleName 8 100, freeEntry 4 108] 10 exampleName with
    totEmpty := 4, totPerm := 8 }

/-- The same insertion into a volume whose file has another name. -/
def insertFailExample : Options :=
  { exampleOptions [permEntry 1 8 100, freeEntry 4 108] 10 exampleName with
    totEmpty := 4, totPerm := 8 }

/-- The volume of `delExample` for a delete command that asks before each
deletion. -/
def quitExample : Options := { delExample with delOpts := 0 }

/-- Options of a volume with a file of 5 blocks and 30 free blocks, for an
insert command that asks before each file. -/
def quitInsertExample : Options :=
  { volumeExample 1 [permEntry 1 5 8, freeEntry 30 13] with totEmpty := 30, totPerm := 5 }

/-- The volume of `insertExample` (4 segments of 72 entries, 217 files and a
free area of 100 blocks) for an insert command that asks before each file. -/
def quitVolume : Options := { insertExample with inOpts := 0 }

/-- Three files of 10 blocks named on the command line of that insert; the
user accepts the first and answers Quit at the second. -/
def quitInsertFiles : List InFile :=
  [insertFile, { insertFile with fileName := "B.TXT".toList, answer := YN_QUIT },
   { insertFile with fileName := "C.TXT".toList }]

/-- The directory buffer `linearToDisk` lays out for the working list `l` on a
volume with `maxseg` segments of 72 entries. -/
def laidOutDirectory (maxseg : Nat) (l : List InWorkingDir) : Mem :=
  match linearToDisk (volumeExample maxseg l) with
  | some r => r.1.directory
  | none => fun _ => 0

/-- The options after `checkHeader` and `parse_directory` have read the volume
with the directory buffer `directory` (first segment at block 6) from a
container of `containerBlocks` blocks. -/
def parsedVolume (directory : Mem) (cmdOpts containerBlocks : Nat) : Options :=
  { parse_directory
      (Options.init directory (checkHeaderGeometry directory).1
        (checkHeaderGeometry directory).2 6 containerBlocks cmdOpts) with
    floppyImageSize :=
      if cmdOpts &&& (CMDOPT_SINGLE_FLPY ||| CMDOPT_DOUBLE_FLPY) ≠ 0 then
        NUM_SECTORS * NUM_TRACKS * sectorLen cmdOpts
      else 0 }

/-- A squeezed volume of 60 blocks with one directory segment: two files and
one free area behind them; the user asks for 4 directory segments. -/
def squeezedVolume : Options :=
  { parsedVolume (laidOutDirectory 1 [permEntry 1 5 8, permEntry 2 3 13, freeEntry 44 16]) 0 60
    with newMaxSeg := 4 }

/-- A volume of 33 blocks with one directory segment: four files and two free
areas of 7 and 4 blocks between them. -/
def tidyExample : Options :=
  parsedVolume
    (laidOutDirectory 1
      [permEntry 1 5 8, freeEntry 7 13, permEntry 2 3 20, freeEntry 4 23, permEntry 3 4 27,
       permEntry 4 2 31]) 0 33

/-- The same volume when the user asks for 2 directory segments. -/
def growExample : Options := { tidyExample with newMaxSeg := 2 }

/-- What `createNewContainer` leaves behind on `growExample` when every I/O
call succeeds. -/
def growResult : SqzOutcome :=
  match createNewContainer growExample sqzAllOk with
  | Except.ok r => r
  | Except.error _ => sqzEarly 1 growExample

/-- Byte `f` (0 to 13) of the 14-byte image of a directory entry. -/
def entryByte (e : Rt11DirEnt) (f : Nat) : Nat :=
  let w :=
    [e.control, e.name.w0, e.name.w1, e.name.w2, e.blocks, e.channel + 256 * e.procid,
     e.date].getD (f / 2) 0
  if f % 2 = 0 then w % 256 else w / 256 % 256

/-- A directory buffer given segment by segment: for each segment the five
header words (`smax`, `link`, `last`, `extra`, `start`) and the entries, in
14-byte slots, with an end marker behind them. -/
def directoryImage (segs : List (List Nat × List Rt11DirEnt)) : Mem := fun a =>
  match segs[a / SEGSIZ]? with
  | none => 0
  | some (hdr, ents) =>
    let off := a % SEGSIZ
    if off < SEGLEN then
      let w := hdr.getD (off / 2) 0
      if off % 2 = 0 then w % 256 else w / 256 % 256
    else
      let i := (off - SEGLEN) / DIRLEN
      let f := (off - SEGLEN) % DIRLEN
      match ents[i]? with
      | some e => entryByte e f
      | none =>
        if i = ents.length then
          entryByte { control := ENDBLK, name := { w0 := 0, w1 := 0, w2 := 0 }, blocks := 0,
                      channel := 0, procid := 0, date := 0 } f
        else 0

/-- A container of 89 blocks whose directory (one segment) holds 71 files of
one block and accounts for 79 blocks; the user asks for 1 directory segment. -/
def fullSegmentExample : Options :=
  { parsedVolume (directoryImage [([1, 0, 1, 0, 8], (filesExample 71 8).map (fun w => w.rt11))])
      0 89 with newMaxSeg := 1 }

/-- The directory of a single density floppy with two directory segments:
40 files of one block and a free area of 5 blocks in segment 1, 40 more files
and a free area of 405 blocks in segment 2. -/
def floppyExampleDirectory : Mem :=
  directoryImage
    [([2, 2, 2, 0, 10], (filesExample 40 10 ++ [freeEntry 5 50]).map (fun w => w.rt11)),
     ([2, 0, 2, 0, 55],
      (((List.range 40).map (fun i => permEntry (i + 41) 1 (55 + i))) ++ [freeEntry 405 95]).map
        (fun w => w.rt11))]

/-- The options after that floppy image of 500 blocks has been read. -/
def floppyExample : Options := parsedVolume floppyExampleDirectory CMDOPT_SINGLE_FLPY 500

/-! ## Theorems -/

/-! ### Directory buffer: reads after writes -/

theorem wr8_apply (m : Mem) (a v x : Nat) :
    wr8 m a v x = if x = a then v % 256 else m x := rfl

theorem wr16_apply (m : Mem) (a v x : Nat) :
    wr16 m a v x = if x = a + 1 then v / 256 % 256 else if x = a then v % 256 else m x := by
  simp only [wr16, wr8]
  split
  · omega
  · split
    · omega
    · rfl

theorem wr16_other (m : Mem) (a v x : Nat) (h : x < a ∨ a + 2 ≤ x) : wr16 m a v x = m x := by
  rw [wr16_apply, if_neg (by omega), if_neg (by omega)]

theorem memset0_other (m : Mem) (a n x : Nat) (h : x < a ∨ a + n ≤ x) :
    memset0 m a n x = m x := by
  unfold memset0
  rw [if_neg (by omega)]

theorem wrDirEnt_other (m : Mem) (a : Nat) (e : Rt11DirEnt) (x : Nat)
    (h : x < a ∨ a + DIRLEN ≤ x) : wrDirEnt m a e x = m x := by
  have hd : DIRLEN = 14 := rfl
  simp only [wrDirEnt]
  rw [wr16_other _ _ _ _ (by omega), wr8_apply, if_neg (by omega), wr8_apply, if_neg (by omega),
    wr16_other _ _ _ _ (by omega), wr16_other _ _ _ _ (by omega), wr16_other _ _ _ _ (by omega),
    wr16_other _ _ _ _ (by omega), wr16_other _ _ _ _ (by omega)]

theorem rd8_lt (m : Mem) (a : Nat) : rd8 m a < 256 := Nat.mod_lt _ (by omega)

theorem rd16_lt (m : Mem) (a : Nat) : rd16 m a < 65536 := by
  have h1 := rd8_lt m a
  have h2 := rd8_lt m (a + 1)
  unfold rd16
  omega

theorem rd8_congr (m m' : Mem) (a : Nat) (h : m' a = m a) : rd8 m' a = rd8 m a := by
  unfold rd8
  rw [h]

theorem rd16_congr (m m' : Mem) (a : Nat) (h : ∀ x, a ≤ x → x < a + 2 → m' x = m x) :
    rd16 m' a = rd16 m a := by
  unfold rd16 rd8
  rw [h a (by omega) (by omega), h (a + 1) (by omega) (by omega)]

theorem rdDirEnt_congr (m m' : Mem) (a : Nat)
    (h : ∀ x, a ≤ x → x < a + DIRLEN → m' x = m x) : rdDirEnt m' a = rdDirEnt m a := by
  have hd : DIRLEN = 14 := rfl
  unfold rdDirEnt
  rw [rd16_congr m m' a (fun x h1 h2 => h x (by omega) (by omega)),
    rd16_congr m m' (a + 2) (fun x h1 h2 => h x (by omega) (by omega)),
    rd16_congr m m' (a + 4) (fun x h1 h2 => h x (by omega) (by omega)),
    rd16_congr m m' (a + 6) (fun x h1 h2 => h x (by omega) (by omega)),
    rd16_congr m m' (a + 8) (fun x h1 h2 => h x (by omega) (by omega)),
    rd16_congr m m' (a + 12) (fun x h1 h2 => h x (by omega) (by omega)),
    rd8_congr m m' (a + 10) (h _ (by omega) (by omega)),
    rd8_congr m m' (a + 11) (h _ (by omega) (by omega))]

theorem rd16_wr16_same (m : Mem) (a v : Nat) : rd16 (wr16 m a v) a = v % 65536 := by
  unfold rd16 rd8
  rw [wr16_apply, wr16_apply, if_neg (by omega), if_pos rfl, if_pos rfl]
  omega

theorem rd16_wr16_other (m : Mem) (a v b : Nat) (h : b + 2 ≤ a ∨ a + 2 ≤ b) :
    rd16 (wr16 m a v) b = rd16 m b :=
  rd16_congr _ _ _ (fun x h1 h2 => wr16_other _ _ _ _ (by omega))

theorem rd16_wrDirEnt_other (m : Mem) (a : Nat) (e : Rt11DirEnt) (b : Nat)
    (h : b + 2 ≤ a ∨ a + DIRLEN ≤ b) : rd16 (wrDirEnt m a e) b = rd16 m b :=
  rd16_congr _ _ _ (fun x h1 h2 => wrDirEnt_other _ _ _ _ (by omega))

theorem rd16_memset0_other (m : Mem) (a n b : Nat) (h : b + 2 ≤ a ∨ a + n ≤ b) :
    rd16 (memset0 m a n) b = rd16 m b :=
  rd16_congr _ _ _ (fun x h1 h2 => memset0_other _ _ _ _ (by omega))

theorem rdDirEnt_wr16_other (m : Mem) (a v b : Nat) (h : b + DIRLEN ≤ a ∨ a + 2 ≤ b) :
    rdDirEnt (wr16 m a v) b = rdDirEnt m b :=
  rdDirEnt_congr _ _ _ (fun x h1 h2 => wr16_other _ _ _ _ (by omega))

theorem rdDirEnt_wrDirEnt_other (m : Mem) (a : Nat) (e : Rt11DirEnt) (b : Nat)
    (h : b + DIRLEN ≤ a ∨ a + DIRLEN ≤ b) : rdDirEnt (wrDirEnt m a e) b = rdDirEnt m b :=
  rdDirEnt_congr _ _ _ (fun x h1 h2 => wrDirEnt_other _ _ _ _ (by omega))

theorem rdDirEnt_memset0_other (m : Mem) (a n b : Nat) (h : b + DIRLEN ≤ a ∨ a + n ≤ b) :
    rdDirEnt (memset0 m a n) b = rdDirEnt m b :=
  rdDirEnt_congr _ _ _ (fun x h1 h2 => memset0_other _ _ _ _ (by omega))

theorem rd8_wr8_same (m : Mem) (a v : Nat) (h : v < 256) : rd8 (wr8 m a v) a = v := by
  unfold rd8
  rw [wr8_apply, if_pos rfl]
  omega

theorem rdDirEnt_wrDirEnt_same (m : Mem) (a : Nat) (e : Rt11DirEnt) (h : e.WellTyped) :
    rdDirEnt (wrDirEnt m a e) a = e := by
  obtain ⟨h1, h2, h3, h4, h5, h6, h7, h8⟩ := h
  have e16 : ∀ (m : Mem) (b v : Nat), v < 65536 → rd16 (wr16 m b v) b = v := fun m b v hv => by
    rw [rd16_wr16_same, Nat.mod_eq_of_lt hv]
  have e8 : ∀ (m : Mem) (b v : Nat), v < 256 → rd8 (wr8 m b v) b = v := rd8_wr8_same
  have k8 : ∀ (m : Mem) (b v c : Nat), c ≠ b → rd8 (wr8 m b v) c = rd8 m c := fun m b v c hc => by
    unfold rd8
    rw [wr8_apply, if_neg hc]
  have k16 : ∀ (m : Mem) (b v c : Nat), c + 2 ≤ b ∨ b + 1 ≤ c → rd16 (wr8 m b v) c = rd16 m c :=
    fun m b v c hc => rd16_congr _ _ _ (fun x h1 h2 => by rw [wr8_apply, if_neg (by omega)])
  have j8 : ∀ (m : Mem) (b v c : Nat), c < b ∨ b + 2 ≤ c → rd8 (wr16 m b v) c = rd8 m c :=
    fun m b v c hc => rd8_congr _ _ _ (wr16_other _ _ _ _ hc)
  cases e with
  | mk control name blocks channel procid date =>
    cases name with
    | mk w0 w1 w2 =>
      simp only [rdDirEnt, wrDirEnt] at *
      congr 1
      · rw [rd16_wr16_other _ _ _ _ (by omega), k16 _ _ _ _ (by omega), k16 _ _ _ _ (by omega),
          rd16_wr16_other _ _ _ _ (by omega), rd16_wr16_other _ _ _ _ (by omega),
          rd16_wr16_other _ _ _ _ (by omega), rd16_wr16_other _ _ _ _ (by omega), e16 _ _ _ h1]
      · congr 1
        · rw [rd16_wr16_other _ _ _ _ (by omega), k16 _ _ _ _ (by omega),
            k16 _ _ _ _ (by omega), rd16_wr16_other _ _ _ _ (by omega),
            rd16_wr16_other _ _ _ _ (by omega), rd16_wr16_other _ _ _ _ (by omega),
            e16 _ _ _ h2]
        · rw [rd16_wr16_other _ _ _ _ (by omega), k16 _ _ _ _ (by omega),
            k16 _ _ _ _ (by omega), rd16_wr16_other _ _ _ _ (by omega),
            rd16_wr16_other _ _ _ _ (by omega), e16 _ _ _ h3]
        · rw [rd16_wr16_other _ _ _ _ (by omega), k16 _ _ _ _ (by omega),
            k16 _ _ _ _ (by omega), rd16_wr16_other _ _ _ _ (by omega), e16 _ _ _ h4]
      · rw [rd16_wr16_other _ _ _ _ (by omega), k16 _ _ _ _ (by omega),
          k16 _ _ _ _ (by omega), e16 _ _ _ h5]
      · rw [j8 _ _ _ _ (by omega), k8 _ _ _ _ (by omega), e8 _ _ _ h6]
      · rw [j8 _ _ _ _ (by omega), e8 _ _ _ h7]
      · rw [e16 _ _ _ h8]


/-! ### Parsing a laid-out directory -/

theorem not_lone_end (c : Nat) (h : c &&& ENDBLK = 0) :
    ¬ (c &&& (ENDBLK ||| PERM ||| EMPTY ||| TENT) = ENDBLK) := by
  intro hc
  have h1 : (c &&& (ENDBLK ||| PERM ||| EMPTY ||| TENT)) &&& ENDBLK = ENDBLK &&& ENDBLK := by
    rw [hc]
  have h2 : (ENDBLK ||| PERM ||| EMPTY ||| TENT) &&& ENDBLK = ENDBLK := by decide
  rw [Nat.land_assoc, h2, h] at h1
  revert h1
  decide

theorem clear_end (c : Nat) (hlt : c < 65536) (h : c &&& ENDBLK = 0) :
    c &&& (65535 ^^^ ENDBLK) = c := by
  have h1 : c &&& 65535 = c := by
    have := Nat.and_pow_two_sub_one_eq_mod c 16
    norm_num at this
    rw [this, Nat.mod_eq_of_lt hlt]
  have h2 : (65535 : Nat) = (65535 ^^^ ENDBLK) ||| ENDBLK := by decide
  conv_rhs => rw [← h1, h2, Nat.and_or_distrib_left, h, Nat.or_zero]

theorem lone_end : ENDBLK &&& (ENDBLK ||| PERM ||| EMPTY ||| TENT) = ENDBLK := by decide

theorem parseEntries_spec (m : Mem) (relseg : Nat) (ents : List Rt11DirEnt) :
    ∀ (k ii base acc : Nat) (o : Options),
      (∀ (i : Nat) (e : Rt11DirEnt), ents[i]? = some e →
        rdDirEnt m (base + i * (DIRLEN + rd16 m OFF_EXTRA)) = e) →
      (∀ e ∈ ents, e.control &&& ENDBLK = 0) →
      ents.length ≤ k →
      (ents.length < k → rd16 m (base + ents.length * (DIRLEN + rd16 m OFF_EXTRA)) = ENDBLK) →
      (parseEntries m relseg k ii base acc o).wDirArray.map (fun w => w.rt11)
        = o.wDirArray.map (fun w => w.rt11) ++ ents := by
  induction ents with
  | nil =>
    intro k ii base acc o _ _ _ hmark
    cases k with
    | zero => simp [parseEntries]
    | succ k =>
      have hc : (rdDirEnt m base).control = ENDBLK := by
        have := hmark (by simp)
        simpa [rdDirEnt] using this
      rw [parseEntries]
      simp only [hc, lone_end, if_true, List.append_nil]
  | cons e rest ih =>
    intro k ii base acc o hents hno hlen hmark
    cases k with
    | zero => simp at hlen
    | succ k =>
      have hd : rdDirEnt m base = e := by
        have := hents 0 e (by simp)
        simpa using this
      have hne := hno e (by simp)
      have hlt : e.control < 65536 := by
        rw [← hd]
        exact rd16_lt m base
      rw [parseEntries]
      simp only [hd, not_lone_end e.control hne, if_false, hne, ne_eq, not_true_eq_false,
        clear_end e.control hlt hne]
      rw [ih k (ii + 1) (base + DIRLEN + rd16 m OFF_EXTRA) (acc + e.blocks)]
      · split <;> simp
      · intro i e' hi
        have := hents (i + 1) e' (by simpa using hi)
        rw [← this]
        congr 1
        ring
      · intro e' he'
        exact hno e' (List.mem_cons_of_mem _ he')
      · simpa using hlen
      · intro hl
        have := hmark (by simpa using hl)
        rw [← this]
        congr 1
        simp only [List.length_cons]
        ring

theorem parseSegments_chain (m : Mem) (numdent : Nat) (cs : List (List Rt11DirEnt)) :
    ∀ (j k : Nat) (o : Options),
      ChainHolds m (DIRLEN + rd16 m OFF_EXTRA) numdent (j + 1) cs →
      (∀ c ∈ cs, ∀ e ∈ c, e.control &&& ENDBLK = 0) →
      cs.length ≤ k →
      j + 1 + cs.length ≤ rd16 m OFF_LAST →
      rd16 m (j * SEGSIZ + OFF_LINK) = (if cs = [] then 0 else j + 2) →
      (parseSegments m numdent k (some (j * SEGSIZ)) o).wDirArray.map (fun w => w.rt11)
        = o.wDirArray.map (fun w => w.rt11) ++ cs.flatten := by
  induction cs with
  | nil =>
    intro j k o _ _ _ _ hlink
    cases k with
    | zero => simp [parseSegments]
    | succ k =>
      rw [parseSegments]
      simp only [if_true] at hlink
      simp [hlink]
  | cons c cs ih =>
    intro j k o hchain hno hlen hlast hlink
    cases k with
    | zero => simp at hlen
    | succ k =>
      obtain ⟨⟨hcl, hce, hcm⟩, hl2, hrest⟩ := hchain
      rw [parseSegments]
      simp only [List.cons_ne_nil, if_false] at hlink
      have hcond : j + 2 ≠ 0 ∧ j + 2 ≤ rd16 m OFF_LAST := by
        simp only [List.length_cons] at hlast
        omega
      simp only [hlink]
      rw [if_pos hcond]
      have hj : j + 2 - 1 = j + 1 := by omega
      simp only [hj]
      rw [ih (j + 1) k _ hrest (fun c' hc' => hno c' (List.mem_cons_of_mem _ hc'))
        (by simpa using hlen) (by simp only [List.length_cons] at hlast; omega) hl2]
      rw [parseEntries_spec m (j + 2) c numdent 0 ((j + 1) * SEGSIZ + SEGLEN) _ o
        (fun i e hi => hce i e hi) (hno c (by simp)) hcl (fun h => hcm h)]
      simp [List.append_assoc]

theorem parseSegments_top (m : Mem) (numdent maxseg : Nat) (c : List Rt11DirEnt)
    (cs : List (List Rt11DirEnt)) (o : Options)
    (hchain : ChainHolds m (DIRLEN + rd16 m OFF_EXTRA) numdent 0 (c :: cs))
    (hno : ∀ c' ∈ c :: cs, ∀ e ∈ c', e.control &&& ENDBLK = 0)
    (hlen : (c :: cs).length ≤ maxseg)
    (hlast : (c :: cs).length ≤ rd16 m OFF_LAST) :
    (parseSegments m numdent maxseg none o).wDirArray.map (fun w => w.rt11)
      = o.wDirArray.map (fun w => w.rt11) ++ (c :: cs).flatten := by
  cases maxseg with
  | zero => simp at hlen
  | succ k =>
    obtain ⟨⟨hcl, hce, hcm⟩, hl2, hrest⟩ := hchain
    rw [parseSegments]
    show List.map (fun w => w.rt11) (parseSegments m numdent k (some 0)
      (parseEntries m 1 numdent 0 (0 + SEGLEN) (rd16 m (0 + OFF_START)) o)).wDirArray = _
    have hseg := parseSegments_chain m numdent cs 0 k
      (parseEntries m 1 numdent 0 (0 + SEGLEN) (rd16 m (0 + OFF_START)) o) hrest
      (fun c' hc' => hno c' (List.mem_cons_of_mem _ hc'))
      (by simpa using hlen) (by simp only [List.length_cons] at hlast; omega) hl2
    simp only [Nat.zero_mul] at hseg
    rw [hseg]
    have hent := parseEntries_spec m 1 c numdent 0 (0 + SEGLEN) (rd16 m (0 + OFF_START)) o
      (fun i e hi => by simpa [slotAddr] using hce i e hi) (hno c (by simp)) hcl
      (fun h => by simpa [slotAddr] using hcm h)
    rw [hent]
    simp [List.append_assoc]

theorem parse_directory_list (o : Options) :
    (parse_directory o).wDirArray
      = (parseSegments o.directory o.numdent o.maxseg none o).wDirArray := by
  unfold parse_directory
  simp only
  split <;> rfl


/-! ### Serializing the working list -/

theorem slot_bound (es numdent i : Nat) (hfit : numdent * es ≤ 1014) (hi : i < numdent) :
    i * es + es ≤ 1014 := by
  have := Nat.mul_le_mul_right es (Nat.succ_le_of_lt hi)
  rw [Nat.succ_mul] at this
  omega

theorem slot_mono (es i k : Nat) (h : i < k) : i * es + es ≤ k * es := by
  have := Nat.mul_le_mul_right es (Nat.succ_le_of_lt h)
  rw [Nat.succ_mul] at this
  exact this

theorem getElem?_lt {α : Type} (l : List α) (i : Nat) (a : α) (h : l[i]? = some a) :
    i < l.length := (List.getElem?_eq_some.mp h).1

theorem l2dStep_same (es numdent dps smax : Nat) (segs : List (List Rt11DirEnt))
    (cur : List Rt11DirEnt) (st : L2DState) (w : InWorkingDir)
    (hes : 14 ≤ es) (hfit : numdent * es ≤ 1014) (hdn : dps ≤ numdent)
    (hL : L2DLaid es numdent dps smax segs cur st) (hw : w.rt11.WellTyped)
    (hlt : cur.length < dps) :
    L2DLaid es numdent dps smax segs (cur ++ [w.rt11]) (l2dStep numdent dps st w) := by
  have hS : SEGSIZ = 1024 := rfl
  have hD : DIRLEN = 14 := rfl
  have hG : SEGLEN = 10 := rfl
  have hX : OFF_EXTRA = 6 := rfl
  have hK : OFF_LINK = 2 := rfl
  have hA : OFF_LAST = 4 := rfl
  have hstep : l2dStep numdent dps st w =
      { st with mem := wrDirEnt st.mem (slotAddr es segs.length cur.length) w.rt11,
                dirptr := some (slotAddr es segs.length cur.length + DIRLEN
                  + rd16 (wrDirEnt st.mem (slotAddr es segs.length cur.length) w.rt11) OFF_EXTRA),
                dentnum := st.dentnum + 1,
                accumLBA := st.accumLBA + w.rt11.blocks } := by
    unfold l2dStep
    simp only [hL.dentnum, ge_iff_le, Nat.not_le.mpr hlt, if_false, hL.dirptr]
  have hcurb := slot_bound es numdent cur.length hfit (by omega)
  have hx : rd16 (wrDirEnt st.mem (slotAddr es segs.length cur.length) w.rt11) OFF_EXTRA
      = rd16 st.mem OFF_EXTRA :=
    rd16_wrDirEnt_other _ _ _ _ (by simp only [slotAddr, hS, hG, hX]; omega)
  rw [hstep]
  refine ⟨hL.relseg, hL.segptr, ?_, ?_, ?_, ?_, ?_, ?_, ?_, ?_, ?_, ?_⟩
  · have hex := hL.extra
    show some (_ + DIRLEN + rd16 (wrDirEnt _ _ _) OFF_EXTRA) = _
    rw [hx]
    simp only [List.length_append, List.length_singleton, Option.some.injEq, slotAddr,
      Nat.add_mul, Nat.one_mul]
    omega
  · simp [hL.dentnum]
  · simp
  · simp only [List.length_append, List.length_singleton]; omega
  · show DIRLEN + rd16 (wrDirEnt _ _ _) OFF_EXTRA = es
    rw [hx]; exact hL.extra
  · show rd16 (wrDirEnt _ _ _) 0 = smax
    rw [rd16_wrDirEnt_other _ _ _ _ (by simp only [slotAddr, hS, hG]; omega)]
    exact hL.smaxOk
  · show rd16 (wrDirEnt _ _ _) OFF_LAST = _
    rw [rd16_wrDirEnt_other _ _ _ _ (by simp only [slotAddr, hS, hG, hA]; omega)]
    exact hL.last
  · intro j sg hc
    obtain ⟨h1, h2, h3, h4⟩ := hL.doneOk j sg hc
    have hj := getElem?_lt _ _ _ hc
    refine ⟨h1, ?_, ?_, ?_⟩
    · intro i e hi
      have hib := slot_bound es numdent i hfit (by have := getElem?_lt _ _ _ hi; omega)
      show rdDirEnt (wrDirEnt _ _ _) _ = e
      rw [rdDirEnt_wrDirEnt_other _ _ _ _ (by simp only [slotAddr, hS, hG, hD]; omega)]
      exact h2 i e hi
    · intro hd
      have hib := slot_bound es numdent dps hfit hd
      show rd16 (wrDirEnt _ _ _) _ = _
      rw [rd16_wrDirEnt_other _ _ _ _ (by simp only [slotAddr, hS, hG, hD]; omega)]
      exact h3 hd
    · show rd16 (wrDirEnt _ _ _) _ = _
      rw [rd16_wrDirEnt_other _ _ _ _ (by simp only [slotAddr, hS, hG, hD, hK]; omega)]
      exact h4
  · intro i e hi
    show rdDirEnt (wrDirEnt _ _ _) _ = e
    rcases Nat.lt_or_ge i cur.length with h | h
    · have hm := slot_mono es i cur.length h
      rw [rdDirEnt_wrDirEnt_other _ _ _ _ (by simp only [slotAddr, hS, hG, hD]; omega)]
      apply hL.curOk i e
      rwa [List.getElem?_append_left h] at hi
    · have hle := getElem?_lt _ _ _ hi
      simp only [List.length_append, List.length_singleton] at hle
      have hieq : i = cur.length := by omega
      subst hieq
      rw [List.getElem?_append_right (le_refl _)] at hi
      simp at hi
      subst hi
      exact rdDirEnt_wrDirEnt_same _ _ _ hw
  · show rd16 (wrDirEnt _ _ _) _ = _
    rw [rd16_wrDirEnt_other _ _ _ _ (by simp only [slotAddr, hS, hG, hD, hK]; omega)]
    exact hL.link0


theorem l2dHeaderMem_spec (m2 : Mem) (r lba : Nat) (hr : r < 65536) :
    (∀ b, (b + 2 ≤ 4 ∨ 6 ≤ b) → (b + 2 ≤ (r - 1) * SEGSIZ ∨ (r - 1) * SEGSIZ + 10 ≤ b) →
        rd16 (l2dHeaderMem m2 r lba) b = rd16 m2 b)
    ∧ (∀ b, 6 ≤ b → (b + DIRLEN ≤ (r - 1) * SEGSIZ ∨ (r - 1) * SEGSIZ + 10 ≤ b) →
        rdDirEnt (l2dHeaderMem m2 r lba) b = rdDirEnt m2 b)
    ∧ rd16 (l2dHeaderMem m2 r lba) OFF_LAST = r
    ∧ rd16 (l2dHeaderMem m2 r lba) ((r - 1) * SEGSIZ + OFF_LINK) = 0
    ∧ rd16 (l2dHeaderMem m2 r lba) OFF_EXTRA = rd16 m2 OFF_EXTRA
    ∧ rd16 (l2dHeaderMem m2 r lba) 0 = rd16 m2 0 := by
  have hS : SEGSIZ = 1024 := rfl
  have hD : DIRLEN = 14 := rfl
  have hX : OFF_EXTRA = 6 := rfl
  have hK : OFF_LINK = 2 := rfl
  have hA : OFF_LAST = 4 := rfl
  have hT : OFF_START = 8 := rfl
  have hmod : ∀ (m : Mem) (a : Nat), rd16 m a % 65536 = rd16 m a :=
    fun m a => Nat.mod_eq_of_lt (rd16_lt m a)
  have hsp : (r - 1) * SEGSIZ = 0 ∨ 1024 ≤ (r - 1) * SEGSIZ := by
    rw [hS]; omega
  simp only [l2dHeaderMem, hX, hK, hA, hT, hD]
  generalize (r - 1) * SEGSIZ = sp at hsp ⊢
  refine ⟨?_, ?_, ?_, ?_, ?_, ?_⟩
  · intro b h1 h2
    rw [rd16_wr16_other _ _ _ _ (by omega), rd16_wr16_other _ _ _ _ (by omega),
      rd16_wr16_other _ _ _ _ (by omega), rd16_wr16_other _ _ _ _ (by omega),
      rd16_wr16_other _ _ _ _ (by omega), rd16_wr16_other _ _ _ _ (by omega)]
  · intro b h1 h2
    rw [rdDirEnt_wr16_other _ _ _ _ (by omega), rdDirEnt_wr16_other _ _ _ _ (by omega),
      rdDirEnt_wr16_other _ _ _ _ (by omega), rdDirEnt_wr16_other _ _ _ _ (by omega),
      rdDirEnt_wr16_other _ _ _ _ (by omega), rdDirEnt_wr16_other _ _ _ _ (by omega)]
  · rw [rd16_wr16_other _ _ _ _ (by omega), rd16_wr16_other _ _ _ _ (by omega)]
    rcases hsp with h | h
    · subst h
      rw [Nat.zero_add, rd16_wr16_same, Nat.mod_eq_of_lt hr]
    · rw [rd16_wr16_other _ _ _ _ (by omega), rd16_wr16_other _ _ _ _ (by omega),
        rd16_wr16_other _ _ _ _ (by omega), rd16_wr16_same, Nat.mod_eq_of_lt hr]
  · rw [rd16_wr16_other _ _ _ _ (by omega), rd16_wr16_same]
  · rw [rd16_wr16_other _ _ _ _ (by omega), rd16_wr16_other _ _ _ _ (by omega),
      rd16_wr16_other _ _ _ _ (by omega)]
    rcases hsp with h | h
    · subst h
      rw [Nat.zero_add, rd16_wr16_same, hmod, rd16_wr16_other _ _ _ _ (by omega),
        rd16_wr16_other _ _ _ _ (by omega)]
    · rw [rd16_wr16_other _ _ _ _ (by omega), rd16_wr16_other _ _ _ _ (by omega),
        rd16_wr16_other _ _ _ _ (by omega)]
  · rw [rd16_wr16_other _ _ _ _ (by omega), rd16_wr16_other _ _ _ _ (by omega),
      rd16_wr16_other _ _ _ _ (by omega), rd16_wr16_other _ _ _ _ (by omega)]
    rcases hsp with h | h
    · subst h
      rw [rd16_wr16_same, hmod, rd16_wr16_other _ _ _ _ (by omega)]
    · rw [rd16_wr16_other _ _ _ _ (by omega), rd16_wr16_other _ _ _ _ (by omega)]


theorem l2dCloseMem_spec (numdent : Nat) (st : L2DState) (r sp0 dp : Nat)
    (hsp : st.segptr = some sp0) (hdp : st.dirptr = some dp) (hlay : sp0 + 4 ≤ dp) :
    (∀ b, (b + 2 ≤ sp0 + 2 ∨ sp0 + 4 ≤ b) → (b + 2 ≤ dp ∨ dp + DIRLEN ≤ b) →
        rd16 (l2dCloseMem numdent st r) b = rd16 st.mem b)
    ∧ (∀ b, (b + DIRLEN ≤ sp0 + 2 ∨ sp0 + 4 ≤ b) → (b + DIRLEN ≤ dp ∨ dp + DIRLEN ≤ b) →
        rdDirEnt (l2dCloseMem numdent st r) b = rdDirEnt st.mem b)
    ∧ (r < 65536 → rd16 (l2dCloseMem numdent st r) (sp0 + OFF_LINK) = r)
    ∧ (st.dentnum < numdent → rd16 (l2dCloseMem numdent st r) dp = ENDBLK) := by
  have hD : DIRLEN = 14 := rfl
  have hK : OFF_LINK = 2 := rfl
  have hE : ENDBLK % 65536 = ENDBLK := by decide
  simp only [l2dCloseMem, hsp, hdp, hK]
  by_cases hd : st.dentnum < numdent
  · simp only [hd, if_true]
    refine ⟨?_, ?_, ?_, ?_⟩
    · intro b h1 h2
      rw [rd16_wr16_other _ _ _ _ (by omega), rd16_memset0_other _ _ _ _ (by omega),
        rd16_wr16_other _ _ _ _ (by omega)]
    · intro b h1 h2
      rw [rdDirEnt_wr16_other _ _ _ _ (by omega), rdDirEnt_memset0_other _ _ _ _ (by omega),
        rdDirEnt_wr16_other _ _ _ _ (by omega)]
    · intro hr
      rw [rd16_wr16_other _ _ _ _ (by omega), rd16_memset0_other _ _ _ _ (by omega),
        rd16_wr16_same, Nat.mod_eq_of_lt hr]
    · intro _
      rw [rd16_wr16_same, hE]
  · simp only [hd, if_false]
    refine ⟨?_, ?_, ?_, ?_⟩
    · intro b h1 h2
      rw [rd16_wr16_other _ _ _ _ (by omega)]
    · intro b h1 h2
      rw [rdDirEnt_wr16_other _ _ _ _ (by omega)]
    · intro hr
      rw [rd16_wr16_same, Nat.mod_eq_of_lt hr]
    · intro h
      exact False.elim h

theorem l2dStep_open_eq (numdent dps : Nat) (st : L2DState) (w : InWorkingDir)
    (h : dps ≤ st.dentnum) :
    l2dStep numdent dps st w =
      { mem := wrDirEnt (l2dHeaderMem (l2dCloseMem numdent st (st.relseg + 1)) (st.relseg + 1)
                  w.lba) (st.relseg * SEGSIZ + SEGLEN) w.rt11,
        relseg := st.relseg + 1,
        segptr := some (st.relseg * SEGSIZ),
        dirptr := some (st.relseg * SEGSIZ + SEGLEN + DIRLEN
          + rd16 (wrDirEnt (l2dHeaderMem (l2dCloseMem numdent st (st.relseg + 1))
                    (st.relseg + 1) w.lba) (st.relseg * SEGSIZ + SEGLEN) w.rt11) OFF_EXTRA),
        dentnum := 1,
        accumLBA := w.lba + w.rt11.blocks } := by
  unfold l2dStep l2dOpenSegment
  simp only [ge_iff_le, h, if_true, Nat.add_sub_cancel, Nat.zero_add]

theorem l2dStep_open (es numdent dps smax : Nat) (segs : List (List Rt11DirEnt))
    (cur : List Rt11DirEnt) (st : L2DState) (w : InWorkingDir)
    (hes : 14 ≤ es) (hfit : numdent * es ≤ 1014) (hd1 : 1 ≤ dps) (hdn : dps ≤ numdent)
    (hL : L2DLaid es numdent dps smax segs cur st) (hw : w.rt11.WellTyped)
    (heq : cur.length = dps) (hr : segs.length + 2 < 65536) :
    L2DLaid es numdent dps smax (segs ++ [cur]) [w.rt11] (l2dStep numdent dps st w) := by
  have hS : SEGSIZ = 1024 := rfl
  have hD : DIRLEN = 14 := rfl
  have hG : SEGLEN = 10 := rfl
  have hX : OFF_EXTRA = 6 := rfl
  have hK : OFF_LINK = 2 := rfl
  have hA : OFF_LAST = 4 := rfl
  have hrel := hL.relseg
  have hq1 : segs.length + 1 + 1 - 1 = segs.length + 1 := by omega
  rw [l2dStep_open_eq numdent dps st w (by rw [hL.dentnum]; omega)]
  obtain ⟨c1, c2, c3, c4⟩ := l2dCloseMem_spec numdent st (st.relseg + 1) _ _ hL.segptr hL.dirptr
    (by simp only [slotAddr, hS, hG]; omega)
  obtain ⟨g1, g2, g3, g4, g5, g6⟩ := l2dHeaderMem_spec
    (l2dCloseMem numdent st (st.relseg + 1)) (st.relseg + 1) w.lba (by omega)
  simp only [hrel, hq1] at c1 c2 c3 c4 g1 g2 g3 g4 g5 g6 ⊢
  generalize l2dCloseMem numdent st (segs.length + 1 + 1) = m2 at c1 c2 c3 c4 g1 g2 g3 g4 g5 g6 ⊢
  generalize l2dHeaderMem m2 (segs.length + 1 + 1) w.lba = m8 at g1 g2 g3 g4 g5 g6 ⊢
  have hx : rd16 (wrDirEnt m8 ((segs.length + 1) * SEGSIZ + SEGLEN) w.rt11) OFF_EXTRA
      = rd16 st.mem OFF_EXTRA := by
    rw [rd16_wrDirEnt_other _ _ _ _ (by simp only [hS, hG, hX]; omega), g5]
    exact c1 _ (by simp only [hS, hX]; omega) (by simp only [slotAddr, hS, hG, hX]; omega)
  have hcurb : dps < numdent → dps * es + es ≤ 1014 := fun h => slot_bound es numdent dps hfit h
  refine ⟨?_, ?_, ?_, ?_, ?_, ?_, ?_, ?_, ?_, ?_, ?_, ?_⟩
  · simp
  · simp
  · have hex := hL.extra
    show some (_ + DIRLEN + rd16 (wrDirEnt _ _ _) OFF_EXTRA) = _
    rw [hx]
    simp only [List.length_append, List.length_singleton, Option.some.injEq, slotAddr,
      Nat.one_mul]
    omega
  · simp
  · simp
  · simpa using hd1
  · show DIRLEN + rd16 (wrDirEnt _ _ _) OFF_EXTRA = es
    rw [hx]; exact hL.extra
  · show rd16 (wrDirEnt _ _ _) 0 = smax
    rw [rd16_wrDirEnt_other _ _ _ _ (by simp only [hS, hG]; omega), g6,
      c1 _ (by simp only [hS]; omega) (by simp only [slotAddr, hS, hG]; omega)]
    exact hL.smaxOk
  · show rd16 (wrDirEnt _ _ _) OFF_LAST = _
    rw [rd16_wrDirEnt_other _ _ _ _ (by simp only [hS, hG, hA]; omega), g3]
    simp
  · intro j sg hsg
    have hjl := getElem?_lt _ _ _ hsg
    simp only [List.length_append, List.length_singleton] at hjl
    rcases Nat.lt_or_ge j segs.length with hj | hj
    · rw [List.getElem?_append_left hj] at hsg
      obtain ⟨h1, h2, h3, h4⟩ := hL.doneOk j sg hsg
      refine ⟨h1, ?_, ?_, ?_⟩
      · intro i e hi
        have hib := slot_bound es numdent i hfit (by have := getElem?_lt _ _ _ hi; omega)
        show rdDirEnt (wrDirEnt _ _ _) _ = e
        rw [rdDirEnt_wrDirEnt_other _ _ _ _ (by simp only [slotAddr, hS, hG, hD]; omega),
          g2 _ (by simp only [slotAddr, hS, hG]; omega)
            (by simp only [slotAddr, hS, hG, hD]; omega),
          c2 _ (by simp only [slotAddr, hS, hG, hD]; omega)
            (by simp only [slotAddr, hS, hG, hD]; omega)]
        exact h2 i e hi
      · intro hd
        have hib := hcurb hd
        show rd16 (wrDirEnt _ _ _) _ = _
        rw [rd16_wrDirEnt_other _ _ _ _ (by simp only [slotAddr, hS, hG, hD]; omega),
          g1 _ (by simp only [slotAddr, hS, hG]; omega)
            (by simp only [slotAddr, hS, hG, hD]; omega),
          c1 _ (by simp only [slotAddr, hS, hG, hD]; omega)
            (by simp only [slotAddr, hS, hG, hD]; omega)]
        exact h3 hd
      · show rd16 (wrDirEnt _ _ _) _ = _
        rw [rd16_wrDirEnt_other _ _ _ _ (by simp only [hS, hG, hD, hK]; omega),
          g1 _ (by simp only [hS, hK]; omega) (by simp only [hS, hK]; omega),
          c1 _ (by simp only [hS, hK]; omega) (by simp only [slotAddr, hS, hG, hK]; omega)]
        exact h4
    · have hje : j = segs.length := by omega
      subst hje
      rw [List.getElem?_append_right (le_refl _)] at hsg
      simp at hsg
      subst hsg
      refine ⟨heq, ?_, ?_, ?_⟩
      · intro i e hi
        have hil := getElem?_lt _ _ _ hi
        have hib := slot_bound es numdent i hfit (by omega)
        have him := slot_mono es i dps (by omega)
        show rdDirEnt (wrDirEnt _ _ _) _ = e
        rw [rdDirEnt_wrDirEnt_other _ _ _ _ (by simp only [slotAddr, hS, hG, hD]; omega),
          g2 _ (by simp only [slotAddr, hS, hG]; omega)
            (by simp only [slotAddr, hS, hG, hD]; omega),
          c2 _ (by simp only [slotAddr, hS, hG, hD]; omega)
            (by simp only [slotAddr, hS, hG, hD, heq]; omega)]
        exact hL.curOk i e hi
      · intro hd
        have hib := hcurb hd
        show rd16 (wrDirEnt _ _ _) _ = _
        rw [rd16_wrDirEnt_other _ _ _ _ (by simp only [slotAddr, hS, hG, hD]; omega),
          g1 _ (by simp only [slotAddr, hS, hG]; omega)
            (by simp only [slotAddr, hS, hG, hD]; omega)]
        have := c4 (by rw [hL.dentnum]; omega)
        rw [heq] at this
        exact this
      · show rd16 (wrDirEnt _ _ _) _ = _
        rw [rd16_wrDirEnt_other _ _ _ _ (by simp only [hS, hG, hD, hK]; omega),
          g1 _ (by simp only [hS, hK]; omega) (by simp only [hS, hK]; omega)]
        exact c3 (by omega)
  · intro i e hi
    have hil := getElem?_lt _ _ _ hi
    simp only [List.length_singleton] at hil
    have hi0 : i = 0 := by omega
    subst hi0
    simp at hi
    subst hi
    show rdDirEnt (wrDirEnt _ _ _) _ = _
    simp only [List.length_append, List.length_singleton, slotAddr, Nat.zero_mul, Nat.add_zero]
    exact rdDirEnt_wrDirEnt_same _ _ _ hw
  · show rd16 (wrDirEnt _ _ _) _ = _
    simp only [List.length_append, List.length_singleton]
    rw [rd16_wrDirEnt_other _ _ _ _ (by simp only [hS, hG, hD, hK]; omega)]
    exact g4


theorem l2dStep_first (numdent dps : Nat) (m0 : Mem) (accum : Nat) (w : InWorkingDir)
    (hd1 : 1 ≤ dps) (hdn : dps ≤ numdent) (hw : w.rt11.WellTyped) :
    L2DLaid (DIRLEN + rd16 m0 OFF_EXTRA) numdent dps (rd16 m0 0) [] [w.rt11]
      (l2dStep numdent dps
        { mem := m0, relseg := 0, segptr := none, dirptr := none, dentnum := numdent,
          accumLBA := accum } w) := by
  have hS : SEGSIZ = 1024 := rfl
  have hD : DIRLEN = 14 := rfl
  have hG : SEGLEN = 10 := rfl
  have hX : OFF_EXTRA = 6 := rfl
  have hK : OFF_LINK = 2 := rfl
  have hA : OFF_LAST = 4 := rfl
  rw [l2dStep_open_eq numdent dps _ w hdn]
  have hclose : l2dCloseMem numdent
      { mem := m0, relseg := 0, segptr := none, dirptr := none, dentnum := numdent,
        accumLBA := accum } (0 + 1) = m0 := by
    simp [l2dCloseMem]
  simp only [hclose]
  obtain ⟨g1, g2, g3, g4, g5, g6⟩ := l2dHeaderMem_spec m0 (0 + 1) w.lba (by omega)
  simp only [Nat.zero_add, Nat.sub_self, Nat.zero_mul] at g1 g2 g3 g4 g5 g6 ⊢
  generalize l2dHeaderMem m0 1 w.lba = m8 at g1 g2 g3 g4 g5 g6 ⊢
  have hx : rd16 (wrDirEnt m8 SEGLEN w.rt11) OFF_EXTRA = rd16 m0 OFF_EXTRA := by
    rw [rd16_wrDirEnt_other _ _ _ _ (by simp only [hG, hX]; omega), g5]
  refine ⟨?_, ?_, ?_, ?_, ?_, ?_, ?_, ?_, ?_, ?_, ?_, ?_⟩
  · simp
  · simp
  · show some (_ + DIRLEN + rd16 (wrDirEnt _ _ _) OFF_EXTRA) = _
    rw [hx]
    simp only [List.length_nil, List.length_singleton, Option.some.injEq, slotAddr,
      Nat.one_mul, Nat.zero_mul]
    omega
  · simp
  · simp
  · simpa using hd1
  · show DIRLEN + rd16 (wrDirEnt _ _ _) OFF_EXTRA = _
    rw [hx]
  · show rd16 (wrDirEnt _ _ _) 0 = _
    rw [rd16_wrDirEnt_other _ _ _ _ (by simp only [hG]; omega), g6]
  · show rd16 (wrDirEnt _ _ _) OFF_LAST = _
    rw [rd16_wrDirEnt_other _ _ _ _ (by simp only [hG, hA]; omega), g3]
    simp
  · intro j sg hsg
    simp at hsg
  · intro i e hi
    have hil := getElem?_lt _ _ _ hi
    simp only [List.length_singleton] at hil
    have hi0 : i = 0 := by omega
    subst hi0
    simp at hi
    subst hi
    show rdDirEnt (wrDirEnt _ _ _) _ = _
    simp only [List.length_nil, slotAddr, Nat.zero_mul, Nat.add_zero, Nat.zero_add]
    exact rdDirEnt_wrDirEnt_same _ _ _ hw
  · show rd16 (wrDirEnt _ _ _) _ = _
    simp only [List.length_nil, Nat.zero_mul, Nat.zero_add]
    rw [rd16_wrDirEnt_other _ _ _ _ (by simp only [hG, hD, hK]; omega)]
    simpa using g4

theorem l2d_fold (es numdent dps smax maxseg : Nat)
    (hes : 14 ≤ es) (hfit : numdent * es ≤ 1014) (hd1 : 1 ≤ dps) (hdn : dps ≤ numdent)
    (hmax : maxseg ≤ 65535) (rest : List InWorkingDir) :
    ∀ (segs : List (List Rt11DirEnt)) (cur : List Rt11DirEnt) (st : L2DState),
      L2DLaid es numdent dps smax segs cur st →
      (∀ w ∈ rest, w.rt11.WellTyped) →
      segs.length * dps + cur.length + rest.length ≤ dps * maxseg →
      ∃ (segs' : List (List Rt11DirEnt)) (cur' : List Rt11DirEnt),
        L2DLaid es numdent dps smax segs' cur' (rest.foldl (l2dStep numdent dps) st)
        ∧ segs'.flatten ++ cur' = segs.flatten ++ cur ++ rest.map (fun w => w.rt11)
        ∧ segs'.length + 1 ≤ maxseg := by
  induction rest with
  | nil =>
    intro segs cur st hL _ hcount
    refine ⟨segs, cur, hL, by simp, ?_⟩
    have hpos := hL.curPos
    simp only [List.length_nil, Nat.add_zero] at hcount
    have : segs.length * dps < maxseg * dps := by
      rw [Nat.mul_comm maxseg]; omega
    have := Nat.lt_of_mul_lt_mul_right this
    omega
  | cons w rest ih =>
    intro segs cur st hL hty hcount
    have hw := hty w (by simp)
    have hty' : ∀ w' ∈ rest, w'.rt11.WellTyped := fun w' h => hty w' (List.mem_cons_of_mem _ h)
    simp only [List.foldl_cons]
    simp only [List.length_cons] at hcount
    rcases Nat.lt_or_ge cur.length dps with hlt | hge
    · have hL' := l2dStep_same es numdent dps smax segs cur st w hes hfit hdn hL hw hlt
      obtain ⟨segs', cur', h1, h2, h3⟩ := ih segs (cur ++ [w.rt11]) _ hL' hty'
        (by simp only [List.length_append, List.length_singleton]; omega)
      exact ⟨segs', cur', h1, by rw [h2]; simp, h3⟩
    · have heq : cur.length = dps := by have := hL.curLe; omega
      have hseg : segs.length + 1 < maxseg := by
        have : (segs.length + 1) * dps < maxseg * dps := by
          rw [Nat.mul_comm maxseg, Nat.add_mul, Nat.one_mul]; omega
        exact Nat.lt_of_mul_lt_mul_right this
      have hL' := l2dStep_open es numdent dps smax segs cur st w hes hfit hd1 hdn hL hw heq
        (by omega)
      obtain ⟨segs', cur', h1, h2, h3⟩ := ih (segs ++ [cur]) [w.rt11] _ hL' hty'
        (by simp only [List.length_append, List.length_singleton, Nat.add_mul, Nat.one_mul]
            omega)
      exact ⟨segs', cur', h1, by rw [h2]; simp, h3⟩


theorem chainHolds_of_pointwise (m : Mem) (es numdent : Nat) (l : List (List Rt11DirEnt)) :
    ∀ (j0 : Nat),
      (∀ (k : Nat) (sg : List Rt11DirEnt), l[k]? = some sg →
        SegHolds m es numdent (j0 + k) sg
        ∧ rd16 m ((j0 + k) * SEGSIZ + OFF_LINK) = (if k + 1 < l.length then j0 + k + 2 else 0)) →
      ChainHolds m es numdent j0 l := by
  induction l with
  | nil => intro _ _; trivial
  | cons sg rest ih =>
    intro j0 h
    obtain ⟨h1, h2⟩ := h 0 sg (by simp)
    refine ⟨by simpa using h1, ?_, ?_⟩
    · simp only [Nat.add_zero, List.length_cons] at h2
      rw [h2]
      cases rest with
      | nil => simp
      | cons a b => simp
    · apply ih (j0 + 1)
      intro k sg' hk
      obtain ⟨h3, h4⟩ := h (k + 1) sg' (by simpa using hk)
      have e : j0 + (k + 1) = j0 + 1 + k := by omega
      rw [e] at h3 h4
      refine ⟨h3, ?_⟩
      rw [h4]
      simp only [List.length_cons]
      split <;> split <;> omega

theorem l2d_final (es numdent dps smax : Nat) (segs : List (List Rt11DirEnt))
    (cur : List Rt11DirEnt) (st : L2DState)
    (hes : 14 ≤ es) (hfit : numdent * es ≤ 1014) (hdn : dps ≤ numdent)
    (hL : L2DLaid es numdent dps smax segs cur st) :
    ∃ dp, st.dirptr = some dp
      ∧ ∀ mf, mf = (if st.dentnum < numdent then wr16 (wr16 st.mem (dp + OFF_BLOCKS) 0) dp ENDBLK
                    else st.mem) →
        ChainHolds mf es numdent 0 (segs ++ [cur])
        ∧ DIRLEN + rd16 mf OFF_EXTRA = es
        ∧ rd16 mf OFF_LAST = segs.length + 1
        ∧ rd16 mf 0 = smax := by
  have hS : SEGSIZ = 1024 := rfl
  have hD : DIRLEN = 14 := rfl
  have hG : SEGLEN = 10 := rfl
  have hX : OFF_EXTRA = 6 := rfl
  have hK : OFF_LINK = 2 := rfl
  have hA : OFF_LAST = 4 := rfl
  have hB : OFF_BLOCKS = 8 := rfl
  have hE : ENDBLK % 65536 = ENDBLK := by decide
  refine ⟨_, hL.dirptr, ?_⟩
  intro mf hmf
  have hcl := hL.curLe
  -- frame of the final marker
  have f16 : ∀ b, (b + 2 ≤ slotAddr es segs.length cur.length
      ∨ slotAddr es segs.length cur.length + 10 ≤ b) → rd16 mf b = rd16 st.mem b := by
    intro b hb
    rw [hmf]
    split
    · rw [rd16_wr16_other _ _ _ _ (by omega), rd16_wr16_other _ _ _ _ (by omega)]
    · rfl
  have fEnt : ∀ b, (b + DIRLEN ≤ slotAddr es segs.length cur.length
      ∨ slotAddr es segs.length cur.length + 10 ≤ b) → rdDirEnt mf b = rdDirEnt st.mem b := by
    intro b hb
    rw [hmf]
    split
    · rw [rdDirEnt_wr16_other _ _ _ _ (by omega), rdDirEnt_wr16_other _ _ _ _ (by omega)]
    · rfl
  have hmark : cur.length < numdent → rd16 mf (slotAddr es segs.length cur.length) = ENDBLK := by
    intro h
    rw [hmf, if_pos (by rw [hL.dentnum]; exact h), rd16_wr16_same, hE]
  refine ⟨?_, ?_, ?_, ?_⟩
  · apply chainHolds_of_pointwise
    intro k sg hk
    have hkl := getElem?_lt _ _ _ hk
    simp only [List.length_append, List.length_singleton] at hkl
    simp only [Nat.zero_add, List.length_append, List.length_singleton]
    rcases Nat.lt_or_ge k segs.length with hlt | hge
    · rw [List.getElem?_append_left hlt] at hk
      obtain ⟨h1, h2, h3, h4⟩ := hL.doneOk k sg hk
      refine ⟨⟨by omega, ?_, ?_⟩, ?_⟩
      · intro i e hi
        have hib := slot_bound es numdent i hfit (by have := getElem?_lt _ _ _ hi; omega)
        rw [fEnt _ (by simp only [slotAddr, hS, hG, hD]; omega)]
        exact h2 i e hi
      · intro hd
        rw [h1] at hd ⊢
        have hib := slot_bound es numdent dps hfit hd
        rw [f16 _ (by simp only [slotAddr, hS, hG, hD]; omega)]
        exact h3 hd
      · rw [f16 _ (by simp only [slotAddr, hS, hG, hK]; omega), h4, if_pos (by omega)]
    · have hke : k = segs.length := by omega
      subst hke
      rw [List.getElem?_append_right (le_refl _)] at hk
      simp at hk
      subst hk
      refine ⟨⟨by omega, ?_, hmark⟩, ?_⟩
      · intro i e hi
        have hil := getElem?_lt _ _ _ hi
        have him := slot_mono es i cur.length hil
        rw [fEnt _ (by simp only [slotAddr, hS, hG, hD]; omega)]
        exact hL.curOk i e hi
      · rw [f16 _ (by simp only [slotAddr, hS, hG, hK]; omega), hL.link0, if_neg (by omega)]
  · rw [f16 _ (by simp only [slotAddr, hS, hG, hX]; omega)]
    exact hL.extra
  · rw [f16 _ (by simp only [slotAddr, hS, hG, hA]; omega)]
    exact hL.last
  · rw [f16 _ (by simp only [slotAddr, hS, hG]; omega)]
    exact hL.smaxOk


theorem parseSegments_nonempty (m : Mem) (numdent maxseg : Nat) (l : List (List Rt11DirEnt))
    (o : Options) (hl : l ≠ [])
    (hchain : ChainHolds m (DIRLEN + rd16 m OFF_EXTRA) numdent 0 l)
    (hno : ∀ sg ∈ l, ∀ e ∈ sg, e.control &&& ENDBLK = 0)
    (hlen : l.length ≤ maxseg) (hlast : l.length ≤ rd16 m OFF_LAST) :
    (parseSegments m numdent maxseg none o).wDirArray.map (fun w => w.rt11)
      = o.wDirArray.map (fun w => w.rt11) ++ l.flatten := by
  cases l with
  | nil => exact absurd rfl hl
  | cons a b => exact parseSegments_top m numdent maxseg a b o hchain hno hlen hlast

theorem linearToDisk_success (o r : Options) (h : linearToDisk o = some (r, 0)) :
    ∃ dps, dps ≤ o.numdent ∧ o.numWdirs ≤ dps * o.maxseg
      ∧ r.directory =
          (match (o.wDirArray.foldl (l2dStep o.numdent dps)
              { mem := o.directory, relseg := 0, segptr := none, dirptr := none,
                dentnum := o.numdent, accumLBA := o.seg1LBA }).dirptr with
           | some dp =>
             if (o.wDirArray.foldl (l2dStep o.numdent dps)
                  { mem := o.directory, relseg := 0, segptr := none, dirptr := none,
                    dentnum := o.numdent, accumLBA := o.seg1LBA }).dentnum < o.numdent then
               wr16 (wr16 (o.wDirArray.foldl (l2dStep o.numdent dps)
                  { mem := o.directory, relseg := 0, segptr := none, dirptr := none,
                    dentnum := o.numdent, accumLBA := o.seg1LBA }).mem (dp + OFF_BLOCKS) 0)
                 dp ENDBLK
             else (o.wDirArray.foldl (l2dStep o.numdent dps)
                  { mem := o.directory, relseg := 0, segptr := none, dirptr := none,
                    dentnum := o.numdent, accumLBA := o.seg1LBA }).mem
           | none => (o.wDirArray.foldl (l2dStep o.numdent dps)
                  { mem := o.directory, relseg := 0, segptr := none, dirptr := none,
                    dentnum := o.numdent, accumLBA := o.seg1LBA }).mem) := by
  unfold linearToDisk at h
  split at h
  · cases h
  · rename_i dps hdps
    split at h
    · simp at h
    · rename_i hc
      simp only [Option.some.injEq, Prod.mk.injEq, and_true] at h
      refine ⟨dps, by omega, by omega, ?_⟩
      rw [← h]

/-- C1 (amended): round trip of the serializer and the parser.  With the
geometry `checkHeader` records, a working list whose entries fit their C types
and carry no end-marker bit, and a successful `linearToDisk`: parsing the
buffer it produced gives back the entries of the working list, in order and
in the same number, whenever the list is not empty; for an empty list the
buffer is left as it was, so the same holds when that buffer held no entry. -/
theorem linearToDisk_parse_roundtrip (o r : Options)
    (hgeom : (o.maxseg, o.numdent) = checkHeaderGeometry o.directory)
    (hty : ∀ w ∈ o.wDirArray, w.rt11.WellTyped)
    (hnoend : ∀ w ∈ o.wDirArray, w.rt11.control &&& ENDBLK = 0)
    (hne : o.wDirArray ≠ []
      ∨ (parse_directory (reopenOptions o.directory o)).wDirArray = [])
    (hok : linearToDisk o = some (r, 0)) :
    (parse_directory (reopenOptions r.directory o)).wDirArray.map (fun w => w.rt11)
      = o.wDirArray.map (fun w => w.rt11) := by
  obtain ⟨dps, hdn, hcap, hdir⟩ := linearToDisk_success o r hok
  simp only [checkHeaderGeometry, Prod.mk.injEq] at hgeom
  obtain ⟨hmaxseg, hnumdent⟩ := hgeom
  cases hwl : o.wDirArray with
  | nil =>
    rw [hwl] at hdir
    simp only [List.foldl_nil, Nat.lt_irrefl, if_false] at hdir
    rcases hne with h | h
    · exact absurd hwl h
    · rw [hdir, h]
  | cons w0 rest =>
    have hS : (SEGSIZ - SEGLEN : Nat) = 1014 := rfl
    have hD : DIRLEN = 14 := rfl
    have hN : o.numWdirs = rest.length + 1 := by simp [Options.numWdirs, hwl]
    have hes : 14 ≤ DIRLEN + rd16 o.directory OFF_EXTRA := by omega
    have hfit : o.numdent * (DIRLEN + rd16 o.directory OFF_EXTRA) ≤ 1014 := by
      rw [hnumdent, hS]
      exact Nat.div_mul_le_self _ _
    have hmax : o.maxseg ≤ 65535 := by
      have := rd16_lt o.directory 0
      omega
    have hd1 : 1 ≤ dps := by
      rcases Nat.eq_zero_or_pos dps with h | h
      · rw [h, Nat.zero_mul] at hcap
        omega
      · exact h
    have hw0 : w0.rt11.WellTyped := hty w0 (by rw [hwl]; simp)
    have hfirst := l2dStep_first o.numdent dps o.directory o.seg1LBA w0 hd1 hdn hw0
    obtain ⟨segs, cur, hL, hflat, hcount⟩ := l2d_fold _ o.numdent dps _ o.maxseg hes hfit hd1 hdn
      hmax rest [] [w0.rt11] _ hfirst
      (fun w hw => hty w (by rw [hwl]; exact List.mem_cons_of_mem _ hw))
      (by simp only [List.length_nil, Nat.zero_mul, List.length_singleton]; omega)
    obtain ⟨dp, hdp, hfin⟩ := l2d_final _ o.numdent dps _ segs cur _ hes hfit hdn hL
    rw [hwl] at hdir
    simp only [List.foldl_cons] at hdir
    rw [hdp] at hdir
    obtain ⟨hchain, hextra, hlast, hsmax⟩ := hfin r.directory hdir
    have hg1 : (checkHeaderGeometry r.directory).1 = o.maxseg := by
      simp only [checkHeaderGeometry]
      rw [hsmax, hmaxseg]
    have hg2 : (checkHeaderGeometry r.directory).2 = o.numdent := by
      simp only [checkHeaderGeometry]
      rw [hextra, hnumdent]
    rw [parse_directory_list]
    simp only [reopenOptions, Options.init, hg1, hg2]
    rw [← hextra] at hchain
    have hall : segs.flatten ++ cur = (w0 :: rest).map (fun w => w.rt11) := by
      rw [hflat]; simp
    rw [parseSegments_nonempty r.directory o.numdent o.maxseg (segs ++ [cur]) _ (by simp) hchain
      ?_ (by simp only [List.length_append, List.length_singleton]; omega)
      (by simp only [List.length_append, List.length_singleton]; omega)]
    · simp only [List.map_nil, List.nil_append, List.flatten_append, List.flatten_cons,
        List.flatten_nil, List.append_nil]
      exact hall
    · intro sg hsg e he
      have hmem : e ∈ segs.flatten ++ cur := by
        rcases List.mem_append.mp hsg with h | h
        · exact List.mem_append_left _ (List.mem_flatten.mpr ⟨sg, h, he⟩)
        · simp only [List.mem_singleton] at h
          subst h
          exact List.mem_append_right _ he
      rw [hall] at hmem
      obtain ⟨w, hw, hwe⟩ := List.mem_map.mp hmem
      rw [← hwe]
      exact hnoend w (by rw [hwl]; exact hw)


/-- C1 at a concrete volume: the five entries of `sqzExampleList 33`, laid out by
`linearToDisk` in one segment of 72 slots, parse back unchanged. -/
theorem linearToDisk_parse_roundtrip_witness :
    linearToDisk packExample = some (packExampleResult, 0)
    ∧ (parse_directory (reopenOptions packExampleResult.directory packExample)).wDirArray.map
          (fun w => w.rt11)
        = (sqzExampleList 33).map (fun w => w.rt11) :=
  ⟨by rfl,
   linearToDisk_parse_roundtrip packExample packExampleResult (by rfl) (by decide) (by decide)
     (Or.inl (by simp [packExample, sqzExampleList])) (by rfl)⟩

/-- C1 (as stated) fails on an empty working list over a buffer that is not
empty: `linearToDisk` succeeds without writing anything, so the buffer still
parses to its five entries while the working list has none. -/
theorem linearToDisk_empty_list_counterexample :
    staleExample.wDirArray = []
    ∧ (staleExample.maxseg, staleExample.numdent) = checkHeaderGeometry staleExample.directory
    ∧ (linearToDisk staleExample).map (fun r => r.2) = some 0
    ∧ (linearToDisk staleExample).map (fun r =>
          ((parse_directory (reopenOptions r.1.directory staleExample)).wDirArray.map
            (fun w => (w.rt11.control, w.rt11.name.w0, w.rt11.blocks))))
        = some [(PERM, 1, 5), (EMPTY, 0, 7), (PERM, 2, 3), (PERM, 3, 4), (EMPTY, 0, 33)] :=
  ⟨by rfl, by rfl, by rfl, by rfl⟩


/-! ### Squeeze (output.c) -/

/-- C2 (defect of the code): on a single density floppy with one directory
segment holding three files and two free areas, `createNewContainer` returns
0 after opening a second output segment although the new directory has one
(`maxSeg = 1`); every store lies inside the floppy image, the trailing free
entry is stored at byte 1034, behind the 1024 bytes of the directory, and the
directory of the new container parses to the three files only, with no free
entry. -/
theorem createNewContainer_loses_free_entry :
    ((sqzExampleVolume CMDOPT_SINGLE_FLPY 500 473).wDirArray.map
        (fun w => (w.rt11.control, w.rt11.name.w0, w.rt11.blocks, w.lba))
      = [(PERM, 1, 5, 8), (EMPTY, 0, 7, 13), (PERM, 2, 3, 20), (PERM, 3, 4, 23),
         (EMPTY, 0, 473, 27)])
    ∧ ((createNewContainer (sqzExampleVolume CMDOPT_SINGLE_FLPY 500 473) sqzAllOk).map
        (fun r => (r.ret, r.maxSeg, r.oSegNum, r.freeAt,
          (parse_directory r.reopen).wDirArray.map
            (fun w => (w.rt11.control, w.rt11.name.w0, w.rt11.blocks, w.lba))))
      = Except.ok (0, 1, 2, 1034, [(PERM, 1, 5, 8), (PERM, 2, 3, 13), (PERM, 3, 4, 16)])) :=
  ⟨by rfl, by rfl⟩

/-- C3 (defect of the code): when every seek of the copy pass fails and all
other calls succeed, `createNewContainer` does not notice (it tests
`ferror(tmp)` after seeking the container), goes on reading and writing,
returns 0 and swaps the files.  The volume has four files and two free areas
on one directory segment and is rebuilt with two segments; every store of the
run lies inside the new directory buffer. -/
theorem createNewContainer_ignores_seek_failure :
    (growExample.wDirArray.map
        (fun w => (w.rt11.control, w.rt11.name.w0, w.rt11.blocks, w.lba))
      = [(PERM, 1, 5, 8), (EMPTY, 0, 7, 13), (PERM, 2, 3, 20), (EMPTY, 0, 4, 23),
         (PERM, 3, 4, 27), (PERM, 4, 2, 31)])
    ∧ (createNewContainer growExample
        { sqzAllOk with fileSeekOk := fun _ => false }).map
          (fun r => (r.ret, r.maxSeg, r.oSegNum, r.events))
      = Except.ok (0, 2, 2,
          [SqzEvent.unlinkTmp, SqzEvent.createTmp, SqzEvent.seekContainer 0,
           SqzEvent.readContainer 3072, SqzEvent.writeTmp 3072, SqzEvent.writeTmp 2048,
           SqzEvent.seekContainer 4096, SqzEvent.readContainer 2560, SqzEvent.writeTmp 2560,
           SqzEvent.seekContainer 10240, SqzEvent.readContainer 1536, SqzEvent.writeTmp 1536,
           SqzEvent.seekContainer 13824, SqzEvent.readContainer 2048, SqzEvent.writeTmp 2048,
           SqzEvent.seekContainer 15872, SqzEvent.readContainer 1024, SqzEvent.writeTmp 1024,
           SqzEvent.writeTmp 3072, SqzEvent.writeTmp 1536, SqzEvent.seekTmp 3072,
           SqzEvent.writeTmp 2048, SqzEvent.closeTmp, SqzEvent.closeContainer,
           SqzEvent.unlinkBackup, SqzEvent.renameContainerToBackup,
           SqzEvent.renameTmpToContainer]) :=
  ⟨by rfl, by rfl⟩

/-! ### Allocator (do_del.c, do_in.c) -/

theorem list_set_getElem?_self {α : Type} (l : List α) (k : Nat) (a : α) (h : l[k]? = some a) :
    l.set k a = l := by
  have hlt : k < l.length := (List.getElem?_eq_some.mp h).1
  apply List.ext_getElem?
  intro j
  rw [List.getElem?_set]
  split
  · rename_i e; subst e; simp [hlt, h]
  · rfl

theorem preDeleteRelease_spec (o : Options) (k : Nat) (wdp : InWorkingDir)
    (hk : o.wDirArray[k]? = some wdp) :
    ∃ cur : InWorkingDir,
      (cur = wdp ∨ cur = { wdp with rt11 := { wdp.rt11 with control := EMPTY } })
      ∧ (preDeleteRelease o k wdp).wDirArray = o.wDirArray.set k cur
      ∧ (preDeleteRelease o k wdp).iHandle = o.iHandle := by
  unfold preDeleteRelease
  split
  · exact ⟨_, Or.inr rfl, rfl, rfl⟩
  · exact ⟨wdp, Or.inl rfl, (list_set_getElem?_self _ _ _ hk).symm, rfl⟩

theorem preDeleteTrack_spec (o : Options) (k : Nat) (cur : InWorkingDir) :
    (preDeleteTrack o k cur).wDirArray = o.wDirArray
    ∧ (preDeleteTrack o k cur).iHandle.fileBlks = o.iHandle.fileBlks
    ∧ (preDeleteTrack o k cur).iHandle.iNameR50 = o.iHandle.iNameR50
    ∧ (preDeleteTrack o k cur).iHandle.sizeMatch =
        if cur.rt11.control &&& PERM = 0 ∧ o.iHandle.fileBlks ≤ cur.rt11.blocks
            ∧ (∀ j, o.iHandle.sizeMatch = some j → cur.rt11.blocks < blocksAt o.wDirArray j)
        then some k else o.iHandle.sizeMatch := by
  have hs : preDeleteSmaller o cur = true ↔
      ∀ j, o.iHandle.sizeMatch = some j → cur.rt11.blocks < blocksAt o.wDirArray j := by
    unfold preDeleteSmaller
    cases o.iHandle.sizeMatch with
    | none => simp
    | some j => simp
  unfold preDeleteTrack
  by_cases hp : cur.rt11.control &&& PERM = 0
  · by_cases hc : o.iHandle.fileBlks ≤ cur.rt11.blocks ∧ preDeleteSmaller o cur = true
    · rw [if_pos hp, if_pos hc]
      refine ⟨rfl, rfl, rfl, ?_⟩
      rw [if_pos ⟨hp, hc.1, hs.mp hc.2⟩]
    · rw [if_pos hp, if_neg hc]
      refine ⟨rfl, rfl, rfl, ?_⟩
      rw [if_neg (fun h => hc ⟨h.2.1, hs.mpr h.2.2⟩)]
  · rw [if_neg hp]
    refine ⟨rfl, rfl, rfl, ?_⟩
    rw [if_neg (fun h => hp h.1)]

theorem preDeleteStep_spec (o : Options) (k : Nat) (wdp : InWorkingDir)
    (hk : o.wDirArray[k]? = some wdp) :
    ∃ cur : InWorkingDir,
      (cur = wdp ∨ cur = { wdp with rt11 := { wdp.rt11 with control := EMPTY } })
      ∧ (preDeleteStep o k).wDirArray = o.wDirArray.set k cur
      ∧ (preDeleteStep o k).iHandle.fileBlks = o.iHandle.fileBlks
      ∧ (preDeleteStep o k).iHandle.iNameR50 = o.iHandle.iNameR50
      ∧ (preDeleteStep o k).iHandle.sizeMatch =
          if cur.rt11.control &&& PERM = 0 ∧ o.iHandle.fileBlks ≤ cur.rt11.blocks
              ∧ (∀ j, o.iHandle.sizeMatch = some j →
                    cur.rt11.blocks < blocksAt (o.wDirArray.set k cur) j)
          then some k else o.iHandle.sizeMatch := by
  have hlt : k < o.wDirArray.length := (List.getElem?_eq_some.mp hk).1
  obtain ⟨cur, hcur, hl, hi⟩ := preDeleteRelease_spec o k wdp hk
  have hget : (preDeleteRelease o k wdp).wDirArray[k]? = some cur := by
    rw [hl, List.getElem?_set]; simp [hlt]
  obtain ⟨t1, t2, t3, t4⟩ := preDeleteTrack_spec (preDeleteRelease o k wdp) k cur
  refine ⟨cur, hcur, ?_, ?_, ?_, ?_⟩
  · simp only [preDeleteStep, hk, hget]; rw [t1, hl]
  · simp only [preDeleteStep, hk, hget]; rw [t2, hi]
  · simp only [preDeleteStep, hk, hget]; rw [t3, hi]
  · simp only [preDeleteStep, hk, hget]; rw [t4, hi, hl]

theorem blocksAt_of_get (l : List InWorkingDir) (j : Nat) (w : InWorkingDir)
    (h : l[j]? = some w) : blocksAt l j = w.rt11.blocks := by
  simp [blocksAt, h]

theorem bestFit_step (l : List InWorkingDir) (n k : Nat) (sm : Option Nat) (cur : InWorkingDir)
    (hk : k < l.length) (hb : BestFitUpTo l n k sm) :
    BestFitUpTo (l.set k cur) n (k + 1)
      (if cur.rt11.control &&& PERM = 0 ∧ n ≤ cur.rt11.blocks
          ∧ (∀ j, sm = some j → cur.rt11.blocks < blocksAt (l.set k cur) j)
       then some k else sm) := by
  have hlo : ∀ j, j < k → (l.set k cur)[j]? = l[j]? := fun j hj =>
    List.getElem?_set_ne (by omega)
  have hkk : (l.set k cur)[k]? = some cur := by
    rw [List.getElem?_set]; simp [hk]
  obtain ⟨hsome, hnone⟩ := hb
  split
  · rename_i hC
    obtain ⟨hp, hfit, hsmall⟩ := hC
    refine ⟨?_, fun h => by simp at h⟩
    intro i hi
    have hik : i = k := by simpa using hi.symm
    subst hik
    refine ⟨by omega, cur, hkk, hp, hfit, ?_⟩
    intro j w' hj hw' hp' hfit'
    rcases Nat.lt_or_ge j i with hlt | hge
    · left
      rw [hlo j hlt] at hw'
      cases hsm : sm with
      | none => exact absurd hfit' (hnone hsm j w' hlt hw' hp')
      | some b =>
        obtain ⟨hbk, w, hw, -, -, hmin⟩ := hsome b hsm
        have h1 := hsmall b hsm
        rw [blocksAt_of_get _ b w (by rw [hlo b hbk]; exact hw)] at h1
        rcases hmin j w' hlt hw' hp' hfit' with h2 | h2
        · omega
        · omega
    · have : j = i := by omega
      subst this
      rw [hkk] at hw'
      cases hw'
      exact Or.inr ⟨rfl, le_refl _⟩
  · rename_i hC
    refine ⟨?_, ?_⟩
    · intro i hi
      obtain ⟨hik, w, hw, hp, hfit, hmin⟩ := hsome i hi
      refine ⟨by omega, w, by rw [hlo i hik]; exact hw, hp, hfit, ?_⟩
      intro j w' hj hw' hp' hfit'
      rcases Nat.lt_or_ge j k with hlt | hge
      · rw [hlo j hlt] at hw'
        exact hmin j w' hlt hw' hp' hfit'
      · have : j = k := by omega
        subst this
        rw [hkk] at hw'
        cases hw'
        have hns : ¬ cur.rt11.blocks < blocksAt (l.set j cur) i := fun hlt' =>
          hC ⟨hp', hfit', fun b hb => by
            rw [hi] at hb
            cases hb
            exact hlt'⟩
        rw [blocksAt_of_get _ i w (by rw [hlo i hik]; exact hw)] at hns
        omega
    · intro hsm j w' hj hw' hp' hfit'
      rcases Nat.lt_or_ge j k with hlt | hge
      · rw [hlo j hlt] at hw'
        exact hnone hsm j w' hlt hw' hp' hfit'
      · have : j = k := by omega
        subst this
        rw [hkk] at hw'
        cases hw'
        exact hC ⟨hp', hfit', fun b hb => by rw [hsm] at hb; cases hb⟩

theorem preDelete_fold (o : Options) (k : Nat) (hk : k ≤ o.wDirArray.length) :
    let ok := (List.range k).foldl preDeleteStep
      { o with iHandle := { o.iHandle with sizeMatch := none } }
    ok.wDirArray.length = o.wDirArray.length
    ∧ ok.iHandle.fileBlks = o.iHandle.fileBlks
    ∧ (∀ j, k ≤ j → ok.wDirArray[j]? = o.wDirArray[j]?)
    ∧ ok.wDirArray.map (fun w => (w.lba, w.rt11.blocks))
        = o.wDirArray.map (fun w => (w.lba, w.rt11.blocks))
    ∧ BestFitUpTo ok.wDirArray o.iHandle.fileBlks k ok.iHandle.sizeMatch := by
  induction k with
  | zero =>
    refine ⟨rfl, rfl, fun _ _ => rfl, rfl, ?_, ?_⟩
    · intro i hi; simp at hi
    · intro _ j w' hj; omega
  | succ k ih =>
    obtain ⟨h1, h2, h3, h4, h5⟩ := ih (by omega)
    simp only [List.range_succ, List.foldl_append, List.foldl_cons, List.foldl_nil]
    generalize (List.range k).foldl preDeleteStep
      { o with iHandle := { o.iHandle with sizeMatch := none } } = ok at h1 h2 h3 h4 h5
    have hklt : k < ok.wDirArray.length := by omega
    obtain ⟨wdp, hwdp⟩ : ∃ wdp, ok.wDirArray[k]? = some wdp :=
      ⟨_, List.getElem?_eq_getElem hklt⟩
    obtain ⟨cur, hcur, s1, s2, -, s4⟩ := preDeleteStep_spec ok k wdp hwdp
    refine ⟨?_, ?_, ?_, ?_, ?_⟩
    · rw [s1, List.length_set, h1]
    · rw [s2, h2]
    · intro j hj
      rw [s1, List.getElem?_set_ne (by omega), h3 j (by omega)]
    · rw [← h4, s1]
      apply List.ext_getElem?
      intro j
      rw [List.getElem?_map, List.getElem?_map, List.getElem?_set]
      split
      · rename_i e
        subst e
        simp only [hklt, if_true, hwdp, Option.map_some']
        rcases hcur with rfl | rfl <;> rfl
      · rfl
    · rw [s1, s4, h2]
      exact bestFit_step ok.wDirArray _ k _ cur hklt h5

/-- C4: best fit of `preDelete`.  After the sweep the selected entry is a
non-permanent entry of at least `fileBlks` blocks, no such entry is smaller,
and among those of the same size it has the lowest index; `sizeMatch` is
`NULL` exactly when no non-permanent entry is large enough.  Free sizes
30, 12, 50 with a request of 10 select the 12-block entry; sizes 10, 10 select
the first. -/
theorem preDelete_bestFit (o : Options) :
    (∀ i, (preDelete o).iHandle.sizeMatch = some i →
      ∃ w, (preDelete o).wDirArray[i]? = some w ∧ w.rt11.control &&& PERM = 0
        ∧ o.iHandle.fileBlks ≤ w.rt11.blocks
        ∧ ∀ (j : Nat) (w' : InWorkingDir), (preDelete o).wDirArray[j]? = some w' → w'.rt11.control &&& PERM = 0 →
            o.iHandle.fileBlks ≤ w'.rt11.blocks →
            w.rt11.blocks < w'.rt11.blocks ∨ (w.rt11.blocks = w'.rt11.blocks ∧ i ≤ j))
    ∧ ((preDelete o).iHandle.sizeMatch = none ↔
        ∀ (j : Nat) (w' : InWorkingDir), (preDelete o).wDirArray[j]? = some w' → w'.rt11.control &&& PERM = 0 →
          ¬ o.iHandle.fileBlks ≤ w'.rt11.blocks)
    ∧ (preDelete (exampleOptions [freeEntry 30 100, freeEntry 12 130, freeEntry 50 142] 10
          exampleName)).iHandle.sizeMatch = some 1
    ∧ (preDelete (exampleOptions [freeEntry 10 100, freeEntry 10 110] 10
          exampleName)).iHandle.sizeMatch = some 0 := by
  obtain ⟨h1, -, -, -, hsome, hnone⟩ := preDelete_fold o o.wDirArray.length (le_refl _)
  have hfold : (List.range o.wDirArray.length).foldl preDeleteStep
      { o with iHandle := { o.iHandle with sizeMatch := none } } = preDelete o := rfl
  simp only [hfold] at h1 hsome hnone
  have hlt : ∀ (j : Nat) (w' : InWorkingDir), (preDelete o).wDirArray[j]? = some w' → j < o.wDirArray.length :=
    fun j w' h => by
      have := (List.getElem?_eq_some.mp h).1
      omega
  refine ⟨?_, ⟨?_, ?_⟩, by decide, by decide⟩
  · intro i hi
    obtain ⟨-, w, hw, hp, hfit, hmin⟩ := hsome i hi
    exact ⟨w, hw, hp, hfit, fun j w' hj => hmin j w' (hlt j w' hj) hj⟩
  · intro hn j w' hj
    exact hnone hn j w' (hlt j w' hj) hj
  · intro hall
    cases hsm : (preDelete o).iHandle.sizeMatch with
    | none => rfl
    | some i =>
      obtain ⟨-, w, hw, hp, hfit, -⟩ := hsome i hsm
      exact absurd hfit (hall i w hw hp)

theorem list_split_at {α : Type} (l : List α) (i : Nat) (a : α) (h : l[i]? = some a) :
    l = l.take i ++ a :: l.drop (i + 1) := by
  obtain ⟨hlt, hget⟩ := List.getElem?_eq_some.mp h
  conv_lhs => rw [← List.take_append_drop i l, List.drop_eq_getElem_cons hlt, hget]

theorem do_in_write_list (o : Options) (res : WriteResults) :
    (do_in_write o res).1.wDirArray = o.wDirArray := by
  unfold do_in_write writeFileToContainer
  repeat' split
  all_goals rfl

theorem do_in_alloc_list (o : Options) (res : WriteResults) (i : Nat) (wdp : InWorkingDir)
    (hsm : o.iHandle.sizeMatch = some i) (hw : o.wDirArray[i]? = some wdp)
    (hfit : o.iHandle.fileBlks ≤ wdp.rt11.blocks) :
    (do_in_alloc o res).1.wDirArray =
      if wdp.rt11.blocks = o.iHandle.fileBlks then
        o.wDirArray.take i ++ do_in_entry o wdp wdp.lba :: o.wDirArray.drop (i + 1)
      else if o.maxseg * o.numdent ≤ o.numWdirs + 1 then o.wDirArray
      else
        o.wDirArray.take i ++ do_in_entry o wdp wdp.lba ::
          { wdp with
            rt11 := { wdp.rt11 with blocks := (wdp.rt11.blocks - o.iHandle.fileBlks) % 65536 },
            lba := wdp.lba + o.iHandle.fileBlks } :: o.wDirArray.drop (i + 1) := by
  have hlt : i < o.wDirArray.length := (List.getElem?_eq_some.mp hw).1
  have hnl : ¬ wdp.rt11.blocks < o.iHandle.fileBlks := by omega
  simp only [do_in_alloc, hsm, hw, hnl, if_false]
  by_cases he : wdp.rt11.blocks = o.iHandle.fileBlks
  · have hs : do_in_split o i wdp = some o.wDirArray := by
      unfold do_in_split
      rw [if_neg (by simpa using he)]
    simp only [hs, hw, do_in_write_list, if_pos he]
    exact List.set_eq_take_cons_drop _ hlt
  · rw [if_neg he]
    by_cases hfull : o.maxseg * o.numdent ≤ o.numWdirs + 1
    · have hs : do_in_split o i wdp = none := by
        unfold do_in_split
        rw [if_pos he, if_pos (by push_cast; omega)]
      simp only [hs, if_pos hfull]
    · rw [if_neg hfull]
      have hs : do_in_split o i wdp = some (o.wDirArray.take i ++
          { wdp with
            rt11 := { wdp.rt11 with blocks := (wdp.rt11.blocks - o.iHandle.fileBlks) % 65536 },
            lba := wdp.lba + o.iHandle.fileBlks } ::
          { wdp with
            rt11 := { wdp.rt11 with blocks := (wdp.rt11.blocks - o.iHandle.fileBlks) % 65536 },
            lba := wdp.lba + o.iHandle.fileBlks } :: o.wDirArray.drop (i + 1)) := by
        unfold do_in_split
        rw [if_pos he, if_neg (by push_cast; omega)]
        simp only [Option.some.injEq]
        rw [List.set_eq_take_cons_drop _ hlt]
        have hlen : (List.take i o.wDirArray).length = i := by
          rw [List.length_take]; omega
        rw [List.drop_left' hlen]
        rw [List.take_append_eq_append_take, hlen, List.take_of_length_le (by omega)]
        simp
      have hget : (o.wDirArray.take i ++
          { wdp with
            rt11 := { wdp.rt11 with blocks := (wdp.rt11.blocks - o.iHandle.fileBlks) % 65536 },
            lba := wdp.lba + o.iHandle.fileBlks } ::
          { wdp with
            rt11 := { wdp.rt11 with blocks := (wdp.rt11.blocks - o.iHandle.fileBlks) % 65536 },
            lba := wdp.lba + o.iHandle.fileBlks } :: o.wDirArray.drop (i + 1))[i]?
          = some { wdp with
            rt11 := { wdp.rt11 with blocks := (wdp.rt11.blocks - o.iHandle.fileBlks) % 65536 },
            lba := wdp.lba + o.iHandle.fileBlks } := by
        rw [List.getElem?_append_right (by rw [List.length_take]; omega)]
        simp [List.length_take, Nat.min_eq_left (le_of_lt hlt)]
      simp only [hs, hget, do_in_write_list]
      rw [List.set_append_right _ _ (by rw [List.length_take]; omega)]
      simp [List.length_take, Nat.min_eq_left (le_of_lt hlt), do_in_entry]

/-- C5: placement by `do_in`.  With the selected free entry `wdp` at index `i`
(LBA `L`, size `s`) and a file of `n <= s` blocks: when `s = n` the entry at
`i` becomes permanent with the new name, `n` blocks and LBA `L`, `numWdirs`
and every other entry are unchanged; when `s > n` and a slot is available
`numWdirs` grows by one, index `i` holds the new permanent entry (new name,
`n` blocks, LBA `L`), index `i+1` the free remainder (`s - n` blocks, LBA
`L + n`), every entry formerly at `j > i` is at `j+1`, entries before `i` are
unchanged. -/
theorem do_in_alloc_places (o : Options) (res : WriteResults) (i : Nat) (wdp : InWorkingDir)
    (hsm : o.iHandle.sizeMatch = some i) (hw : o.wDirArray[i]? = some wdp)
    (hfree : wdp.rt11.control &&& PERM = 0) (hty : wdp.rt11.blocks < 65536)
    (hfit : o.iHandle.fileBlks ≤ wdp.rt11.blocks) :
    (wdp.rt11.blocks = o.iHandle.fileBlks →
      (do_in_alloc o res).1.numWdirs = o.numWdirs
      ∧ (∃ e, (do_in_alloc o res).1.wDirArray[i]? = some e
          ∧ e.rt11.control = PERM ∧ e.rt11.name = o.iHandle.iNameR50
          ∧ e.rt11.blocks = o.iHandle.fileBlks ∧ e.lba = wdp.lba)
      ∧ ∀ j, j ≠ i → (do_in_alloc o res).1.wDirArray[j]? = o.wDirArray[j]?)
    ∧ (o.iHandle.fileBlks < wdp.rt11.blocks → o.numWdirs + 1 < o.maxseg * o.numdent →
      (do_in_alloc o res).1.numWdirs = o.numWdirs + 1
      ∧ (∃ e, (do_in_alloc o res).1.wDirArray[i]? = some e
          ∧ e.rt11.control = PERM ∧ e.rt11.name = o.iHandle.iNameR50
          ∧ e.rt11.blocks = o.iHandle.fileBlks ∧ e.lba = wdp.lba)
      ∧ (∃ r, (do_in_alloc o res).1.wDirArray[i + 1]? = some r
          ∧ r.rt11.control &&& PERM = 0
          ∧ r.rt11.blocks = wdp.rt11.blocks - o.iHandle.fileBlks
          ∧ r.lba = wdp.lba + o.iHandle.fileBlks)
      ∧ (∀ j, i < j → (do_in_alloc o res).1.wDirArray[j + 1]? = o.wDirArray[j]?)
      ∧ ∀ j, j < i → (do_in_alloc o res).1.wDirArray[j]? = o.wDirArray[j]?) := by
  have hlt : i < o.wDirArray.length := (List.getElem?_eq_some.mp hw).1
  have hlen : (List.take i o.wDirArray).length = i := by
    rw [List.length_take]; omega
  have hl := do_in_alloc_list o res i wdp hsm hw hfit
  have hn : o.iHandle.fileBlks % 65536 = o.iHandle.fileBlks := Nat.mod_eq_of_lt (by omega)
  constructor
  · intro he
    rw [if_pos he] at hl
    refine ⟨?_, ⟨do_in_entry o wdp wdp.lba, ?_, rfl, rfl, hn, rfl⟩, ?_⟩
    · simp only [Options.numWdirs, hl, List.length_append, List.length_cons, List.length_take,
        List.length_drop]
      omega
    · rw [hl, List.getElem?_append_right (by omega), hlen]
      simp
    · intro j hj
      rw [hl, ← List.set_eq_take_cons_drop _ hlt, List.getElem?_set_ne (Ne.symm hj)]
  · intro hlt' hslot
    rw [if_neg (by omega), if_neg (by simp only [Options.numWdirs] at hslot ⊢; omega)] at hl
    refine ⟨?_, ⟨do_in_entry o wdp wdp.lba, ?_, rfl, rfl, hn, rfl⟩,
      ⟨{ wdp with
          rt11 := { wdp.rt11 with blocks := (wdp.rt11.blocks - o.iHandle.fileBlks) % 65536 },
          lba := wdp.lba + o.iHandle.fileBlks }, ?_, hfree, ?_, rfl⟩, ?_, ?_⟩
    · simp only [Options.numWdirs, hl, List.length_append, List.length_cons, List.length_take,
        List.length_drop]
      omega
    · rw [hl, List.getElem?_append_right (by omega), hlen]
      simp
    · rw [hl, List.getElem?_append_right (by omega), hlen]
      simp
    · exact Nat.mod_eq_of_lt (by omega)
    · intro j hj
      rw [hl, List.getElem?_append_right (by omega), hlen]
      obtain ⟨d, rfl⟩ : ∃ d, j = i + 1 + d := ⟨j - (i + 1), by omega⟩
      have : i + 1 + d + 1 - i = d + 2 := by omega
      rw [this]
      simp [List.getElem?_drop]
    · intro j hj
      rw [hl, List.getElem?_append_left (by omega), List.getElem?_take, if_pos hj]

theorem do_in_alloc_places_witness :
    (do_in_alloc (preDelete (exampleOptions
        [freeEntry 30 100, freeEntry 12 130, freeEntry 50 142] 10 exampleName))
      { reopenOk := true, seekOk := true, writeOk := true }).1.wDirArray
      = [freeEntry 30 100,
         { exampleEntry PERM exampleName 10 130 with
           rt11 := { (exampleEntry PERM exampleName 10 130).rt11 with date := 1056 } },
         freeEntry 2 140, freeEntry 50 142]
    ∧ (do_in_alloc (preDelete (exampleOptions
        [freeEntry 30 100, freeEntry 12 130, freeEntry 50 142] 10 exampleName))
      { reopenOk := true, seekOk := true, writeOk := true }).1.numWdirs = 3 + 1 :=
  ⟨by decide,
   ((do_in_alloc_places (preDelete (exampleOptions
        [freeEntry 30 100, freeEntry 12 130, freeEntry 50 142] 10 exampleName))
      { reopenOk := true, seekOk := true, writeOk := true } 1 (freeEntry 12 130)
      (by decide) (by decide) (by decide) (by decide) (by decide)).2
      (by decide) (by decide)).1⟩

theorem tiled_iff_map (l : List InWorkingDir) :
    Tiled l ↔ List.Chain' (fun a b : Nat × Nat => b.1 = a.1 + a.2)
      (l.map (fun w => (w.lba, w.rt11.blocks))) := by
  unfold Tiled
  rw [List.chain'_map]

theorem tiled_congr (l l' : List InWorkingDir)
    (h : l'.map (fun w => (w.lba, w.rt11.blocks)) = l.map (fun w => (w.lba, w.rt11.blocks)))
    (hT : Tiled l) : Tiled l' := by
  rw [tiled_iff_map] at hT ⊢
  rw [h]
  exact hT

theorem blocksTyped_congr (l l' : List InWorkingDir)
    (h : l'.map (fun w => (w.lba, w.rt11.blocks)) = l.map (fun w => (w.lba, w.rt11.blocks)))
    (hB : ∀ w ∈ l, w.rt11.blocks < 65536) : ∀ w ∈ l', w.rt11.blocks < 65536 := by
  intro w hw
  have : (w.lba, w.rt11.blocks) ∈ l.map (fun w => (w.lba, w.rt11.blocks)) := by
    rw [← h]
    exact List.mem_map_of_mem _ hw
  obtain ⟨v, hv, hvw⟩ := List.mem_map.mp this
  have := hB v hv
  simp only [Prod.mk.injEq] at hvw
  omega

theorem preDelete_map (o : Options) :
    (preDelete o).wDirArray.map (fun w => (w.lba, w.rt11.blocks))
      = o.wDirArray.map (fun w => (w.lba, w.rt11.blocks)) :=
  (preDelete_fold o o.wDirArray.length (le_refl _)).2.2.2.1

theorem delEntry_map (o : Options) (ii : Nat) (wdp : InWorkingDir)
    (h : o.wDirArray[ii]? = some wdp) :
    (delEntry o ii wdp).wDirArray.map (fun w => (w.lba, w.rt11.blocks))
      = o.wDirArray.map (fun w => (w.lba, w.rt11.blocks)) := by
  have hlt : ii < o.wDirArray.length := (List.getElem?_eq_some.mp h).1
  simp only [delEntry]
  apply List.ext_getElem?
  intro j
  rw [List.getElem?_map, List.getElem?_map, List.getElem?_set]
  split
  · rename_i e
    subst e
    simp [hlt, h]
  · rfl

theorem do_del_loop_map (filterFilename : List Char → Bool) (idx answers : List Nat)
    (o : Options) :
    (do_del_loop filterFilename idx answers o).wDirArray.map (fun w => (w.lba, w.rt11.blocks))
      = o.wDirArray.map (fun w => (w.lba, w.rt11.blocks)) := by
  induction idx generalizing answers o with
  | nil => rfl
  | cons ii rest ih =>
    rw [do_del_loop]
    split
    · exact ih _ _
    · rename_i wdp hw
      split
      · exact ih _ _
      · split
        · exact ih _ _
        · split
          · dsimp only
            split
            · rfl
            · split
              · exact ih _ _
              · rw [ih, delEntry_map o ii wdp hw]
          · rw [ih, delEntry_map o ii wdp hw]

theorem linearToDisk_list (o : Options) (r : Options × Nat) (h : linearToDisk o = some r) :
    r.1.wDirArray = o.wDirArray := by
  unfold linearToDisk at h
  split at h
  · cases h
  · split at h
    · cases h; rfl
    · cases h; rfl

theorem tiled_split (A B : List InWorkingDir) (wdp new rest : InWorkingDir)
    (hT : Tiled (A ++ wdp :: B)) (h1 : new.lba = wdp.lba)
    (h2 : rest.lba = new.lba + new.rt11.blocks)
    (h3 : rest.lba + rest.rt11.blocks = wdp.lba + wdp.rt11.blocks) :
    Tiled (A ++ new :: rest :: B) := by
  unfold Tiled at hT ⊢
  rw [List.chain'_split] at hT ⊢
  obtain ⟨hA, hB⟩ := hT
  constructor
  · rw [List.chain'_append] at hA ⊢
    refine ⟨hA.1, List.chain'_singleton _, ?_⟩
    intro x hx y hy
    have := hA.2.2 x hx wdp (by simp)
    simp only [List.head?_cons, Option.mem_def, Option.some.injEq] at hy
    subst hy
    omega
  · refine List.Chain'.cons h2 ?_
    cases B with
    | nil => exact List.chain'_singleton _
    | cons b B' =>
      rw [List.chain'_cons] at hB ⊢
      exact ⟨by have := hB.1; omega, hB.2⟩

theorem tiled_replace (A B : List InWorkingDir) (wdp new : InWorkingDir)
    (hT : Tiled (A ++ wdp :: B)) (h1 : new.lba = wdp.lba)
    (h2 : new.rt11.blocks = wdp.rt11.blocks) :
    Tiled (A ++ new :: B) := by
  apply tiled_congr (A ++ wdp :: B) _ _ hT
  simp [h1, h2]

/-- The working list is tiled and every block count fits 16 bits. -/
theorem do_in_alloc_tiled (o : Options) (res : WriteResults)
    (hT : Tiled o.wDirArray) (hB : ∀ w ∈ o.wDirArray, w.rt11.blocks < 65536) :
    Tiled (do_in_alloc o res).1.wDirArray
      ∧ ∀ w ∈ (do_in_alloc o res).1.wDirArray, w.rt11.blocks < 65536 := by
  cases hsm : o.iHandle.sizeMatch with
  | none => simp only [do_in_alloc, hsm]; exact ⟨hT, hB⟩
  | some i =>
    cases hw : o.wDirArray[i]? with
    | none => simp only [do_in_alloc, hsm, hw]; exact ⟨hT, hB⟩
    | some wdp =>
      by_cases hfit : o.iHandle.fileBlks ≤ wdp.rt11.blocks
      · have hl := do_in_alloc_list o res i wdp hsm hw hfit
        have hmem : wdp ∈ o.wDirArray := List.getElem?_mem hw
        have hwb := hB wdp hmem
        have hsplit := list_split_at o.wDirArray i wdp hw
        have hA : ∀ w ∈ o.wDirArray.take i, w.rt11.blocks < 65536 :=
          fun w hw' => hB w (List.mem_of_mem_take hw')
        have hD : ∀ w ∈ o.wDirArray.drop (i + 1), w.rt11.blocks < 65536 :=
          fun w hw' => hB w (List.mem_of_mem_drop hw')
        rw [hsplit] at hT
        rw [hl]
        split
        · rename_i he
          refine ⟨tiled_replace _ _ wdp _ hT rfl ?_, ?_⟩
          · simp only [do_in_entry]
            rw [← he]
            exact Nat.mod_eq_of_lt hwb
          · intro w hw'
            rcases List.mem_append.mp hw' with h | h
            · exact hA w h
            · rcases List.mem_cons.mp h with h | h
              · subst h
                exact Nat.mod_lt _ (by omega)
              · exact hD w h
        · split
          · rw [← hsplit] at hT
            exact ⟨hT, hB⟩
          · have hn : o.iHandle.fileBlks % 65536 = o.iHandle.fileBlks :=
              Nat.mod_eq_of_lt (by omega)
            have hr : (wdp.rt11.blocks - o.iHandle.fileBlks) % 65536
                = wdp.rt11.blocks - o.iHandle.fileBlks := Nat.mod_eq_of_lt (by omega)
            refine ⟨tiled_split _ _ wdp _ _ hT rfl ?_ ?_, ?_⟩
            · simp only [do_in_entry, hn]
            · simp only [hr]
              omega
            · intro w hw'
              rcases List.mem_append.mp hw' with h | h
              · exact hA w h
              · rcases List.mem_cons.mp h with h | h
                · subst h
                  exact Nat.mod_lt _ (by omega)
                · rcases List.mem_cons.mp h with h | h
                  · subst h
                    exact Nat.mod_lt _ (by omega)
                  · exact hD w h
      · have : wdp.rt11.blocks < o.iHandle.fileBlks := by omega
        simp only [do_in_alloc, hsm, hw, this, if_true]
        exact ⟨hT, hB⟩

theorem do_in_body_tiled (o : Options) (f : InFile)
    (hT : Tiled o.wDirArray) (hB : ∀ w ∈ o.wDirArray, w.rt11.blocks < 65536) :
    Tiled (do_in_body o f).1.wDirArray
      ∧ ∀ w ∈ (do_in_body o f).1.wDirArray, w.rt11.blocks < 65536 := by
  unfold do_in_body
  simp only
  split
  · exact ⟨hT, hB⟩
  · split
    · exact ⟨hT, hB⟩
    · split
      · exact ⟨hT, hB⟩
      · split
        · exact ⟨hT, hB⟩
        · rename_i blks ts _
          apply do_in_alloc_tiled
          · exact tiled_congr _ _ (preDelete_map _) hT
          · exact blocksTyped_congr _ _ (preDelete_map _) hB

theorem do_in_loop_tiled (files : List InFile) (o : Options)
    (hT : Tiled o.wDirArray) (hB : ∀ w ∈ o.wDirArray, w.rt11.blocks < 65536) :
    Tiled (do_in_loop files o).1.wDirArray := by
  induction files generalizing o with
  | nil => exact hT
  | cons f rest ih =>
    have hb := do_in_body_tiled o f hT hB
    rw [do_in_loop]
    split
    · rename_i o1 h
      rw [h] at hb
      exact ih o1 hb.1 hb.2
    · rename_i o1 fl _ h
      rw [h] at hb
      exact hb.1

/-- C6: the tiling invariant (every entry starts at the LBA where the previous
one ends) is preserved by `preDelete`, by the insertion step of `do_in` (exact
fit or split), by the whole of `do_in` and by `do_del`. -/
theorem tiling_preserved (o : Options) (hT : Tiled o.wDirArray)
    (hB : ∀ w ∈ o.wDirArray, w.rt11.blocks < 65536) :
    Tiled (preDelete o).wDirArray
    ∧ (∀ res, Tiled (do_in_alloc o res).1.wDirArray)
    ∧ (∀ files, Tiled (do_in_loop files o).1.wDirArray)
    ∧ (∀ files r, do_in files o = some r → Tiled r.1.wDirArray)
    ∧ (∀ filterFilename answers,
        Tiled (do_del_loop filterFilename (List.range o.numWdirs) answers o).wDirArray)
    ∧ (∀ filterFilename answers r, do_del filterFilename answers o = some r →
        Tiled r.1.wDirArray) := by
  refine ⟨tiled_congr _ _ (preDelete_map o) hT, fun res => (do_in_alloc_tiled o res hT hB).1,
    fun files => do_in_loop_tiled files o hT hB, ?_,
    fun ff answers => tiled_congr _ _ (do_del_loop_map ff _ answers o) hT, ?_⟩
  · intro files r h
    have hl := do_in_loop_tiled files o hT hB
    unfold do_in at h
    split at h
    · cases h
      rename_i o1 e
      rw [e] at hl
      exact hl
    · rename_i o1 fl _ e
      rw [e] at hl
      split at h
      · cases h
      · rename_i r' hr
        cases h
        rw [linearToDisk_list o1 r' hr]
        exact hl
  · intro ff answers r h
    unfold do_del at h
    simp only at h
    split at h
    · cases h
    · rename_i r' hr
      cases h
      rw [linearToDisk_list _ r' hr]
      exact tiled_congr _ _ (do_del_loop_map ff _ answers o) hT

theorem tiling_preserved_witness :
    Tiled [freeEntry 30 100, freeEntry 12 130, freeEntry 50 142]
    ∧ Tiled (do_in_loop
        [{ fileName := "FILE.TXT".toList, answer := YN_YES,
           read := some (10, { tm_year := 100, tm_mon := 0, tm_mday := 1 }),
           write := { reopenOk := true, seekOk := true, writeOk := true } }]
        (exampleOptions [freeEntry 30 100, freeEntry 12 130, freeEntry 50 142] 0
          exampleName)).1.wDirArray :=
  ⟨by simp [Tiled, freeEntry, exampleEntry],
   (tiling_preserved (exampleOptions [freeEntry 30 100, freeEntry 12 130, freeEntry 50 142] 0
      exampleName) (by simp [Tiled, freeEntry, exampleEntry, exampleOptions, Options.init]) (by decide)).2.2.1 _⟩

/-! ### Sector interleave (floppy.c) -/

theorem sectorLen_pos (cmdOpts : Nat) : 0 < sectorLen cmdOpts := by
  unfold sectorLen
  split <;> omega

theorem physSector_eq (b : Nat) :
    physSector b = (b / 26 + 1) * 26
      + ((if 2 * (b % 26) ≥ 26 then 2 * (b % 26) + 1 else 2 * (b % 26)) + 6 * (b / 26)) % 26 := by
  simp only [physSector, NUM_SECTORS, Nat.shiftLeft_eq, pow_one, Nat.mul_comm _ 2]

theorem physSector_inj (b b' : Nat) (h : physSector b = physSector b') : b = b' := by
  rw [physSector_eq, physSector_eq] at h
  split at h <;> split at h <;> omega

theorem descramble_fold (sl : Nat) (hsl : 0 < sl) (img init : Mem) (n : Nat) :
    ((List.range n).foldl (descrambleStep sl img) (init, 0)).2 = n * sl
    ∧ ∀ a, ((List.range n).foldl (descrambleStep sl img) (init, 0)).1 a
        = if a < n * sl then img (physSector (a / sl) * sl + a % sl) else init a := by
  induction n with
  | zero => simp
  | succ n ih =>
    obtain ⟨ih1, ih2⟩ := ih
    rw [List.range_succ, List.foldl_append]
    simp only [List.foldl_cons, List.foldl_nil, descrambleStep, ih1]
    refine ⟨by ring, fun a => ?_⟩
    simp only [memcpy, ih2]
    by_cases h1 : a < n * sl
    · have : a < (n + 1) * sl := by nlinarith
      simp [h1, this]
    · by_cases h2 : a < (n + 1) * sl
      · have h3 : n * sl ≤ a ∧ a < n * sl + sl := ⟨by omega, by linarith [Nat.succ_mul n sl]⟩
        have hd : a / sl = n := by
          apply Nat.div_eq_of_lt_le
          · rw [Nat.mul_comm] at *; omega
          · simpa [Nat.succ_mul, Nat.mul_comm] using h2
        have hm : a % sl = a - n * sl := by
          have := Nat.div_add_mod a sl
          rw [hd, Nat.mul_comm] at this
          omega
        simp [h1, h2, h3, hd, hm]
      · have h3 : ¬ (n * sl ≤ a ∧ a < n * sl + sl) := by
          rw [Nat.succ_mul] at h2; omega
        simp [h1, h2, h3]

theorem sector_disjoint (p q sl k : Nat) (hpq : p ≠ q) (hk : k < sl) :
    ¬ (q * sl ≤ p * sl + k ∧ p * sl + k < q * sl + sl) := by
  rintro ⟨h1, h2⟩
  rcases Nat.lt_or_gt_of_ne hpq with h | h
  · have := Nat.mul_le_mul_right sl (Nat.succ_le_of_lt h)
    rw [Nat.succ_mul] at this
    omega
  · have := Nat.mul_le_mul_right sl (Nat.succ_le_of_lt h)
    rw [Nat.succ_mul] at this
    omega

theorem rescramble_fold_same (sl : Nat) (input img0 : Mem) (n : Nat)
    (h : ∀ b, b < n → ∀ k, k < sl → input (b * sl + k) = img0 (physSector b * sl + k)) :
    ((List.range n).foldl (rescrambleStep sl input) (img0, 0)).2 = n * sl
    ∧ ∀ a, ((List.range n).foldl (rescrambleStep sl input) (img0, 0)).1 a = img0 a := by
  induction n with
  | zero => simp
  | succ n ih =>
    obtain ⟨ih1, ih2⟩ := ih (fun b hb k hk => h b (Nat.lt_succ_of_lt hb) k hk)
    rw [List.range_succ, List.foldl_append]
    simp only [List.foldl_cons, List.foldl_nil, rescrambleStep, ih1]
    refine ⟨by ring, fun a => ?_⟩
    simp only [memcpy, ih2]
    split
    · rename_i hr
      have := h n (Nat.lt_succ_self n) (a - physSector n * sl) (by omega)
      rw [this]
      congr 1
      omega
    · rfl

theorem rescramble_fold_written (sl : Nat) (input img0 : Mem) (n : Nat) :
    ((List.range n).foldl (rescrambleStep sl input) (img0, 0)).2 = n * sl
    ∧ ∀ b, b < n → ∀ k, k < sl →
        ((List.range n).foldl (rescrambleStep sl input) (img0, 0)).1 (physSector b * sl + k)
          = input (b * sl + k) := by
  induction n with
  | zero => simp
  | succ n ih =>
    obtain ⟨ih1, ih2⟩ := ih
    rw [List.range_succ, List.foldl_append]
    simp only [List.foldl_cons, List.foldl_nil, rescrambleStep, ih1]
    refine ⟨by ring, fun b hb k hk => ?_⟩
    simp only [memcpy]
    rcases Nat.lt_or_ge b n with hlt | hge
    · have hne : physSector b ≠ physSector n := fun e => by
        have := physSector_inj b n e
        omega
      rw [if_neg (sector_disjoint _ _ sl k hne hk)]
      exact ih2 b hlt k hk
    · have : b = n := by omega
      subst this
      rw [if_pos ⟨by omega, by omega⟩]
      congr 1
      omega

/-- C7: `descramble` and `rescramble` are mutual inverses for both sector
lengths.  Rescrambling the descrambled image back into the buffer that still
holds the image reproduces the image; descrambling a rescrambled logical
buffer gives the logical buffer back on its 26 x 76 sectors; the block to
sector map is the stated formula and is injective. -/
theorem descramble_rescramble_inverse (cmdOpts : Nat) (x y scratch image : Mem) :
    (sectorLen cmdOpts = 128 ∨ sectorLen cmdOpts = 256)
    ∧ (∀ a, rescramble cmdOpts x (descramble cmdOpts x scratch) a = x a)
    ∧ (∀ a, a < 26 * 76 * sectorLen cmdOpts →
        descramble cmdOpts (rescramble cmdOpts image y) scratch a = y a)
    ∧ (∀ b, physSector b = (b / 26 + 1) * 26
        + ((if 2 * (b % 26) ≥ 26 then 2 * (b % 26) + 1 else 2 * (b % 26)) + 6 * (b / 26)) % 26)
    ∧ (∀ b b', b < 1976 → b' < 1976 → physSector b = physSector b' → b = b') := by
  have hsl := sectorLen_pos cmdOpts
  refine ⟨?_, ?_, ?_, physSector_eq, fun b b' _ _ h => physSector_inj b b' h⟩
  · unfold sectorLen
    split
    · exact Or.inl rfl
    · exact Or.inr rfl
  · intro a
    unfold rescramble
    refine (rescramble_fold_same (sectorLen cmdOpts) _ x totBlocks ?_).2 a
    intro b hb k hk
    unfold descramble
    rw [(descramble_fold (sectorLen cmdOpts) hsl x scratch totBlocks).2]
    have h1 : b * sectorLen cmdOpts + k < totBlocks * sectorLen cmdOpts := by
      have := Nat.mul_le_mul_right (sectorLen cmdOpts) (Nat.succ_le_of_lt hb)
      rw [Nat.succ_mul] at this
      omega
    have h2 : (b * sectorLen cmdOpts + k) / sectorLen cmdOpts = b := by
      rw [Nat.mul_comm, Nat.mul_add_div hsl, Nat.div_eq_of_lt hk, Nat.add_zero]
    have h3 : (b * sectorLen cmdOpts + k) % sectorLen cmdOpts = k := by
      rw [Nat.mul_comm, Nat.mul_add_mod, Nat.mod_eq_of_lt hk]
    rw [if_pos h1, h2, h3]
  · intro a ha
    unfold descramble
    rw [(descramble_fold (sectorLen cmdOpts) hsl _ scratch totBlocks).2]
    have ht : totBlocks = 26 * 76 := rfl
    rw [if_pos (by rw [ht]; exact ha)]
    unfold rescramble
    have hb : a / sectorLen cmdOpts < totBlocks := by
      rw [ht, Nat.div_lt_iff_lt_mul hsl]
      exact ha
    rw [(rescramble_fold_written (sectorLen cmdOpts) y image totBlocks).2 _ hb _
      (Nat.mod_lt _ hsl)]
    congr 1
    rw [Nat.mul_comm]
    exact Nat.div_add_mod a _

/-! ### Radix-50 codec (utils.c) -/

theorem land63_of_lt : ∀ i, i < 64 → i &&& 63 = i := by decide

theorem r50At_code : ∀ i, i < 40 → char2r50 (r50At i) = i ∧ r50At i ≠ '?' ∧ r50At i ∈ alphabet40 := by
  decide

theorem r50At_40 : r50At 40 = '?' := by decide

theorem fromRad50_digits (a b c : Nat) (ha : a ≤ 40) (hb : b < 40) (hc : c < 40) :
    fromRad50 (a * 1600 + b * 40 + c) = [r50At a, r50At b, r50At c] := by
  have h1 : (a * 1600 + b * 40 + c) / (0o50 * 0o50) = a := by
    show (a * 1600 + b * 40 + c) / 1600 = a
    omega
  have h2 : (a * 1600 + b * 40 + c - a * 0o50 * 0o50) % 65536 = b * 40 + c := by
    show (a * 1600 + b * 40 + c - a * 40 * 40) % 65536 = b * 40 + c
    omega
  have h3 : (b * 40 + c) / 0o50 = b := by
    show (b * 40 + c) / 40 = b
    omega
  have h4 : (b * 40 + c - b * 0o50) % 65536 = c := by
    show (b * 40 + c - b * 40) % 65536 = c
    omega
  simp only [fromRad50, h1, h2, h3, h4]
  rw [land63_of_lt a (by omega), land63_of_lt b (by omega), land63_of_lt c (by omega)]

/-- C10: `fromRad50` is total on 16-bit values: it yields three characters, each
from the 40-symbol alphabet or a question mark; when none is a question mark
the value is `c0*1600 + c1*40 + c2` for their codes; a question mark appears
exactly for the values from 64000 on. -/
theorem fromRad50_total (v : Nat) (hv : v ≤ 65535) :
    ∃ c0 c1 c2, fromRad50 v = [c0, c1, c2]
      ∧ (∀ c ∈ [c0, c1, c2], c ∈ alphabet40 ∨ c = '?')
      ∧ ((c0 ≠ '?' ∧ c1 ≠ '?' ∧ c2 ≠ '?') →
          v = char2r50 c0 * 1600 + char2r50 c1 * 40 + char2r50 c2)
      ∧ ('?' ∈ [c0, c1, c2] ↔ 64000 ≤ v) := by
  obtain ⟨a, b, c, ha, hb, hc, rfl⟩ :
      ∃ a b c, a ≤ 40 ∧ b < 40 ∧ c < 40 ∧ v = a * 1600 + b * 40 + c :=
    ⟨v / 1600, v % 1600 / 40, v % 40, by omega, by omega, by omega, by omega⟩
  refine ⟨r50At a, r50At b, r50At c, fromRad50_digits a b c ha hb hc, ?_, ?_, ?_⟩
  · have hB := r50At_code b hb
    have hC := r50At_code c hc
    intro x hx
    simp only [List.mem_cons, List.mem_singleton, List.not_mem_nil, or_false] at hx
    rcases hx with rfl | rfl | rfl
    · rcases Nat.lt_or_ge a 40 with h | h
      · exact Or.inl (r50At_code a h).2.2
      · have : a = 40 := by omega
        subst this
        exact Or.inr r50At_40
    · exact Or.inl hB.2.2
    · exact Or.inl hC.2.2
  · rintro ⟨h0, -, -⟩
    have ha' : a < 40 := by
      rcases Nat.lt_or_ge a 40 with h | h
      · exact h
      · have : a = 40 := by omega
        subst this
        exact absurd r50At_40 h0
    rw [(r50At_code a ha').1, (r50At_code b hb).1, (r50At_code c hc).1]
  · have hB := (r50At_code b hb).2.1
    have hC := (r50At_code c hc).2.1
    constructor
    · intro hx
      simp only [List.mem_cons, List.mem_singleton, List.not_mem_nil, or_false] at hx
      rcases hx with h | h | h
      · rcases Nat.lt_or_ge a 40 with h' | h'
        · exact absurd h.symm (r50At_code a h').2.1
        · omega
      · exact absurd h.symm hB
      · exact absurd h.symm hC
    · intro h
      have : a = 40 := by omega
      subst this
      simp [r50At_40]

theorem fromRad50_total_witness :
    (1683 : Nat) ≤ 65535 ∧ ∃ c0 c1 c2, fromRad50 1683 = [c0, c1, c2]
      ∧ (∀ c ∈ [c0, c1, c2], c ∈ alphabet40 ∨ c = '?')
      ∧ ((c0 ≠ '?' ∧ c1 ≠ '?' ∧ c2 ≠ '?') →
          1683 = char2r50 c0 * 1600 + char2r50 c1 * 40 + char2r50 c2)
      ∧ ('?' ∈ [c0, c1, c2] ↔ 64000 ≤ 1683) :=
  ⟨by decide, fromRad50_total 1683 (by decide)⟩

theorem nameAlphabet_code : ∀ c ∈ nameAlphabet,
    char2r50 c.toUpper ≠ 0 ∧ char2r50 c.toUpper ≠ R50_DOT ∧ char2r50 c.toUpper < 40
      ∧ r50At (char2r50 c.toUpper) = c := by
  decide

theorem r50At_zero : r50At 0 = ' ' := by decide

theorem fromRad50_zero : fromRad50 0 = [' ', ' ', ' '] := by decide

theorem fromRad50_pack1 (a : Nat) (ha : a < 40) :
    fromRad50 ((a * 0o50 * 0o50) % 65536) = [r50At a, ' ', ' '] := by
  have h : (a * 0o50 * 0o50) % 65536 = a * 1600 + 0 * 40 + 0 := by
    show (a * 40 * 40) % 65536 = a * 1600 + 0 * 40 + 0
    omega
  rw [h, fromRad50_digits a 0 0 (by omega) (by omega) (by omega), r50At_zero]

theorem fromRad50_pack2 (a b : Nat) (ha : a < 40) (hb : b < 40) :
    fromRad50 (((a * 0o50 * 0o50) % 65536 + b * 0o50) % 65536) = [r50At a, r50At b, ' '] := by
  have h : ((a * 0o50 * 0o50) % 65536 + b * 0o50) % 65536 = a * 1600 + b * 40 + 0 := by
    show ((a * 40 * 40) % 65536 + b * 40) % 65536 = a * 1600 + b * 40 + 0
    omega
  rw [h, fromRad50_digits a b 0 (by omega) hb (by omega), r50At_zero]

theorem fromRad50_pack3 (a b c : Nat) (ha : a < 40) (hb : b < 40) (hc : c < 40) :
    fromRad50 ((((a * 0o50 * 0o50) % 65536 + b * 0o50) % 65536 + c) % 65536)
      = [r50At a, r50At b, r50At c] := by
  have h : (((a * 0o50 * 0o50) % 65536 + b * 0o50) % 65536 + c) % 65536
      = a * 1600 + b * 40 + c := by
    show (((a * 40 * 40) % 65536 + b * 40) % 65536 + c) % 65536 = a * 1600 + b * 40 + c
    omega
  rw [h, fromRad50_digits a b c (by omega) hb hc]

theorem cvtNameLoop_nil (retv : Nat) (nm : R50Name) : cvtNameLoop [] retv nm = ([], nm) := by
  rw [cvtNameLoop]

theorem cvtNameLoop_dot (cp : List Char) (retv : Nat) (nm : R50Name) (h : retv < 7) :
    cvtNameLoop ('.' :: cp) retv nm = cvtNameLoop cp 7 nm := by
  have h1 : char2r50 ('.' : Char).toUpper = R50_DOT := by decide
  rw [cvtNameLoop]
  simp only [h1]
  simp [R50_DOT]
  omega

theorem cvtNameLoop_good (c : Char) (cp : List Char) (retv : Nat) (nm : R50Name)
    (hc : c ∈ nameAlphabet) :
    cvtNameLoop (c :: cp) retv nm =
      match cvtNameSwitch retv (char2r50 c.toUpper) nm with
      | some next => cvtNameLoop cp next.1 next.2
      | none => (c :: cp, nm) := by
  obtain ⟨a0, a1, -, -⟩ := nameAlphabet_code c hc
  rw [cvtNameLoop]
  simp only [a0, a1, if_false]

theorem lastComponent_of_no_slash (s : List Char) (h : ∀ c ∈ s, c ≠ '/') :
    lastComponent s = s := by
  unfold lastComponent
  have : s.reverse.takeWhile (fun c => decide (c ≠ '/')) = s.reverse := by
    rw [List.takeWhile_eq_self_iff]
    intro c hc
    simpa using h c (List.mem_reverse.mp hc)
  rw [this, List.reverse_reverse]

theorem cvtNameLoop_type (type : List Char) (nm : R50Name) (ht : type.length ≤ 3)
    (hta : ∀ c ∈ type, c ∈ nameAlphabet) (h0 : nm.w2 = 0) :
    (cvtNameLoop type 7 nm).1 = [] ∧ (cvtNameLoop type 7 nm).2.w0 = nm.w0
      ∧ (cvtNameLoop type 7 nm).2.w1 = nm.w1
      ∧ fromRad50 (cvtNameLoop type 7 nm).2.w2 = padTo 3 type := by
  rcases type with _ | ⟨a, _ | ⟨b, _ | ⟨c, _ | ⟨d, l⟩⟩⟩⟩
  · simp only [cvtNameLoop_nil, h0, fromRad50_zero]
    exact ⟨trivial, trivial, trivial, rfl⟩
  · have hA := hta a (by simp)
    obtain ⟨-, -, a2, a3⟩ := nameAlphabet_code a hA
    simp only [cvtNameLoop_good _ _ _ _ hA, cvtNameSwitch, cvtNameLoop_nil]
    refine ⟨trivial, trivial, trivial, ?_⟩
    rw [fromRad50_pack1 _ a2, a3]
    rfl
  · have hA := hta a (by simp)
    have hB := hta b (by simp)
    obtain ⟨-, -, a2, a3⟩ := nameAlphabet_code a hA
    obtain ⟨-, -, b2, b3⟩ := nameAlphabet_code b hB
    simp only [cvtNameLoop_good _ _ _ _ hA, cvtNameLoop_good _ _ _ _ hB, cvtNameSwitch,
      cvtNameLoop_nil]
    refine ⟨trivial, trivial, trivial, ?_⟩
    rw [fromRad50_pack2 _ _ a2 b2, a3, b3]
    rfl
  · have hA := hta a (by simp)
    have hB := hta b (by simp)
    have hC := hta c (by simp)
    obtain ⟨-, -, a2, a3⟩ := nameAlphabet_code a hA
    obtain ⟨-, -, b2, b3⟩ := nameAlphabet_code b hB
    obtain ⟨-, -, c2, c3⟩ := nameAlphabet_code c hC
    simp only [cvtNameLoop_good _ _ _ _ hA, cvtNameLoop_good _ _ _ _ hB,
      cvtNameLoop_good _ _ _ _ hC, cvtNameSwitch, cvtNameLoop_nil]
    refine ⟨trivial, trivial, trivial, ?_⟩
    rw [fromRad50_pack3 _ _ _ a2 b2 c2, a3, b3, c3]
    rfl
  · simp at ht

theorem cvtNameLoop_name (name rest : List Char) (hn : name.length ≤ 6)
    (hna : ∀ c ∈ name, c ∈ nameAlphabet) :
    ∃ v0 v1, cvtNameLoop (name ++ '.' :: rest) 0 { w0 := 0, w1 := 0, w2 := 0 }
        = cvtNameLoop rest 7 { w0 := v0, w1 := v1, w2 := 0 }
      ∧ fromRad50 v0 ++ fromRad50 v1 = padTo 6 name := by
  rcases name with _ | ⟨a, _ | ⟨b, _ | ⟨c, _ | ⟨d, _ | ⟨e, _ | ⟨f, _ | ⟨g, l⟩⟩⟩⟩⟩⟩⟩
  · refine ⟨0, 0, ?_, ?_⟩
    · simp only [List.nil_append]
      rw [cvtNameLoop_dot _ _ _ (by omega)]
    · rw [fromRad50_zero]; rfl
  · have hA := hna a (by simp)
    obtain ⟨-, -, a2, a3⟩ := nameAlphabet_code a hA
    refine ⟨((char2r50 a.toUpper * 0o50 * 0o50) % 65536), 0, ?_, ?_⟩
    · simp only [List.cons_append, List.nil_append, cvtNameLoop_good _ _ _ _ hA, cvtNameSwitch]
      rw [cvtNameLoop_dot _ _ _ (by omega)]
    · rw [fromRad50_pack1 _ a2, a3, fromRad50_zero]; rfl
  · have hA := hna a (by simp)
    have hB := hna b (by simp)
    obtain ⟨-, -, a2, a3⟩ := nameAlphabet_code a hA
    obtain ⟨-, -, b2, b3⟩ := nameAlphabet_code b hB
    refine ⟨(((char2r50 a.toUpper * 0o50 * 0o50) % 65536 + char2r50 b.toUpper * 0o50) % 65536), 0, ?_, ?_⟩
    · simp only [List.cons_append, List.nil_append, cvtNameLoop_good _ _ _ _ hA,
        cvtNameLoop_good _ _ _ _ hB, cvtNameSwitch]
      rw [cvtNameLoop_dot _ _ _ (by omega)]
    · rw [fromRad50_pack2 _ _ a2 b2, a3, b3, fromRad50_zero]; rfl
  · have hA := hna a (by simp)
    have hB := hna b (by simp)
    have hC := hna c (by simp)
    obtain ⟨-, -, a2, a3⟩ := nameAlphabet_code a hA
    obtain ⟨-, -, b2, b3⟩ := nameAlphabet_code b hB
    obtain ⟨-, -, c2, c3⟩ := nameAlphabet_code c hC
    refine ⟨((((char2r50 a.toUpper * 0o50 * 0o50) % 65536 + char2r50 b.toUpper * 0o50) % 65536 + char2r50 c.toUpper) % 65536), 0, ?_, ?_⟩
    · simp only [List.cons_append, List.nil_append, cvtNameLoop_good _ _ _ _ hA,
        cvtNameLoop_good _ _ _ _ hB, cvtNameLoop_good _ _ _ _ hC, cvtNameSwitch]
      rw [cvtNameLoop_dot _ _ _ (by omega)]
    · rw [fromRad50_pack3 _ _ _ a2 b2 c2, a3, b3, c3, fromRad50_zero]; rfl
  · have hA := hna a (by simp)
    have hB := hna b (by simp)
    have hC := hna c (by simp)
    have hD := hna d (by simp)
    obtain ⟨-, -, a2, a3⟩ := nameAlphabet_code a hA
    obtain ⟨-, -, b2, b3⟩ := nameAlphabet_code b hB
    obtain ⟨-, -, c2, c3⟩ := nameAlphabet_code c hC
    obtain ⟨-, -, d2, d3⟩ := nameAlphabet_code d hD
    refine ⟨((((char2r50 a.toUpper * 0o50 * 0o50) % 65536 + char2r50 b.toUpper * 0o50) % 65536 + char2r50 c.toUpper) % 65536), ((char2r50 d.toUpper * 0o50 * 0o50) % 65536), ?_, ?_⟩
    · simp only [List.cons_append, List.nil_append, cvtNameLoop_good _ _ _ _ hA,
        cvtNameLoop_good _ _ _ _ hB, cvtNameLoop_good _ _ _ _ hC,
        cvtNameLoop_good _ _ _ _ hD, cvtNameSwitch]
      rw [cvtNameLoop_dot _ _ _ (by omega)]
    · rw [fromRad50_pack3 _ _ _ a2 b2 c2, fromRad50_pack1 _ d2, a3, b3, c3, d3]; rfl
  · have hA := hna a (by simp)
    have hB := hna b (by simp)
    have hC := hna c (by simp)
    have hD := hna d (by simp)
    have hE := hna e (by simp)
    obtain ⟨-, -, a2, a3⟩ := nameAlphabet_code a hA
    obtain ⟨-, -, b2, b3⟩ := nameAlphabet_code b hB
    obtain ⟨-, -, c2, c3⟩ := nameAlphabet_code c hC
    obtain ⟨-, -, d2, d3⟩ := nameAlphabet_code d hD
    obtain ⟨-, -, e2, e3⟩ := nameAlphabet_code e hE
    refine ⟨((((char2r50 a.toUpper * 0o50 * 0o50) % 65536 + char2r50 b.toUpper * 0o50) % 65536 + char2r50 c.toUpper) % 65536), (((char2r50 d.toUpper * 0o50 * 0o50) % 65536 + char2r50 e.toUpper * 0o50) % 65536), ?_, ?_⟩
    · simp only [List.cons_append, List.nil_append, cvtNameLoop_good _ _ _ _ hA,
        cvtNameLoop_good _ _ _ _ hB, cvtNameLoop_good _ _ _ _ hC,
        cvtNameLoop_good _ _ _ _ hD, cvtNameLoop_good _ _ _ _ hE, cvtNameSwitch]
      rw [cvtNameLoop_dot _ _ _ (by omega)]
    · rw [fromRad50_pack3 _ _ _ a2 b2 c2, fromRad50_pack2 _ _ d2 e2, a3, b3, c3, d3, e3]; rfl
  · have hA := hna a (by simp)
    have hB := hna b (by simp)
    have hC := hna c (by simp)
    have hD := hna d (by simp)
    have hE := hna e (by simp)
    have hF := hna f (by simp)
    obtain ⟨-, -, a2, a3⟩ := nameAlphabet_code a hA
    obtain ⟨-, -, b2, b3⟩ := nameAlphabet_code b hB
    obtain ⟨-, -, c2, c3⟩ := nameAlphabet_code c hC
    obtain ⟨-, -, d2, d3⟩ := nameAlphabet_code d hD
    obtain ⟨-, -, e2, e3⟩ := nameAlphabet_code e hE
    obtain ⟨-, -, f2, f3⟩ := nameAlphabet_code f hF
    refine ⟨((((char2r50 a.toUpper * 0o50 * 0o50) % 65536 + char2r50 b.toUpper * 0o50) % 65536 + char2r50 c.toUpper) % 65536), ((((char2r50 d.toUpper * 0o50 * 0o50) % 65536 + char2r50 e.toUpper * 0o50) % 65536 + char2r50 f.toUpper) % 65536), ?_, ?_⟩
    · simp only [List.cons_append, List.nil_append, cvtNameLoop_good _ _ _ _ hA,
        cvtNameLoop_good _ _ _ _ hB, cvtNameLoop_good _ _ _ _ hC,
        cvtNameLoop_good _ _ _ _ hD, cvtNameLoop_good _ _ _ _ hE,
        cvtNameLoop_good _ _ _ _ hF, cvtNameSwitch]
      rw [cvtNameLoop_dot _ _ _ (by omega)]
    · rw [fromRad50_pack3 _ _ _ a2 b2 c2, fromRad50_pack3 _ _ _ d2 e2 f2,
        a3, b3, c3, d3, e3, f3]; rfl
  · simp at hn

theorem slash_not_in_nameAlphabet : ∀ c ∈ nameAlphabet, c ≠ '/' := by decide

/-- C8 (amended): for every name of up to 6 characters and type of up to 3
characters drawn from `A-Z`, `$`, `%`, `0-9`, `cvtName` succeeds on `name.type`
and decoding its three words with `fromRad50` gives back the name padded with
spaces to 6 characters and the type padded to 3. -/
theorem cvtName_fromRad50_roundtrip (name type : List Char)
    (hn : name.length ≤ 6) (ht : type.length ≤ 3)
    (hna : ∀ c ∈ name, c ∈ nameAlphabet) (hta : ∀ c ∈ type, c ∈ nameAlphabet) :
    (cvtName (name ++ '.' :: type)).ret = 0
      ∧ fromRad50 (cvtName (name ++ '.' :: type)).iNameR50.w0
          ++ fromRad50 (cvtName (name ++ '.' :: type)).iNameR50.w1 = padTo 6 name
      ∧ fromRad50 (cvtName (name ++ '.' :: type)).iNameR50.w2 = padTo 3 type := by
  have hlc : lastComponent (name ++ '.' :: type) = name ++ '.' :: type := by
    apply lastComponent_of_no_slash
    intro c hc
    rcases List.mem_append.mp hc with h | h
    · exact slash_not_in_nameAlphabet c (hna c h)
    · rcases List.mem_cons.mp h with h | h
      · subst h; decide
      · exact slash_not_in_nameAlphabet c (hta c h)
  obtain ⟨v0, v1, hloop, hdec⟩ := cvtNameLoop_name name type hn hna
  obtain ⟨t1, t2, t3, t4⟩ := cvtNameLoop_type type { w0 := v0, w1 := v1, w2 := 0 } ht hta rfl
  simp only [cvtName, hlc, hloop, t1, ne_eq, not_true_eq_false, if_false, t2, t3, t4]
  exact ⟨trivial, hdec, trivial⟩

theorem cvtName_fromRad50_roundtrip_witness :
    (cvtName ("SWAP".toList ++ '.' :: "SY".toList)).ret = 0
      ∧ fromRad50 (cvtName ("SWAP".toList ++ '.' :: "SY".toList)).iNameR50.w0
          ++ fromRad50 (cvtName ("SWAP".toList ++ '.' :: "SY".toList)).iNameR50.w1
          = padTo 6 "SWAP".toList
      ∧ fromRad50 (cvtName ("SWAP".toList ++ '.' :: "SY".toList)).iNameR50.w2
          = padTo 3 "SY".toList :=
  cvtName_fromRad50_roundtrip "SWAP".toList "SY".toList (by decide) (by decide)
    (by decide) (by decide)

/-- C8 (as stated, refuted): the space belongs to the 40-symbol alphabet, yet
`cvtName` fails on the name `A B` with type `TXT`. -/
theorem cvtName_space_counterexample :
    (∀ c ∈ "A B".toList, c ∈ alphabet40) ∧ (∀ c ∈ "TXT".toList, c ∈ alphabet40)
      ∧ "A B".toList.length ≤ 6 ∧ "TXT".toList.length ≤ 3
      ∧ ¬ ((cvtName ("A B".toList ++ '.' :: "TXT".toList)).ret = 0
          ∧ fromRad50 (cvtName ("A B".toList ++ '.' :: "TXT".toList)).iNameR50.w0
              ++ fromRad50 (cvtName ("A B".toList ++ '.' :: "TXT".toList)).iNameR50.w1
              = padTo 6 "A B".toList
          ∧ fromRad50 (cvtName ("A B".toList ++ '.' :: "TXT".toList)).iNameR50.w2
              = padTo 3 "TXT".toList) := by
  decide

theorem char_le_iff (a b : Char) : a ≤ b ↔ a.toNat ≤ b.toNat := by
  rw [Char.le_def, UInt32.le_def, BitVec.le_def]
  rfl

theorem char_eq_of_toNat (a b : Char) (h : a.toNat = b.toNat) : a = b := by
  rw [← Char.ofNat_toNat a, ← Char.ofNat_toNat b, h]

theorem char2r50_low : ∀ n, n < 128 →
    (char2r50 (Char.ofNat n).toUpper ≠ 0 → Char.ofNat n ∈ acceptedChars) := by
  decide

theorem char2r50_high (c : Char) (h : 128 ≤ c.toNat) : char2r50 c.toUpper = 0 := by
  have hu : c.toUpper = c := by
    unfold Char.toUpper
    simp only
    rw [if_neg (by omega)]
  rw [hu]
  unfold char2r50
  have e1 : c ≠ '$' := by rintro rfl; revert h; decide
  have e2 : c ≠ '.' := by rintro rfl; revert h; decide
  have e3 : c ≠ '%' := by rintro rfl; revert h; decide
  have e4 : ¬ ('0' ≤ c ∧ c ≤ '9') := by
    rw [char_le_iff, char_le_iff]
    have : ('9' : Char).toNat = 57 := rfl
    omega
  have e5 : ¬ ('A' ≤ c ∧ c ≤ 'Z') := by
    rw [char_le_iff, char_le_iff]
    have : ('Z' : Char).toNat = 90 := rfl
    omega
  simp only [hu, e1, e2, e3, e4, e5, if_false]
  split <;> rfl

theorem char2r50_zero_of_not_accepted (c : Char) (h : c ∉ acceptedChars) :
    char2r50 c.toUpper = 0 := by
  rcases Nat.lt_or_ge c.toNat 128 with hlt | hge
  · by_contra hne
    have := char2r50_low c.toNat hlt
    rw [Char.ofNat_toNat] at this
    exact h (this hne)
  · exact char2r50_high c hge

theorem cvtNameLoop_stops (s : List Char) (retv : Nat) (nm : R50Name)
    (h : ∃ c ∈ s, c ∉ acceptedChars) : (cvtNameLoop s retv nm).1 ≠ [] := by
  induction s generalizing retv nm with
  | nil => simp at h
  | cons c cp ih =>
    rw [cvtNameLoop]
    split
    · simp
    · rename_i hr
      have hc : ∃ x ∈ cp, x ∉ acceptedChars := by
        obtain ⟨x, hx, hxa⟩ := h
        rcases List.mem_cons.mp hx with rfl | hx
        · exact absurd (char2r50_zero_of_not_accepted x hxa) hr
        · exact ⟨x, hx, hxa⟩
      split
      · split
        · simp
        · exact ih 7 nm hc
      · split
        · exact ih _ _ hc
        · simp

/-- C9 (amended): `cvtName` fails, returning 1, for every filename whose final
path component contains a character outside space, `A-Z`, `a-z`, `0-9`, `$`,
`.`, `%`. -/
theorem cvtName_rejects_unsupported (fileName : List Char)
    (h : ∃ c ∈ lastComponent fileName, c ∉ acceptedChars) :
    (cvtName fileName).ret = 1 := by
  have hs := cvtNameLoop_stops (lastComponent fileName) 0 { w0 := 0, w1 := 0, w2 := 0 } h
  simp only [cvtName, hs, ne_eq, not_false_eq_true, if_true]

theorem cvtName_rejects_unsupported_witness :
    (∃ c ∈ lastComponent "dir/FOO_1.TXT".toList, c ∉ acceptedChars)
      ∧ (cvtName "dir/FOO_1.TXT".toList).ret = 1 :=
  ⟨by decide, cvtName_rejects_unsupported "dir/FOO_1.TXT".toList (by decide)⟩

/-- C9 (as stated, refuted): the lower case letters are outside space, `A-Z`,
`0-9`, `$`, `.`, `%`, yet `cvtName` accepts the filename `a.txt`. -/
theorem cvtName_lowercase_counterexample :
    ¬ ((∃ c ∈ lastComponent "a.txt".toList, c ∉ alphabet40)
        → (cvtName "a.txt".toList).ret = 1) := by
  decide


/-! ### Capacity and density of the serializer (parse.c) -/

theorem ceilDiv_eq (a b : Nat) (hb : 0 < b) : (a + b - 1) / b = ceilDiv a b := by
  unfold ceilDiv
  have h1 := Nat.div_add_mod a b
  have h2 := Nat.mod_lt a hb
  have h3 : b * (a / b) = (a / b) * b := Nat.mul_comm _ _
  by_cases h0 : a % b = 0
  · rw [if_pos h0]
    apply Nat.div_eq_of_lt_le
    · omega
    · rw [Nat.succ_mul]; omega
  · rw [if_neg h0]
    have h4 : (a / b + 1) * b = (a / b) * b + b := by rw [Nat.add_mul, Nat.one_mul]
    apply Nat.div_eq_of_lt_le
    · omega
    · rw [Nat.succ_mul]; omega

theorem l2dDentsPerSeg_eq (numdent maxseg N : Nat) (h2 : 2 ≤ numdent) :
    l2dDentsPerSeg numdent maxseg N
      = some (if (ceilDiv N (numdent / 2) : Int) ≤ (maxseg : Int) - 1 then numdent / 2
              else if 1 < maxseg then N / (maxseg - 1) else numdent) := by
  have hd : 0 < numdent / 2 := Nat.div_pos h2 (by decide)
  unfold l2dDentsPerSeg
  simp only [Nat.ne_of_gt hd, if_false, ceilDiv_eq N _ hd]
  by_cases hc : (ceilDiv N (numdent / 2) : Int) ≤ (maxseg : Int) - 1
  · rw [if_pos hc, if_neg (by omega)]
  · rw [if_neg hc, if_pos (by omega)]
    by_cases hm : 1 < maxseg
    · rw [if_pos hm, if_pos hm]
    · rw [if_neg hm, if_neg hm]

theorem linearToDisk_fail_eq (o r : Options) (h : linearToDisk o = some (r, 1)) : r = o := by
  unfold linearToDisk at h
  split at h
  · cases h
  · split at h
    · simp only [Option.some.injEq, Prod.mk.injEq, and_true] at h
      exact h.symm
    · simp at h


theorem linearToDisk_cases (o : Options) (h2 : 2 ≤ o.numdent) :
    ∃ d, l2dDentsPerSeg o.numdent o.maxseg o.numWdirs = some d
      ∧ ((d > o.numdent ∨ d * o.maxseg < o.numWdirs) → linearToDisk o = some (o, 1))
      ∧ (¬ (d > o.numdent ∨ d * o.maxseg < o.numWdirs) →
          ∃ r, linearToDisk o = some (r, 0) ∧ r.dirDirty = 1) := by
  refine ⟨_, l2dDentsPerSeg_eq o.numdent o.maxseg o.numWdirs h2, ?_, ?_⟩
  · intro hf
    unfold linearToDisk
    rw [l2dDentsPerSeg_eq o.numdent o.maxseg o.numWdirs h2]
    simp only
    rw [if_pos hf]
  · intro hf
    unfold linearToDisk
    rw [l2dDentsPerSeg_eq o.numdent o.maxseg o.numWdirs h2]
    simp only
    rw [if_neg hf]
    exact ⟨_, rfl, rfl⟩

/-- C14 (amended): a working list of exactly `numdent * maxseg` entries is
refused by `linearToDisk`, which returns 1 and leaves the options, the
directory buffer included, as they were, on every volume with at least two
segments and `maxseg <= numdent + 1`. -/
theorem linearToDisk_full_fails (o : Options) (h2 : 2 ≤ o.numdent) (hm : 2 ≤ o.maxseg)
    (hle : o.maxseg ≤ o.numdent + 1) (hN : o.numWdirs = o.numdent * o.maxseg) :
    linearToDisk o = some (o, 1) := by
  obtain ⟨d, hd, hfail, -⟩ := linearToDisk_cases o h2
  apply hfail
  rw [l2dDentsPerSeg_eq o.numdent o.maxseg o.numWdirs h2] at hd
  have hd0 : 0 < o.numdent / 2 := Nat.div_pos h2 (by decide)
  have hceil : (o.numWdirs + o.numdent / 2 - 1) / (o.numdent / 2) ≥ o.maxseg := by
    apply (Nat.le_div_iff_mul_le hd0).mpr
    have h1 := Nat.div_mul_le_self o.numdent 2
    have h3 : o.numdent / 2 * o.maxseg ≤ o.numdent * o.maxseg :=
      Nat.mul_le_mul_right _ (Nat.div_le_self _ _)
    rw [Nat.mul_comm o.maxseg]
    omega
  rw [ceilDiv_eq _ _ hd0] at hceil
  rw [if_neg (by omega), if_pos (by omega)] at hd
  simp only [Option.some.injEq] at hd
  left
  rw [← hd, hN]
  show o.numdent < o.numdent * o.maxseg / (o.maxseg - 1)
  apply (Nat.le_div_iff_mul_le (by omega)).mpr
  obtain ⟨k, hk⟩ : ∃ k, o.maxseg = k + 2 := ⟨o.maxseg - 2, by omega⟩
  rw [hk]
  simp only [Nat.add_sub_cancel, show k + 2 - 1 = k + 1 from rfl, Nat.succ_eq_add_one]
  have : (o.numdent + 1) * (k + 1) = o.numdent * (k + 1) + (k + 1) := by
    rw [Nat.add_mul, Nat.one_mul]
  have : o.numdent * (k + 2) = o.numdent * (k + 1) + o.numdent := by
    rw [show k + 2 = (k + 1) + 1 from rfl, Nat.mul_add, Nat.mul_one]
  omega

theorem filesExample_length (n lba : Nat) : (filesExample n lba).length = n := by
  simp [filesExample]

theorem volumeExample_numWdirs (maxseg : Nat) (l : List InWorkingDir) :
    (volumeExample maxseg l).numWdirs = l.length := rfl

/-- C14 at a concrete volume: two segments of 72 entries and 144 files. -/
theorem linearToDisk_full_fails_witness :
    linearToDisk (volumeExample 2 (filesExample 144 10))
      = some (volumeExample 2 (filesExample 144 10), 1) :=
  linearToDisk_full_fails (volumeExample 2 (filesExample 144 10)) (by decide) (by decide)
    (by decide) (by rw [volumeExample_numWdirs, filesExample_length]; rfl)

/-- C14 (as stated) fails on a volume with one directory segment: the 72 files
that fill its 72 slots are accepted by `linearToDisk`, which returns 0 and
marks the directory dirty. -/
theorem linearToDisk_single_segment_counterexample :
    (volumeExample 1 (filesExample 72 8)).numWdirs
        = (volumeExample 1 (filesExample 72 8)).numdent
            * (volumeExample 1 (filesExample 72 8)).maxseg
    ∧ ∃ r, linearToDisk (volumeExample 1 (filesExample 72 8)) = some (r, 0) ∧ r.dirDirty = 1 := by
  have hN : (volumeExample 1 (filesExample 72 8)).numWdirs = 72 := by
    rw [volumeExample_numWdirs, filesExample_length]
  refine ⟨by rw [hN]; rfl, ?_⟩
  obtain ⟨d, hd, -, hok⟩ := linearToDisk_cases (volumeExample 1 (filesExample 72 8)) (by decide)
  rw [hN] at hd hok
  have h72 : l2dDentsPerSeg 72 1 72 = some 72 := by decide
  have hd72 : d = 72 := by
    have : l2dDentsPerSeg (volumeExample 1 (filesExample 72 8)).numdent
        (volumeExample 1 (filesExample 72 8)).maxseg 72 = some 72 := h72
    rw [this] at hd
    exact (Option.some.inj hd).symm
  apply hok
  rw [hd72]
  decide


/-- C16 (amended): the density of `linearToDisk`.  With `N = numWdirs` and
`numdent >= 2` the density is `numdent / 2` when `ceil(N / (numdent / 2))` is
at most `maxseg - 1`; otherwise it is `N / (maxseg - 1)` on a volume with
more than one segment and `numdent` on a volume with one.  The function
returns 1 exactly when that density exceeds `numdent` or density times
`maxseg` is less than `N`, and 0 otherwise; the segment count suggested on
failure is `min(31, ceil(2N / numdent))`. -/
theorem linearToDisk_density (o : Options) (h2 : 2 ≤ o.numdent) :
    ∃ d r, l2dDentsPerSeg o.numdent o.maxseg o.numWdirs = some d
      ∧ d = (if (ceilDiv o.numWdirs (o.numdent / 2) : Int) ≤ (o.maxseg : Int) - 1 then
               o.numdent / 2
             else if 1 < o.maxseg then o.numWdirs / (o.maxseg - 1) else o.numdent)
      ∧ linearToDisk o = some r
      ∧ (r.2 = 1 ↔ (d > o.numdent ∨ d * o.maxseg < o.numWdirs))
      ∧ (r.2 = 0 ↔ ¬ (d > o.numdent ∨ d * o.maxseg < o.numWdirs))
      ∧ l2dSuggestion o.numdent o.numWdirs = min 31 (ceilDiv (2 * o.numWdirs) o.numdent) := by
  obtain ⟨d, hd, hfail, hok⟩ := linearToDisk_cases o h2
  have hd2 := hd
  rw [l2dDentsPerSeg_eq o.numdent o.maxseg o.numWdirs h2] at hd2
  have hsugg : l2dSuggestion o.numdent o.numWdirs
      = min 31 (ceilDiv (2 * o.numWdirs) o.numdent) := by
    unfold l2dSuggestion
    simp only [ceilDiv_eq _ _ (show 0 < o.numdent by omega)]
    split <;> omega
  by_cases hf : d > o.numdent ∨ d * o.maxseg < o.numWdirs
  · refine ⟨d, (o, 1), hd, (Option.some.inj hd2).symm, hfail hf, ?_, ?_, hsugg⟩
    · exact ⟨fun _ => hf, fun _ => rfl⟩
    · exact ⟨fun h => absurd h (show ¬ (1 : Nat) = 0 by decide), fun h => absurd hf h⟩
  · obtain ⟨r, hr, -⟩ := hok hf
    refine ⟨d, (r, 0), hd, (Option.some.inj hd2).symm, hr, ?_, ?_, hsugg⟩
    · exact ⟨fun h => absurd h (show ¬ (0 : Nat) = 1 by decide), fun h => absurd h hf⟩
    · exact ⟨fun _ => hf, fun _ => rfl⟩

/-- C16 at the five entries of `packExample` on its single segment of 72
slots. -/
theorem linearToDisk_density_witness :
    ∃ d r, l2dDentsPerSeg packExample.numdent packExample.maxseg packExample.numWdirs = some d
      ∧ d = (if (ceilDiv packExample.numWdirs (packExample.numdent / 2) : Int)
                  ≤ (packExample.maxseg : Int) - 1 then
               packExample.numdent / 2
             else if 1 < packExample.maxseg then packExample.numWdirs / (packExample.maxseg - 1)
             else packExample.numdent)
      ∧ linearToDisk packExample = some r
      ∧ (r.2 = 1 ↔ (d > packExample.numdent ∨ d * packExample.maxseg < packExample.numWdirs))
      ∧ (r.2 = 0 ↔ ¬ (d > packExample.numdent ∨ d * packExample.maxseg < packExample.numWdirs))
      ∧ l2dSuggestion packExample.numdent packExample.numWdirs
          = min 31 (ceilDiv (2 * packExample.numWdirs) packExample.numdent) :=
  linearToDisk_density packExample (by decide)

/-- C16 (as stated) fails on a volume with one directory segment: five entries
need more than `maxseg - 1 = 0` segments, the stated density `N / (maxseg - 1)`
has a zero divisor (and would make the call fail, being smaller than `N`),
while `linearToDisk` takes the density 72 and returns 0. -/
theorem linearToDisk_density_counterexample :
    packExample.numdent = 72 ∧ packExample.maxseg = 1 ∧ packExample.numWdirs = 5
    ∧ ¬ ((ceilDiv 5 (72 / 2) : Int) ≤ ((1 : Nat) : Int) - 1)
    ∧ l2dDentsPerSeg 72 1 5 = some 72
    ∧ specDentsPerSeg 72 1 5 = 0
    ∧ specDentsPerSeg 72 1 5 * 1 < 5
    ∧ (linearToDisk packExample).map (fun r => r.2) = some 0 :=
  ⟨by rfl, by rfl, by rfl, by decide, by decide, by decide, by decide, by rfl⟩

/-- C17 (amended): `linearToDisk` sets `dirDirty` to 1 whenever it returns 0;
when it returns 1 it leaves the options, `dirDirty` and the directory buffer
included, as they were.  It returns one or the other on every input with
`numdent >= 2`. -/
theorem linearToDisk_dirDirty (o : Options) (h2 : 2 ≤ o.numdent) :
    ∃ r, linearToDisk o = some r
      ∧ ((r.2 = 0 ∧ r.1.dirDirty = 1) ∨ (r.2 = 1 ∧ r.1 = o)) := by
  obtain ⟨d, -, hfail, hok⟩ := linearToDisk_cases o h2
  by_cases hf : d > o.numdent ∨ d * o.maxseg < o.numWdirs
  · exact ⟨(o, 1), hfail hf, Or.inr ⟨rfl, rfl⟩⟩
  · obtain ⟨r, hr, hdirty⟩ := hok hf
    exact ⟨(r, 0), hr, Or.inl ⟨rfl, hdirty⟩⟩

/-- C17 at the volume of `packExample`. -/
theorem linearToDisk_dirDirty_witness :
    ∃ r, linearToDisk packExample = some r
      ∧ ((r.2 = 0 ∧ r.1.dirDirty = 1) ∨ (r.2 = 1 ∧ r.1 = packExample)) :=
  linearToDisk_dirDirty packExample (by decide)

/-- C17 (as stated) fails when `linearToDisk` refuses the list: with 73 entries
for the 72 slots of a single segment it returns 1 and `dirDirty` is still
0. -/
theorem linearToDisk_dirDirty_counterexample :
    (volumeExample 1 (filesExample 73 8)).dirDirty = 0
    ∧ ∃ r, linearToDisk (volumeExample 1 (filesExample 73 8)) = some (r, 1) ∧ r.dirDirty = 0 := by
  refine ⟨rfl, volumeExample 1 (filesExample 73 8), ?_, rfl⟩
  have hN : (volumeExample 1 (filesExample 73 8)).numWdirs = 73 := by
    rw [volumeExample_numWdirs, filesExample_length]
  obtain ⟨d, hd, hfail, -⟩ := linearToDisk_cases (volumeExample 1 (filesExample 73 8)) (by decide)
  rw [hN] at hd hfail
  have h73 : l2dDentsPerSeg (volumeExample 1 (filesExample 73 8)).numdent
      (volumeExample 1 (filesExample 73 8)).maxseg 73 = some 72 := by decide
  rw [h73] at hd
  apply hfail
  rw [← Option.some.inj hd]
  decide


/-- C15 (defect of the code): on a volume with 4 segments of 72 entries a
working list of 219 entries, well below the 287 that `do_in` admits, is
refused by `linearToDisk`: the density `219 / (4 - 1) = 73` exceeds the 72
slots of a segment although 72 entries per segment would hold the list.
Inserting a file into such a volume with 218 entries passes the capacity
check of `do_in`, splits the free area and writes the file, then
`linearToDisk` refuses the 219 entries: `do_in` returns 0 with `dirDirty`
still 0 and the directory buffer untouched. -/
theorem linearToDisk_refuses_admitted_list :
    (volumeExample 4 (filesExample 219 14)).numdent = 72
    ∧ (volumeExample 4 (filesExample 219 14)).maxseg = 4
    ∧ (volumeExample 4 (filesExample 219 14)).numWdirs = 219
    ∧ 219 ≤ 72 * 4 - 1
    ∧ l2dDentsPerSeg 72 4 219 = some 73
    ∧ linearToDisk (volumeExample 4 (filesExample 219 14))
        = some (volumeExample 4 (filesExample 219 14), 1)
    ∧ insertExample.numWdirs = 218
    ∧ (do_in [insertFile] insertExample).map
          (fun r => (r.2, r.1.numWdirs, r.1.dirDirty, r.1.openedWrite,
                     rd16 r.1.directory SEGLEN))
        = some (0, 219, 0, 1, 0) := by
  have hN : (volumeExample 4 (filesExample 219 14)).numWdirs = 219 := by
    rw [volumeExample_numWdirs, filesExample_length]
  refine ⟨rfl, rfl, hN, by decide, by decide, ?_, by rfl, by rfl⟩
  obtain ⟨d, hd, hfail, -⟩ := linearToDisk_cases (volumeExample 4 (filesExample 219 14)) (by decide)
  rw [hN] at hd hfail
  have h : l2dDentsPerSeg (volumeExample 4 (filesExample 219 14)).numdent
      (volumeExample 4 (filesExample 219 14)).maxseg 219 = some 73 := by decide
  rw [h] at hd
  apply hfail
  rw [← Option.some.inj hd]
  decide


/-! ### Capacity check of the insertion (do_in.c) -/

theorem do_in_alloc_geom (o : Options) (res : WriteResults) :
    (do_in_alloc o res).1.maxseg = o.maxseg ∧ (do_in_alloc o res).1.numdent = o.numdent := by
  unfold do_in_alloc do_in_write writeFileToContainer
  repeat' split
  all_goals exact ⟨rfl, rfl⟩

theorem do_in_alloc_skip (o : Options) (res : WriteResults)
    (h : ∀ i wdp, o.iHandle.sizeMatch = some i → o.wDirArray[i]? = some wdp →
        wdp.rt11.blocks < o.iHandle.fileBlks) :
    do_in_alloc o res = (o, Flow.next) := by
  unfold do_in_alloc
  split
  · rfl
  · rename_i i hsm
    split
    · rfl
    · rename_i wdp hw
      rw [if_pos (h i wdp hsm hw)]

theorem do_in_alloc_refuse (o : Options) (res : WriteResults) (i : Nat) (wdp : InWorkingDir)
    (hsm : o.iHandle.sizeMatch = some i) (hw : o.wDirArray[i]? = some wdp)
    (hsplit : o.iHandle.fileBlks < wdp.rt11.blocks)
    (hfull : ((o.maxseg * o.numdent : Nat) : Int) - 1 ≤ (o.numWdirs : Int)) :
    do_in_alloc o res = (o, Flow.stop) := by
  have hnl : ¬ wdp.rt11.blocks < o.iHandle.fileBlks := by omega
  have hs : do_in_split o i wdp = none := by
    unfold do_in_split
    rw [if_pos (by omega), if_pos hfull]
  simp only [do_in_alloc, hsm, hw, hnl, if_false, hs]

theorem do_in_alloc_flow (o : Options) (res : WriteResults) (i : Nat) (wdp : InWorkingDir)
    (hsm : o.iHandle.sizeMatch = some i) (hw : o.wDirArray[i]? = some wdp)
    (hfit : o.iHandle.fileBlks ≤ wdp.rt11.blocks)
    (hroom : wdp.rt11.blocks = o.iHandle.fileBlks
      ∨ (o.numWdirs : Int) < ((o.maxseg * o.numdent : Nat) : Int) - 1) :
    (do_in_alloc o res).2 ≠ Flow.stop := by
  have hnl : ¬ wdp.rt11.blocks < o.iHandle.fileBlks := by omega
  have hlt : i < o.wDirArray.length := (List.getElem?_eq_some.mp hw).1
  simp only [do_in_alloc, hsm, hw, hnl, if_false]
  have hs : ∃ l, do_in_split o i wdp = some l ∧ i < l.length := by
    unfold do_in_split
    by_cases he : wdp.rt11.blocks = o.iHandle.fileBlks
    · rw [if_neg (by simpa using he)]
      exact ⟨_, rfl, hlt⟩
    · rw [if_pos he]
      have : (o.numWdirs : Int) < ((o.maxseg * o.numdent : Nat) : Int) - 1 := by
        rcases hroom with h | h
        · exact absurd h he
        · exact h
      rw [if_neg (by omega)]
      refine ⟨_, rfl, ?_⟩
      simp only [List.length_append, List.length_take, List.length_drop, List.length_set]
      omega
  obtain ⟨l, hl, hil⟩ := hs
  obtain ⟨cur, hcur⟩ : ∃ cur, l[i]? = some cur := ⟨l[i], List.getElem?_eq_getElem hil⟩
  simp only [hl, hcur]
  unfold do_in_write writeFileToContainer
  repeat' split
  all_goals simp_all


theorem do_in_alloc_count (o : Options) (res : WriteResults) :
    (do_in_alloc o res).1.numWdirs = o.numWdirs
    ∨ ((do_in_alloc o res).1.numWdirs = o.numWdirs + 1
        ∧ (o.numWdirs : Int) < ((o.maxseg * o.numdent : Nat) : Int) - 1
        ∧ ∃ i wdp, o.iHandle.sizeMatch = some i ∧ o.wDirArray[i]? = some wdp
            ∧ o.iHandle.fileBlks < wdp.rt11.blocks) := by
  by_cases hskip : ∀ i wdp, o.iHandle.sizeMatch = some i → o.wDirArray[i]? = some wdp →
      wdp.rt11.blocks < o.iHandle.fileBlks
  · left
    rw [do_in_alloc_skip o res hskip]
  · push_neg at hskip
    obtain ⟨i, wdp, hsm, hw, hfit⟩ := hskip
    have hlt : i < o.wDirArray.length := (List.getElem?_eq_some.mp hw).1
    have hl := do_in_alloc_list o res i wdp hsm hw hfit
    unfold Options.numWdirs
    by_cases he : wdp.rt11.blocks = o.iHandle.fileBlks
    · left
      rw [hl, if_pos he]
      simp only [List.length_append, List.length_take, List.length_cons, List.length_drop]
      omega
    · rw [if_neg he] at hl
      by_cases hfull : o.maxseg * o.numdent ≤ o.numWdirs + 1
      · left
        rw [hl, if_pos hfull]
      · right
        rw [if_neg hfull] at hl
        refine ⟨?_, ?_, i, wdp, hsm, hw, by omega⟩
        · rw [hl]
          simp only [List.length_append, List.length_take, List.length_cons, List.length_drop]
          omega
        · unfold Options.numWdirs at hfull
          push_cast
          omega

theorem do_in_alloc_stop (o : Options) (res : WriteResults)
    (h : (do_in_alloc o res).2 = Flow.stop) : (do_in_alloc o res).1 = o := by
  revert h
  unfold do_in_alloc do_in_write writeFileToContainer
  repeat' split
  all_goals simp

theorem preDelete_geom (o : Options) :
    (preDelete o).maxseg = o.maxseg ∧ (preDelete o).numdent = o.numdent
      ∧ (preDelete o).numWdirs = o.numWdirs := by
  have hrel : ∀ (p : Options) (k : Nat) (w : InWorkingDir),
      (preDeleteRelease p k w).maxseg = p.maxseg
        ∧ (preDeleteRelease p k w).numdent = p.numdent := by
    intro p k w
    unfold preDeleteRelease
    split <;> exact ⟨rfl, rfl⟩
  have htrack : ∀ (p : Options) (k : Nat) (w : InWorkingDir),
      (preDeleteTrack p k w).maxseg = p.maxseg
        ∧ (preDeleteTrack p k w).numdent = p.numdent := by
    intro p k w
    unfold preDeleteTrack
    repeat' split
    all_goals exact ⟨rfl, rfl⟩
  have hstep : ∀ (p : Options) (k : Nat),
      (preDeleteStep p k).maxseg = p.maxseg ∧ (preDeleteStep p k).numdent = p.numdent := by
    intro p k
    unfold preDeleteStep
    split
    · exact ⟨rfl, rfl⟩
    · rename_i w _
      dsimp only
      split
      · exact hrel p k w
      · rename_i cur _
        exact ⟨(htrack _ k cur).1.trans (hrel p k w).1, (htrack _ k cur).2.trans (hrel p k w).2⟩
  have hfold : ∀ (l : List Nat) (p : Options),
      (l.foldl preDeleteStep p).maxseg = p.maxseg
        ∧ (l.foldl preDeleteStep p).numdent = p.numdent := by
    intro l
    induction l with
    | nil => intro p; exact ⟨rfl, rfl⟩
    | cons a t ih =>
      intro p
      rw [List.foldl_cons]
      exact ⟨(ih _).1.trans (hstep p a).1, (ih _).2.trans (hstep p a).2⟩
  refine ⟨(hfold _ _).1, (hfold _ _).2, ?_⟩
  exact (preDelete_fold o o.wDirArray.length (le_refl _)).1

theorem do_in_alloc_preDelete_bound (p : Options) (res : WriteResults)
    (hb : (p.numWdirs : Int) ≤ ((p.maxseg * p.numdent : Nat) : Int) - 1) :
    (do_in_alloc (preDelete p) res).1.maxseg = p.maxseg
      ∧ (do_in_alloc (preDelete p) res).1.numdent = p.numdent
      ∧ ((do_in_alloc (preDelete p) res).1.numWdirs : Int)
          ≤ ((p.maxseg * p.numdent : Nat) : Int) - 1 := by
  obtain ⟨g1, g2, g3⟩ := preDelete_geom p
  obtain ⟨a1, a2⟩ := do_in_alloc_geom (preDelete p) res
  refine ⟨a1.trans g1, a2.trans g2, ?_⟩
  rcases do_in_alloc_count (preDelete p) res with h | ⟨h, hlt, -⟩
  · rw [h, g3]
    exact hb
  · rw [h, g3]
    rw [g1, g2, g3] at hlt
    push_cast at hlt ⊢
    omega

theorem do_in_body_bound (o : Options) (f : InFile)
    (hb : (o.numWdirs : Int) ≤ ((o.maxseg * o.numdent : Nat) : Int) - 1) :
    (do_in_body o f).1.maxseg = o.maxseg ∧ (do_in_body o f).1.numdent = o.numdent
      ∧ ((do_in_body o f).1.numWdirs : Int) ≤ ((o.maxseg * o.numdent : Nat) : Int) - 1 := by
  unfold do_in_body
  simp only
  split
  · exact ⟨rfl, rfl, hb⟩
  · split
    · exact ⟨rfl, rfl, hb⟩
    · split
      · exact ⟨rfl, rfl, hb⟩
      · split
        · exact ⟨rfl, rfl, hb⟩
        · exact do_in_alloc_preDelete_bound _ _ hb

theorem do_in_loop_bound (files : List InFile) (o : Options)
    (hb : (o.numWdirs : Int) ≤ ((o.maxseg * o.numdent : Nat) : Int) - 1) :
    ((do_in_loop files o).1.numWdirs : Int) ≤ ((o.maxseg * o.numdent : Nat) : Int) - 1 := by
  induction files generalizing o with
  | nil => exact hb
  | cons f rest ih =>
    obtain ⟨g1, g2, g3⟩ := do_in_body_bound o f hb
    rw [do_in_loop]
    split
    · rename_i o1 h
      rw [h] at g1 g2 g3
      have := ih o1 (by rw [g1, g2]; exact g3)
      rw [g1, g2] at this
      exact this
    · rename_i o1 fl _ h
      rw [h] at g3
      exact g3


theorem do_in_body_stop_frame (o : Options) (f : InFile)
    (h : (do_in_body o f).2 = Flow.stop) :
    (do_in_body o f).1.wDirArray.map (fun w => (w.lba, w.rt11.blocks))
      = o.wDirArray.map (fun w => (w.lba, w.rt11.blocks)) := by
  revert h
  unfold do_in_body
  simp only
  split
  · intro _; rfl
  · split
    · intro _; rfl
    · split
      · intro _; rfl
      · split
        · intro _; rfl
        · intro h
          rw [do_in_alloc_stop _ _ h]
          exact preDelete_map _

/-- C13: the capacity check of the insertion.  When the selected free entry is
larger than the file and must be split, `do_in` refuses (leaves the loop with
the options untouched) exactly when `numWdirs >= maxseg * numdent - 1`, and
otherwise `numWdirs` grows by exactly one.  An iteration that leaves the loop
has changed no entry's LBA or block count.  Hence the bound
`numWdirs <= maxseg * numdent - 1` is preserved by the allocation step, by the
whole loop and by `do_in`.  Two concrete volumes show a refusal (71 entries of
72 slots) and a split (71 entries of 144 slots). -/
theorem do_in_capacity (o : Options) :
    (∀ (res : WriteResults) (i : Nat) (wdp : InWorkingDir),
        o.iHandle.sizeMatch = some i → o.wDirArray[i]? = some wdp →
        o.iHandle.fileBlks < wdp.rt11.blocks →
        ((((o.maxseg * o.numdent : Nat) : Int) - 1 ≤ (o.numWdirs : Int) →
            do_in_alloc o res = (o, Flow.stop))
          ∧ ((o.numWdirs : Int) < ((o.maxseg * o.numdent : Nat) : Int) - 1 →
              (do_in_alloc o res).1.numWdirs = o.numWdirs + 1
                ∧ (do_in_alloc o res).2 ≠ Flow.stop)))
    ∧ (∀ f, (do_in_body o f).2 = Flow.stop →
        (do_in_body o f).1.wDirArray.map (fun w => (w.lba, w.rt11.blocks))
          = o.wDirArray.map (fun w => (w.lba, w.rt11.blocks)))
    ∧ ((o.numWdirs : Int) ≤ ((o.maxseg * o.numdent : Nat) : Int) - 1 →
        (∀ res, ((do_in_alloc o res).1.numWdirs : Int)
            ≤ ((o.maxseg * o.numdent : Nat) : Int) - 1)
        ∧ (∀ files, ((do_in_loop files o).1.numWdirs : Int)
            ≤ ((o.maxseg * o.numdent : Nat) : Int) - 1)
        ∧ (∀ files r, do_in files o = some r →
            (r.1.numWdirs : Int) ≤ ((o.maxseg * o.numdent : Nat) : Int) - 1))
    ∧ (crowdedExample.numWdirs = 71
        ∧ ((do_in_loop [insertFile] crowdedExample).2,
            (do_in_loop [insertFile] crowdedExample).1.numWdirs) = (Flow.stop, 71))
    ∧ (roomyExample.numWdirs = 71
        ∧ ((do_in_loop [insertFile] roomyExample).2,
            (do_in_loop [insertFile] roomyExample).1.numWdirs) = (Flow.next, 72)) := by
  refine ⟨?_, fun f h => do_in_body_stop_frame o f h, ?_, ⟨by rfl, by rfl⟩, ⟨by rfl, by rfl⟩⟩
  · intro res i wdp hsm hw hsplit
    refine ⟨fun hfull => do_in_alloc_refuse o res i wdp hsm hw hsplit hfull, fun hroom => ?_⟩
    refine ⟨?_, do_in_alloc_flow o res i wdp hsm hw (by omega) (Or.inr hroom)⟩
    have hlt : i < o.wDirArray.length := (List.getElem?_eq_some.mp hw).1
    have hl := do_in_alloc_list o res i wdp hsm hw (by omega)
    rw [if_neg (by omega), if_neg (by unfold Options.numWdirs at hroom ⊢; push_cast at hroom; omega)]
      at hl
    unfold Options.numWdirs
    rw [hl]
    simp only [List.length_append, List.length_take, List.length_cons, List.length_drop]
    omega
  · intro hb
    refine ⟨fun res => ?_, fun files => do_in_loop_bound files o hb, ?_⟩
    · rcases do_in_alloc_count o res with h | ⟨h, hlt, -⟩
      · rw [h]; exact hb
      · rw [h]; push_cast at hlt ⊢; omega
    · intro files r h
      have hl := do_in_loop_bound files o hb
      unfold do_in at h
      split at h
      · cases h
        rename_i o1 e
        rw [e] at hl
        exact hl
      · rename_i o1 fl _ e
        rw [e] at hl
        split at h
        · cases h
        · rename_i r' hr
          cases h
          unfold Options.numWdirs at hl ⊢
          rw [linearToDisk_list o1 r' hr]
          exact hl


/-! ### Deletion (do_del.c) -/

theorem releasedAt_self (l : List InWorkingDir) (i : Nat) : releasedAt l l i = 0 := by
  unfold releasedAt
  cases l[i]? <;> simp

theorem empty_not_perm (c : Nat) (h : c &&& PERM ≠ 0) : c ≠ EMPTY := by
  intro hc
  rw [hc] at h
  exact h (by decide)

theorem released_step (l l2 : List InWorkingDir) (ii : Nat) (wdp : InWorkingDir)
    (hw : l[ii]? = some wdp) (hperm : wdp.rt11.control &&& PERM ≠ 0)
    (hinv : ∀ (i : Nat) (a : InWorkingDir),
      (l.set ii { wdp with rt11 := { wdp.rt11 with control := EMPTY } })[i]? = some a →
        l2[i]? = some a
        ∨ (a.rt11.control &&& PERM ≠ 0
            ∧ l2[i]? = some { a with rt11 := { a.rt11 with control := EMPTY } })) :
    Finset.sum (Finset.range l.length) (releasedAt l l2)
      = (wdp.rt11.blocks : Int)
        + Finset.sum (Finset.range l.length)
            (releasedAt (l.set ii { wdp with rt11 := { wdp.rt11 with control := EMPTY } }) l2) := by
  have hlt : ii < l.length := (List.getElem?_eq_some.mp hw).1
  have hpt : ∀ i, releasedAt l l2 i
      = (if ii = i then (wdp.rt11.blocks : Int) else 0)
        + releasedAt (l.set ii { wdp with rt11 := { wdp.rt11 with control := EMPTY } }) l2 i := by
    intro i
    by_cases hi : ii = i
    · subst hi
      have hset : (l.set ii { wdp with rt11 := { wdp.rt11 with control := EMPTY } })[ii]?
          = some { wdp with rt11 := { wdp.rt11 with control := EMPTY } } := by
        rw [List.getElem?_set_self hlt]
      have h2 : l2[ii]? = some { wdp with rt11 := { wdp.rt11 with control := EMPTY } } := by
        rcases hinv ii _ hset with h | ⟨h, -⟩
        · exact h
        · exact absurd (show EMPTY &&& PERM = 0 by decide) h
      unfold releasedAt
      rw [hw, hset, h2]
      simp only [if_true, add_zero]
      rw [if_neg (empty_not_perm _ hperm)]
    · have hset : (l.set ii { wdp with rt11 := { wdp.rt11 with control := EMPTY } })[i]? = l[i]? :=
        List.getElem?_set_ne hi
      unfold releasedAt
      rw [hset, if_neg hi, zero_add]
  rw [Finset.sum_congr rfl (fun i _ => hpt i), Finset.sum_add_distrib, Finset.sum_ite_eq,
    if_pos (Finset.mem_range.mpr hlt)]


theorem delEntry_spec (o : Options) (ii : Nat) (wdp : InWorkingDir) :
    (delEntry o ii wdp).wDirArray
        = o.wDirArray.set ii { wdp with rt11 := { wdp.rt11 with control := EMPTY } }
      ∧ (delEntry o ii wdp).totEmpty = o.totEmpty + wdp.rt11.blocks
      ∧ (delEntry o ii wdp).totPerm = o.totPerm - wdp.rt11.blocks
      ∧ (delEntry o ii wdp).delOpts = o.delOpts :=
  ⟨rfl, rfl, rfl, rfl⟩

theorem do_del_loop_spec (filterFilename : List Char → Bool) (idx answers : List Nat)
    (o : Options) :
    (do_del_loop filterFilename idx answers o).wDirArray.length = o.wDirArray.length
    ∧ (∀ (i : Nat) (a : InWorkingDir), o.wDirArray[i]? = some a →
        (do_del_loop filterFilename idx answers o).wDirArray[i]? = some a
        ∨ (a.rt11.control &&& PERM ≠ 0
            ∧ (do_del_loop filterFilename idx answers o).wDirArray[i]?
                = some { a with rt11 := { a.rt11 with control := EMPTY } }))
    ∧ (do_del_loop filterFilename idx answers o).totEmpty
        = o.totEmpty + releasedBlocks o.wDirArray
            (do_del_loop filterFilename idx answers o).wDirArray
    ∧ (do_del_loop filterFilename idx answers o).totPerm
        = o.totPerm - releasedBlocks o.wDirArray
            (do_del_loop filterFilename idx answers o).wDirArray := by
  have hbase : ∀ p : Options, p.wDirArray.length = p.wDirArray.length
      ∧ (∀ (i : Nat) (a : InWorkingDir), p.wDirArray[i]? = some a →
          p.wDirArray[i]? = some a
          ∨ (a.rt11.control &&& PERM ≠ 0
              ∧ p.wDirArray[i]? = some { a with rt11 := { a.rt11 with control := EMPTY } }))
      ∧ p.totEmpty = p.totEmpty + releasedBlocks p.wDirArray p.wDirArray
      ∧ p.totPerm = p.totPerm - releasedBlocks p.wDirArray p.wDirArray := by
    intro p
    have h0 : releasedBlocks p.wDirArray p.wDirArray = 0 := by
      unfold releasedBlocks
      exact Finset.sum_eq_zero (fun i _ => releasedAt_self _ i)
    refine ⟨rfl, fun i a h => Or.inl h, ?_, ?_⟩ <;> rw [h0] <;> simp
  have hdel : ∀ (rest ans : List Nat) (p : Options) (ii : Nat) (wdp : InWorkingDir),
      p.wDirArray[ii]? = some wdp → wdp.rt11.control &&& PERM ≠ 0 →
      ((do_del_loop filterFilename rest ans (delEntry p ii wdp)).wDirArray.length
          = (delEntry p ii wdp).wDirArray.length
        ∧ (∀ (i : Nat) (a : InWorkingDir), (delEntry p ii wdp).wDirArray[i]? = some a →
            (do_del_loop filterFilename rest ans (delEntry p ii wdp)).wDirArray[i]? = some a
            ∨ (a.rt11.control &&& PERM ≠ 0
                ∧ (do_del_loop filterFilename rest ans (delEntry p ii wdp)).wDirArray[i]?
                    = some { a with rt11 := { a.rt11 with control := EMPTY } }))
        ∧ (do_del_loop filterFilename rest ans (delEntry p ii wdp)).totEmpty
            = (delEntry p ii wdp).totEmpty + releasedBlocks (delEntry p ii wdp).wDirArray
                (do_del_loop filterFilename rest ans (delEntry p ii wdp)).wDirArray
        ∧ (do_del_loop filterFilename rest ans (delEntry p ii wdp)).totPerm
            = (delEntry p ii wdp).totPerm - releasedBlocks (delEntry p ii wdp).wDirArray
                (do_del_loop filterFilename rest ans (delEntry p ii wdp)).wDirArray) →
      ((do_del_loop filterFilename rest ans (delEntry p ii wdp)).wDirArray.length
          = p.wDirArray.length
        ∧ (∀ (i : Nat) (a : InWorkingDir), p.wDirArray[i]? = some a →
            (do_del_loop filterFilename rest ans (delEntry p ii wdp)).wDirArray[i]? = some a
            ∨ (a.rt11.control &&& PERM ≠ 0
                ∧ (do_del_loop filterFilename rest ans (delEntry p ii wdp)).wDirArray[i]?
                    = some { a with rt11 := { a.rt11 with control := EMPTY } }))
        ∧ (do_del_loop filterFilename rest ans (delEntry p ii wdp)).totEmpty
            = p.totEmpty + releasedBlocks p.wDirArray
                (do_del_loop filterFilename rest ans (delEntry p ii wdp)).wDirArray
        ∧ (do_del_loop filterFilename rest ans (delEntry p ii wdp)).totPerm
            = p.totPerm - releasedBlocks p.wDirArray
                (do_del_loop filterFilename rest ans (delEntry p ii wdp)).wDirArray) := by
    intro rest ans p ii wdp hw hperm
    obtain ⟨e1, e2, e3, -⟩ := delEntry_spec p ii wdp
    rw [e1, e2, e3]
    generalize do_del_loop filterFilename rest ans (delEntry p ii wdp) = q
    rintro ⟨h1, h2, h3, h4⟩
    have hlt : ii < p.wDirArray.length := (List.getElem?_eq_some.mp hw).1
    have hsum := released_step p.wDirArray q.wDirArray ii wdp hw hperm h2
    rw [List.length_set] at h1
    unfold releasedBlocks at h3 h4 ⊢
    rw [List.length_set] at h3 h4
    refine ⟨h1, ?_, ?_, ?_⟩
    · intro i a ha
      by_cases hi : ii = i
      · subst hi
        have ha' : a = wdp := by
          rw [hw] at ha
          exact (Option.some.inj ha).symm
        subst ha'
        right
        refine ⟨hperm, ?_⟩
        rcases h2 ii _ (List.getElem?_set_self hlt) with h | ⟨h, -⟩
        · exact h
        · exact absurd (show EMPTY &&& PERM = 0 by decide) h
      · exact h2 i a (by rw [List.getElem?_set_ne hi]; exact ha)
    · rw [h3, hsum]; ring
    · rw [h4, hsum]; ring
  induction idx generalizing answers o with
  | nil => exact hbase o
  | cons ii rest ih =>
    rw [do_del_loop]
    split
    · exact ih _ _
    · rename_i wdp hw
      split
      · exact ih _ _
      · rename_i hperm
        split
        · exact ih _ _
        · split
          · dsimp only
            split
            · exact hbase o
            · split
              · exact ih _ _
              · exact hdel rest _ o ii wdp hw hperm (ih _ _)
          · exact hdel rest _ o ii wdp hw hperm (ih _ _)


theorem linearToDisk_totals (o : Options) (r : Options × Nat) (h : linearToDisk o = some r) :
    r.1.totEmpty = o.totEmpty ∧ r.1.totPerm = o.totPerm := by
  unfold linearToDisk at h
  split at h
  · cases h
  · split at h
    · cases h; exact ⟨rfl, rfl⟩
    · cases h; exact ⟨rfl, rfl⟩

theorem do_del_loop_numdent (filterFilename : List Char → Bool) (idx answers : List Nat)
    (o : Options) : (do_del_loop filterFilename idx answers o).numdent = o.numdent := by
  induction idx generalizing answers o with
  | nil => rfl
  | cons ii rest ih =>
    rw [do_del_loop]
    split
    · exact ih _ _
    · split
      · exact ih _ _
      · split
        · exact ih _ _
        · split
          · dsimp only
            split
            · rfl
            · split
              · exact ih _ _
              · exact ih _ _
          · exact ih _ _

/-- C12: `do_del` moves blocks from used to free and never coalesces.  For
every working list, name filter and sequence of replies: `numWdirs` is
unchanged; every entry keeps its position, LBA and block count, and is either
untouched or was permanent and got the control word `EMPTY`; the blocks of the
entries released that way are added to `totEmpty` and subtracted from
`totPerm`, so `totEmpty + totPerm` is unchanged.  `do_del` returns 0 with that
list and those totals whenever `numdent >= 2`.  Deleting two adjacent files of
5 and 3 blocks leaves two adjacent free entries of 5 and 3 blocks. -/
theorem do_del_conserves (filterFilename : List Char → Bool) (answers : List Nat)
    (o : Options) :
    (do_del_loop filterFilename (List.range o.numWdirs) answers o).numWdirs = o.numWdirs
    ∧ (do_del_loop filterFilename (List.range o.numWdirs) answers o).wDirArray.map
          (fun w => (w.lba, w.rt11.blocks))
        = o.wDirArray.map (fun w => (w.lba, w.rt11.blocks))
    ∧ (∀ (i : Nat) (a : InWorkingDir), o.wDirArray[i]? = some a →
        (do_del_loop filterFilename (List.range o.numWdirs) answers o).wDirArray[i]? = some a
        ∨ (a.rt11.control &&& PERM ≠ 0
            ∧ (do_del_loop filterFilename (List.range o.numWdirs) answers o).wDirArray[i]?
                = some { a with rt11 := { a.rt11 with control := EMPTY } }))
    ∧ (do_del_loop filterFilename (List.range o.numWdirs) answers o).totEmpty
        = o.totEmpty + releasedBlocks o.wDirArray
            (do_del_loop filterFilename (List.range o.numWdirs) answers o).wDirArray
    ∧ (do_del_loop filterFilename (List.range o.numWdirs) answers o).totPerm
        = o.totPerm - releasedBlocks o.wDirArray
            (do_del_loop filterFilename (List.range o.numWdirs) answers o).wDirArray
    ∧ (do_del_loop filterFilename (List.range o.numWdirs) answers o).totEmpty
          + (do_del_loop filterFilename (List.range o.numWdirs) answers o).totPerm
        = o.totEmpty + o.totPerm
    ∧ (∀ r, do_del filterFilename answers o = some r →
        r.2 = 0
        ∧ r.1.wDirArray
            = (do_del_loop filterFilename (List.range o.numWdirs) answers o).wDirArray
        ∧ r.1.totEmpty = (do_del_loop filterFilename (List.range o.numWdirs) answers o).totEmpty
        ∧ r.1.totPerm = (do_del_loop filterFilename (List.range o.numWdirs) answers o).totPerm)
    ∧ (2 ≤ o.numdent → ∃ r, do_del filterFilename answers o = some r)
    ∧ (do_del (fun _ => true) [] delExample).map
          (fun r => (r.2, r.1.totEmpty, r.1.totPerm,
            r.1.wDirArray.map (fun w => (w.rt11.control, w.rt11.blocks, w.lba))))
        = some (0, 18, 0, [(EMPTY, 5, 8), (EMPTY, 3, 13), (EMPTY, 10, 16)]) := by
  obtain ⟨h1, h2, h3, h4⟩ :=
    do_del_loop_spec filterFilename (List.range o.numWdirs) answers o
  refine ⟨h1, do_del_loop_map _ _ _ _, h2, h3, h4, ?_, ?_, ?_, by rfl⟩
  · rw [h3, h4]; ring
  · intro r h
    unfold do_del at h
    simp only at h
    split at h
    · cases h
    · rename_i r' hr
      cases h
      obtain ⟨t1, t2⟩ := linearToDisk_totals _ r' hr
      exact ⟨rfl, linearToDisk_list _ r' hr, t1, t2⟩
  · intro hn
    obtain ⟨d, -, hfail, hok⟩ := linearToDisk_cases
      (do_del_loop filterFilename (List.range o.numWdirs) answers o)
      (by rw [do_del_loop_numdent]; exact hn)
    unfold do_del
    simp only
    by_cases hf : d > (do_del_loop filterFilename (List.range o.numWdirs) answers o).numdent
        ∨ d * (do_del_loop filterFilename (List.range o.numWdirs) answers o).maxseg
            < (do_del_loop filterFilename (List.range o.numWdirs) answers o).numWdirs
    · rw [hfail hf]
      exact ⟨_, rfl⟩
    · obtain ⟨r, hr, -⟩ := hok hf
      rw [hr]
      exact ⟨_, rfl⟩


/-! ### Replacing a file (do_del.c, do_in.c) -/

theorem preDeleteTrack_frame (o : Options) (k : Nat) (cur : InWorkingDir) :
    (preDeleteTrack o k cur).totEmpty = o.totEmpty
      ∧ (preDeleteTrack o k cur).totPerm = o.totPerm := by
  unfold preDeleteTrack
  repeat' split
  all_goals exact ⟨rfl, rfl⟩

theorem preDeleteStep_exact (p : Options) (k : Nat) (wdp : InWorkingDir)
    (hk : p.wDirArray[k]? = some wdp) :
    ((wdp.rt11.control &&& PERM ≠ 0 ∧ wdp.rt11.name = p.iHandle.iNameR50) →
        (preDeleteStep p k).wDirArray
            = p.wDirArray.set k { wdp with rt11 := { wdp.rt11 with control := EMPTY } }
          ∧ (preDeleteStep p k).totEmpty = p.totEmpty + wdp.rt11.blocks
          ∧ (preDeleteStep p k).totPerm = p.totPerm - wdp.rt11.blocks)
    ∧ (¬ (wdp.rt11.control &&& PERM ≠ 0 ∧ wdp.rt11.name = p.iHandle.iNameR50) →
        (preDeleteStep p k).wDirArray = p.wDirArray
          ∧ (preDeleteStep p k).totEmpty = p.totEmpty
          ∧ (preDeleteStep p k).totPerm = p.totPerm) := by
  have hlt : k < p.wDirArray.length := (List.getElem?_eq_some.mp hk).1
  have hname : wdp.rt11.name = p.iHandle.iNameR50 ↔
      (wdp.rt11.name.w0 = p.iHandle.iNameR50.w0 ∧ wdp.rt11.name.w1 = p.iHandle.iNameR50.w1
        ∧ wdp.rt11.name.w2 = p.iHandle.iNameR50.w2) := by
    constructor
    · intro h; rw [h]; exact ⟨rfl, rfl, rfl⟩
    · intro h
      cases hn : wdp.rt11.name
      cases hx : p.iHandle.iNameR50
      rw [hn, hx] at h
      simp only at h
      obtain ⟨h0, h1, h2⟩ := h
      rw [h0, h1, h2]
  constructor
  · intro hm
    have hrel : preDeleteRelease p k wdp =
        { p with
          wDirArray := p.wDirArray.set k { wdp with rt11 := { wdp.rt11 with control := EMPTY } },
          dirDirty := 1,
          totEmpty := p.totEmpty + wdp.rt11.blocks,
          totPerm := p.totPerm - wdp.rt11.blocks } := by
      unfold preDeleteRelease
      rw [if_pos ⟨hm.1, hname.mp hm.2⟩]
    have hget : (preDeleteRelease p k wdp).wDirArray[k]?
        = some { wdp with rt11 := { wdp.rt11 with control := EMPTY } } := by
      rw [hrel]
      exact List.getElem?_set_self hlt
    obtain ⟨t1, -, -, -⟩ := preDeleteTrack_spec (preDeleteRelease p k wdp) k
      { wdp with rt11 := { wdp.rt11 with control := EMPTY } }
    obtain ⟨f1, f2⟩ := preDeleteTrack_frame (preDeleteRelease p k wdp) k
      { wdp with rt11 := { wdp.rt11 with control := EMPTY } }
    simp only [preDeleteStep, hk, hget]
    rw [t1, f1, f2, hrel]
    exact ⟨rfl, rfl, rfl⟩
  · intro hm
    have hrel : preDeleteRelease p k wdp = p := by
      unfold preDeleteRelease
      rw [if_neg (fun h => hm ⟨h.1, hname.mpr h.2⟩)]
    obtain ⟨t1, -, -, -⟩ := preDeleteTrack_spec p k wdp
    obtain ⟨f1, f2⟩ := preDeleteTrack_frame p k wdp
    simp only [preDeleteStep, hk, hrel]
    exact ⟨t1, f1, f2⟩

theorem preDeleteStep_name (p : Options) (k : Nat) :
    (preDeleteStep p k).iHandle.iNameR50 = p.iHandle.iNameR50 := by
  cases hk : p.wDirArray[k]? with
  | none => simp only [preDeleteStep, hk]
  | some wdp =>
    obtain ⟨cur, -, -, -, h, -⟩ := preDeleteStep_spec p k wdp hk
    exact h


theorem preDelete_fold_unique (o : Options) (i : Nat) (x : InWorkingDir)
    (hx : o.wDirArray[i]? = some x) (hperm : x.rt11.control &&& PERM ≠ 0)
    (hname : x.rt11.name = o.iHandle.iNameR50)
    (huniq : ∀ (j : Nat) (w : InWorkingDir), j ≠ i → o.wDirArray[j]? = some w →
      w.rt11.control &&& PERM ≠ 0 → w.rt11.name ≠ o.iHandle.iNameR50)
    (k : Nat) (hk : k ≤ o.wDirArray.length) :
    ((List.range k).foldl preDeleteStep
        { o with iHandle := { o.iHandle with sizeMatch := none } }).wDirArray
      = (if i < k then
          o.wDirArray.set i { x with rt11 := { x.rt11 with control := EMPTY } }
         else o.wDirArray)
    ∧ ((List.range k).foldl preDeleteStep
        { o with iHandle := { o.iHandle with sizeMatch := none } }).totEmpty
      = o.totEmpty + (if i < k then (x.rt11.blocks : Int) else 0)
    ∧ ((List.range k).foldl preDeleteStep
        { o with iHandle := { o.iHandle with sizeMatch := none } }).totPerm
      = o.totPerm - (if i < k then (x.rt11.blocks : Int) else 0)
    ∧ ((List.range k).foldl preDeleteStep
        { o with iHandle := { o.iHandle with sizeMatch := none } }).iHandle.iNameR50
      = o.iHandle.iNameR50 := by
  induction k with
  | zero =>
    simp
  | succ k ih =>
    obtain ⟨h1, h2, h3, h4⟩ := ih (by omega)
    simp only [List.range_succ, List.foldl_append, List.foldl_cons, List.foldl_nil]
    generalize (List.range k).foldl preDeleteStep
      { o with iHandle := { o.iHandle with sizeMatch := none } } = ok at h1 h2 h3 h4
    have hklt : k < o.wDirArray.length := by omega
    by_cases hik : k = i
    · subst hik
      rw [if_neg (Nat.lt_irrefl _)] at h1 h2 h3
      have hget : ok.wDirArray[k]? = some x := by rw [h1]; exact hx
      obtain ⟨s1, s2, s3⟩ := (preDeleteStep_exact ok k x hget).1 ⟨hperm, by rw [h4]; exact hname⟩
      rw [if_pos (Nat.lt_succ_self _), s1, s2, s3, h1, h2, h3, preDeleteStep_name, h4]
      simp
    · obtain ⟨w, hw⟩ : ∃ w, o.wDirArray[k]? = some w := ⟨_, List.getElem?_eq_getElem hklt⟩
      have hget : ok.wDirArray[k]? = some w := by
        rw [h1]
        split
        · rw [List.getElem?_set_ne (Ne.symm hik)]; exact hw
        · exact hw
      have hnm : ¬ (w.rt11.control &&& PERM ≠ 0 ∧ w.rt11.name = ok.iHandle.iNameR50) := by
        rintro ⟨hp, hn⟩
        rw [h4] at hn
        exact huniq k w hik hw hp hn
      obtain ⟨s1, s2, s3⟩ := (preDeleteStep_exact ok k w hget).2 hnm
      have hiff : (i < k + 1) = (i < k) := by
        apply propext
        constructor <;> intro h <;> omega
      rw [s1, s2, s3, h1, h2, h3, preDeleteStep_name, h4]
      simp only [hiff]
      simp

theorem preDelete_unique (o : Options) (i : Nat) (x : InWorkingDir)
    (hx : o.wDirArray[i]? = some x) (hperm : x.rt11.control &&& PERM ≠ 0)
    (hname : x.rt11.name = o.iHandle.iNameR50)
    (huniq : ∀ (j : Nat) (w : InWorkingDir), j ≠ i → o.wDirArray[j]? = some w →
      w.rt11.control &&& PERM ≠ 0 → w.rt11.name ≠ o.iHandle.iNameR50) :
    (preDelete o).wDirArray
        = o.wDirArray.set i { x with rt11 := { x.rt11 with control := EMPTY } }
      ∧ (preDelete o).totEmpty = o.totEmpty + x.rt11.blocks
      ∧ (preDelete o).totPerm = o.totPerm - x.rt11.blocks
      ∧ (preDelete o).iHandle.iNameR50 = o.iHandle.iNameR50
      ∧ (preDelete o).iHandle.fileBlks = o.iHandle.fileBlks := by
  have hlt : i < o.wDirArray.length := (List.getElem?_eq_some.mp hx).1
  obtain ⟨h1, h2, h3, h4⟩ :=
    preDelete_fold_unique o i x hx hperm hname huniq o.wDirArray.length (le_refl _)
  rw [if_pos hlt] at h1 h2 h3
  exact ⟨h1, h2, h3, h4, (preDelete_fold o o.wDirArray.length (le_refl _)).2.1⟩


theorem do_in_alloc_totals (o : Options) (res : WriteResults) (i : Nat) (wdp : InWorkingDir)
    (hsm : o.iHandle.sizeMatch = some i) (hw : o.wDirArray[i]? = some wdp)
    (hfit : wdp.rt11.blocks = o.iHandle.fileBlks) :
    (do_in_alloc o res).1.totEmpty = o.totEmpty - o.iHandle.fileBlks
      ∧ (do_in_alloc o res).1.totPerm = o.totPerm + o.iHandle.fileBlks := by
  have hnl : ¬ wdp.rt11.blocks < o.iHandle.fileBlks := by omega
  have hs : do_in_split o i wdp = some o.wDirArray := by
    unfold do_in_split
    rw [if_neg (by simpa using hfit)]
  simp only [do_in_alloc, hsm, hw, hnl, if_false, hs]
  unfold do_in_write writeFileToContainer
  repeat' split
  all_goals exact ⟨rfl, rfl⟩

theorem preDelete_selects_replaced (o : Options) (i : Nat) (x : InWorkingDir)
    (hx : o.wDirArray[i]? = some x) (hperm : x.rt11.control &&& PERM ≠ 0)
    (hname : x.rt11.name = o.iHandle.iNameR50)
    (hsize : x.rt11.blocks = o.iHandle.fileBlks)
    (huniq : ∀ (j : Nat) (w : InWorkingDir), j ≠ i → o.wDirArray[j]? = some w →
      w.rt11.control &&& PERM ≠ 0 → w.rt11.name ≠ o.iHandle.iNameR50)
    (hfirst : ∀ (j : Nat) (w : InWorkingDir), j < i → o.wDirArray[j]? = some w →
      w.rt11.control &&& PERM = 0 → w.rt11.blocks ≠ o.iHandle.fileBlks) :
    (preDelete o).iHandle.sizeMatch = some i := by
  have hlt : i < o.wDirArray.length := (List.getElem?_eq_some.mp hx).1
  obtain ⟨hl, -, -, -, -⟩ := preDelete_unique o i x hx hperm hname huniq
  have hbf : BestFitUpTo (preDelete o).wDirArray o.iHandle.fileBlks o.wDirArray.length
      (preDelete o).iHandle.sizeMatch :=
    (preDelete_fold o o.wDirArray.length (le_refl _)).2.2.2.2
  have hgi : (preDelete o).wDirArray[i]?
      = some { x with rt11 := { x.rt11 with control := EMPTY } } := by
    rw [hl]
    exact List.getElem?_set_self hlt
  have hfree : ({ x with rt11 := { x.rt11 with control := EMPTY } } : InWorkingDir).rt11.control
      &&& PERM = 0 := show EMPTY &&& PERM = 0 by decide
  cases hsm : (preDelete o).iHandle.sizeMatch with
  | none =>
    exact absurd (le_of_eq hsize.symm)
      (hbf.2 hsm i { x with rt11 := { x.rt11 with control := EMPTY } } hlt hgi hfree)
  | some i' =>
    obtain ⟨hi', w, hw, hwfree, hwfit, hbest⟩ := hbf.1 i' hsm
    rcases hbest i { x with rt11 := { x.rt11 with control := EMPTY } } hlt hgi hfree
        (le_of_eq hsize.symm) with h | ⟨h, hle⟩
    · exact absurd h (by
        show ¬ w.rt11.blocks < x.rt11.blocks
        omega)
    · by_cases he : i' = i
      · rw [he]
      · have hw' : o.wDirArray[i']? = some w := by
          rw [hl, List.getElem?_set_ne (Ne.symm he)] at hw
          exact hw
        have hb : w.rt11.blocks = x.rt11.blocks := h
        exact absurd (hb.trans hsize) (hfirst i' w (by omega) hw' hwfree)


/-- C11 (amended): replacing a file in place.  When the working list holds
exactly one permanent entry named like the file to insert, at index `i` with
LBA `L`, its size equals the size `n` of the new payload, and no free entry
before index `i` has exactly `n` blocks, then `preDelete` followed by the
allocation of `do_in` leaves at index `i` a permanent entry of that name with
`n` blocks at LBA `L`; every other entry, `numWdirs`, `totEmpty` and
`totPerm` are as before. -/
theorem replace_reuses_slot (o : Options) (res : WriteResults) (i : Nat) (x : InWorkingDir)
    (hx : o.wDirArray[i]? = some x) (hperm : x.rt11.control &&& PERM ≠ 0)
    (hname : x.rt11.name = o.iHandle.iNameR50)
    (hsize : x.rt11.blocks = o.iHandle.fileBlks) (hty : x.rt11.blocks < 65536)
    (huniq : ∀ (j : Nat) (w : InWorkingDir), j ≠ i → o.wDirArray[j]? = some w →
      w.rt11.control &&& PERM ≠ 0 → w.rt11.name ≠ o.iHandle.iNameR50)
    (hfirst : ∀ (j : Nat) (w : InWorkingDir), j < i → o.wDirArray[j]? = some w →
      w.rt11.control &&& PERM = 0 → w.rt11.blocks ≠ o.iHandle.fileBlks) :
    (∃ e, (do_in_alloc (preDelete o) res).1.wDirArray[i]? = some e
        ∧ e.rt11.control = PERM ∧ e.rt11.name = o.iHandle.iNameR50
        ∧ e.rt11.blocks = o.iHandle.fileBlks ∧ e.lba = x.lba)
    ∧ (∀ j, j ≠ i → (do_in_alloc (preDelete o) res).1.wDirArray[j]? = o.wDirArray[j]?)
    ∧ (do_in_alloc (preDelete o) res).1.numWdirs = o.numWdirs
    ∧ (do_in_alloc (preDelete o) res).1.totEmpty = o.totEmpty
    ∧ (do_in_alloc (preDelete o) res).1.totPerm = o.totPerm := by
  have hlt : i < o.wDirArray.length := (List.getElem?_eq_some.mp hx).1
  obtain ⟨hl, hte, htp, hnm, hfb⟩ := preDelete_unique o i x hx hperm hname huniq
  have hsm := preDelete_selects_replaced o i x hx hperm hname hsize huniq hfirst
  have hgi : (preDelete o).wDirArray[i]?
      = some { x with rt11 := { x.rt11 with control := EMPTY } } := by
    rw [hl]
    exact List.getElem?_set_self hlt
  have hfit : ({ x with rt11 := { x.rt11 with control := EMPTY } } : InWorkingDir).rt11.blocks
      = (preDelete o).iHandle.fileBlks := by
    rw [hfb]; exact hsize
  have hlist := do_in_alloc_list (preDelete o) res i _ hsm hgi (le_of_eq hfit.symm)
  rw [if_pos hfit] at hlist
  obtain ⟨t1, t2⟩ := do_in_alloc_totals (preDelete o) res i _ hsm hgi hfit
  have hlen : (List.take i (preDelete o).wDirArray).length = i := by
    rw [List.length_take, hl, List.length_set]
    omega
  refine ⟨⟨do_in_entry (preDelete o) { x with rt11 := { x.rt11 with control := EMPTY } } x.lba,
    ?_, rfl, hnm, ?_, rfl⟩, ?_, ?_, ?_, ?_⟩
  · rw [hlist, List.getElem?_append_right (by omega), hlen, Nat.sub_self,
      List.getElem?_cons_zero]
  · show (preDelete o).iHandle.fileBlks % 65536 = o.iHandle.fileBlks
    rw [hfb, ← hsize]
    exact Nat.mod_eq_of_lt hty
  · intro j hj
    rw [hlist]
    rcases Nat.lt_or_gt_of_ne hj with h | h
    · rw [List.getElem?_append_left (by omega), List.getElem?_take_of_lt h, hl,
        List.getElem?_set_ne (by omega)]
    · rw [List.getElem?_append_right (by omega), hlen]
      obtain ⟨d, hd⟩ : ∃ d, j = i + 1 + d := ⟨j - i - 1, by omega⟩
      subst hd
      rw [show i + 1 + d - i = d + 1 by omega, List.getElem?_cons_succ, List.getElem?_drop, hl,
        List.getElem?_set_ne (by omega)]
  · unfold Options.numWdirs
    have hlen2 : (preDelete o).wDirArray.length = o.wDirArray.length := by
      rw [hl, List.length_set]
    rw [hlist, List.length_append, List.length_cons, List.length_drop, hlen, hlen2]
    omega
  · rw [t1, hte, hfb, ← hsize]; ring
  · rw [t2, htp, hfb, ← hsize]; ring

/-- C11 at a concrete volume: the 8-block file `FILE.TXT` at block 100,
followed by a free area, is replaced in place. -/
theorem replace_reuses_slot_witness :
    (∃ e, (do_in_alloc (preDelete replaceInPlaceExample)
            { reopenOk := true, seekOk := true, writeOk := true }).1.wDirArray[0]? = some e
        ∧ e.rt11.control = PERM ∧ e.rt11.name = replaceInPlaceExample.iHandle.iNameR50
        ∧ e.rt11.blocks = replaceInPlaceExample.iHandle.fileBlks
        ∧ e.lba = (exampleEntry PERM exampleName 8 100).lba)
    ∧ (∀ j, j ≠ 0 → (do_in_alloc (preDelete replaceInPlaceExample)
            { reopenOk := true, seekOk := true, writeOk := true }).1.wDirArray[j]?
          = replaceInPlaceExample.wDirArray[j]?)
    ∧ (do_in_alloc (preDelete replaceInPlaceExample)
            { reopenOk := true, seekOk := true, writeOk := true }).1.numWdirs
          = replaceInPlaceExample.numWdirs
    ∧ (do_in_alloc (preDelete replaceInPlaceExample)
            { reopenOk := true, seekOk := true, writeOk := true }).1.totEmpty
          = replaceInPlaceExample.totEmpty
    ∧ (do_in_alloc (preDelete replaceInPlaceExample)
            { reopenOk := true, seekOk := true, writeOk := true }).1.totPerm
          = replaceInPlaceExample.totPerm :=
  replace_reuses_slot replaceInPlaceExample { reopenOk := true, seekOk := true, writeOk := true }
    0 (exampleEntry PERM exampleName 8 100) (by rfl) (by decide) (by rfl) (by rfl) (by decide)
    (by
      intro j w hj hw hp
      obtain ⟨d, rfl⟩ : ∃ d, j = d + 1 := ⟨j - 1, by omega⟩
      cases d with
      | zero =>
        have : w = freeEntry 8 108 := (Option.some.inj hw).symm
        subst this
        exact absurd hp (by decide)
      | succ d => cases hw)
    (by intro j w hj; omega)

/-- C11 (as stated) fails when a free area of the same size precedes the file:
best fit takes the first of the equal candidates, so the new `FILE.TXT` goes to
block 100 and the entry at block 108, where the file was, is left free. -/
theorem replace_moves_file_counterexample :
    replaceExample.wDirArray.map
        (fun w => (w.rt11.control, decide (w.rt11.name = exampleName), w.rt11.blocks, w.lba))
      = [(EMPTY, false, 8, 100), (PERM, true, 8, 108)]
    ∧ replaceExample.iHandle.iNameR50 = exampleName ∧ replaceExample.iHandle.fileBlks = 8
    ∧ (do_in_alloc (preDelete replaceExample)
          { reopenOk := true, seekOk := true, writeOk := true }).1.wDirArray.map
        (fun w => (w.rt11.control, decide (w.rt11.name = exampleName), w.rt11.blocks, w.lba))
      = [(PERM, true, 8, 100), (EMPTY, true, 8, 108)] :=
  ⟨by rfl, by rfl, by rfl, by rfl⟩


/-! ### The segment walk of the parser (parse.c) -/

theorem visitedSegments_none (m : Mem) (k : Nat) :
    visitedSegments m (k + 1) none = 1 :: visitedSegments m k (some 0) := by
  simp [visitedSegments]

theorem visitedSegments_some (m : Mem) (k sp : Nat) :
    visitedSegments m (k + 1) (some sp)
      = if rd16 m (sp + OFF_LINK) ≠ 0 ∧ rd16 m (sp + OFF_LINK) ≤ rd16 m OFF_LAST then
          rd16 m (sp + OFF_LINK)
            :: visitedSegments m k (some ((rd16 m (sp + OFF_LINK) - 1) * SEGSIZ))
        else [] := by
  by_cases h : rd16 m (sp + OFF_LINK) ≠ 0 ∧ rd16 m (sp + OFF_LINK) ≤ rd16 m OFF_LAST
  · simp only [visitedSegments, h, if_true, and_self, ne_eq, not_false_eq_true]
  · simp only [visitedSegments, h, if_false]

theorem parseSegments_none (m : Mem) (numdent k : Nat) (o : Options) :
    parseSegments m numdent (k + 1) none o
      = parseSegments m numdent k (some 0) (parseSegment m numdent o 1) := by
  simp [parseSegments, parseSegment]

theorem parseSegments_some (m : Mem) (numdent k sp : Nat) (o : Options) :
    parseSegments m numdent (k + 1) (some sp) o
      = if rd16 m (sp + OFF_LINK) ≠ 0 ∧ rd16 m (sp + OFF_LINK) ≤ rd16 m OFF_LAST then
          parseSegments m numdent k (some ((rd16 m (sp + OFF_LINK) - 1) * SEGSIZ))
            (parseSegment m numdent o (rd16 m (sp + OFF_LINK)))
        else o := by
  by_cases h : rd16 m (sp + OFF_LINK) ≠ 0 ∧ rd16 m (sp + OFF_LINK) ≤ rd16 m OFF_LAST
  · simp only [parseSegments, parseSegment, h, if_true, and_self, ne_eq, not_false_eq_true]
  · simp only [parseSegments, h, if_false]

theorem parseSegments_eq_foldl (m : Mem) (numdent : Nat) :
    ∀ (k : Nat) (segptr : Option Nat) (o : Options),
      parseSegments m numdent k segptr o
        = (visitedSegments m k segptr).foldl (parseSegment m numdent) o := by
  intro k
  induction k with
  | zero => intro segptr o; simp [parseSegments, visitedSegments]
  | succ k ih =>
    intro segptr o
    cases segptr with
    | none => rw [parseSegments_none, visitedSegments_none, List.foldl_cons, ih]
    | some sp =>
      rw [parseSegments_some, visitedSegments_some]
      split
      · rw [List.foldl_cons, ih]
      · rfl

theorem visitedSegments_length (m : Mem) :
    ∀ (k : Nat) (segptr : Option Nat), (visitedSegments m k segptr).length ≤ k := by
  intro k
  induction k with
  | zero => intro _; simp [visitedSegments]
  | succ k ih =>
    intro segptr
    cases segptr with
    | none =>
      rw [visitedSegments_none, List.length_cons]
      exact Nat.succ_le_succ (ih _)
    | some sp =>
      rw [visitedSegments_some]
      split
      · rw [List.length_cons]
        exact Nat.succ_le_succ (ih _)
      · simp

theorem visitedSegments_chain (m : Mem) :
    ∀ (k : Nat) (r : Nat),
      List.Chain (fun r1 r2 => r2 = rd16 m ((r1 - 1) * SEGSIZ + OFF_LINK) ∧ r2 ≠ 0
          ∧ r2 ≤ rd16 m OFF_LAST) r
        (visitedSegments m k (some ((r - 1) * SEGSIZ))) := by
  intro k
  induction k with
  | zero => intro r; simp [visitedSegments]
  | succ k ih =>
    intro r
    rw [visitedSegments_some]
    split
    · rename_i h
      exact List.Chain.cons ⟨rfl, h.1, h.2⟩ (ih _)
    · exact List.Chain.nil

theorem visitedSegments_stop (m : Mem) :
    ∀ (k : Nat) (r : Nat),
      (visitedSegments m k (some ((r - 1) * SEGSIZ))).length < k →
      ∃ r0, (r :: visitedSegments m k (some ((r - 1) * SEGSIZ))).getLast? = some r0
        ∧ ¬ (rd16 m ((r0 - 1) * SEGSIZ + OFF_LINK) ≠ 0
              ∧ rd16 m ((r0 - 1) * SEGSIZ + OFF_LINK) ≤ rd16 m OFF_LAST) := by
  intro k
  induction k with
  | zero => intro r h; simp at h
  | succ k ih =>
    intro r
    rw [visitedSegments_some]
    split
    · rename_i h
      intro hlen
      simp only [List.length_cons, Nat.succ_lt_succ_iff] at hlen
      obtain ⟨r0, h1, h2⟩ := ih _ hlen
      refine ⟨r0, ?_, h2⟩
      rw [List.getLast?_cons_cons]
      exact h1
    · rename_i h
      intro _
      exact ⟨r, rfl, h⟩


theorem visitedSegments_range (m : Mem) :
    ∀ (k : Nat) (sp : Nat), ∀ r ∈ visitedSegments m k (some sp),
      r ≠ 0 ∧ r ≤ rd16 m OFF_LAST := by
  intro k
  induction k with
  | zero => intro sp r hr; simp [visitedSegments] at hr
  | succ k ih =>
    intro sp r hr
    rw [visitedSegments_some] at hr
    split at hr
    · rename_i h
      rcases List.mem_cons.mp hr with e | e
      · rw [e]; exact h
      · exact ih _ r e
    · simp at hr

/-- C19 (amended): the segment walk of `parse_directory` on a directory whose
`last` field does not exceed the number of segments the buffer holds.  The
function is total; its working list is the result of running the entry loop
over the visited segments in order.  The walk starts at segment 1, visits at
most `maxseg` segments, and goes from a segment to the next only along a link
that is neither 0 nor greater than the `last` field of segment 1; it stops
before `maxseg` segments only at such a link; every segment it reads lies
inside the `maxseg * 1024` bytes of the buffer.  (Nothing keeps it from
visiting a segment again.) -/
theorem parse_directory_walk (o : Options) (hlast : rd16 o.directory OFF_LAST ≤ o.maxseg) :
    (parse_directory o).wDirArray
        = ((visitedSegments o.directory o.maxseg none).foldl
            (parseSegment o.directory o.numdent) o).wDirArray
    ∧ (visitedSegments o.directory o.maxseg none).length ≤ o.maxseg
    ∧ (visitedSegments o.directory o.maxseg none).head?
        = (if o.maxseg = 0 then none else some 1)
    ∧ List.Chain' (fun r1 r2 => r2 = rd16 o.directory ((r1 - 1) * SEGSIZ + OFF_LINK) ∧ r2 ≠ 0
          ∧ r2 ≤ rd16 o.directory OFF_LAST)
        (visitedSegments o.directory o.maxseg none)
    ∧ ((visitedSegments o.directory o.maxseg none).length < o.maxseg →
        ∃ r0, (visitedSegments o.directory o.maxseg none).getLast? = some r0
          ∧ ¬ (rd16 o.directory ((r0 - 1) * SEGSIZ + OFF_LINK) ≠ 0
                ∧ rd16 o.directory ((r0 - 1) * SEGSIZ + OFF_LINK) ≤ rd16 o.directory OFF_LAST))
    ∧ (∀ r ∈ visitedSegments o.directory o.maxseg none,
        1 ≤ r ∧ (r - 1) * SEGSIZ + SEGSIZ ≤ o.maxseg * SEGSIZ) := by
  refine ⟨?_, visitedSegments_length _ _ _, ?_, ?_, ?_, ?_⟩
  · rw [parse_directory_list, parseSegments_eq_foldl]
  · cases h : o.maxseg with
    | zero => simp [visitedSegments]
    | succ k => rw [visitedSegments_none]; simp
  · cases h : o.maxseg with
    | zero => simp [visitedSegments]
    | succ k =>
      rw [visitedSegments_none]
      exact visitedSegments_chain o.directory k 1
  · cases h : o.maxseg with
    | zero => intro hlt; exact absurd hlt (Nat.not_lt_zero _)
    | succ k =>
      rw [visitedSegments_none]
      intro hlt
      simp only [List.length_cons, Nat.succ_lt_succ_iff] at hlt
      exact visitedSegments_stop o.directory k 1 hlt
  · have hS : SEGSIZ = 1024 := rfl
    cases h : o.maxseg with
    | zero => intro r hr; simp [visitedSegments] at hr
    | succ k =>
      rw [h] at hlast
      rw [visitedSegments_none]
      intro r hr
      rcases List.mem_cons.mp hr with e | e
      · rw [e, hS]
        omega
      · obtain ⟨h0, h1⟩ := visitedSegments_range o.directory k 0 r e
        rw [hS]
        omega

/-- C19 at a concrete directory: segment 1 links to itself, `last = 1` and the
buffer holds 4 segments; every visit reads segment 1. -/
theorem parse_directory_walk_witness :
    rd16 (Options.init cyclicDirectory 4 72 6 0 0).directory OFF_LAST
        ≤ (Options.init cyclicDirectory 4 72 6 0 0).maxseg
    ∧ (visitedSegments cyclicDirectory 4 none).length ≤ 4
    ∧ (∀ r ∈ visitedSegments cyclicDirectory 4 none,
        1 ≤ r ∧ (r - 1) * SEGSIZ + SEGSIZ ≤ 4 * SEGSIZ) :=
  ⟨by decide,
   (parse_directory_walk (Options.init cyclicDirectory 4 72 6 0 0) (by decide)).2.1,
   (parse_directory_walk (Options.init cyclicDirectory 4 72 6 0 0) (by decide)).2.2.2.2.2⟩

/-- C19 (as stated) fails on a directory whose segment 1 links to itself with
`last = 1` and `smax = 4`: the walk visits segment 1 four times, more than
`last` segments, and the one file of the volume appears four times in the
working list. -/
theorem parse_directory_cycle_counterexample :
    checkHeaderGeometry cyclicDirectory = (4, 72)
    ∧ rd16 cyclicDirectory OFF_LAST = 1
    ∧ rd16 cyclicDirectory OFF_LINK = 1
    ∧ visitedSegments cyclicDirectory 4 none = [1, 1, 1, 1]
    ∧ (parse_directory (Options.init cyclicDirectory 4 72 6 0 0)).wDirArray.map
          (fun w => (w.rt11.control, w.rt11.name.w0, w.rt11.blocks, w.lba, w.segNo, w.segIdx))
        = [(PERM, 1, 5, 14, 1, 0), (PERM, 1, 5, 14, 1, 0), (PERM, 1, 5, 14, 1, 0),
           (PERM, 1, 5, 14, 1, 0)] :=
  ⟨by rfl, by rfl, by rfl, by rfl, by rfl⟩


/-! ### The entry loop of the parser (parse.c) -/

theorem land_bit_cases (c : Nat) (k : Nat) : c &&& 2 ^ k = 0 ∨ c &&& 2 ^ k = 2 ^ k := by
  rw [Nat.and_two_pow]
  cases c.testBit k <;> simp

theorem loneEnd_iff (d : Rt11DirEnt) :
    d.control &&& (ENDBLK ||| PERM ||| EMPTY ||| TENT) = ENDBLK ↔ LoneEnd d := by
  unfold LoneEnd
  have hE : d.control &&& ENDBLK = 0 ∨ d.control &&& ENDBLK = ENDBLK := land_bit_cases _ 11
  have hP : d.control &&& PERM = 0 ∨ d.control &&& PERM = PERM := land_bit_cases _ 10
  have hM : d.control &&& EMPTY = 0 ∨ d.control &&& EMPTY = EMPTY := land_bit_cases _ 9
  have hT : d.control &&& TENT = 0 ∨ d.control &&& TENT = TENT := land_bit_cases _ 8
  rw [Nat.and_or_distrib_left, Nat.and_or_distrib_left, Nat.and_or_distrib_left]
  rcases hE with hE | hE <;> rcases hP with hP | hP <;> rcases hM with hM | hM <;>
    rcases hT with hT | hT <;> rw [hE, hP, hM, hT] <;> decide

theorem cleared_end (c : Nat) : (c &&& (65535 ^^^ ENDBLK)) &&& ENDBLK = 0 := by
  rw [Nat.land_assoc]
  have : (65535 ^^^ ENDBLK) &&& ENDBLK = 0 := by decide
  rw [this, Nat.and_zero]


theorem slotAt_zero (m : Mem) (base : Nat) : slotAt m base 0 = rdDirEnt m base := by
  simp [slotAt]

theorem slotAt_succ (m : Mem) (base i : Nat) :
    slotAt m (base + DIRLEN + rd16 m OFF_EXTRA) i = slotAt m base (i + 1) := by
  unfold slotAt
  congr 1
  rw [Nat.succ_mul]
  omega

theorem retainedEntry_succ (m : Mem) (relseg ii base acc i : Nat) :
    retainedEntry m relseg (ii + 1) (base + DIRLEN + rd16 m OFF_EXTRA)
        (acc + (rdDirEnt m base).blocks) i
      = retainedEntry m relseg ii base acc (i + 1) := by
  unfold retainedEntry
  simp only [slotAt_succ]
  have hsum : acc + (rdDirEnt m base).blocks
        + ((List.range i).map (fun j => (slotAt m base (j + 1)).blocks)).sum
      = acc + ((List.range (i + 1)).map (fun j => (slotAt m base j).blocks)).sum := by
    rw [List.range_succ_eq_map, List.map_cons, List.sum_cons, List.map_map, slotAt_zero]
    have : ((fun j => (slotAt m base j).blocks) ∘ Nat.succ)
        = (fun j => (slotAt m base (j + 1)).blocks) := rfl
    rw [this]
    omega
  rw [hsum, show ii + 1 + i = ii + (i + 1) by omega]

theorem parseEntries_lone (m : Mem) (relseg k ii base acc : Nat) (o : Options)
    (h : LoneEnd (rdDirEnt m base)) :
    parseEntries m relseg (k + 1) ii base acc o = o := by
  rw [parseEntries]
  simp only [(loneEnd_iff _).mpr h, if_true]

theorem parseEntries_last (m : Mem) (relseg k ii base acc : Nat) (o : Options)
    (h : ¬ LoneEnd (rdDirEnt m base)) (he : (rdDirEnt m base).control &&& ENDBLK ≠ 0) :
    (parseEntries m relseg (k + 1) ii base acc o).wDirArray
      = o.wDirArray ++ [retainedEntry m relseg ii base acc 0] := by
  have h' : ¬ ((rdDirEnt m base).control &&& (ENDBLK ||| PERM ||| EMPTY ||| TENT) = ENDBLK) :=
    fun hc => h ((loneEnd_iff _).mp hc)
  rw [parseEntries]
  simp only [h', if_false, he, ne_eq, not_false_eq_true, if_true]
  unfold retainedEntry
  simp only [slotAt_zero, List.range_zero, List.map_nil, List.sum_nil, Nat.add_zero]
  split <;> rfl

theorem parseEntries_next (m : Mem) (relseg k ii base acc : Nat) (o : Options)
    (h : ¬ LoneEnd (rdDirEnt m base)) (he : (rdDirEnt m base).control &&& ENDBLK = 0) :
    ∃ o2 : Options, o2.wDirArray = o.wDirArray ++ [retainedEntry m relseg ii base acc 0]
      ∧ parseEntries m relseg (k + 1) ii base acc o
          = parseEntries m relseg k (ii + 1) (base + DIRLEN + rd16 m OFF_EXTRA)
              (acc + (rdDirEnt m base).blocks) o2 := by
  have h' : ¬ ((rdDirEnt m base).control &&& (ENDBLK ||| PERM ||| EMPTY ||| TENT) = ENDBLK) :=
    fun hc => h ((loneEnd_iff _).mp hc)
  rw [parseEntries]
  simp only [h', if_false, he, ne_eq, not_true_eq_false]
  refine ⟨_, ?_, rfl⟩
  unfold retainedEntry
  simp only [slotAt_zero, List.range_zero, List.map_nil, List.sum_nil, Nat.add_zero]
  split <;> rfl

theorem parseEntries_retains (m : Mem) (relseg : Nat) :
    ∀ (k ii base acc : Nat) (o : Options),
      ∃ n, n ≤ k
        ∧ (parseEntries m relseg k ii base acc o).wDirArray
            = o.wDirArray ++ (List.range n).map (retainedEntry m relseg ii base acc)
        ∧ (∀ i, i < n → ¬ LoneEnd (slotAt m base i))
        ∧ (∀ i, i + 1 < n → (slotAt m base i).control &&& ENDBLK = 0)
        ∧ (n = k ∨ LoneEnd (slotAt m base n)
            ∨ ∃ i, i + 1 = n ∧ (slotAt m base i).control &&& ENDBLK ≠ 0) := by
  intro k
  induction k with
  | zero =>
    intro ii base acc o
    exact ⟨0, le_refl _, by simp [parseEntries], fun i h => absurd h (Nat.not_lt_zero _),
      fun i h => absurd h (Nat.not_lt_zero _), Or.inl rfl⟩
  | succ k ih =>
    intro ii base acc o
    by_cases hl : LoneEnd (rdDirEnt m base)
    · refine ⟨0, Nat.zero_le _, ?_, fun i h => absurd h (Nat.not_lt_zero _),
        fun i h => absurd h (Nat.not_lt_zero _), Or.inr (Or.inl ?_)⟩
      · rw [parseEntries_lone m relseg k ii base acc o hl]
        simp
      · rw [slotAt_zero]; exact hl
    · by_cases he : (rdDirEnt m base).control &&& ENDBLK = 0
      · obtain ⟨o2, ho2, hrec⟩ := parseEntries_next m relseg k ii base acc o hl he
        obtain ⟨n, hn, hlist, hnl, hne, hstop⟩ :=
          ih (ii + 1) (base + DIRLEN + rd16 m OFF_EXTRA) (acc + (rdDirEnt m base).blocks) o2
        refine ⟨n + 1, Nat.succ_le_succ hn, ?_, ?_, ?_, ?_⟩
        · rw [hrec, hlist, ho2, List.range_succ_eq_map, List.map_cons, List.map_map,
            List.append_assoc]
          congr 1
          rw [List.singleton_append]
          congr 1
          apply List.map_congr_left
          intro i _
          exact retainedEntry_succ m relseg ii base acc i
        · intro i hi
          cases i with
          | zero => rw [slotAt_zero]; exact hl
          | succ i =>
            rw [← slotAt_succ]
            exact hnl i (by omega)
        · intro i hi
          cases i with
          | zero => rw [slotAt_zero]; exact he
          | succ i =>
            rw [← slotAt_succ]
            exact hne i (by omega)
        · rcases hstop with h | h | ⟨i, hi, h⟩
          · exact Or.inl (by omega)
          · exact Or.inr (Or.inl (by rw [← slotAt_succ]; exact h))
          · exact Or.inr (Or.inr ⟨i + 1, by omega, by rw [← slotAt_succ]; exact h⟩)
      · refine ⟨1, by omega, ?_, ?_, fun i h => absurd h (by omega),
          Or.inr (Or.inr ⟨0, rfl, by rw [slotAt_zero]; exact he⟩)⟩
        · rw [parseEntries_last m relseg k ii base acc o hl he]
          rfl
        · intro i hi
          have : i = 0 := by omega
          rw [this, slotAt_zero]
          exact hl


/-- C18: the entries `parse_directory` retains from a segment.  The working
list of `parse_directory` is built by running the entry loop over the visited
segments in order, and for every segment `r` the loop appends some number
`n <= numdent` of entries to the list it is given: the entries of slots
`0 .. n-1`, in order.  Each has the name, block count and date of its slot, the
control word of its slot with the `ENDBLK` bit cleared, and as LBA the `start`
field of the segment plus the block counts of the slots before it.  None of
those slots is a lone end marker and none but the last carries `ENDBLK`; the
loop stops at `n = numdent`, at a lone end marker in slot `n` (not retained),
or behind slot `n-1` when that carries `ENDBLK` with another flag
(retained). -/
theorem parseSegment_retains (m : Mem) (numdent : Nat) (o : Options) (r : Nat) :
    (∀ p : Options, (parse_directory p).wDirArray
        = ((visitedSegments p.directory p.maxseg none).foldl
            (parseSegment p.directory p.numdent) p).wDirArray)
    ∧ ∃ n, n ≤ numdent
      ∧ (parseSegment m numdent o r).wDirArray.length = o.wDirArray.length + n
      ∧ (∀ i, i < o.wDirArray.length →
          (parseSegment m numdent o r).wDirArray[i]? = o.wDirArray[i]?)
      ∧ (∀ i, i < n →
          ∃ w, (parseSegment m numdent o r).wDirArray[o.wDirArray.length + i]? = some w
            ∧ w.rt11.control
                = (slotAt m ((r - 1) * SEGSIZ + SEGLEN) i).control &&& (65535 ^^^ ENDBLK)
            ∧ w.rt11.control &&& ENDBLK = 0
            ∧ w.rt11.name = (slotAt m ((r - 1) * SEGSIZ + SEGLEN) i).name
            ∧ w.rt11.blocks = (slotAt m ((r - 1) * SEGSIZ + SEGLEN) i).blocks
            ∧ w.rt11.date = (slotAt m ((r - 1) * SEGSIZ + SEGLEN) i).date
            ∧ w.lba = rd16 m ((r - 1) * SEGSIZ + OFF_START)
                + ((List.range i).map
                    (fun j => (slotAt m ((r - 1) * SEGSIZ + SEGLEN) j).blocks)).sum
            ∧ ¬ LoneEnd (slotAt m ((r - 1) * SEGSIZ + SEGLEN) i))
      ∧ (∀ i, i + 1 < n → (slotAt m ((r - 1) * SEGSIZ + SEGLEN) i).control &&& ENDBLK = 0)
      ∧ (n = numdent ∨ LoneEnd (slotAt m ((r - 1) * SEGSIZ + SEGLEN) n)
          ∨ ∃ i, i + 1 = n
              ∧ (slotAt m ((r - 1) * SEGSIZ + SEGLEN) i).control &&& ENDBLK ≠ 0) := by
  refine ⟨fun p => by rw [parse_directory_list, parseSegments_eq_foldl], ?_⟩
  obtain ⟨n, hn, hlist, hnl, hne, hstop⟩ := parseEntries_retains m r numdent 0
    ((r - 1) * SEGSIZ + SEGLEN) (rd16 m ((r - 1) * SEGSIZ + OFF_START)) o
  have hl : (parseSegment m numdent o r).wDirArray
      = o.wDirArray ++ (List.range n).map (retainedEntry m r 0 ((r - 1) * SEGSIZ + SEGLEN)
          (rd16 m ((r - 1) * SEGSIZ + OFF_START))) := hlist
  refine ⟨n, hn, ?_, ?_, ?_, hne, hstop⟩
  · rw [hl, List.length_append, List.length_map, List.length_range]
  · intro i hi
    rw [hl, List.getElem?_append_left hi]
  · intro i hi
    refine ⟨retainedEntry m r 0 ((r - 1) * SEGSIZ + SEGLEN)
        (rd16 m ((r - 1) * SEGSIZ + OFF_START)) i, ?_, rfl, cleared_end _, rfl, rfl, rfl, rfl,
      hnl i hi⟩
    rw [hl, List.getElem?_append_right (by omega), Nat.add_sub_cancel_left, List.getElem?_map,
      List.getElem?_range hi]
    rfl


/-! ### The home block check (parse.c) -/

theorem strncmp_eq_zero_iff :
    ∀ (n : Nat) (s1 s2 : Nat → Nat), (∀ i, i < n → s2 i ≠ 0) →
      (strncmp s1 s2 n = 0 ↔ ∀ i, i < n → s1 i = s2 i) := by
  intro n
  induction n with
  | zero => intro s1 s2 _; simp [strncmp]
  | succ n ih =>
    intro s1 s2 hnz
    rw [strncmp]
    by_cases h0 : s1 0 = s2 0
    · have hs1 : s1 0 ≠ 0 := by rw [h0]; exact hnz 0 (Nat.succ_pos _)
      rw [if_neg (by simpa using h0), if_neg hs1]
      rw [ih (fun i => s1 (i + 1)) (fun i => s2 (i + 1)) (fun i hi => hnz (i + 1) (by omega))]
      constructor
      · intro h i hi
        cases i with
        | zero => exact h0
        | succ i => exact h i (by omega)
      · intro h i hi
        exact h (i + 1) (by omega)
    · rw [if_pos h0]
      constructor
      · intro h
        exfalso
        apply h0
        omega
      · intro h
        exact absurd (h 0 (Nat.succ_pos _)) h0

theorem sysIDExpected_nonzero : ∀ i, i < 12 → cstr sysIDExpected i ≠ 0 := by decide

theorem sysIDMismatch_iff (home : Mem) :
    sysIDMismatch home ↔ ∃ i, i < 12 ∧ rd8 home (HOME_SYSID + i) ≠ cstr sysIDExpected i := by
  unfold sysIDMismatch
  rw [Ne, strncmp_eq_zero_iff 12 _ _ sysIDExpected_nonzero]
  push_neg
  rfl


theorem checkHeader_allOk (cmdOpts verbose : Nat) (file : Mem) (fileSize : Nat) :
    checkHeader cmdOpts verbose file fileSize headerAllOk
      = if sysIDMismatch (homeBlock cmdOpts file fileSize) then
          some { ret := 1, containerBlocks := fileSize / BLKSIZ,
                 floppyImageSize :=
                   if cmdOpts &&& (CMDOPT_SINGLE_FLPY ||| CMDOPT_DOUBLE_FLPY) ≠ 0 then
                     floppyImageBytes cmdOpts else 0,
                 directory := none, geometry := none }
        else if cmdOpts &&& (CMDOPT_SINGLE_FLPY ||| CMDOPT_DOUBLE_FLPY) ≠ 0 then
          if rd16 (homeBlock cmdOpts file fileSize) HOME_FIRSTSEGMENT * BLKSIZ + SEGLEN
              > floppyImageBytes cmdOpts then none
          else
            some { ret := 0, containerBlocks := fileSize / BLKSIZ,
                   floppyImageSize := floppyImageBytes cmdOpts,
                   directory := some (fun a => unscrambledImage cmdOpts file fileSize
                     (rd16 (homeBlock cmdOpts file fileSize) HOME_FIRSTSEGMENT * BLKSIZ + a)),
                   geometry := some (checkHeaderGeometry (fun a =>
                     unscrambledImage cmdOpts file fileSize
                       (rd16 (homeBlock cmdOpts file fileSize) HOME_FIRSTSEGMENT * BLKSIZ + a))) }
        else
          if rd16 file (rd16 (homeBlock cmdOpts file fileSize) HOME_FIRSTSEGMENT * BLKSIZ) = 0
          then none
          else
            some { ret := 0, containerBlocks := fileSize / BLKSIZ, floppyImageSize := 0,
                   directory := some (fun a =>
                     if a < rd16 file (rd16 (homeBlock cmdOpts file fileSize) HOME_FIRSTSEGMENT
                            * BLKSIZ) * SEGSIZ then
                       file (rd16 (homeBlock cmdOpts file fileSize) HOME_FIRSTSEGMENT * BLKSIZ + a)
                     else 0),
                   geometry := some (checkHeaderGeometry (fun a =>
                     if a < rd16 file (rd16 (homeBlock cmdOpts file fileSize) HOME_FIRSTSEGMENT
                            * BLKSIZ) * SEGSIZ then
                       file (rd16 (homeBlock cmdOpts file fileSize) HOME_FIRSTSEGMENT * BLKSIZ + a)
                     else 0)) } := by
  unfold checkHeader headerAllOk
  by_cases hs : sysIDMismatch (homeBlock cmdOpts file fileSize)
  · by_cases hf : cmdOpts &&& (CMDOPT_SINGLE_FLPY ||| CMDOPT_DOUBLE_FLPY) ≠ 0
    · simp [hs, hf]
    · simp [hs, hf]
  · by_cases hf : cmdOpts &&& (CMDOPT_SINGLE_FLPY ||| CMDOPT_DOUBLE_FLPY) ≠ 0
    · simp [hs, hf]
    · simp [hs, hf]


/-- C20: the home block check of `checkHeader` when every call succeeds.  The
function returns 1 exactly when one of the 12 bytes of `sysID` differs from
`DECRT11A` followed by four spaces; it then leaves no directory buffer and no
geometry.  With the expected `sysID` it returns 0 with a directory buffer and
the geometry read from its first segment, whatever `firstSegment` is, as long
as the behaviour is defined (`smax` not 0 on a plain container, the first
segment inside the image on a floppy).  A container with the expected `sysID`
and `firstSegment = 7` is accepted with `maxseg = 1`, `numdent = 72`. -/
theorem checkHeader_signature (cmdOpts verbose : Nat) (file : Mem) (fileSize : Nat) :
    ((∃ i, i < 12 ∧ rd8 (homeBlock cmdOpts file fileSize) (HOME_SYSID + i)
          ≠ cstr sysIDExpected i) →
      ∃ out, checkHeader cmdOpts verbose file fileSize headerAllOk = some out
        ∧ out.ret = 1 ∧ out.directory = none ∧ out.geometry = none)
    ∧ ((∀ i, i < 12 → rd8 (homeBlock cmdOpts file fileSize) (HOME_SYSID + i)
          = cstr sysIDExpected i) →
      (∀ out, checkHeader cmdOpts verbose file fileSize headerAllOk = some out →
        out.ret = 0
        ∧ ∃ d, out.directory = some d ∧ out.geometry = some (checkHeaderGeometry d))
      ∧ ((if cmdOpts &&& (CMDOPT_SINGLE_FLPY ||| CMDOPT_DOUBLE_FLPY) ≠ 0 then
            rd16 (homeBlock cmdOpts file fileSize) HOME_FIRSTSEGMENT * BLKSIZ + SEGLEN
              ≤ floppyImageBytes cmdOpts
          else rd16 file (rd16 (homeBlock cmdOpts file fileSize) HOME_FIRSTSEGMENT * BLKSIZ)
              ≠ 0) →
        ∃ out, checkHeader cmdOpts verbose file fileSize headerAllOk = some out))
    ∧ (∀ out, checkHeader cmdOpts verbose file fileSize headerAllOk = some out →
        (out.ret ≠ 0 ↔ ∃ i, i < 12 ∧ rd8 (homeBlock cmdOpts file fileSize) (HOME_SYSID + i)
          ≠ cstr sysIDExpected i))
    ∧ rd16 (homeBlock 0 headerExampleFile 65536) HOME_FIRSTSEGMENT = 7
    ∧ (checkHeader 0 0 headerExampleFile 65536 headerAllOk).map
          (fun out => (out.ret, out.geometry)) = some (0, some (1, 72)) := by
  have hall := checkHeader_allOk cmdOpts verbose file fileSize
  have hiff := sysIDMismatch_iff (homeBlock cmdOpts file fileSize)
  refine ⟨?_, ?_, ?_, by rfl, by rfl⟩
  · intro hbad
    rw [hall, if_pos (hiff.mpr hbad)]
    exact ⟨_, rfl, rfl, rfl, rfl⟩
  · intro hgood
    have hno : ¬ sysIDMismatch (homeBlock cmdOpts file fileSize) := by
      rw [hiff]
      rintro ⟨i, hi, hne⟩
      exact hne (hgood i hi)
    rw [hall, if_neg hno]
    constructor
    · intro out hout
      split at hout
      · split at hout
        · cases hout
        · cases hout
          exact ⟨rfl, _, rfl, rfl⟩
      · split at hout
        · cases hout
        · cases hout
          exact ⟨rfl, _, rfl, rfl⟩
    · intro hdef
      split
      · rename_i hf
        rw [if_pos hf] at hdef
        rw [if_neg (by omega)]
        exact ⟨_, rfl⟩
      · rename_i hf
        rw [if_neg hf] at hdef
        rw [if_neg hdef]
        exact ⟨_, rfl⟩
  · intro out hout
    rw [hall] at hout
    rw [← hiff]
    split at hout
    · rename_i hs
      cases hout
      exact ⟨fun _ => hs, fun _ => show (1 : Nat) ≠ 0 by decide⟩
    · rename_i hs
      have hret : out.ret = 0 := by
        split at hout
        · split at hout
          · cases hout
          · cases hout; rfl
        · split at hout
          · cases hout
          · cases hout; rfl
      rw [hret]
      exact ⟨fun h => absurd rfl h, fun h => absurd h hs⟩


/-! ### Writing a file into the container (output.c) -/

/-- C26 (defect of the code): `writeFileToContainer` returns 0 when the seek to
the LBA of the entry fails and when the write of its blocks fails; only a
failed reopen makes it return 1. -/
theorem writeFileToContainer_hides_failure :
    (writeFileToContainer replaceExample
        { reopenOk := true, seekOk := false, writeOk := true }).2 = 0
    ∧ (writeFileToContainer replaceExample
        { reopenOk := true, seekOk := true, writeOk := false }).2 = 0
    ∧ (writeFileToContainer replaceExample
        { reopenOk := false, seekOk := true, writeOk := true }).2 = 1
    ∧ (writeFileToContainer replaceExample
        { reopenOk := true, seekOk := true, writeOk := true }).2 = 0 :=
  ⟨by rfl, by rfl, by rfl, by rfl⟩

/-! ### Plain filename filters (getcmd.c, sort.c) -/

/-- C27 (defect of the code): the filter `??.*` is normalised to `??` followed
by four blanks and `???`, and `normexec` lets a `?` match the blank padding of
a shorter name: the stored names `A.TXT` (one character) and `AB.TXT` both
match, `ABC.TXT` does not. -/
theorem normexec_question_matches_padding :
    normExpr "??.*".toList = some "??    ???".toList
    ∧ mkFfull (cvtName "A.TXT".toList).iNameR50 = "A.TXT".toList
    ∧ normexec "??    ???".toList "A.TXT".toList = 0
    ∧ normexec "??    ???".toList "AB.TXT".toList = 0
    ∧ normexec "??    ???".toList "ABC.TXT".toList = 1 :=
  ⟨by decide, by decide, by decide, by decide, by decide⟩


/-! ### The date word (do_in.c, utils.c, do_out.c) -/

theorem date_word_eq (sel m d yy : Nat) (hm : m < 16) (hd : d < 32) (hy : yy < 32) :
    (sel <<< 14) ||| (m <<< 10) ||| (d <<< 5) ||| yy
      = sel * 16384 + m * 1024 + d * 32 + yy := by
  have h1 : 2 ^ 5 * d + yy = 2 ^ 5 * d ||| yy := Nat.mul_add_lt_is_or (by omega) d
  have h2 : 2 ^ 10 * m + (2 ^ 5 * d + yy) = 2 ^ 10 * m ||| (2 ^ 5 * d + yy) :=
    Nat.mul_add_lt_is_or (by omega) m
  have h3 : 2 ^ 14 * sel + (2 ^ 10 * m + (2 ^ 5 * d + yy))
      = 2 ^ 14 * sel ||| (2 ^ 10 * m + (2 ^ 5 * d + yy)) :=
    Nat.mul_add_lt_is_or (by omega) sel
  rw [Nat.shiftLeft_eq, Nat.shiftLeft_eq, Nat.shiftLeft_eq, Nat.lor_assoc, Nat.lor_assoc,
    Nat.mul_comm sel, Nat.mul_comm m, Nat.mul_comm d, ← h1, ← h2, ← h3]
  omega

theorem date_fields (w : Nat) :
    w &&& 31 = w % 32 ∧ (w >>> 5) &&& 31 = w / 32 % 32 ∧ (w >>> 10) &&& 15 = w / 1024 % 16
      ∧ (w >>> 14) &&& 3 = w / 16384 % 4 := by
  have e5 := Nat.and_pow_two_sub_one_eq_mod w 5
  have e5' := Nat.and_pow_two_sub_one_eq_mod (w >>> 5) 5
  have e4 := Nat.and_pow_two_sub_one_eq_mod (w >>> 10) 4
  have e2 := Nat.and_pow_two_sub_one_eq_mod (w >>> 14) 2
  norm_num at e5 e5' e4 e2
  rw [e5, e5', e4, e2, Nat.shiftRight_eq_div_pow, Nat.shiftRight_eq_div_pow,
    Nat.shiftRight_eq_div_pow]
  norm_num


theorem packDate_value (y m d sel base : Nat) (hm : 1 ≤ m ∧ m ≤ 12) (hd : 1 ≤ d ∧ d ≤ 31)
    (hb : base ≤ y ∧ y < base + 32)
    (he : (sel = 0 ∧ base = 1972) ∨ (sel = 1 ∧ base = 2004) ∨ (sel = 2 ∧ base = 2036)
        ∨ (sel = 3 ∧ base = 2068)) :
    packDate { tm_year := (y : Int) - 1900, tm_mon := m - 1, tm_mday := d }
      = sel * 16384 + m * 1024 + d * 32 + (y - base) := by
  have hmo : (m - 1 + 1) &&& 15 = m := by
    have := Nat.and_pow_two_sub_one_eq_mod (m - 1 + 1) 4
    norm_num at this
    rw [this]
    omega
  have hday : d &&& 31 = d := by
    have := Nat.and_pow_two_sub_one_eq_mod d 5
    norm_num at this
    rw [this]
    omega
  have hyr : ((((y : Int) - 1900 + 1900) - (base : Int)) % 32).toNat = y - base := by
    have : (((y : Int) - 1900 + 1900) - (base : Int)) % 32 = ((y - base : Nat) : Int) := by
      omega
    rw [this, Int.toNat_natCast]
  have hsum : (sel <<< 14 ||| (m <<< 10) ||| (d <<< 5) ||| (y - base)) % 65536
      = sel * 16384 + m * 1024 + d * 32 + (y - base) := by
    rw [date_word_eq sel m d (y - base) (by omega) (by omega) (by omega)]
    have : sel < 4 := by omega
    omega
  unfold packDate
  simp only [hmo, hday]
  rcases he with ⟨hs, hbase⟩ | ⟨hs, hbase⟩ | ⟨hs, hbase⟩ | ⟨hs, hbase⟩
  · subst hs; subst hbase
    rw [if_pos (by omega)]
    simp only
    rw [show ((1972 : Nat) : Int) = 1972 from rfl] at hyr
    rw [hyr]
    exact hsum
  · subst hs; subst hbase
    rw [if_neg (by omega), if_pos (by omega)]
    simp only
    rw [show ((2004 : Nat) : Int) = 2004 from rfl] at hyr
    rw [hyr]
    exact hsum
  · subst hs; subst hbase
    rw [if_neg (by omega), if_neg (by omega), if_pos (by omega)]
    simp only
    rw [show ((2036 : Nat) : Int) = 2036 from rfl] at hyr
    rw [hyr]
    exact hsum
  · subst hs; subst hbase
    rw [if_neg (by omega), if_neg (by omega), if_neg (by omega)]
    simp only
    rw [show ((2068 : Nat) : Int) = 2068 from rfl] at hyr
    rw [hyr]
    exact hsum


theorem epochOf_cases (y : Nat) (hy : 1972 ≤ y ∧ y ≤ 2099) :
    ((epochOf y).2 ≤ y ∧ y < (epochOf y).2 + 32)
    ∧ (((epochOf y).1 = 0 ∧ (epochOf y).2 = 1972) ∨ ((epochOf y).1 = 1 ∧ (epochOf y).2 = 2004)
        ∨ ((epochOf y).1 = 2 ∧ (epochOf y).2 = 2036)
        ∨ ((epochOf y).1 = 3 ∧ (epochOf y).2 = 2068)) := by
  unfold epochOf
  split
  · exact ⟨⟨by simp; omega, by simp; omega⟩, Or.inl ⟨rfl, rfl⟩⟩
  · split
    · exact ⟨⟨by simp; omega, by simp; omega⟩, Or.inr (Or.inl ⟨rfl, rfl⟩)⟩
    · split
      · exact ⟨⟨by simp; omega, by simp; omega⟩, Or.inr (Or.inr (Or.inl ⟨rfl, rfl⟩))⟩
      · exact ⟨⟨by simp; omega, by simp; omega⟩, Or.inr (Or.inr (Or.inr ⟨rfl, rfl⟩))⟩

/-- C25: the date word of `do_in`.  For every year 1972..2099, month 1..12 and
day 1..31 the word packed from the timestamp (`tm_year = y - 1900`,
`tm_mon = m - 1`, `tm_mday = d`) fits 16 bits and has bits 0-4 equal to the
year minus the epoch base, bits 5-9 the day, bits 10-13 the month and bits
14-15 the epoch selector (0: 1972, 1: 2004, 2: 2036, 3: 2068); `dateStr`
prints the day, the name of month `m` and the year `y` for it, and `do_out`
derives `tm_mday = d`, `tm_mon = m - 1`, `tm_year = y - 1900` from it.  It is
the word `do_in` stores when no date is forced and timestamps are on. -/
theorem packDate_roundtrip (y m d : Nat) (hy : 1972 ≤ y ∧ y ≤ 2099) (hm : 1 ≤ m ∧ m ≤ 12)
    (hd : 1 ≤ d ∧ d ≤ 31) :
    packDate { tm_year := (y : Int) - 1900, tm_mon := m - 1, tm_mday := d } < 65536
    ∧ packDate { tm_year := (y : Int) - 1900, tm_mon := m - 1, tm_mday := d } &&& 31
        = y - (epochOf y).2
    ∧ (packDate { tm_year := (y : Int) - 1900, tm_mon := m - 1, tm_mday := d } >>> 5) &&& 31 = d
    ∧ (packDate { tm_year := (y : Int) - 1900, tm_mon := m - 1, tm_mday := d } >>> 10) &&& 15 = m
    ∧ (packDate { tm_year := (y : Int) - 1900, tm_mon := m - 1, tm_mday := d } >>> 14) &&& 3
        = (epochOf y).1
    ∧ dateStr (packDate { tm_year := (y : Int) - 1900, tm_mon := m - 1, tm_mday := d })
        = (d, months.getD m "", y)
    ∧ do_out_tm (packDate { tm_year := (y : Int) - 1900, tm_mon := m - 1, tm_mday := d })
        = (d, (m : Int) - 1, (y : Int) - 1900)
    ∧ (∀ o : Options, o.inDate = 0 → o.fileOpts &&& FILEOPTS_TIMESTAMP ≠ 0 →
        o.iHandle.fileTimeStamp = { tm_year := (y : Int) - 1900, tm_mon := m - 1, tm_mday := d } →
        inDateWord o
          = packDate { tm_year := (y : Int) - 1900, tm_mon := m - 1, tm_mday := d }) := by
  obtain ⟨hb, he⟩ := epochOf_cases y hy
  have hw := packDate_value y m d (epochOf y).1 (epochOf y).2 hm hd hb he
  obtain ⟨f1, f2, f3, f4⟩ :=
    date_fields (packDate { tm_year := (y : Int) - 1900, tm_mon := m - 1, tm_mday := d })
  have hsel : (epochOf y).1 < 4 := by omega
  have g1 : packDate { tm_year := (y : Int) - 1900, tm_mon := m - 1, tm_mday := d } &&& 31
      = y - (epochOf y).2 := by rw [f1, hw]; omega
  have g2 : (packDate { tm_year := (y : Int) - 1900, tm_mon := m - 1, tm_mday := d } >>> 5)
      &&& 31 = d := by rw [f2, hw]; omega
  have g3 : (packDate { tm_year := (y : Int) - 1900, tm_mon := m - 1, tm_mday := d } >>> 10)
      &&& 15 = m := by rw [f3, hw]; omega
  have g4 : (packDate { tm_year := (y : Int) - 1900, tm_mon := m - 1, tm_mday := d } >>> 14)
      &&& 3 = (epochOf y).1 := by rw [f4, hw]; omega
  refine ⟨by rw [hw]; omega, g1, g2, g3, g4, ?_, ?_, ?_⟩
  · unfold dateStr
    simp only [g1, g2, g3, g4]
    rcases he with ⟨hs, hbase⟩ | ⟨hs, hbase⟩ | ⟨hs, hbase⟩ | ⟨hs, hbase⟩ <;>
      simp only [hs, hbase, Prod.mk.injEq, true_and] <;> norm_num <;> omega
  · unfold do_out_tm
    simp only [g1, g2, g3, g4]
    rcases he with ⟨hs, hbase⟩ | ⟨hs, hbase⟩ | ⟨hs, hbase⟩ | ⟨hs, hbase⟩ <;>
      simp only [hs, hbase, Prod.mk.injEq, true_and] <;> norm_num <;> omega
  · intro o h0 hts htm
    unfold inDateWord
    rw [if_neg (by simpa using h0), if_pos hts, htm]

/-- C25 at 29 February 2024. -/
theorem packDate_roundtrip_witness :
    packDate { tm_year := ((2024 : Nat) : Int) - 1900, tm_mon := 2 - 1, tm_mday := 29 } < 65536
    ∧ packDate { tm_year := ((2024 : Nat) : Int) - 1900, tm_mon := 2 - 1, tm_mday := 29 } &&& 31
        = 2024 - (epochOf 2024).2
    ∧ (packDate { tm_year := ((2024 : Nat) : Int) - 1900, tm_mon := 2 - 1, tm_mday := 29 } >>> 5)
        &&& 31 = 29
    ∧ (packDate { tm_year := ((2024 : Nat) : Int) - 1900, tm_mon := 2 - 1, tm_mday := 29 } >>> 10)
        &&& 15 = 2
    ∧ (packDate { tm_year := ((2024 : Nat) : Int) - 1900, tm_mon := 2 - 1, tm_mday := 29 } >>> 14)
        &&& 3 = (epochOf 2024).1
    ∧ dateStr (packDate { tm_year := ((2024 : Nat) : Int) - 1900, tm_mon := 2 - 1, tm_mday := 29 })
        = (29, months.getD 2 "", 2024)
    ∧ do_out_tm
        (packDate { tm_year := ((2024 : Nat) : Int) - 1900, tm_mon := 2 - 1, tm_mday := 29 })
        = (29, ((2 : Nat) : Int) - 1, ((2024 : Nat) : Int) - 1900)
    ∧ (∀ o : Options, o.inDate = 0 → o.fileOpts &&& FILEOPTS_TIMESTAMP ≠ 0 →
        o.iHandle.fileTimeStamp
          = { tm_year := ((2024 : Nat) : Int) - 1900, tm_mon := 2 - 1, tm_mday := 29 } →
        inDateWord o
          = packDate { tm_year := ((2024 : Nat) : Int) - 1900, tm_mon := 2 - 1, tm_mday := 29 }) :=
  packDate_roundtrip 2024 2 29 (by decide) (by decide) (by decide)


/-! ### A failed insertion (do_in.c, do_del.c) -/

theorem preDelete_fold_list (o : Options) (k : Nat) (hk : k ≤ o.wDirArray.length) :
    (∀ (j : Nat) (w : InWorkingDir), o.wDirArray[j]? = some w →
      ((List.range k).foldl preDeleteStep
          { o with iHandle := { o.iHandle with sizeMatch := none } }).wDirArray[j]?
        = some (if j < k ∧ w.rt11.control &&& PERM ≠ 0 ∧ w.rt11.name = o.iHandle.iNameR50 then
                  { w with rt11 := { w.rt11 with control := EMPTY } }
                else w))
    ∧ ((List.range k).foldl preDeleteStep
          { o with iHandle := { o.iHandle with sizeMatch := none } }).iHandle.iNameR50
        = o.iHandle.iNameR50
    ∧ ((∀ (j : Nat) (w : InWorkingDir), o.wDirArray[j]? = some w →
          w.rt11.control &&& PERM ≠ 0 → w.rt11.name ≠ o.iHandle.iNameR50) →
        ((List.range k).foldl preDeleteStep
            { o with iHandle := { o.iHandle with sizeMatch := none } }).totEmpty = o.totEmpty
        ∧ ((List.range k).foldl preDeleteStep
            { o with iHandle := { o.iHandle with sizeMatch := none } }).totPerm = o.totPerm) := by
  induction k with
  | zero =>
    refine ⟨fun j w hw => ?_, rfl, fun _ => ⟨rfl, rfl⟩⟩
    simp only [List.range_zero, List.foldl_nil, Nat.not_lt_zero, false_and, if_false]
    exact hw
  | succ k ih =>
    obtain ⟨h1, h2, h3⟩ := ih (by omega)
    simp only [List.range_succ, List.foldl_append, List.foldl_cons, List.foldl_nil]
    generalize (List.range k).foldl preDeleteStep
      { o with iHandle := { o.iHandle with sizeMatch := none } } = ok at h1 h2 h3
    have hklt : k < o.wDirArray.length := by omega
    obtain ⟨wk, hwk⟩ : ∃ wk, o.wDirArray[k]? = some wk := ⟨_, List.getElem?_eq_getElem hklt⟩
    have hget : ok.wDirArray[k]? = some wk := by
      rw [h1 k wk hwk, if_neg (by omega)]
    obtain ⟨hyes, hno⟩ := preDeleteStep_exact ok k wk hget
    rw [h2] at hyes hno
    refine ⟨fun j w hw => ?_, by rw [preDeleteStep_name, h2], fun hnone => ?_⟩
    · by_cases hm : wk.rt11.control &&& PERM ≠ 0 ∧ wk.rt11.name = o.iHandle.iNameR50
      · rw [(hyes hm).1]
        by_cases hjk : j = k
        · subst hjk
          have : w = wk := by rw [hwk] at hw; exact (Option.some.inj hw).symm
          subst this
          rw [List.getElem?_set_self (by
            have := (List.getElem?_eq_some.mp hget).1
            exact this), if_pos ⟨Nat.lt_succ_self _, hm⟩]
        · rw [List.getElem?_set_ne (Ne.symm hjk), h1 j w hw]
          by_cases hc : j < k ∧ w.rt11.control &&& PERM ≠ 0 ∧ w.rt11.name = o.iHandle.iNameR50
          · rw [if_pos hc, if_pos ⟨by omega, hc.2⟩]
          · rw [if_neg hc, if_neg (fun h => hc ⟨by omega, h.2⟩)]
      · rw [(hno hm).1]
        by_cases hjk : j = k
        · subst hjk
          have : w = wk := by rw [hwk] at hw; exact (Option.some.inj hw).symm
          subst this
          rw [hget, if_neg (fun h => hm h.2)]
        · rw [h1 j w hw]
          by_cases hc : j < k ∧ w.rt11.control &&& PERM ≠ 0 ∧ w.rt11.name = o.iHandle.iNameR50
          · rw [if_pos hc, if_pos ⟨by omega, hc.2⟩]
          · rw [if_neg hc, if_neg (fun h => hc ⟨by omega, h.2⟩)]
    · have hm : ¬ (wk.rt11.control &&& PERM ≠ 0 ∧ wk.rt11.name = o.iHandle.iNameR50) :=
        fun h => hnone k wk hwk h.1 h.2
      obtain ⟨t1, t2⟩ := h3 hnone
      rw [(hno hm).2.1, (hno hm).2.2, t1, t2]
      exact ⟨rfl, rfl⟩


/-- C29 (amended): an insertion that cannot be placed.  When `do_in` finds no
free entry of sufficient size, or no directory slot for the split, the
allocation leaves the options as `preDelete` left them: no entry has changed
its LBA or block count, every entry that was permanent and is not named like
the file is still permanent and unchanged, and when no permanent entry carried
that name `totEmpty` and `totPerm` are unchanged.  (A permanent entry that did
carry the name has been released by `preDelete`.) -/
theorem failed_insert_keeps_other_files (o : Options) (res : WriteResults)
    (hfail : (∀ (i : Nat) (wdp : InWorkingDir), (preDelete o).iHandle.sizeMatch = some i →
          (preDelete o).wDirArray[i]? = some wdp →
          wdp.rt11.blocks < (preDelete o).iHandle.fileBlks)
      ∨ (∃ (i : Nat) (wdp : InWorkingDir), (preDelete o).iHandle.sizeMatch = some i
          ∧ (preDelete o).wDirArray[i]? = some wdp
          ∧ (preDelete o).iHandle.fileBlks < wdp.rt11.blocks
          ∧ (((preDelete o).maxseg * (preDelete o).numdent : Nat) : Int) - 1
              ≤ ((preDelete o).numWdirs : Int))) :
    (do_in_alloc (preDelete o) res).1 = preDelete o
    ∧ (do_in_alloc (preDelete o) res).1.wDirArray.map (fun w => (w.lba, w.rt11.blocks))
        = o.wDirArray.map (fun w => (w.lba, w.rt11.blocks))
    ∧ (∀ (j : Nat) (w : InWorkingDir), o.wDirArray[j]? = some w →
        w.rt11.control &&& PERM ≠ 0 → w.rt11.name ≠ o.iHandle.iNameR50 →
        (do_in_alloc (preDelete o) res).1.wDirArray[j]? = some w)
    ∧ (∀ (j : Nat) (w : InWorkingDir), o.wDirArray[j]? = some w →
        w.rt11.control &&& PERM ≠ 0 → w.rt11.name = o.iHandle.iNameR50 →
        (do_in_alloc (preDelete o) res).1.wDirArray[j]?
          = some { w with rt11 := { w.rt11 with control := EMPTY } })
    ∧ ((∀ (j : Nat) (w : InWorkingDir), o.wDirArray[j]? = some w →
          w.rt11.control &&& PERM ≠ 0 → w.rt11.name ≠ o.iHandle.iNameR50) →
        (do_in_alloc (preDelete o) res).1.totEmpty = o.totEmpty
        ∧ (do_in_alloc (preDelete o) res).1.totPerm = o.totPerm) := by
  have hsame : (do_in_alloc (preDelete o) res).1 = preDelete o := by
    rcases hfail with h | ⟨i, wdp, hsm, hw, hlt, hfull⟩
    · rw [do_in_alloc_skip _ res h]
    · rw [do_in_alloc_refuse _ res i wdp hsm hw hlt hfull]
  obtain ⟨h1, -, h3⟩ := preDelete_fold_list o o.wDirArray.length (le_refl _)
  have hP : preDelete o = (List.range o.wDirArray.length).foldl preDeleteStep
      { o with iHandle := { o.iHandle with sizeMatch := none } } := rfl
  rw [hsame]
  refine ⟨rfl, preDelete_map o, fun j w hw hp hn => ?_, fun j w hw hp hn => ?_, fun hnone => ?_⟩
  · rw [hP, h1 j w hw, if_neg (fun h => hn h.2.2)]
  · have hlt : j < o.wDirArray.length := (List.getElem?_eq_some.mp hw).1
    rw [hP, h1 j w hw, if_pos ⟨hlt, hp, hn⟩]
  · rw [hP]
    exact h3 hnone

/-- C29 at a concrete volume: a 10-block file finds no room next to an 8-block
file of another name and 4 free blocks. -/
theorem failed_insert_keeps_other_files_witness :
    (do_in_alloc (preDelete insertFailExample)
        { reopenOk := true, seekOk := true, writeOk := true }).1 = preDelete insertFailExample
    ∧ (do_in_alloc (preDelete insertFailExample)
          { reopenOk := true, seekOk := true, writeOk := true }).1.wDirArray.map
        (fun w => (w.rt11.control, w.rt11.blocks, w.lba)) = [(PERM, 8, 100), (EMPTY, 4, 108)] :=
  ⟨(failed_insert_keeps_other_files insertFailExample
      { reopenOk := true, seekOk := true, writeOk := true }
      (Or.inl (fun i wdp h _ => by
        have hnone : (preDelete insertFailExample).iHandle.sizeMatch = none := by rfl
        rw [hnone] at h
        cases h))).1,
   by rfl⟩

/-- C29 (as stated) fails when the file to insert replaces a smaller file of
the same name: `preDelete` releases the 8-block `FILE.TXT` before `do_in` finds
that no free area holds the 10 blocks of the new one, so the entry is free
afterwards and 8 blocks have moved from `totPerm` to `totEmpty`. -/
theorem failed_replace_counterexample :
    replaceFailExample.wDirArray.map
        (fun w => (w.rt11.control, decide (w.rt11.name = exampleName), w.rt11.blocks, w.lba))
      = [(PERM, true, 8, 100), (EMPTY, false, 4, 108)]
    ∧ (replaceFailExample.totEmpty, replaceFailExample.totPerm) = (4, 8)
    ∧ (preDelete replaceFailExample).iHandle.sizeMatch = none
    ∧ (do_in_alloc (preDelete replaceFailExample)
          { reopenOk := true, seekOk := true, writeOk := true }).1.wDirArray.map
        (fun w => (w.rt11.control, decide (w.rt11.name = exampleName), w.rt11.blocks, w.lba))
      = [(EMPTY, true, 8, 100), (EMPTY, false, 4, 108)]
    ∧ ((do_in_alloc (preDelete replaceFailExample)
          { reopenOk := true, seekOk := true, writeOk := true }).1.totEmpty,
       (do_in_alloc (preDelete replaceFailExample)
          { reopenOk := true, seekOk := true, writeOk := true }).1.totPerm) = (12, 0) :=
  ⟨by rfl, by rfl, by rfl, by rfl, by rfl⟩


/-! ### Quit (do_del.c, do_in.c) -/

theorem do_del_loop_skip (f : List Char → Bool) (ii : Nat) (rest answers : List Nat)
    (o : Options) (h : delCandidate f o ii = false) :
    do_del_loop f (ii :: rest) answers o = do_del_loop f rest answers o := by
  rw [do_del_loop]
  unfold delCandidate at h
  split
  · rfl
  · rename_i wdp hw
    rw [hw] at h
    simp only [Bool.and_eq_false_imp, decide_eq_true_eq] at h
    split
    · rfl
    · rename_i hp
      rw [if_pos (by rw [h hp]; rfl)]

theorem do_del_loop_ask (f : List Char → Bool) (ii : Nat) (rest : List Nat) (y : Nat)
    (ys : List Nat) (o : Options) (w : InWorkingDir) (hw : o.wDirArray[ii]? = some w)
    (hc : delCandidate f o ii = true) (hask : o.delOpts &&& DELOPTS_NOASK = 0) :
    do_del_loop f (ii :: rest) (y :: ys) o
      = if y = YN_QUIT then o
        else if y ≠ YN_YES then do_del_loop f rest ys o
        else do_del_loop f rest ys (delEntry o ii w) := by
  rw [do_del_loop]
  unfold delCandidate at hc
  rw [hw] at hc
  simp only [Bool.and_eq_true, decide_eq_true_eq] at hc
  simp only [hw]
  rw [if_neg hc.1, if_neg (by rw [hc.2]; simp), if_pos hask]
  rfl

theorem delEntry_frame (f : List Char → Bool) (o : Options) (ii : Nat) (w : InWorkingDir)
    (j : Nat) (hj : ii ≠ j) :
    (delEntry o ii w).wDirArray[j]? = o.wDirArray[j]?
      ∧ delCandidate f (delEntry o ii w) j = delCandidate f o j := by
  have h : (delEntry o ii w).wDirArray[j]? = o.wDirArray[j]? := by
    simp only [delEntry]
    exact List.getElem?_set_ne hj
  refine ⟨h, ?_⟩
  unfold delCandidate
  rw [h]

theorem do_del_loop_frame (f : List Char → Bool) (idx answers : List Nat) (o : Options) :
    (do_del_loop f idx answers o).delOpts = o.delOpts
      ∧ ∀ j, j ∉ idx → (do_del_loop f idx answers o).wDirArray[j]? = o.wDirArray[j]? := by
  induction idx generalizing answers o with
  | nil => exact ⟨rfl, fun _ _ => rfl⟩
  | cons ii rest ih =>
    have hdel : ∀ (ans : List Nat) (w : InWorkingDir),
        (do_del_loop f rest ans (delEntry o ii w)).delOpts = o.delOpts
          ∧ ∀ j, j ∉ ii :: rest →
              (do_del_loop f rest ans (delEntry o ii w)).wDirArray[j]? = o.wDirArray[j]? := by
      intro ans w
      refine ⟨(ih ans _).1, fun j hj => ?_⟩
      rw [(ih ans _).2 j (fun h => hj (List.mem_cons_of_mem _ h))]
      exact (delEntry_frame f o ii w j (fun h => hj (by rw [h]; exact List.mem_cons_self _ _))).1
    have hkeep : ∀ (ans : List Nat),
        (do_del_loop f rest ans o).delOpts = o.delOpts
          ∧ ∀ j, j ∉ ii :: rest →
              (do_del_loop f rest ans o).wDirArray[j]? = o.wDirArray[j]? :=
      fun ans => ⟨(ih ans o).1, fun j hj => (ih ans o).2 j (fun h => hj (List.mem_cons_of_mem _ h))⟩
    rw [do_del_loop]
    split
    · exact hkeep _
    · rename_i wdp hw
      split
      · exact hkeep _
      · split
        · exact hkeep _
        · split
          · dsimp only
            split
            · exact ⟨rfl, fun _ _ => rfl⟩
            · split
              · exact hkeep _
              · exact hdel _ _
          · exact hdel _ _


theorem delPrompts_delEntry (f : List Char → Bool) (o : Options) (ii : Nat) (w : InWorkingDir)
    (l : List Nat) (h : ii ∉ l) : delPrompts f (delEntry o ii w) l = delPrompts f o l := by
  unfold delPrompts
  rw [List.filter_congr
    (fun x hx => (delEntry_frame f o ii w x (fun e => h (by rw [e]; exact hx))).2)]

theorem delCandidate_entry (f : List Char → Bool) (o : Options) (j : Nat)
    (h : delCandidate f o j = true) : ∃ w, o.wDirArray[j]? = some w := by
  unfold delCandidate at h
  cases hw : o.wDirArray[j]? with
  | none => rw [hw] at h; cases h
  | some w => exact ⟨w, rfl⟩

theorem do_del_loop_append (f : List Char → Bool) (pre rest ys zs : List Nat) (o : Options)
    (hnd : pre.Nodup) (hask : o.delOpts &&& DELOPTS_NOASK = 0)
    (hys : ∀ y ∈ ys, y ≠ YN_QUIT) (hlen : ys.length = delPrompts f o pre) :
    do_del_loop f (pre ++ rest) (ys ++ zs) o
      = do_del_loop f rest zs (do_del_loop f pre ys o) := by
  induction pre generalizing ys o with
  | nil =>
    have : ys = [] := List.length_eq_zero.mp hlen
    subst this
    simp [do_del_loop]
  | cons ii pre ih =>
    have hnd2 : pre.Nodup := (List.nodup_cons.mp hnd).2
    have hni : ii ∉ pre := (List.nodup_cons.mp hnd).1
    by_cases hc : delCandidate f o ii = true
    · obtain ⟨w, hw⟩ := delCandidate_entry f o ii hc
      have hlen2 : ys.length = delPrompts f o pre + 1 := by
        rw [hlen]
        unfold delPrompts
        rw [List.filter_cons_of_pos hc, List.length_cons]
      cases ys with
      | nil => simp at hlen2
      | cons y ys =>
        have hy : y ≠ YN_QUIT := hys y (List.mem_cons_self _ _)
        have hys2 : ∀ z ∈ ys, z ≠ YN_QUIT := fun z hz => hys z (List.mem_cons_of_mem _ hz)
        have hl : ys.length = delPrompts f o pre := by
          simp only [List.length_cons] at hlen2
          omega
        rw [List.cons_append, List.cons_append, do_del_loop_ask f ii _ y _ o w hw hc hask,
          do_del_loop_ask f ii _ y _ o w hw hc hask, if_neg hy, if_neg hy]
        by_cases hyes : y = YN_YES
        · rw [if_neg (not_not.mpr hyes), if_neg (not_not.mpr hyes)]
          exact ih ys (delEntry o ii w) hnd2 hask hys2
            (by rw [delPrompts_delEntry f o ii w pre hni]; exact hl)
        · rw [if_pos hyes, if_pos hyes]
          exact ih ys o hnd2 hask hys2 hl
    · have hc2 : delCandidate f o ii = false := by
        cases h : delCandidate f o ii
        · rfl
        · exact absurd h hc
      rw [List.cons_append, do_del_loop_skip f ii _ _ o hc2, do_del_loop_skip f ii _ _ o hc2]
      apply ih ys o hnd2 hask hys
      rw [hlen]
      unfold delPrompts
      rw [List.filter_cons_of_neg hc]

theorem do_del_loop_yes (f : List Char → Bool) (A B ys : List Nat) (j : Nat) (o : Options)
    (a : InWorkingDir) (hnd : (A ++ j :: B).Nodup) (hask : o.delOpts &&& DELOPTS_NOASK = 0)
    (ha : o.wDirArray[j]? = some a) (hc : delCandidate f o j = true)
    (hq : ∀ y ∈ ys, y ≠ YN_QUIT) (hy : ys[delPrompts f o A]? = some YN_YES) :
    (do_del_loop f (A ++ j :: B) ys o).wDirArray[j]?
      = some { a with rt11 := { a.rt11 with control := EMPTY } } := by
  have hlt : delPrompts f o A < ys.length := (List.getElem?_eq_some.mp hy).1
  have hndA : A.Nodup := (List.nodup_append.mp hnd).1
  have hjA : j ∉ A := fun h =>
    (List.nodup_append.mp hnd).2.2 h (List.mem_cons_self _ _)
  have hjB : j ∉ B := (List.nodup_cons.mp (List.nodup_append.mp hnd).2.1).1
  have hsplit : ys = ys.take (delPrompts f o A) ++ YN_YES :: ys.drop (delPrompts f o A + 1) := by
    conv_lhs => rw [← List.take_append_drop (delPrompts f o A) ys]
    congr 1
    rw [List.drop_eq_getElem_cons hlt]
    congr 1
    have := List.getElem?_eq_getElem hlt
    rw [hy] at this
    exact (Option.some.inj this).symm
  rw [hsplit, do_del_loop_append f A (j :: B) _ _ o hndA hask
    (fun y h => hq y (List.mem_of_mem_take h))
    (by rw [List.length_take]; omega)]
  obtain ⟨hopts, hfr⟩ := do_del_loop_frame f A (ys.take (delPrompts f o A)) o
  generalize do_del_loop f A (ys.take (delPrompts f o A)) o = p at hopts hfr
  have hpa : p.wDirArray[j]? = some a := by rw [hfr j hjA, ha]
  have hpc : delCandidate f p j = true := by
    unfold delCandidate at hc ⊢
    rw [hpa]
    rw [ha] at hc
    exact hc
  rw [do_del_loop_ask f j B YN_YES _ p a hpa hpc (by rw [hopts]; exact hask),
    if_neg (by decide), if_neg (by decide),
    (do_del_loop_frame f B _ (delEntry p j a)).2 j hjB]
  simp only [delEntry]
  rw [List.getElem?_set_self (List.getElem?_eq_some.mp hpa).1]

theorem range_split (n k : Nat) (h : k < n) :
    List.range n = List.range k ++ k :: List.range' (k + 1) (n - (k + 1)) := by
  apply List.ext_getElem?
  intro i
  rw [List.getElem?_append, List.length_range]
  split
  · rename_i hi
    rw [List.getElem?_range (by omega), List.getElem?_range hi]
  · rename_i hi
    rcases Nat.eq_or_lt_of_le (Nat.le_of_not_lt hi) with e | e
    · subst e
      simp [List.getElem?_range h]
    · obtain ⟨d, rfl⟩ : ∃ d, i = k + 1 + d := ⟨i - (k + 1), by omega⟩
      have e1 : k + 1 + d - k = d + 1 := by omega
      rw [e1, List.getElem?_cons_succ]
      by_cases hd : k + 1 + d < n
      · rw [List.getElem?_range hd, List.getElem?_range' _ _ (by omega)]
        simp
      · rw [List.getElem?_eq_none (by rw [List.length_range]; omega),
          List.getElem?_eq_none (by rw [List.length_range']; omega)]


theorem do_in_loop_append (pre rest : List InFile) (o : Options)
    (h : (do_in_loop pre o).2 = Flow.next) :
    do_in_loop (pre ++ rest) o = do_in_loop rest (do_in_loop pre o).1 := by
  induction pre generalizing o with
  | nil => rfl
  | cons f pre ih =>
    rw [List.cons_append, do_in_loop]
    rw [do_in_loop] at h
    split
    · rename_i o1 hb
      rw [hb] at h
      simp only at h
      rw [ih o1 h]
      conv_rhs => rw [do_in_loop, hb]
    · rename_i o1 fl hne hb
      rw [hb] at h
      split at h
      · rename_i o2 hb2
        cases hb2
        exact absurd rfl hne
      · rename_i o2 fl2 hne2 hb2
        cases hb2
        simp only at h
        exact absurd h hne

theorem do_in_body_quit (o : Options) (g : InFile) (hname : (cvtName g.fileName).ret = 0)
    (hask : o.inOpts &&& INOPTS_NOASK = 0) (hq : g.answer = YN_QUIT) :
    do_in_body o g
      = ({ o with iHandle := { o.iHandle with iNameR50 := (cvtName g.fileName).iNameR50 } },
         Flow.stop) := by
  unfold do_in_body
  simp only
  rw [if_neg (not_not.mpr hname), if_pos ⟨hask, hq⟩]

theorem preDelete_inOpts (o : Options) : (preDelete o).inOpts = o.inOpts := by
  have hrel : ∀ (p : Options) (k : Nat) (w : InWorkingDir),
      (preDeleteRelease p k w).inOpts = p.inOpts := by
    intro p k w
    unfold preDeleteRelease
    split <;> rfl
  have htrack : ∀ (p : Options) (k : Nat) (w : InWorkingDir),
      (preDeleteTrack p k w).inOpts = p.inOpts := by
    intro p k w
    unfold preDeleteTrack
    repeat' split
    all_goals rfl
  have hstep : ∀ (p : Options) (k : Nat), (preDeleteStep p k).inOpts = p.inOpts := by
    intro p k
    unfold preDeleteStep
    split
    · rfl
    · rename_i w _
      dsimp only
      split
      · exact hrel p k w
      · rename_i cur _
        exact (htrack _ k cur).trans (hrel p k w)
  have hfold : ∀ (l : List Nat) (p : Options), (l.foldl preDeleteStep p).inOpts = p.inOpts := by
    intro l
    induction l with
    | nil => intro p; rfl
    | cons a t ih =>
      intro p
      rw [List.foldl_cons]
      exact (ih _).trans (hstep p a)
  exact hfold _ _

theorem do_in_alloc_inOpts (o : Options) (res : WriteResults) :
    (do_in_alloc o res).1.inOpts = o.inOpts := by
  unfold do_in_alloc do_in_write writeFileToContainer
  repeat' split
  all_goals rfl

theorem do_in_body_inOpts (o : Options) (f : InFile) : (do_in_body o f).1.inOpts = o.inOpts := by
  unfold do_in_body
  simp only
  split
  · rfl
  · split
    · rfl
    · split
      · rfl
      · split
        · rfl
        · rw [do_in_alloc_inOpts, preDelete_inOpts]

theorem do_in_loop_inOpts (files : List InFile) (o : Options) :
    (do_in_loop files o).1.inOpts = o.inOpts := by
  induction files generalizing o with
  | nil => rfl
  | cons f rest ih =>
    have hb := do_in_body_inOpts o f
    rw [do_in_loop]
    split
    · rename_i o1 h
      rw [h] at hb
      rw [ih o1]
      exact hb
    · rename_i o1 fl _ h
      rw [h] at hb
      exact hb


/-- Quit in the loops of `do_del` and `do_in`, the replies to the prompts being
a sequence of answers.  In `do_del`, when the replies `ys` (none of them Quit)
answer the prompts for the candidates before index `k` and the next reply,
for candidate `k`, is Quit, the loop ends there whatever replies and entries
follow: the working list is the one the loop had built over the indices below
`k`; no entry at index `k` or later is changed; every candidate below `k`
answered Yes is free in that list; and `do_del` hands exactly that list to
`linearToDisk`.  Likewise in `do_in`: when the files `pre` were handled
without leaving the loop and the reply for the next file is Quit, the loop
stops with the working list the files of `pre` produced, no later file is
looked at, and `do_in` hands that list to `linearToDisk`. -/
theorem quit_stops_iteration (f : List Char → Bool) (o : Options) (k : Nat) (ys zs : List Nat)
    (hask : o.delOpts &&& DELOPTS_NOASK = 0) (hc : delCandidate f o k = true)
    (hys : ∀ y ∈ ys, y ≠ YN_QUIT) (hlen : ys.length = delPrompts f o (List.range k)) :
    do_del_loop f (List.range o.numWdirs) (ys ++ YN_QUIT :: zs) o
        = do_del_loop f (List.range k) ys o
    ∧ (∀ j, k ≤ j →
        (do_del_loop f (List.range o.numWdirs) (ys ++ YN_QUIT :: zs) o).wDirArray[j]?
          = o.wDirArray[j]?)
    ∧ (∀ (j : Nat) (a : InWorkingDir), j < k → o.wDirArray[j]? = some a →
        delCandidate f o j = true → ys[delPrompts f o (List.range j)]? = some YN_YES →
        (do_del_loop f (List.range o.numWdirs) (ys ++ YN_QUIT :: zs) o).wDirArray[j]?
          = some { a with rt11 := { a.rt11 with control := EMPTY } })
    ∧ do_del f (ys ++ YN_QUIT :: zs) o
        = (linearToDisk (do_del_loop f (List.range k) ys o)).map (fun r => (r.1, 0))
    ∧ (∀ (pre post : List InFile) (g : InFile) (p : Options),
        p.inOpts &&& INOPTS_NOASK = 0 → (cvtName g.fileName).ret = 0 → g.answer = YN_QUIT →
        (do_in_loop pre p).2 = Flow.next →
        (do_in_loop (pre ++ g :: post) p).2 = Flow.stop
        ∧ (do_in_loop (pre ++ g :: post) p).1.wDirArray = (do_in_loop pre p).1.wDirArray
        ∧ do_in (pre ++ g :: post) p
            = (linearToDisk (do_in_loop (pre ++ g :: post) p).1).map (fun r => (r.1, 0))) := by
  obtain ⟨w, hw⟩ := delCandidate_entry f o k hc
  have hk : k < o.numWdirs := (List.getElem?_eq_some.mp hw).1
  have hloop : do_del_loop f (List.range o.numWdirs) (ys ++ YN_QUIT :: zs) o
      = do_del_loop f (List.range k) ys o := by
    rw [range_split o.numWdirs k hk,
      do_del_loop_append f (List.range k) _ ys _ o (List.nodup_range k) hask hys hlen]
    obtain ⟨hopts, hfr⟩ := do_del_loop_frame f (List.range k) ys o
    generalize do_del_loop f (List.range k) ys o = p at hopts hfr
    have hpw : p.wDirArray[k]? = some w := by
      rw [hfr k (by simp), hw]
    have hpc : delCandidate f p k = true := by
      unfold delCandidate at hc ⊢
      rw [hpw]
      rw [hw] at hc
      exact hc
    rw [do_del_loop_ask f k _ YN_QUIT zs p w hpw hpc (by rw [hopts]; exact hask), if_pos rfl]
  refine ⟨hloop, ?_, ?_, ?_, ?_⟩
  · intro j hj
    rw [hloop]
    exact (do_del_loop_frame f (List.range k) ys o).2 j (by simp; omega)
  · intro j a hj ha hcj hy
    rw [hloop]
    have hnd : (List.range j ++ j :: List.range' (j + 1) (k - (j + 1))).Nodup := by
      rw [← range_split k j hj]
      exact List.nodup_range k
    rw [range_split k j hj]
    exact do_del_loop_yes f (List.range j) _ ys j o a hnd hask ha hcj hys hy
  · unfold do_del
    simp only
    rw [hloop]
    cases linearToDisk (do_del_loop f (List.range k) ys o) <;> rfl
  · intro pre post g p hask2 hname hq hpre
    have hb : do_in_loop (pre ++ g :: post) p
        = ({ (do_in_loop pre p).1 with
              iHandle := { (do_in_loop pre p).1.iHandle with
                           iNameR50 := (cvtName g.fileName).iNameR50 } }, Flow.stop) := by
      rw [do_in_loop_append pre _ p hpre, do_in_loop,
        do_in_body_quit _ g hname (by rw [do_in_loop_inOpts]; exact hask2) hq]
    refine ⟨by rw [hb], by rw [hb], ?_⟩
    unfold do_in
    rw [hb]
    simp only
    cases linearToDisk _ <;> rfl

/-- The loops at concrete volumes: two files, the user deletes the first and
quits at the second; three files to insert, the user accepts the first and
quits at the second. -/
theorem quit_stops_iteration_witness :
    (do_del (fun _ => true) ([YN_YES] ++ YN_QUIT :: [YN_YES]) quitExample).map
        (fun r => (r.2, r.1.wDirArray.map (fun w => (w.rt11.control, w.rt11.blocks, w.lba))))
      = some (0, [(EMPTY, 5, 8), (PERM, 3, 13), (EMPTY, 10, 16)])
    ∧ (do_in quitInsertFiles quitInsertExample).map
        (fun r => (r.2, r.1.wDirArray.map (fun w => (w.rt11.control, w.rt11.blocks, w.lba))))
      = some (0, [(PERM, 5, 8), (PERM, 10, 13), (EMPTY, 20, 23)])
    ∧ do_del_loop (fun _ => true) (List.range quitExample.numWdirs)
          ([YN_YES] ++ YN_QUIT :: [YN_YES]) quitExample
        = do_del_loop (fun _ => true) (List.range 1) [YN_YES] quitExample :=
  ⟨by rfl, by rfl,
   (quit_stops_iteration (fun _ => true) quitExample 1 [YN_YES] [YN_YES] (by decide) (by rfl)
      (by decide) (by rfl)).1⟩

/-- C24 (defect of the code): an insertion made before Quit is not written
back.  On a volume with 4 segments of 72 entries holding 218 entries the user
accepts `FILE.TXT` and answers Quit at the second file.  The loop stops there
with `FILE.TXT` in the working list (219 entries, the third file untouched),
and `do_in` does run `linearToDisk` on that list, but `linearToDisk` refuses
it (density `219 / 3 = 73 > 72`, the defect of C15) and returns 1 before
storing anything: `do_in` returns 0 with `dirDirty` still 0 and the directory
buffer as it was. -/
theorem quit_insertion_not_written_back :
    (quitVolume.numWdirs, quitVolume.maxseg, quitVolume.numdent,
        quitVolume.inOpts &&& INOPTS_NOASK, quitVolume.dirDirty,
        rd16 quitVolume.directory SEGLEN) = (218, 4, 72, 0, 0, 0)
    ∧ quitInsertFiles.map (fun f => (f.fileName, f.answer))
        = [("FILE.TXT".toList, YN_YES), ("B.TXT".toList, YN_QUIT), ("C.TXT".toList, YN_YES)]
    ∧ ((do_in_loop quitInsertFiles quitVolume).2,
        ((do_in_loop quitInsertFiles quitVolume).1.wDirArray.drop 217).map
          (fun w => (w.rt11.control, decide (w.rt11.name = exampleName), w.rt11.blocks, w.lba)),
        (linearToDisk (do_in_loop quitInsertFiles quitVolume).1).map (fun r => r.2))
        = (Flow.stop, [(PERM, true, 10, 231), (EMPTY, false, 90, 241)], some 1)
    ∧ (do_in quitInsertFiles quitVolume).map
          (fun r => (r.2, r.1.numWdirs, r.1.dirDirty, rd16 r.1.directory SEGLEN))
        = some (0, 219, 0, 0) :=
  ⟨by rfl, by rfl, by rfl, by rfl⟩


/-! ### Layout of the rebuilt directory (output.c) -/

theorem sqzStores_eq (p : SqzPlan) (l : List (Nat × Nat)) :
    ∀ (m m2 : Mem), sqzStores p m l = Except.ok m2 →
      m2 = l.foldl (fun acc av => wr16 acc av.1 av.2) m := by
  induction l with
  | nil =>
    intro m m2 h
    simp only [sqzStores, Except.ok.injEq] at h
    rw [← h]
    rfl
  | cons av rest ih =>
    intro m m2 h
    obtain ⟨a, v⟩ := av
    simp only [sqzStores] at h
    split at h
    · rw [List.foldl_cons]
      exact ih _ _ h
    · cases h

theorem sqzMem_frame (es numdent smax extra : Nat) (segs : List (List Rt11DirEnt))
    (cur : List Rt11DirEnt) (m m2 : Mem) (hes : 14 ≤ es) (hfit : numdent * es ≤ 1014)
    (hM : SqzMem es numdent smax extra segs cur m)
    (hfr : ∀ x, x < slotAddr es segs.length cur.length → x ≠ segs.length * SEGSIZ + 2 →
      x ≠ segs.length * SEGSIZ + 3 → x ≠ 4 → x ≠ 5 → m2 x = m x) :
    SqzMem es numdent smax extra segs cur m2 := by
  have hS : SEGSIZ = 1024 := rfl
  have hD : DIRLEN = 14 := rfl
  have hG : SEGLEN = 10 := rfl
  have hX : OFF_EXTRA = 6 := rfl
  have hK : OFF_LINK = 2 := rfl
  simp only [slotAddr, hS, hG] at hfr
  refine ⟨?_, ?_, ?_, ?_⟩
  · rw [rd16_congr m m2 _ (fun x h1 h2 => hfr x (by rw [hX] at h1 h2; omega)
      (by rw [hX] at h1 h2; omega) (by rw [hX] at h1 h2; omega) (by rw [hX] at h1; omega)
      (by rw [hX] at h1; omega))]
    exact hM.extraOk
  · rw [rd16_congr m m2 _ (fun x h1 h2 => hfr x (by omega) (by omega) (by omega) (by omega)
      (by omega))]
    exact hM.smaxOk
  · intro j sg hj
    obtain ⟨d1, d2, d3, d4⟩ := hM.doneOk j sg hj
    have hjl : j < segs.length := (List.getElem?_eq_some.mp hj).1
    have hb := slot_bound es numdent sg.length hfit d1
    refine ⟨d1, ?_, ?_, ?_⟩
    · intro i e hi
      have hil : i < sg.length := (List.getElem?_eq_some.mp hi).1
      have hmono := slot_mono es i sg.length hil
      rw [rdDirEnt_congr m m2 _ (fun x h1 h2 => hfr x
        (by simp only [slotAddr, hS, hG, hD] at h1 h2; omega)
        (by simp only [slotAddr, hS, hG, hD] at h1 h2; omega)
        (by simp only [slotAddr, hS, hG, hD] at h1 h2; omega)
        (by simp only [slotAddr, hS, hG, hD] at h1 h2; omega)
        (by simp only [slotAddr, hS, hG, hD] at h1 h2; omega))]
      exact d2 i e hi
    · rw [rd16_congr m m2 _ (fun x h1 h2 => hfr x
        (by simp only [slotAddr, hS, hG] at h1 h2; omega)
        (by simp only [slotAddr, hS, hG] at h1 h2; omega)
        (by simp only [slotAddr, hS, hG] at h1 h2; omega)
        (by simp only [slotAddr, hS, hG] at h1 h2; omega)
        (by simp only [slotAddr, hS, hG] at h1 h2; omega))]
      exact d3
    · rw [rd16_congr m m2 _ (fun x h1 h2 => hfr x
        (by simp only [hS, hK] at h1 h2; omega)
        (by simp only [hS, hK] at h1 h2; omega)
        (by simp only [hS, hK] at h1 h2; omega)
        (by simp only [hS, hK] at h1 h2; omega)
        (by simp only [hS, hK] at h1 h2; omega))]
      exact d4
  · intro i e hi
    have hil : i < cur.length := (List.getElem?_eq_some.mp hi).1
    have hmono := slot_mono es i cur.length hil
    rw [rdDirEnt_congr m m2 _ (fun x h1 h2 => hfr x
      (by simp only [slotAddr, hS, hG, hD] at h1 h2; omega)
      (by simp only [slotAddr, hS, hG, hD] at h1 h2; omega)
      (by simp only [slotAddr, hS, hG, hD] at h1 h2; omega)
      (by simp only [slotAddr, hS, hG, hD] at h1 h2; omega)
      (by simp only [slotAddr, hS, hG, hD] at h1 h2; omega))]
    exact hM.curOk i e hi


theorem sqzOpenSegment_first (es numdent : Nat) (p : SqzPlan) (st st1 : SqzState)
    (hseg0 : st.oSegNum = 0) (hsmax : p.maxSeg < 65536) (hextra : p.extra < 65536)
    (h : sqzOpenSegment p st = Except.ok (Except.ok st1)) :
    SqzLaid es numdent p.maxSeg p.extra [] [] st1 := by
  have hS : SEGSIZ = 1024 := rfl
  have hG : SEGLEN = 10 := rfl
  have hX : OFF_EXTRA = 6 := rfl
  have hK : OFF_LINK = 2 := rfl
  have hA : OFF_LAST = 4 := rfl
  have hT : OFF_START = 8 := rfl
  unfold sqzOpenSegment at h
  simp only [hseg0, gt_iff_lt, Nat.lt_irrefl, if_false, Nat.zero_mul, Nat.zero_add] at h
  split at h
  · cases h
  · split at h
    · cases h
    · rename_i m6 hhdr
      have hm6 := sqzStores_eq p _ _ _ hhdr
      simp only [List.foldl_cons, List.foldl_nil, hK, hA, hX, hT, Nat.zero_add] at hm6
      simp only [Except.ok.injEq] at h
      rw [← h]
      refine ⟨rfl, by simp, by simp [slotAddr], rfl, ?_⟩
      refine ⟨?_, ?_, ?_, ?_⟩
      · show rd16 m6 OFF_EXTRA = p.extra
        rw [hm6, hX, rd16_wr16_other _ _ _ _ (by omega), rd16_wr16_same,
          Nat.mod_eq_of_lt hextra]
      · show rd16 m6 0 = p.maxSeg
        rw [hm6, rd16_wr16_other _ _ _ _ (by omega), rd16_wr16_other _ _ _ _ (by omega),
          rd16_wr16_other _ _ _ _ (by omega), rd16_wr16_other _ _ _ _ (by omega),
          rd16_wr16_same, Nat.mod_eq_of_lt hsmax]
      · intro j sg hj
        simp at hj
      · intro i e hi
        simp at hi

theorem sqzOpenSegment_laid (es numdent : Nat) (p : SqzPlan)
    (segs : List (List Rt11DirEnt)) (cur : List Rt11DirEnt) (st st1 : SqzState)
    (hes : 14 ≤ es) (hfit : numdent * es ≤ 1014)
    (hL : SqzLaid es numdent p.maxSeg p.extra segs cur st) (hcur : cur.length < numdent)
    (h : sqzOpenSegment p st = Except.ok (Except.ok st1)) :
    SqzLaid es numdent p.maxSeg p.extra (segs ++ [cur]) [] st1 := by
  have hS : SEGSIZ = 1024 := rfl
  have hD : DIRLEN = 14 := rfl
  have hG : SEGLEN = 10 := rfl
  have hX : OFF_EXTRA = 6 := rfl
  have hK : OFF_LINK = 2 := rfl
  have hA : OFF_LAST = 4 := rfl
  have hT : OFF_START = 8 := rfl
  have hB : OFF_BLOCKS = 8 := rfl
  have hE : ENDBLK % 65536 = ENDBLK := by decide
  have hM31 : MAXSEGMENTS - 1 = 31 := by decide
  have hcb := slot_bound es numdent cur.length hfit hcur
  unfold sqzOpenSegment at h
  simp only [hL.oSegNum, hL.dstdir, hL.dstseg, gt_iff_lt, Nat.zero_lt_succ, if_true] at h
  split at h
  · cases h
  · rename_i m1 hclosed
    have hm1 := sqzStores_eq p _ _ _ hclosed
    simp only [List.foldl_cons, List.foldl_nil] at hm1
    split at h
    · cases h
    · rename_i hseg
      split at h
      · cases h
      · rename_i m6 hhdr
        have hm6 := sqzStores_eq p _ _ _ hhdr
        simp only [List.foldl_cons, List.foldl_nil] at hm6
        simp only [Except.ok.injEq] at h
        rw [← h]
        have hfr : ∀ x, (x < slotAddr es segs.length cur.length ∨
              (slotAddr es segs.length cur.length + 10 ≤ x ∧ x < (segs.length + 1) * SEGSIZ)) →
            x ≠ segs.length * SEGSIZ + 2 → x ≠ segs.length * SEGSIZ + 3 →
            m6 x = st.mem x := by
          intro x hx h2 h3
          rw [hm6, hm1]
          simp only [slotAddr, hS, hG, hK, hA, hX, hT, hB] at hx h2 h3 ⊢
          rw [wr16_other _ _ _ _ (by omega), wr16_other _ _ _ _ (by omega),
            wr16_other _ _ _ _ (by omega), wr16_other _ _ _ _ (by omega),
            wr16_other _ _ _ _ (by omega), wr16_other _ _ _ _ (by omega),
            wr16_other _ _ _ _ (by omega), wr16_other _ _ _ _ (by omega)]
        have hold := sqzMem_frame es numdent p.maxSeg p.extra segs cur st.mem m6 hes hfit hL.memOk
          (fun x hx h2 h3 _ _ => hfr x (Or.inl hx) h2 h3)
        refine ⟨by simp, by simp, by simp [slotAddr], rfl, ?_⟩
        refine ⟨hold.extraOk, hold.smaxOk, ?_, ?_⟩
        · intro j sg hj
          rcases Nat.lt_or_ge j segs.length with hlt | hge
          · rw [List.getElem?_append_left hlt] at hj
            exact hold.doneOk j sg hj
          · have hjl : j < (segs ++ [cur]).length := (List.getElem?_eq_some.mp hj).1
            simp only [List.length_append, List.length_singleton] at hjl
            have hje : j = segs.length := by omega
            subst hje
            rw [List.getElem?_append_right (le_refl _)] at hj
            simp only [Nat.sub_self, List.getElem?_cons_zero, Option.some.injEq] at hj
            subst hj
            refine ⟨hcur, hold.curOk, ?_, ?_⟩
            · show rd16 m6 _ = ENDBLK
              rw [hm6, hm1]
              simp only [slotAddr, hS, hG, hK, hA, hX, hT, hB]
              rw [rd16_wr16_other _ _ _ _ (by omega), rd16_wr16_other _ _ _ _ (by omega),
                rd16_wr16_other _ _ _ _ (by omega), rd16_wr16_other _ _ _ _ (by omega),
                rd16_wr16_other _ _ _ _ (by omega), rd16_wr16_other _ _ _ _ (by omega),
                rd16_wr16_same, hE]
            · show rd16 m6 _ = _
              rw [hm6, hm1]
              simp only [slotAddr, hS, hG, hK, hA, hX, hT, hB]
              rw [rd16_wr16_other _ _ _ _ (by omega), rd16_wr16_other _ _ _ _ (by omega),
                rd16_wr16_other _ _ _ _ (by omega), rd16_wr16_other _ _ _ _ (by omega),
                rd16_wr16_other _ _ _ _ (by omega), rd16_wr16_same,
                Nat.mod_eq_of_lt (by rw [hM31] at hseg; omega)]
        · intro i e hi
          simp at hi


theorem sqzCopyFile_keep (o : Options) (p : SqzPlan) (res : SqzResults) (dirNum : Nat)
    (wdp : InWorkingDir) (st st1 : SqzState)
    (h : sqzCopyFile o p res dirNum wdp st = Except.ok (Except.ok st1)) :
    st1.mem = st.mem ∧ st1.dstdir = st.dstdir ∧ st1.dstseg = st.dstseg
      ∧ st1.oSegNum = st.oSegNum ∧ st1.iDstDent = st.iDstDent ∧ st1.dstLBA = st.dstLBA := by
  unfold sqzCopyFile at h
  simp only at h
  split at h
  · split at h
    · cases h
    · split at h
      · cases h
      · split at h
        · cases h
        · cases h
          exact ⟨rfl, rfl, rfl, rfl, rfl, rfl⟩
  · split at h
    · cases h
    · split at h
      · cases h
      · split at h
        · cases h
        · cases h
          split <;> exact ⟨rfl, rfl, rfl, rfl, rfl, rfl⟩

theorem sqzStep_tail (es numdent : Nat) (o : Options) (p : SqzPlan) (res : SqzResults)
    (dirNum : Nat) (w : InWorkingDir) (segs : List (List Rt11DirEnt)) (cur : List Rt11DirEnt)
    (st st1 st2 : SqzState)
    (hee : es = DIRLEN + p.extra) (hfit : numdent * es ≤ 1014)
    (hb : max p.maxEntPSeg 1 < numdent) (hw : w.rt11.WellTyped)
    (hop : (if st.iDstDent ≥ p.maxEntPSeg then sqzOpenSegment p st
            else Except.ok (Except.ok st)) = Except.ok (Except.ok st1))
    (hL : SqzLaid es numdent p.maxSeg p.extra segs cur st1)
    (hc : cur.length < max p.maxEntPSeg 1)
    (h : sqzStep o p res dirNum w st = Except.ok (Except.ok st2)) :
    SqzLaid es numdent p.maxSeg p.extra segs
        (cur ++ (if w.rt11.control &&& PERM ≠ 0 then [w.rt11] else [])) st2
      ∧ (cur ++ (if w.rt11.control &&& PERM ≠ 0 then [w.rt11] else [])).length
          ≤ max p.maxEntPSeg 1 := by
  have hS : SEGSIZ = 1024 := rfl
  have hD : DIRLEN = 14 := rfl
  have hG : SEGLEN = 10 := rfl
  have hes : 14 ≤ es := by omega
  have hcn : cur.length < numdent := by omega
  have hcb := slot_bound es numdent cur.length hfit hcn
  unfold sqzStep at h
  simp only [hop] at h
  by_cases hperm : w.rt11.control &&& PERM ≠ 0
  · rw [if_pos hperm] at h
    rw [if_pos hperm]
    simp only [hL.dstdir] at h
    unfold sqzStoreEnt at h
    split at h
    · cases h
    · rename_i m hstore
      split at hstore
      · simp only [Except.ok.injEq] at hstore
        split at h
        · cases h
        · cases h
        · rename_i st3 hcopy
          simp only [Except.ok.injEq] at h
          obtain ⟨k1, k2, k3, k4, k5, -⟩ := sqzCopyFile_keep o p res dirNum w _ st3 hcopy
          simp only at k1 k2 k3 k4 k5
          rw [← h]
          refine ⟨⟨?_, ?_, ?_, ?_, ?_⟩, ?_⟩
          · show st3.oSegNum = _
            rw [k4]; exact hL.oSegNum
          · show st3.dstseg = _
            rw [k3]; exact hL.dstseg
          · show st3.dstdir = _
            rw [k2]
            simp only [List.length_append, List.length_singleton, slotAddr, Option.some.injEq,
              Nat.add_mul, Nat.one_mul, hee]
            omega
          · show st3.iDstDent = _
            rw [k5, hL.iDstDent]
            simp
          · show SqzMem _ _ _ _ _ _ st3.mem
            rw [k1, ← hstore]
            have hold := sqzMem_frame es numdent p.maxSeg p.extra segs cur st1.mem
              (wrDirEnt st1.mem (slotAddr es segs.length cur.length) w.rt11) hes hfit hL.memOk
              (fun x hx _ _ _ _ => wrDirEnt_other _ _ _ _ (Or.inl hx))
            refine ⟨hold.extraOk, hold.smaxOk, hold.doneOk, ?_⟩
            intro i e hi
            rcases Nat.lt_or_ge i cur.length with hlt | hge
            · rw [List.getElem?_append_left hlt] at hi
              exact hold.curOk i e hi
            · have hil : i < (cur ++ [w.rt11]).length := (List.getElem?_eq_some.mp hi).1
              simp only [List.length_append, List.length_singleton] at hil
              have hie : i = cur.length := by omega
              subst hie
              rw [List.getElem?_append_right (le_refl _)] at hi
              simp only [Nat.sub_self, List.getElem?_cons_zero, Option.some.injEq] at hi
              rw [← hi]
              exact rdDirEnt_wrDirEnt_same _ _ _ hw
          · simp only [List.length_append, List.length_singleton]
            omega
      · cases hstore
  · rw [if_neg hperm] at h
    rw [if_neg hperm]
    simp only [Except.ok.injEq] at h
    rw [← h, List.append_nil]
    exact ⟨hL, by omega⟩


theorem sqzStep_fails_of_opened (o : Options) (p : SqzPlan) (res : SqzResults) (dirNum : Nat)
    (w : InWorkingDir) (st st2 : SqzState)
    (h : sqzStep o p res dirNum w st = Except.ok (Except.ok st2)) :
    ∃ st1, (if st.iDstDent ≥ p.maxEntPSeg then sqzOpenSegment p st
            else Except.ok (Except.ok st)) = Except.ok (Except.ok st1) := by
  unfold sqzStep at h
  simp only at h
  split at h
  · cases h
  · cases h
  · rename_i st1 hop
    exact ⟨st1, hop⟩

theorem sqzStep_laid (es numdent : Nat) (o : Options) (p : SqzPlan) (res : SqzResults)
    (dirNum : Nat) (w : InWorkingDir) (segs : List (List Rt11DirEnt)) (cur : List Rt11DirEnt)
    (st st2 : SqzState)
    (hee : es = DIRLEN + p.extra) (hfit : numdent * es ≤ 1014)
    (hb : max p.maxEntPSeg 1 < numdent) (hw : w.rt11.WellTyped)
    (hL : SqzLaid es numdent p.maxSeg p.extra segs cur st)
    (hc : cur.length ≤ max p.maxEntPSeg 1)
    (h : sqzStep o p res dirNum w st = Except.ok (Except.ok st2)) :
    ∃ (segs2 : List (List Rt11DirEnt)) (cur2 : List Rt11DirEnt),
      SqzLaid es numdent p.maxSeg p.extra segs2 cur2 st2
      ∧ cur2.length ≤ max p.maxEntPSeg 1
      ∧ segs2.flatten ++ cur2
          = segs.flatten ++ cur ++ (if w.rt11.control &&& PERM ≠ 0 then [w.rt11] else []) := by
  obtain ⟨st1, hop⟩ := sqzStep_fails_of_opened o p res dirNum w st st2 h
  have hD : DIRLEN = 14 := rfl
  by_cases hge : st.iDstDent ≥ p.maxEntPSeg
  · have hop2 := hop
    rw [if_pos hge] at hop2
    have hL1 := sqzOpenSegment_laid es numdent p segs cur st st1 (by omega) hfit hL (by omega)
      hop2
    obtain ⟨t1, t2⟩ := sqzStep_tail es numdent o p res dirNum w (segs ++ [cur]) [] st st1 st2
      hee hfit hb hw hop hL1 (by simp) h
    exact ⟨segs ++ [cur], _, t1, t2, by simp⟩
  · have hop2 := hop
    rw [if_neg hge] at hop2
    simp only [Except.ok.injEq] at hop2
    subst hop2
    rw [hL.iDstDent] at hge
    obtain ⟨t1, t2⟩ := sqzStep_tail es numdent o p res dirNum w segs cur st st st2
      hee hfit hb hw hop hL (by omega) h
    exact ⟨segs, _, t1, t2, by simp⟩

theorem sqzStep_first (es numdent : Nat) (o : Options) (p : SqzPlan) (res : SqzResults)
    (dirNum : Nat) (w : InWorkingDir) (st st2 : SqzState)
    (hee : es = DIRLEN + p.extra) (hfit : numdent * es ≤ 1014)
    (hb : max p.maxEntPSeg 1 < numdent) (hw : w.rt11.WellTyped)
    (hsmax : p.maxSeg < 65536) (hextra : p.extra < 65536)
    (hseg0 : st.oSegNum = 0) (hent : st.iDstDent = p.maxEntPSeg)
    (h : sqzStep o p res dirNum w st = Except.ok (Except.ok st2)) :
    ∃ (cur2 : List Rt11DirEnt),
      SqzLaid es numdent p.maxSeg p.extra [] cur2 st2
      ∧ cur2.length ≤ max p.maxEntPSeg 1
      ∧ cur2 = (if w.rt11.control &&& PERM ≠ 0 then [w.rt11] else []) := by
  obtain ⟨st1, hop⟩ := sqzStep_fails_of_opened o p res dirNum w st st2 h
  have hop2 := hop
  rw [if_pos (by rw [hent])] at hop2
  have hL1 := sqzOpenSegment_first es numdent p st st1 hseg0 hsmax hextra hop2
  obtain ⟨t1, t2⟩ := sqzStep_tail es numdent o p res dirNum w [] [] st st1 st2
    hee hfit hb hw hop hL1 (by simp) h
  exact ⟨_, t1, t2, by simp⟩

theorem permEntries_cons (w : InWorkingDir) (l : List InWorkingDir) :
    permEntries (w :: l)
      = (if w.rt11.control &&& PERM ≠ 0 then [w.rt11] else []) ++ permEntries l := by
  unfold permEntries
  by_cases h : w.rt11.control &&& PERM ≠ 0
  · rw [List.filter_cons_of_pos (by simpa using h), if_pos h]
    simp
  · rw [List.filter_cons_of_neg (by simpa using h), if_neg h]
    simp

theorem sqzLoop_laid (es numdent : Nat) (o : Options) (p : SqzPlan) (res : SqzResults)
    (hee : es = DIRLEN + p.extra) (hfit : numdent * es ≤ 1014)
    (hb : max p.maxEntPSeg 1 < numdent) (l : List InWorkingDir) :
    ∀ (dirNum : Nat) (segs : List (List Rt11DirEnt)) (cur : List Rt11DirEnt)
      (st st2 : SqzState),
      (∀ w ∈ l, w.rt11.WellTyped) →
      SqzLaid es numdent p.maxSeg p.extra segs cur st →
      cur.length ≤ max p.maxEntPSeg 1 →
      sqzLoop o p res l dirNum st = Except.ok (Except.ok st2) →
      ∃ (segs2 : List (List Rt11DirEnt)) (cur2 : List Rt11DirEnt),
        SqzLaid es numdent p.maxSeg p.extra segs2 cur2 st2
        ∧ cur2.length ≤ max p.maxEntPSeg 1
        ∧ segs2.flatten ++ cur2 = segs.flatten ++ cur ++ permEntries l := by
  induction l with
  | nil =>
    intro dirNum segs cur st st2 _ hL hc h
    rw [sqzLoop] at h
    simp only [Except.ok.injEq] at h
    subst h
    exact ⟨segs, cur, hL, hc, by simp [permEntries]⟩
  | cons w rest ih =>
    intro dirNum segs cur st st2 hty hL hc h
    rw [sqzLoop] at h
    split at h
    · cases h
    · cases h
    · rename_i st1 hstep
      obtain ⟨segs1, cur1, hL1, hc1, hf1⟩ := sqzStep_laid es numdent o p res dirNum w segs cur
        st st1 hee hfit hb (hty w (List.mem_cons_self _ _)) hL hc hstep
      obtain ⟨segs2, cur2, hL2, hc2, hf2⟩ := ih _ segs1 cur1 st1 st2
        (fun w2 h2 => hty w2 (List.mem_cons_of_mem _ h2)) hL1 hc1 h
      refine ⟨segs2, cur2, hL2, hc2, ?_⟩
      rw [hf2, hf1, permEntries_cons]
      simp [List.append_assoc]

theorem sqzLoop_first (es numdent : Nat) (o : Options) (p : SqzPlan) (res : SqzResults)
    (hee : es = DIRLEN + p.extra) (hfit : numdent * es ≤ 1014)
    (hb : max p.maxEntPSeg 1 < numdent) (hsmax : p.maxSeg < 65536) (hextra : p.extra < 65536)
    (w : InWorkingDir) (rest : List InWorkingDir) (st st2 : SqzState)
    (hty : ∀ x ∈ w :: rest, x.rt11.WellTyped)
    (hseg0 : st.oSegNum = 0) (hent : st.iDstDent = p.maxEntPSeg)
    (h : sqzLoop o p res (w :: rest) 0 st = Except.ok (Except.ok st2)) :
    ∃ (segs2 : List (List Rt11DirEnt)) (cur2 : List Rt11DirEnt),
      SqzLaid es numdent p.maxSeg p.extra segs2 cur2 st2
      ∧ cur2.length ≤ max p.maxEntPSeg 1
      ∧ segs2.flatten ++ cur2 = permEntries (w :: rest) := by
  rw [sqzLoop] at h
  split at h
  · cases h
  · cases h
  · rename_i st1 hstep
    obtain ⟨cur1, hL1, hc1, hf1⟩ := sqzStep_first es numdent o p res 0 w st st1 hee hfit hb
      (hty w (List.mem_cons_self _ _)) hsmax hextra hseg0 hent hstep
    obtain ⟨segs2, cur2, hL2, hc2, hf2⟩ := sqzLoop_laid es numdent o p res hee hfit hb rest _ []
      cur1 st1 st2 (fun w2 h2 => hty w2 (List.mem_cons_of_mem _ h2)) hL1 hc1 h
    refine ⟨segs2, cur2, hL2, hc2, ?_⟩
    rw [hf2, hf1, permEntries_cons]
    simp


theorem sqzFinish_ok (o : Options) (p : SqzPlan) (res : SqzResults) (st : SqzState)
    (r : SqzOutcome) (h : sqzFinish o p res st = Except.ok r) (hret : r.ret = 0) :
    ∃ (dp sp : Nat) (m2 m6 : Mem),
      st.dstdir = some dp ∧ st.dstseg = some sp
      ∧ sqzStores p st.mem
          [(dp, EMPTY), (dp + OFF_BLOCKS, ((o.diskSize - st.dstLBA) % 65536).toNat)]
          = Except.ok m2
      ∧ sqzStores p m2
          [(dp + DIRLEN + rd16 m2 OFF_EXTRA, ENDBLK),
           (dp + DIRLEN + rd16 m2 OFF_EXTRA + OFF_BLOCKS, 0), (sp + OFF_LINK, 0),
           (OFF_LAST, st.oSegNum)] = Except.ok m6
      ∧ r.mem = m6 ∧ r.freeBlocks = rd16 m2 (dp + OFF_BLOCKS) ∧ r.freeAt = dp
      ∧ r.oSegNum = st.oSegNum ∧ r.iDstDent = st.iDstDent + 1 ∧ r.maxSeg = p.maxSeg := by
  have hne : ∀ (q : SqzOutcome), q.ret = 1 → Except.ok q = (Except.ok r : Except SqzFault _) →
      False := by
    intro q hq e
    cases e
    rw [hq] at hret
    exact absurd hret (by decide)
  unfold sqzFinish at h
  split at h
  · rename_i dp sp hdp hsp
    split at h
    · cases h
    · rename_i m2 hm2
      simp only at h
      split at h
      · cases h
      · exact (hne _ rfl h).elim
      · split at h
        · cases h
        · rename_i m6 hm6
          split at h
          · exact (hne _ rfl h).elim
          · cases h
            exact ⟨dp, sp, m2, m6, hdp, hsp, hm2, hm6, rfl, rfl, rfl, rfl, rfl, rfl⟩
  · cases h

theorem sqzFinish_laid (es numdent : Nat) (o : Options) (p : SqzPlan) (res : SqzResults)
    (segs : List (List Rt11DirEnt)) (cur : List Rt11DirEnt) (st : SqzState) (r : SqzOutcome)
    (hee : es = DIRLEN + p.extra) (hfit : numdent * es ≤ 1014)
    (hL : SqzLaid es numdent p.maxSeg p.extra segs cur st)
    (hslot : cur.length + 1 < numdent) (hseg : segs.length + 1 < 65536)
    (h : sqzFinish o p res st = Except.ok r) (hret : r.ret = 0) :
    ∃ e : Rt11DirEnt,
      ChainHolds r.mem es numdent 0 (segs ++ [cur ++ [e]])
      ∧ e.control = EMPTY ∧ e.blocks = r.freeBlocks
      ∧ rd16 r.mem OFF_LAST = segs.length + 1
      ∧ rd16 r.mem 0 = p.maxSeg ∧ rd16 r.mem OFF_EXTRA = p.extra
      ∧ r.oSegNum = segs.length + 1 ∧ r.iDstDent = cur.length + 1 ∧ r.maxSeg = p.maxSeg := by
  have hS : SEGSIZ = 1024 := rfl
  have hD : DIRLEN = 14 := rfl
  have hG : SEGLEN = 10 := rfl
  have hX : OFF_EXTRA = 6 := rfl
  have hK : OFF_LINK = 2 := rfl
  have hA : OFF_LAST = 4 := rfl
  have hB : OFF_BLOCKS = 8 := rfl
  have hE : ENDBLK % 65536 = ENDBLK := by decide
  have hEm : EMPTY % 65536 = EMPTY := by decide
  have hes : 14 ≤ es := by omega
  obtain ⟨dp, sp, m2, m6, hdp, hsp, hs2, hs6, hmem, hfree, -, hos, hid, hmax⟩ :=
    sqzFinish_ok o p res st r h hret
  rw [hL.dstdir] at hdp
  rw [hL.dstseg] at hsp
  have hdpe : slotAddr es segs.length cur.length = dp := Option.some.inj hdp
  have hspe : segs.length * SEGSIZ = sp := Option.some.inj hsp
  have hcb := slot_bound es numdent (cur.length + 1) hfit hslot
  have hm2 := sqzStores_eq p _ _ _ hs2
  simp only [List.foldl_cons, List.foldl_nil] at hm2
  have hx2 : rd16 m2 OFF_EXTRA = p.extra := by
    rw [hm2, ← hdpe]
    simp only [slotAddr, hS, hG, hX, hB]
    rw [rd16_wr16_other _ _ _ _ (by omega), rd16_wr16_other _ _ _ _ (by omega)]
    have := hL.memOk.extraOk
    rw [hX] at this
    exact this
  rw [hx2] at hs6
  have hm6 := sqzStores_eq p _ _ _ hs6
  simp only [List.foldl_cons, List.foldl_nil] at hm6
  have hdp1 : dp + DIRLEN + p.extra = slotAddr es segs.length (cur.length + 1) := by
    rw [← hdpe]
    simp only [slotAddr, Nat.add_mul, Nat.one_mul, hee]
    omega
  rw [hdp1, ← hspe] at hm6
  rw [← hdpe] at hm2
  have hfr : ∀ x, x < slotAddr es segs.length cur.length → x ≠ segs.length * SEGSIZ + 2 →
      x ≠ segs.length * SEGSIZ + 3 → x ≠ 4 → x ≠ 5 → m6 x = st.mem x := by
    intro x hx h2 h3 h4 h5
    rw [hm6, hm2]
    simp only [slotAddr, hS, hG, hK, hA, hB, Nat.add_mul, Nat.one_mul] at hx h2 h3 ⊢
    rw [wr16_other _ _ _ _ (by omega), wr16_other _ _ _ _ (by omega),
      wr16_other _ _ _ _ (by omega), wr16_other _ _ _ _ (by omega),
      wr16_other _ _ _ _ (by omega), wr16_other _ _ _ _ (by omega)]
  have hold := sqzMem_frame es numdent p.maxSeg p.extra segs cur st.mem m6 hes hfit hL.memOk hfr
  refine ⟨rdDirEnt m6 (slotAddr es segs.length cur.length), ?_, ?_, ?_, ?_, ?_, ?_, ?_, ?_, hmax⟩
  · rw [hmem]
    apply chainHolds_of_pointwise
    intro k sg hk
    simp only [Nat.zero_add, List.length_append, List.length_singleton]
    rcases Nat.lt_or_ge k segs.length with hlt | hge
    · rw [List.getElem?_append_left hlt] at hk
      obtain ⟨d1, d2, d3, d4⟩ := hold.doneOk k sg hk
      refine ⟨⟨by omega, d2, fun _ => d3⟩, ?_⟩
      rw [d4, if_pos (by omega)]
    · have hkl : k < (segs ++ [cur ++ [rdDirEnt m6 (slotAddr es segs.length cur.length)]]).length :=
        (List.getElem?_eq_some.mp hk).1
      simp only [List.length_append, List.length_singleton] at hkl
      have hke : k = segs.length := by omega
      subst hke
      rw [List.getElem?_append_right (le_refl _)] at hk
      simp only [Nat.sub_self, List.getElem?_cons_zero, Option.some.injEq] at hk
      subst hk
      refine ⟨⟨?_, ?_, ?_⟩, ?_⟩
      · simp only [List.length_append, List.length_singleton]
        omega
      · intro i e hi
        rcases Nat.lt_or_ge i cur.length with hil | hige
        · rw [List.getElem?_append_left hil] at hi
          exact hold.curOk i e hi
        · have hil : i < (cur ++ [rdDirEnt m6 (slotAddr es segs.length cur.length)]).length :=
            (List.getElem?_eq_some.mp hi).1
          simp only [List.length_append, List.length_singleton] at hil
          have hie : i = cur.length := by omega
          subst hie
          rw [List.getElem?_append_right (le_refl _)] at hi
          simp only [Nat.sub_self, List.getElem?_cons_zero, Option.some.injEq] at hi
          exact hi
      · intro _
        simp only [List.length_append, List.length_singleton]
        rw [hm6]
        simp only [slotAddr, hS, hG, hK, hA, hB, Nat.add_mul, Nat.one_mul]
        rw [rd16_wr16_other _ _ _ _ (by omega), rd16_wr16_other _ _ _ _ (by omega),
          rd16_wr16_other _ _ _ _ (by omega), rd16_wr16_same, hE]
      · rw [if_neg (by omega), hm6]
        simp only [slotAddr, hS, hG, hK, hA, hB, Nat.add_mul, Nat.one_mul]
        rw [rd16_wr16_other _ _ _ _ (by omega), rd16_wr16_same]
  · show rd16 m6 _ = EMPTY
    rw [hm6, hm2]
    simp only [slotAddr, hS, hG, hK, hA, hB, Nat.add_mul, Nat.one_mul]
    rw [rd16_wr16_other _ _ _ _ (by omega), rd16_wr16_other _ _ _ _ (by omega),
      rd16_wr16_other _ _ _ _ (by omega), rd16_wr16_other _ _ _ _ (by omega),
      rd16_wr16_other _ _ _ _ (by omega), rd16_wr16_same, hEm]
  · show rd16 m6 (_ + 8) = _
    rw [hfree, ← hdpe, hm6]
    simp only [slotAddr, hS, hG, hK, hA, hB, Nat.add_mul, Nat.one_mul]
    rw [rd16_wr16_other _ _ _ _ (by omega), rd16_wr16_other _ _ _ _ (by omega),
      rd16_wr16_other _ _ _ _ (by omega), rd16_wr16_other _ _ _ _ (by omega)]
  · rw [hmem, hm6, hA, rd16_wr16_same, hL.oSegNum, Nat.mod_eq_of_lt hseg]
  · rw [hmem]
    exact hold.smaxOk
  · rw [hmem]
    exact hold.extraOk
  · rw [hos, hL.oSegNum]
  · rw [hid, hL.iDstDent]

/-! ### Free space after a squeeze (output.c) -/

theorem sqzOpenSegment_dstLBA (p : SqzPlan) (st st1 : SqzState)
    (h : sqzOpenSegment p st = Except.ok (Except.ok st1)) : st1.dstLBA = st.dstLBA := by
  unfold sqzOpenSegment at h
  simp only at h
  split at h
  · cases h
  · split at h
    · cases h
    · split at h
      · cases h
      · cases h
        rfl

theorem sqzStep_dstLBA (o : Options) (p : SqzPlan) (res : SqzResults) (dirNum : Nat)
    (wdp : InWorkingDir) (st st1 : SqzState)
    (h : sqzStep o p res dirNum wdp st = Except.ok (Except.ok st1)) :
    st1.dstLBA
      = st.dstLBA + (if wdp.rt11.control &&& PERM ≠ 0 then wdp.rt11.blocks else 0) := by
  unfold sqzStep at h
  simp only at h
  split at h
  · cases h
  · cases h
  · rename_i st2 hopen
    have h2 : st2.dstLBA = st.dstLBA := by
      split at hopen
      · exact sqzOpenSegment_dstLBA p st st2 hopen
      · cases hopen
        rfl
    split at h
    · rename_i hperm
      rw [if_pos hperm]
      split at h
      · cases h
      · split at h
        · cases h
        · split at h
          · cases h
          · cases h
          · rename_i st3 hcopy
            cases h
            have h3 := (sqzCopyFile_keep o p res dirNum wdp _ st3 hcopy).2.2.2.2.2
            simp only at h3 ⊢
            rw [h3, h2]
    · rename_i hperm
      rw [if_neg hperm]
      cases h
      rw [h2]
      rfl

theorem permBlocks_cons (w : InWorkingDir) (l : List InWorkingDir) :
    permBlocks (w :: l)
      = (if w.rt11.control &&& PERM ≠ 0 then w.rt11.blocks else 0) + permBlocks l := by
  unfold permBlocks
  by_cases h : w.rt11.control &&& PERM ≠ 0
  · rw [List.filter_cons_of_pos (by simpa using h), if_pos h]
    simp
  · rw [List.filter_cons_of_neg (by simpa using h), if_neg h]
    simp

theorem sqzLoop_dstLBA (o : Options) (p : SqzPlan) (res : SqzResults) (l : List InWorkingDir)
    (dirNum : Nat) (st st1 : SqzState)
    (h : sqzLoop o p res l dirNum st = Except.ok (Except.ok st1)) :
    st1.dstLBA = st.dstLBA + permBlocks l := by
  induction l generalizing dirNum st with
  | nil =>
    rw [sqzLoop] at h
    cases h
    simp [permBlocks]
  | cons w rest ih =>
    rw [sqzLoop] at h
    split at h
    · cases h
    · cases h
    · rename_i st2 hstep
      rw [ih _ _ h, sqzStep_dstLBA o p res dirNum w st st2 hstep, permBlocks_cons]
      omega


theorem sqzFinish_free (o : Options) (p : SqzPlan) (res : SqzResults) (st : SqzState)
    (r : SqzOutcome) (h : sqzFinish o p res st = Except.ok r) (hret : r.ret = 0) :
    (r.freeBlocks : Int) = (o.diskSize - st.dstLBA) % 65536 := by
  obtain ⟨dp, sp, m2, m6, -, -, hs2, -, -, hfree, -, -, -, -⟩ :=
    sqzFinish_ok o p res st r h hret
  have hm2 := sqzStores_eq p _ _ _ hs2
  simp only [List.foldl_cons, List.foldl_nil] at hm2
  have h0 : (0 : Int) ≤ (o.diskSize - st.dstLBA) % 65536 := Int.emod_nonneg _ (by decide)
  have h1 : (o.diskSize - st.dstLBA) % 65536 < 65536 := Int.emod_lt_of_pos _ (by decide)
  rw [hfree, hm2, rd16_wr16_same, Nat.mod_eq_of_lt (by omega), Int.toNat_of_nonneg h0]

/-- A successful rebuild went through the copy pass and the end: the plan, the
state before the copy pass and the state after it. -/
theorem sqzRebuild_ok (o2 : Options) (res : SqzResults) (r : SqzOutcome)
    (h : sqzRebuild o2 res = Except.ok r) (hret : r.ret = 0) :
    ∃ (p : SqzPlan) (st0 st : SqzState),
      sqzMaxSeg o2 = some p.maxSeg ∧ p.maxEntPSeg < o2.numdent
      ∧ p.extra = rd16 o2.directory OFF_EXTRA
      ∧ st0.oSegNum = 0 ∧ st0.iDstDent = p.maxEntPSeg ∧ st0.dstdir = none
      ∧ st0.dstLBA = o2.seg1LBA + p.maxSeg * (SEGSIZ / BLKSIZ)
      ∧ sqzLoop o2 p res o2.wDirArray 0 st0 = Except.ok (Except.ok st)
      ∧ sqzFinish o2 p res st = Except.ok r := by
  have hne : ∀ (q : SqzOutcome), q.ret = 1 → Except.ok q = (Except.ok r : Except SqzFault _) →
      False := by
    intro q hq e
    cases e
    rw [hq] at hret
    exact absurd hret (by decide)
  unfold sqzRebuild at h
  simp only at h
  generalize (if o2.cmdOpts &&& CMDOPT_DOUBLE_FLPY ≠ 0 then MAX_DBL_FLPY_SEGS
    else if o2.cmdOpts &&& CMDOPT_SINGLE_FLPY ≠ 0 then MAX_SGL_FLPY_SEGS
    else MAXSEGMENTS - 1) = cap at h
  generalize decide (o2.cmdOpts &&& (CMDOPT_DOUBLE_FLPY ||| CMDOPT_SINGLE_FLPY) ≠ 0) = fl at h
  generalize (if o2.largestPerm * BLKSIZ < o2.seg1LBA * BLKSIZ then o2.seg1LBA * BLKSIZ
    else o2.largestPerm * BLKSIZ) = ibuf at h
  split at h
  · exact (hne _ rfl h).elim
  · split at h
    · cases h
    · rename_i maxSeg hmax
      generalize (if fl = true then o2.floppyImageSize - o2.seg1LBA * BLKSIZ
        else maxSeg * SEGSIZ) = lim at h
      split at h
      · exact (hne _ rfl h).elim
      · rename_i hbudget
        split at h
        · exact (hne _ rfl h).elim
        · split at h
          · exact (hne _ rfl h).elim
          · split at h
            · cases h
            · exact (hne _ rfl h).elim
            · rename_i st hloop
              exact ⟨_, _, st, hmax, Nat.lt_of_not_ge hbudget, rfl, rfl, rfl, rfl, rfl, hloop, h⟩

theorem createNewContainer_ok (o : Options) (res : SqzResults) (r : SqzOutcome)
    (h : createNewContainer o res = Except.ok r) (hret : r.ret = 0)
    (hrun : ¬ (o.emptyAdds = 0 ∧ o.totEmptyEntries < 2)) :
    ∃ o2 : Options,
      sqzRebuild o2 res = Except.ok r
      ∧ o2.directory = o.directory ∧ o2.wDirArray = o.wDirArray ∧ o2.numdent = o.numdent
      ∧ o2.seg1LBA = o.seg1LBA ∧ o2.diskSize = o.diskSize ∧ o2.newMaxSeg = o.newMaxSeg := by
  unfold createNewContainer at h
  split at h
  · cases h
    exact absurd hret (show ¬ (1 : Nat) = 0 by decide)
  · refine ⟨_, h, ?_, ?_, ?_, ?_, ?_, ?_⟩
    all_goals
      by_cases he : o.emptyAdds = 0
      · simp [he]
      · simp [he]


theorem permBlocks_append (l : List InWorkingDir) (w : InWorkingDir) :
    permBlocks (l ++ [w])
      = permBlocks l + (if w.rt11.control &&& PERM ≠ 0 then w.rt11.blocks else 0) := by
  induction l with
  | nil =>
    rw [List.nil_append, permBlocks_cons]
    simp [permBlocks]
  | cons a t ih =>
    rw [List.cons_append, permBlocks_cons, permBlocks_cons, ih]
    omega

theorem perm_bit_kept (c : Nat) : (c &&& (65535 ^^^ ENDBLK)) &&& PERM = c &&& PERM := by
  rw [Nat.and_assoc]
  rfl

theorem parseEntries_totPerm (m : Mem) (relseg k ii dirptr accumLBA : Nat) (o : Options)
    (h : o.totPerm = permBlocks o.wDirArray) :
    (parseEntries m relseg k ii dirptr accumLBA o).totPerm
      = permBlocks (parseEntries m relseg k ii dirptr accumLBA o).wDirArray := by
  induction k generalizing ii dirptr accumLBA o with
  | zero => exact h
  | succ k ih =>
    rw [parseEntries]
    simp only
    split
    · exact h
    · have hstep : ∀ (o2 : Options), o2.totPerm = permBlocks o2.wDirArray →
          (if (rdDirEnt m dirptr).control &&& ENDBLK ≠ 0 then o2
            else parseEntries m relseg k (ii + 1) (dirptr + DIRLEN + rd16 m OFF_EXTRA)
              (accumLBA + (rdDirEnt m dirptr).blocks) o2).totPerm
            = permBlocks (if (rdDirEnt m dirptr).control &&& ENDBLK ≠ 0 then o2
                else parseEntries m relseg k (ii + 1) (dirptr + DIRLEN + rd16 m OFF_EXTRA)
                  (accumLBA + (rdDirEnt m dirptr).blocks) o2).wDirArray := by
        intro o2 h2
        split
        · exact h2
        · exact ih _ _ _ _ h2
      apply hstep
      by_cases hp : (rdDirEnt m dirptr).control &&& PERM = 0
      · simp only [if_pos hp]
        rw [permBlocks_append]
        simp only [perm_bit_kept, hp, ne_eq, not_true_eq_false, if_false, add_zero]
        exact h
      · simp only [if_neg hp]
        rw [permBlocks_append]
        simp only [perm_bit_kept, ne_eq, hp, not_false_eq_true, if_true]
        rw [h]
        push_cast
        rfl

theorem parseSegments_totPerm (m : Mem) (numdent k : Nat) (segptr : Option Nat) (o : Options)
    (h : o.totPerm = permBlocks o.wDirArray) :
    (parseSegments m numdent k segptr o).totPerm
      = permBlocks (parseSegments m numdent k segptr o).wDirArray := by
  rw [parseSegments_eq_foldl]
  generalize visitedSegments m k segptr = v
  induction v generalizing o with
  | nil => exact h
  | cons a t ih =>
    rw [List.foldl_cons]
    exact ih _ (parseEntries_totPerm _ _ _ _ _ _ _ h)

theorem parse_directory_totals (o : Options) (h : o.totPerm = permBlocks o.wDirArray) :
    (parse_directory o).totPerm = permBlocks (parse_directory o).wDirArray
    ∧ ((parse_directory o).totEmpty + (parse_directory o).totPerm + (parse_directory o).seg1LBA
          + (parse_directory o).maxseg * 2 < (parse_directory o).containerBlocks →
        (parse_directory o).diskSize
          = (parse_directory o).totEmpty + (parse_directory o).totPerm
            + (parse_directory o).seg1LBA + (parse_directory o).maxseg * 2
            + (parse_directory o).emptyAdds) := by
  have hp := parseSegments_totPerm o.directory o.numdent o.maxseg none o h
  unfold parse_directory
  simp only
  split
  · refine ⟨hp, fun hlt => ?_⟩
    simp only at hlt ⊢
    rw [if_neg (by omega)]
    ring
  · refine ⟨hp, fun hlt => ?_⟩
    simp only at hlt ⊢
    rename_i heq
    simp only [ne_eq, not_not] at heq
    omega


theorem sqzMaxSeg_lt (o : Options) (v : Nat) (h : sqzMaxSeg o = some v)
    (hnew : o.newMaxSeg < 65536) : v < 65536 := by
  have hs := rd16_lt o.directory 0
  have hM : MAXSEGMENTS - 1 = 31 := by decide
  unfold sqzMaxSeg at h
  simp only [hM] at h
  split at h
  · cases h
  · rename_i c hc
    simp only [Option.some.injEq] at h
    have hcb : c < 65536 := by
      split at hc
      · split at hc
        · cases hc
        · simp only [Option.some.injEq] at hc
          rw [← hc]
          repeat' split
          all_goals omega
      · simp only [Option.some.injEq] at hc
        omega
    rw [← h]
    split <;> omega

theorem chainHolds_congr (m m' : Mem) (es numdent : Nat) (hes : 14 ≤ es)
    (hfit : numdent * es ≤ 1014) (l : List (List Rt11DirEnt)) :
    ∀ j0, (∀ x, x < (j0 + l.length) * SEGSIZ → m' x = m x) →
      ChainHolds m es numdent j0 l → ChainHolds m' es numdent j0 l := by
  have hS : SEGSIZ = 1024 := rfl
  have hD : DIRLEN = 14 := rfl
  have hG : SEGLEN = 10 := rfl
  have hK : OFF_LINK = 2 := rfl
  induction l with
  | nil =>
    intro j0 _ _
    trivial
  | cons c cs ih =>
    intro j0 hag hch
    obtain ⟨⟨h1, h2, h3⟩, hlink, hrest⟩ := hch
    simp only [List.length_cons] at hag
    have hin : ∀ x, x < (j0 + 1) * SEGSIZ → m' x = m x := by
      intro x hx
      apply hag
      rw [hS] at hx ⊢
      have : (j0 + 1) * 1024 ≤ (j0 + (cs.length + 1)) * 1024 :=
        Nat.mul_le_mul_right _ (by omega)
      omega
    refine ⟨⟨h1, ?_, ?_⟩, ?_, ?_⟩
    · intro i e hi
      have hil : i < c.length := (List.getElem?_eq_some.mp hi).1
      have hb := slot_bound es numdent i hfit (by omega)
      rw [← h2 i e hi]
      apply rdDirEnt_congr
      intro x hx1 hx2
      apply hin
      simp only [slotAddr, hS, hG, hD, Nat.add_mul, Nat.one_mul] at hx1 hx2 ⊢
      omega
    · intro hlt
      have hb := slot_bound es numdent c.length hfit hlt
      rw [← h3 hlt]
      apply rd16_congr
      intro x hx1 hx2
      apply hin
      simp only [slotAddr, hS, hG, Nat.add_mul, Nat.one_mul] at hx1 hx2 ⊢
      omega
    · rw [← hlink]
      apply rd16_congr
      intro x hx1 hx2
      apply hin
      simp only [hS, hK, Nat.add_mul, Nat.one_mul] at hx1 hx2 ⊢
      omega
    · apply ih (j0 + 1) _ hrest
      intro x hx
      apply hag
      have : j0 + 1 + cs.length = j0 + (cs.length + 1) := by omega
      rw [← this]
      exact hx

theorem mem_permEntries (l : List InWorkingDir) (e : Rt11DirEnt) (h : e ∈ permEntries l) :
    ∃ w ∈ l, w.rt11 = e := by
  unfold permEntries at h
  obtain ⟨w, hw, he⟩ := List.mem_map.mp h
  exact ⟨w, (List.mem_filter.mp hw).1, he⟩

/-- The directory the squeeze leaves behind, read back.  When
`createNewContainer` has rebuilt the container (return value 0, not the fast
path) with the rebuilt directory inside its `maxSeg` segments and the free
entry and the end marker inside the entry slots of the last segment, then
parsing the new container gives the permanent entries of the old working list
in their order followed by one free entry, whose block count is
`(diskSize - (seg1LBA + 2 * maxSeg + blocks of the permanent entries)) mod 2^16`. -/
theorem squeeze_parse (o : Options) (res : SqzResults) (r : SqzOutcome)
    (h : createNewContainer o res = Except.ok r) (hret : r.ret = 0)
    (hrun : ¬ (o.emptyAdds = 0 ∧ o.totEmptyEntries < 2))
    (hnum : o.numdent = (checkHeaderGeometry o.directory).2)
    (hnum2 : 2 ≤ o.numdent)
    (hty : ∀ w ∈ o.wDirArray, w.rt11.WellTyped)
    (hnoend : ∀ w ∈ o.wDirArray, w.rt11.control &&& ENDBLK = 0)
    (hnew : o.newMaxSeg < 65536)
    (hseg : r.oSegNum ≤ r.maxSeg) (hslot : r.iDstDent < o.numdent) :
    ∃ e : Rt11DirEnt,
      (parse_directory r.reopen).wDirArray.map (fun w => w.rt11) = permEntries o.wDirArray ++ [e]
      ∧ e.control = EMPTY
      ∧ (e.blocks : Int)
          = (o.diskSize
              - ((o.seg1LBA + r.maxSeg * (SEGSIZ / BLKSIZ) + permBlocks o.wDirArray : Nat) : Int))
            % 65536 := by
  have hS : SEGSIZ = 1024 := rfl
  have hD : DIRLEN = 14 := rfl
  have hG : SEGLEN = 10 := rfl
  have hX : OFF_EXTRA = 6 := rfl
  have hA : OFF_LAST = 4 := rfl
  obtain ⟨o2, hreb, hdir, hlist, hnd, hseg1, hsize, hnm⟩ :=
    createNewContainer_ok o res r h hret hrun
  obtain ⟨p, st0, st, hmax, hbud, hext, hs0, hi0, hd0, hl0, hloop, hfin⟩ :=
    sqzRebuild_ok o2 res r hreb hret
  rw [hdir] at hext
  rw [hnd] at hbud
  rw [hlist] at hloop
  have hgeo : o.numdent = (SEGSIZ - SEGLEN) / (DIRLEN + p.extra) := by
    rw [hnum, hext]
    rfl
  have hfit : o.numdent * (DIRLEN + p.extra) ≤ 1014 := by
    rw [hgeo]
    exact Nat.div_mul_le_self _ _
  have hes : 14 ≤ DIRLEN + p.extra := by omega
  have hsmax : p.maxSeg < 65536 := sqzMaxSeg_lt o2 p.maxSeg hmax (by omega)
  have hextra : p.extra < 65536 := by
    rw [hext]
    exact rd16_lt _ _
  have hb : max p.maxEntPSeg 1 < o.numdent := by
    rcases Nat.le_total p.maxEntPSeg 1 with h1 | h1
    · rw [Nat.max_eq_right h1]
      omega
    · rw [Nat.max_eq_left h1]
      exact hbud
  obtain ⟨dp, sp, m2, m6, hdp, -, -, -, -, -, -, hos, hid, hrm⟩ :=
    sqzFinish_ok o2 p res st r hfin hret
  -- the working list is not empty: the end stores through `dstdir`
  cases hl : o.wDirArray with
  | nil =>
    rw [hl, sqzLoop] at hloop
    simp only [Except.ok.injEq] at hloop
    rw [← hloop, hd0] at hdp
    cases hdp
  | cons w rest =>
    rw [hl] at hloop
    obtain ⟨segs, cur, hL, hcur, hflat⟩ :=
      sqzLoop_first (DIRLEN + p.extra) o.numdent o2 p res rfl hfit hb hsmax hextra w rest st0 st
        (by rw [← hl]; exact hty) hs0 hi0 hloop
    rw [← hl] at hflat
    have hslot2 : cur.length + 1 < o.numdent := by
      rw [← hL.iDstDent, ← hid]
      exact hslot
    have hseg2 : segs.length + 1 ≤ p.maxSeg := by
      rw [← hL.oSegNum, ← hos, ← hrm]
      exact hseg
    obtain ⟨e, hch, hec, heb, hlast, hm0, hmx, -, -, -⟩ :=
      sqzFinish_laid (DIRLEN + p.extra) o.numdent o2 p res segs cur st r rfl hfit hL hslot2
        (by omega) hfin hret
    have hag : ∀ x, x < (segs.length + 1) * SEGSIZ → r.newDirectory x = r.mem x := by
      intro x hx
      have : (segs.length + 1) * SEGSIZ ≤ r.maxSeg * SEGSIZ := by
        rw [hrm]
        exact Nat.mul_le_mul_right _ hseg2
      show (if x < r.maxSeg * SEGSIZ then r.mem x else 0) = r.mem x
      rw [if_pos (by omega)]
    have hhdr : ∀ a, a + 2 ≤ 1024 → rd16 r.newDirectory a = rd16 r.mem a := by
      intro a ha
      apply rd16_congr
      intro x hx1 hx2
      apply hag
      rw [hS, Nat.add_mul]
      omega
    have hnx : rd16 r.newDirectory OFF_EXTRA = p.extra := by
      rw [hhdr _ (by decide), hmx]
    have hn0 : rd16 r.newDirectory 0 = p.maxSeg := by
      rw [hhdr _ (by decide), hm0]
    have hnl : rd16 r.newDirectory OFF_LAST = segs.length + 1 := by
      rw [hhdr _ (by decide), hlast]
    have hch2 : ChainHolds r.newDirectory (DIRLEN + rd16 r.newDirectory OFF_EXTRA)
        (checkHeaderGeometry r.newDirectory).2 0 (segs ++ [cur ++ [e]]) := by
      have hg2 : (checkHeaderGeometry r.newDirectory).2 = o.numdent := by
        rw [hgeo]
        show (SEGSIZ - SEGLEN) / (DIRLEN + rd16 r.newDirectory OFF_EXTRA) = _
        rw [hnx]
      rw [hg2, hnx]
      apply chainHolds_congr r.mem r.newDirectory (DIRLEN + p.extra) o.numdent hes hfit _ 0 _ hch
      intro x hx
      apply hag
      simpa using hx
    have hparse := parseSegments_nonempty r.newDirectory (checkHeaderGeometry r.newDirectory).2
      (checkHeaderGeometry r.newDirectory).1 (segs ++ [cur ++ [e]]) r.reopen (by simp) hch2
      (by
        intro sg hsg x hx
        have hx2 : x ∈ (segs ++ [cur ++ [e]]).flatten := List.mem_flatten.mpr ⟨sg, hsg, hx⟩
        rw [List.flatten_append, List.flatten_singleton, ← List.append_assoc, hflat] at hx2
        rcases List.mem_append.mp hx2 with hp | hp
        · obtain ⟨w1, hw1, he1⟩ := mem_permEntries _ _ hp
          rw [← he1]
          exact hnoend w1 hw1
        · rw [List.mem_singleton] at hp
          rw [hp, hec]
          decide)
      (by
        show _ ≤ rd16 r.newDirectory 0
        rw [hn0]
        simpa using hseg2)
      (by
        rw [hnl]
        simp)
    refine ⟨e, ?_, hec, ?_⟩
    · rw [parse_directory_list]
      have hr : (r.reopen.directory, r.reopen.numdent, r.reopen.maxseg, r.reopen.wDirArray)
          = (r.newDirectory, (checkHeaderGeometry r.newDirectory).2,
              (checkHeaderGeometry r.newDirectory).1, []) := rfl
      simp only [Prod.mk.injEq] at hr
      rw [hr.1, hr.2.1, hr.2.2.1, hparse, hr.2.2.2, List.flatten_append, List.flatten_singleton,
        List.map_nil, List.nil_append, ← List.append_assoc, hflat, hl]
    · rw [heb, sqzFinish_free o2 p res st r hfin hret,
        sqzLoop_dstLBA o2 p res _ 0 st0 st hloop, hl0, hsize, hseg1, hrm, ← hl]


/-- C23 (amended): the trailing free entry after a squeeze.  When
`createNewContainer` has rebuilt the container (it returns 0 and did not take
the fast path) and the directory it built lies inside the directory area (no
more output segments than the chosen count `maxSeg`, the free entry and the end
marker inside the entry slots of the last segment), parsing the new container
gives the permanent entries of the old working list followed by one free
entry, and the block count of that entry minus `emptyAdds` equals `totEmpty`
before the squeeze minus two blocks for every directory segment by which
`maxSeg` exceeds the `maxseg` of the volume.  The volume is one whose `totPerm`
is the sum of the blocks of its permanent entries and whose size is what the
directory accounts for plus the padding `emptyAdds`, and the number fits the
16-bit field.  With an unchanged segment count it equals `totEmpty`. -/
theorem squeeze_free_blocks (o : Options) (res : SqzResults) (r : SqzOutcome)
    (h : createNewContainer o res = Except.ok r) (hret : r.ret = 0)
    (hrun : ¬ (o.emptyAdds = 0 ∧ o.totEmptyEntries < 2))
    (hnum : o.numdent = (checkHeaderGeometry o.directory).2) (hnum2 : 2 ≤ o.numdent)
    (hty : ∀ w ∈ o.wDirArray, w.rt11.WellTyped)
    (hnoend : ∀ w ∈ o.wDirArray, w.rt11.control &&& ENDBLK = 0)
    (hnew : o.newMaxSeg < 65536)
    (hseg : r.oSegNum ≤ r.maxSeg) (hslot : r.iDstDent < o.numdent)
    (hperm : o.totPerm = permBlocks o.wDirArray)
    (hsize : o.diskSize = o.totEmpty + o.totPerm + o.seg1LBA + o.maxseg * 2 + o.emptyAdds)
    (hfit : 0 ≤ o.totEmpty + o.emptyAdds + 2 * o.maxseg - 2 * r.maxSeg
      ∧ o.totEmpty + o.emptyAdds + 2 * o.maxseg - 2 * r.maxSeg < 65536) :
    ∃ e : Rt11DirEnt,
      (parse_directory r.reopen).wDirArray.map (fun w => w.rt11) = permEntries o.wDirArray ++ [e]
      ∧ e.control = EMPTY
      ∧ (e.blocks : Int) - o.emptyAdds = o.totEmpty - 2 * ((r.maxSeg : Int) - o.maxseg)
      ∧ (r.maxSeg = o.maxseg → (e.blocks : Int) - o.emptyAdds = o.totEmpty) := by
  obtain ⟨e, hlist, hctl, hf⟩ :=
    squeeze_parse o res r h hret hrun hnum hnum2 hty hnoend hnew hseg hslot
  have h2 : SEGSIZ / BLKSIZ = 2 := by decide
  rw [h2, hsize, hperm] at hf
  have hval : (o.totEmpty + (permBlocks o.wDirArray : Int) + o.seg1LBA + o.maxseg * 2 + o.emptyAdds
      - ((o.seg1LBA + r.maxSeg * 2 + permBlocks o.wDirArray : Nat) : Int))
      = o.totEmpty + o.emptyAdds + 2 * o.maxseg - 2 * r.maxSeg := by
    push_cast
    ring
  rw [hval, Int.emod_eq_of_lt hfit.1 hfit.2] at hf
  have h1 : (e.blocks : Int) - o.emptyAdds = o.totEmpty - 2 * ((r.maxSeg : Int) - o.maxseg) := by
    rw [hf]
    ring
  refine ⟨e, hlist, hctl, h1, fun he => ?_⟩
  rw [h1, he]
  ring

/-- C23 at a concrete volume: four files and 11 free blocks on one directory
segment, squeezed into two segments; the new directory parses to the four
files and a free entry of 9 blocks. -/
theorem squeeze_free_blocks_witness :
    createNewContainer growExample sqzAllOk = Except.ok growResult
    ∧ (growResult.ret, growResult.maxSeg, growResult.oSegNum, growResult.iDstDent,
        growExample.maxseg, growExample.numdent, growExample.totEmpty, growExample.emptyAdds)
        = (0, 2, 2, 3, 1, 72, 11, 0)
    ∧ ∃ e : Rt11DirEnt,
        (parse_directory growResult.reopen).wDirArray.map (fun w => w.rt11)
          = permEntries growExample.wDirArray ++ [e]
        ∧ e.control = EMPTY
        ∧ (e.blocks : Int) - growExample.emptyAdds
            = growExample.totEmpty - 2 * ((growResult.maxSeg : Int) - growExample.maxseg)
        ∧ (growResult.maxSeg = growExample.maxseg →
            (e.blocks : Int) - growExample.emptyAdds = growExample.totEmpty) :=
  ⟨by rfl, by rfl,
   squeeze_free_blocks growExample sqzAllOk growResult (by rfl) (by rfl) (by decide) (by rfl)
     (by decide) (by decide) (by decide) (by decide) (by decide) (by decide) (by rfl) (by rfl)
     ⟨by decide, by decide⟩⟩

/-- C23 (as stated) fails when the squeeze adds a directory segment: the
volume of `growExample` has 11 free blocks and no padding, the rebuilt
container has two directory segments instead of one, and its directory parses
to the four files followed by a free entry of 9 blocks. -/
theorem squeeze_free_blocks_counterexample :
    (createNewContainer growExample sqzAllOk).map
        (fun r => (r.ret, r.maxSeg, r.oSegNum, r.freeBlocks,
          (parse_directory r.reopen).wDirArray.map
            (fun w => (w.rt11.control, w.rt11.name.w0, w.rt11.blocks, w.lba))))
        = Except.ok (0, 2, 2, 9,
            [(PERM, 1, 5, 10), (PERM, 2, 3, 15), (PERM, 3, 4, 18), (PERM, 4, 2, 22),
             (EMPTY, 0, 9, 24)])
    ∧ (growExample.totEmpty, growExample.emptyAdds, growExample.maxseg) = (11, 0, 1)
    ∧ ¬ (∀ (o : Options) (res : SqzResults) (r : SqzOutcome),
          createNewContainer o res = Except.ok r → r.ret = 0 →
          ∀ e : Rt11DirEnt,
            ((parse_directory r.reopen).wDirArray.map (fun w => w.rt11)).getLast? = some e →
            (e.blocks : Int) - o.emptyAdds = o.totEmpty) := by
  refine ⟨by rfl, by rfl, fun hall => ?_⟩
  have h := hall growExample sqzAllOk growResult (by rfl) (by rfl)
    { control := EMPTY, name := { w0 := 0, w1 := 0, w2 := 0 }, blocks := 9, channel := 0,
      procid := 0, date := 0 } (by rfl)
  have h2 : growExample.totEmpty = 11 := by rfl
  have h3 : growExample.emptyAdds = 0 := by rfl
  rw [h2, h3] at h
  exact absurd h (by decide)


/-! ### Early returns and segment count of the squeeze (output.c) -/

/-- C21 (defect of the code): the fast path of `createNewContainer` ignores
the segment-count override.  Without padding the function returns 1 when
there is no free space and returns 0, with no file operation and the options
untouched, whenever exactly one free entry exists, whatever `newMaxSeg` is.
On a squeezed volume with one directory segment the request for 4 segments
(`newMaxSeg = 4`) is answered with 0 and nothing is rebuilt. -/
theorem createNewContainer_fast_path_ignores_override :
    (∀ (o : Options) (res : SqzResults), o.emptyAdds = 0 →
        o.totEmpty = 0 ∨ o.totEmptyEntries = 0 →
        createNewContainer o res = Except.ok (sqzEarly 1 o))
    ∧ (∀ (o : Options) (res : SqzResults), o.emptyAdds = 0 → o.totEmpty ≠ 0 →
        o.totEmptyEntries = 1 → createNewContainer o res = Except.ok (sqzEarly 0 o))
    ∧ squeezedVolume.wDirArray.map
          (fun w => (w.rt11.control, w.rt11.name.w0, w.rt11.blocks, w.lba))
        = [(PERM, 1, 5, 8), (PERM, 2, 3, 13), (EMPTY, 0, 44, 16)]
    ∧ (squeezedVolume.maxseg, squeezedVolume.newMaxSeg, squeezedVolume.emptyAdds,
        squeezedVolume.totEmpty, squeezedVolume.totEmptyEntries) = (1, 4, 0, 44, 1)
    ∧ (createNewContainer squeezedVolume sqzAllOk).map (fun r => (r.ret, r.events, r.maxSeg))
        = Except.ok (0, [], 0) := by
  refine ⟨fun o res h0 h1 => ?_, fun o res h0 h1 h2 => ?_, by rfl, by rfl, by rfl⟩
  · unfold createNewContainer
    rw [if_pos ⟨h0, h1⟩]
  · unfold createNewContainer
    rw [if_neg (fun hc => by
        rcases hc.2 with h | h
        · exact h1 h
        · rw [h2] at h
          exact absurd h (by decide)),
      if_pos ⟨h0, by rw [h2]; decide⟩]

/-- C22 (defect of the code): the floppy caps do not bound the chosen segment
count.  On a single density floppy whose directory declares 2 segments
(`smax = 2`, the cap `MAX_SGL_FLPY_SEGS`) and holds 80 files, without an
override, `createNewContainer` passes the capacity check (80 < 72 * 2),
computes `maxSeg = ceil(80 / 36) = 3`, rebuilds the image with `smax = 3` and
returns 0.  What does hold for every volume: the chosen count is the override,
or else `ceil(totPermEntries / (numdent / 2))` kept between 1 and 31, raised
to `smax` when it is below; it is at most 31 when the override and `smax`
are. -/
theorem createNewContainer_exceeds_floppy_cap :
    (∀ (o : Options) (m : Nat), sqzMaxSeg o = some m →
        rd16 o.directory 0 ≤ m
        ∧ (o.newMaxSeg ≠ 0 → m = max o.newMaxSeg (rd16 o.directory 0))
        ∧ (o.newMaxSeg = 0 →
            m = max (max 1 (min (MAXSEGMENTS - 1) (ceilDiv o.totPermEntries (o.numdent / 2))))
                  (rd16 o.directory 0))
        ∧ (o.newMaxSeg ≤ 31 → rd16 o.directory 0 ≤ 31 → m ≤ 31))
    ∧ (floppyExample.cmdOpts &&& CMDOPT_SINGLE_FLPY, rd16 floppyExample.directory 0,
      floppyExample.maxseg, floppyExample.numdent, floppyExample.newMaxSeg,
      floppyExample.totPermEntries, floppyExample.totEmptyEntries, floppyExample.emptyAdds,
      floppyExample.wDirArray.length)
        = (CMDOPT_SINGLE_FLPY, 2, 2, 72, 0, 80, 2, 0, 82)
    ∧ MAX_SGL_FLPY_SEGS = 2
    ∧ sqzMaxSeg floppyExample = some 3
    ∧ (createNewContainer floppyExample sqzAllOk).map
          (fun r => (r.ret, r.maxSeg, rd16 r.mem 0, r.events))
        = Except.ok (0, 3, 3,
            [SqzEvent.unlinkTmp, SqzEvent.createTmp, SqzEvent.writeTmp 256256,
             SqzEvent.closeTmp, SqzEvent.unlinkBackup, SqzEvent.renameContainerToBackup,
             SqzEvent.renameTmpToContainer]) := by
  refine ⟨fun o m h => ?_, by rfl, by rfl, by rfl, by rfl⟩
  have h31 : MAXSEGMENTS - 1 = 31 := by decide
  unfold sqzMaxSeg at h
  simp only at h
  by_cases hn : o.newMaxSeg = 0
  · rw [if_pos hn] at h
    by_cases hz : o.numdent / 2 = 0
    · rw [if_pos hz] at h
      cases h
    · rw [if_neg hz] at h
      simp only [Option.some.injEq] at h
      have hc : ceilDiv o.totPermEntries (o.numdent / 2)
          = if o.totPermEntries % (o.numdent / 2) ≠ 0 then
              o.totPermEntries / (o.numdent / 2) + 1
            else o.totPermEntries / (o.numdent / 2) := by
        unfold ceilDiv
        by_cases hr : o.totPermEntries % (o.numdent / 2) = 0
        · rw [if_pos hr, if_neg (not_not.mpr hr)]
        · rw [if_neg hr, if_pos hr]
      rw [hc, h31]
      rw [h31] at h
      generalize (if o.totPermEntries % (o.numdent / 2) ≠ 0 then
          o.totPermEntries / (o.numdent / 2) + 1
        else o.totPermEntries / (o.numdent / 2)) = c0 at h ⊢
      refine ⟨?_, fun hne => absurd hn hne, fun _ => ?_, fun _ hs => ?_⟩
      all_goals
        subst h
        repeat' split
        all_goals omega
  · rw [if_neg hn] at h
    simp only [Option.some.injEq] at h
    refine ⟨?_, fun _ => ?_, fun he => absurd he hn, fun hle hs => ?_⟩
    all_goals
      subst h
      repeat' split
      all_goals omega

/-- C28 (defect of the code): the rebuild leaves the directory area it
allocated.  On a plain container the new directory is a buffer of
`maxSeg * 1024` bytes.  With 3 files and `maxSeg = 4` the per-segment budget
is 0, every working entry opens an output segment, and the fifth of them
stores its header at byte 4096, the first byte behind the buffer.  With 71
files in one segment (`maxSeg = 1`, budget 71, `numdent = 72`) the files fill
the slots 0 to 70, the trailing free entry takes slot 71 and the end marker
goes to slot 72, behind the 72 slots of the segment: its `blocks` field is
stored at byte 1026, behind the 1024 bytes of the buffer. -/
theorem createNewContainer_leaves_directory_area :
    ((sqzExampleVolume 0 60 33).totPermEntries, (sqzExampleVolume 0 60 33).numWdirs,
        (sqzExampleVolume 0 60 33).cmdOpts) = (3, 5, 0)
    ∧ sqzMaxSeg { sqzExampleVolume 0 60 33 with newMaxSeg := 4 } = some 4
    ∧ sqzMaxEntPSeg { sqzExampleVolume 0 60 33 with newMaxSeg := 4 } 4 = 0
    ∧ createNewContainer { sqzExampleVolume 0 60 33 with newMaxSeg := 4 } sqzAllOk
        = Except.error (SqzFault.outside (4 * SEGSIZ))
    ∧ (fullSegmentExample.totPermEntries, fullSegmentExample.numdent,
        fullSegmentExample.emptyAdds, fullSegmentExample.cmdOpts) = (71, 72, 10, 0)
    ∧ sqzMaxSeg fullSegmentExample = some 1
    ∧ sqzMaxEntPSeg fullSegmentExample 1 = 71
    ∧ createNewContainer fullSegmentExample sqzAllOk
        = Except.error (SqzFault.outside (slotAddr DIRLEN 0 72 + OFF_BLOCKS))
    ∧ 1 * SEGSIZ ≤ slotAddr DIRLEN 0 72 + OFF_BLOCKS :=
  ⟨by rfl, by rfl, by rfl, by rfl, by rfl, by rfl, by rfl, by rfl, by decide⟩


/-! ### The serializer stays inside the directory buffer (parse.c) -/

theorem l2dCloseMem_frame (numdent : Nat) (st : L2DState) (r sp0 dp : Nat)
    (hsp : st.segptr = some sp0) (hdp : st.dirptr = some dp) (a : Nat)
    (h1 : a < sp0 + 2 ∨ sp0 + 4 ≤ a) (h2 : a < dp ∨ dp + DIRLEN ≤ a) :
    l2dCloseMem numdent st r a = st.mem a := by
  have hD : DIRLEN = 14 := rfl
  have hK : OFF_LINK = 2 := rfl
  simp only [l2dCloseMem, hsp, hdp, hK]
  split
  · rw [wr16_other _ _ _ _ (by omega), memset0_other _ _ _ _ (by omega),
      wr16_other _ _ _ _ (by omega)]
  · rw [wr16_other _ _ _ _ (by omega)]

theorem l2dHeaderMem_frame (m2 : Mem) (relseg lba a : Nat)
    (h1 : 6 ≤ a) (h2 : a < (relseg - 1) * SEGSIZ ∨ (relseg - 1) * SEGSIZ + SEGLEN ≤ a) :
    l2dHeaderMem m2 relseg lba a = m2 a := by
  have hG : SEGLEN = 10 := rfl
  have hX : OFF_EXTRA = 6 := rfl
  have hK : OFF_LINK = 2 := rfl
  have hA : OFF_LAST = 4 := rfl
  have hT : OFF_START = 8 := rfl
  simp only [l2dHeaderMem, hX, hK, hA, hT]
  rw [wr16_other _ _ _ _ (by omega), wr16_other _ _ _ _ (by omega),
    wr16_other _ _ _ _ (by omega), wr16_other _ _ _ _ (by omega),
    wr16_other _ _ _ _ (by omega), wr16_other _ _ _ _ (by omega)]

theorem l2dStep_same_frame (es numdent dps smax maxseg : Nat) (segs : List (List Rt11DirEnt))
    (cur : List Rt11DirEnt) (st : L2DState) (w : InWorkingDir)
    (hfit : numdent * es ≤ 1014) (hes : 14 ≤ es) (hdn : dps ≤ numdent)
    (hL : L2DLaid es numdent dps smax segs cur st) (hlt : cur.length < dps)
    (hseg : segs.length + 1 ≤ maxseg) (a : Nat) (ha : maxseg * SEGSIZ ≤ a) :
    (l2dStep numdent dps st w).mem a = st.mem a := by
  have hS : SEGSIZ = 1024 := rfl
  have hD : DIRLEN = 14 := rfl
  have hG : SEGLEN = 10 := rfl
  have hstep : (l2dStep numdent dps st w).mem
      = wrDirEnt st.mem (slotAddr es segs.length cur.length) w.rt11 := by
    unfold l2dStep
    simp only [hL.dentnum, ge_iff_le, Nat.not_le.mpr hlt, if_false, hL.dirptr]
  have hcurb := slot_bound es numdent cur.length hfit (by omega)
  rw [hstep, wrDirEnt_other _ _ _ _ (by simp only [slotAddr, hS, hG, hD] at ha ⊢; omega)]

theorem l2dStep_open_frame (es numdent dps smax maxseg : Nat) (segs : List (List Rt11DirEnt))
    (cur : List Rt11DirEnt) (st : L2DState) (w : InWorkingDir)
    (hfit : numdent * es ≤ 1014) (hdn : dps ≤ numdent)
    (hL : L2DLaid es numdent dps smax segs cur st) (heq : cur.length = dps)
    (hseg : segs.length + 2 ≤ maxseg) (a : Nat) (ha : maxseg * SEGSIZ ≤ a) :
    (l2dStep numdent dps st w).mem a = st.mem a := by
  have hS : SEGSIZ = 1024 := rfl
  have hD : DIRLEN = 14 := rfl
  have hG : SEGLEN = 10 := rfl
  have hrel := hL.relseg
  have hq1 : segs.length + 1 + 1 - 1 = segs.length + 1 := by omega
  rw [l2dStep_open_eq numdent dps st w (by rw [hL.dentnum]; omega)]
  simp only [hrel]
  have hmul : cur.length * es ≤ numdent * es := Nat.mul_le_mul_right es (by omega)
  rw [wrDirEnt_other _ _ _ _ (by simp only [hS, hG, hD] at ha ⊢; omega),
    l2dHeaderMem_frame _ _ _ _ (by simp only [hS] at ha; omega)
      (by rw [hq1]; simp only [hS, hG] at ha ⊢; omega),
    l2dCloseMem_frame numdent st _ _ _ hL.segptr hL.dirptr a
      (by simp only [hS] at ha ⊢; omega)
      (by simp only [slotAddr, hS, hG, hD] at ha ⊢; omega)]


theorem l2dStep_first_frame (numdent dps maxseg : Nat) (m0 : Mem) (accum : Nat)
    (w : InWorkingDir) (hdn : dps ≤ numdent) (hseg : 1 ≤ maxseg) (a : Nat)
    (ha : maxseg * SEGSIZ ≤ a) :
    (l2dStep numdent dps
        { mem := m0, relseg := 0, segptr := none, dirptr := none, dentnum := numdent,
          accumLBA := accum } w).mem a = m0 a := by
  have hS : SEGSIZ = 1024 := rfl
  have hD : DIRLEN = 14 := rfl
  have hG : SEGLEN = 10 := rfl
  rw [l2dStep_open_eq numdent dps _ w hdn]
  have hclose : l2dCloseMem numdent
      { mem := m0, relseg := 0, segptr := none, dirptr := none, dentnum := numdent,
        accumLBA := accum } (0 + 1) = m0 := by
    simp [l2dCloseMem]
  simp only [hclose]
  rw [wrDirEnt_other _ _ _ _ (by simp only [hS, hG, hD] at ha ⊢; omega),
    l2dHeaderMem_frame _ _ _ _ (by simp only [hS] at ha; omega)
      (by simp only [hS, hG] at ha ⊢; omega)]

theorem l2d_fold_frame (es numdent dps smax maxseg : Nat)
    (hes : 14 ≤ es) (hfit : numdent * es ≤ 1014) (hd1 : 1 ≤ dps) (hdn : dps ≤ numdent)
    (hmax : maxseg ≤ 65535) (rest : List InWorkingDir) :
    ∀ (segs : List (List Rt11DirEnt)) (cur : List Rt11DirEnt) (st : L2DState),
      L2DLaid es numdent dps smax segs cur st →
      (∀ w ∈ rest, w.rt11.WellTyped) →
      segs.length * dps + cur.length + rest.length ≤ dps * maxseg →
      ∀ a, maxseg * SEGSIZ ≤ a → (rest.foldl (l2dStep numdent dps) st).mem a = st.mem a := by
  induction rest with
  | nil =>
    intro segs cur st _ _ _ a _
    rfl
  | cons w rest ih =>
    intro segs cur st hL hty hcount a ha
    have hw := hty w (by simp)
    have hty' : ∀ w' ∈ rest, w'.rt11.WellTyped := fun w' h => hty w' (List.mem_cons_of_mem _ h)
    have hpos := hL.curPos
    simp only [List.foldl_cons]
    simp only [List.length_cons] at hcount
    have hseg1 : segs.length + 1 ≤ maxseg := by
      have : segs.length * dps < maxseg * dps := by
        rw [Nat.mul_comm maxseg]; omega
      have := Nat.lt_of_mul_lt_mul_right this
      omega
    rcases Nat.lt_or_ge cur.length dps with hlt | hge
    · have hL' := l2dStep_same es numdent dps smax segs cur st w hes hfit hdn hL hw hlt
      rw [ih segs (cur ++ [w.rt11]) _ hL' hty'
        (by simp only [List.length_append, List.length_singleton]; omega) a ha]
      exact l2dStep_same_frame es numdent dps smax maxseg segs cur st w hfit hes hdn hL hlt
        hseg1 a ha
    · have heq : cur.length = dps := by have := hL.curLe; omega
      have hseg : segs.length + 1 < maxseg := by
        have : (segs.length + 1) * dps < maxseg * dps := by
          rw [Nat.mul_comm maxseg, Nat.add_mul, Nat.one_mul]; omega
        exact Nat.lt_of_mul_lt_mul_right this
      have hL' := l2dStep_open es numdent dps smax segs cur st w hes hfit hd1 hdn hL hw heq
        (by omega)
      rw [ih (segs ++ [cur]) [w.rt11] _ hL' hty'
        (by simp only [List.length_append, List.length_singleton, Nat.add_mul, Nat.one_mul]
            omega) a ha]
      exact l2dStep_open_frame es numdent dps smax maxseg segs cur st w hfit hdn hL heq
        (by omega) a ha


/-- C30: `linearToDisk` stays inside the directory buffer.  With the geometry
`checkHeader` records and entries that fit their C types, a successful
`linearToDisk` on a list of at least one entry has laid the entries out, in
order, on `k` segments with `1 <= k <= maxseg`: every segment holds at most
`numdent` entries in its slots, followed by an end marker when a slot is
left; segment `j` links to segment `j + 1` and the last one has link 0;
`last` of segment 1 is `k`; and no byte at or behind `maxseg * 1024` has
changed. -/
theorem linearToDisk_stays_inside (o r : Options)
    (hgeom : (o.maxseg, o.numdent) = checkHeaderGeometry o.directory)
    (hty : ∀ w ∈ o.wDirArray, w.rt11.WellTyped)
    (hne : o.wDirArray ≠ [])
    (hok : linearToDisk o = some (r, 0)) :
    ∃ segs : List (List Rt11DirEnt),
      segs.flatten = o.wDirArray.map (fun w => w.rt11)
      ∧ 1 ≤ segs.length ∧ segs.length ≤ o.maxseg
      ∧ (∀ sg ∈ segs, sg.length ≤ o.numdent)
      ∧ ChainHolds r.directory (DIRLEN + rd16 o.directory OFF_EXTRA) o.numdent 0 segs
      ∧ rd16 r.directory OFF_LAST = segs.length
      ∧ (∀ a, o.maxseg * SEGSIZ ≤ a → r.directory a = o.directory a) := by
  obtain ⟨dps, hdn, hcap, hdir⟩ := linearToDisk_success o r hok
  simp only [checkHeaderGeometry, Prod.mk.injEq] at hgeom
  obtain ⟨hmaxseg, hnumdent⟩ := hgeom
  cases hwl : o.wDirArray with
  | nil => exact absurd hwl hne
  | cons w0 rest =>
    have hS : (SEGSIZ - SEGLEN : Nat) = 1014 := rfl
    have hS2 : SEGSIZ = 1024 := rfl
    have hG : SEGLEN = 10 := rfl
    have hD : DIRLEN = 14 := rfl
    have hB : OFF_BLOCKS = 8 := rfl
    have hN : o.numWdirs = rest.length + 1 := by simp [Options.numWdirs, hwl]
    have hes : 14 ≤ DIRLEN + rd16 o.directory OFF_EXTRA := by omega
    have hfit : o.numdent * (DIRLEN + rd16 o.directory OFF_EXTRA) ≤ 1014 := by
      rw [hnumdent, hS]
      exact Nat.div_mul_le_self _ _
    have hmax : o.maxseg ≤ 65535 := by
      have := rd16_lt o.directory 0
      omega
    have hd1 : 1 ≤ dps := by
      rcases Nat.eq_zero_or_pos dps with h | h
      · rw [h, Nat.zero_mul] at hcap
        omega
      · exact h
    have hm1 : 1 ≤ o.maxseg := by
      rcases Nat.eq_zero_or_pos o.maxseg with h | h
      · rw [h, Nat.mul_zero] at hcap
        omega
      · exact h
    have hw0 : w0.rt11.WellTyped := hty w0 (by rw [hwl]; simp)
    have hrest : ∀ w ∈ rest, w.rt11.WellTyped :=
      fun w hw => hty w (by rw [hwl]; exact List.mem_cons_of_mem _ hw)
    have hcnt : ([] : List (List Rt11DirEnt)).length * dps + [w0.rt11].length + rest.length
        ≤ dps * o.maxseg := by
      simp only [List.length_nil, Nat.zero_mul, List.length_singleton]
      omega
    have hfirst := l2dStep_first o.numdent dps o.directory o.seg1LBA w0 hd1 hdn hw0
    obtain ⟨segs, cur, hL, hflat, hcount⟩ := l2d_fold _ o.numdent dps _ o.maxseg hes hfit hd1 hdn
      hmax rest [] [w0.rt11] _ hfirst hrest hcnt
    have hframe := l2d_fold_frame _ o.numdent dps _ o.maxseg hes hfit hd1 hdn hmax rest []
      [w0.rt11] _ hfirst hrest hcnt
    obtain ⟨dp, hdp, hfin⟩ := l2d_final _ o.numdent dps _ segs cur _ hes hfit hdn hL
    rw [hwl] at hdir
    simp only [List.foldl_cons] at hdir
    rw [hdp] at hdir
    obtain ⟨hchain, -, hlast, -⟩ := hfin r.directory hdir
    have hdpv := hL.dirptr
    rw [hdp] at hdpv
    have hdpe : dp = slotAddr (DIRLEN + rd16 o.directory OFF_EXTRA) segs.length cur.length :=
      Option.some.inj hdpv
    refine ⟨segs ++ [cur], ?_, ?_, ?_, ?_, hchain, ?_, ?_⟩
    · rw [List.flatten_append, List.flatten_singleton, hflat]
      simp
    · simp
    · simp only [List.length_append, List.length_singleton]
      omega
    · intro sg hsg
      rcases List.mem_append.mp hsg with h | h
      · obtain ⟨j, hj⟩ := List.getElem?_of_mem h
        have := (hL.doneOk j sg hj).1
        omega
      · rw [List.mem_singleton.mp h]
        have := hL.curLe
        omega
    · rw [hlast]
      simp
    · intro a ha
      have hfa := hframe a ha
      have hf0 := l2dStep_first_frame o.numdent dps o.maxseg o.directory o.seg1LBA w0 hdn hm1 a ha
      simp only at hdir
      rw [hdir]
      split
      · rename_i hlt
        rw [hL.dentnum] at hlt
        have hb := slot_bound (DIRLEN + rd16 o.directory OFF_EXTRA) o.numdent cur.length hfit hlt
        have hdpb : dp + 10 ≤ o.maxseg * SEGSIZ := by
          rw [hdpe]
          simp only [slotAddr, hS2, hG, hD] at hb ⊢
          omega
        rw [wr16_other _ _ _ _ (by omega), wr16_other _ _ _ _ (by rw [hB]; omega), hfa, hf0]
      · rw [hfa, hf0]

/-- C30 at a concrete volume: five entries on one segment of 72 slots. -/
theorem linearToDisk_stays_inside_witness :
    linearToDisk packExample = some (packExampleResult, 0)
    ∧ ∃ segs : List (List Rt11DirEnt),
        segs.flatten = packExample.wDirArray.map (fun w => w.rt11)
        ∧ 1 ≤ segs.length ∧ segs.length ≤ packExample.maxseg
        ∧ (∀ sg ∈ segs, sg.length ≤ packExample.numdent)
        ∧ ChainHolds packExampleResult.directory
            (DIRLEN + rd16 packExample.directory OFF_EXTRA) packExample.numdent 0 segs
        ∧ rd16 packExampleResult.directory OFF_LAST = segs.length
        ∧ (∀ a, packExample.maxseg * SEGSIZ ≤ a →
            packExampleResult.directory a = packExample.directory a) :=
  ⟨by rfl,
   linearToDisk_stays_inside packExample packExampleResult (by rfl) (by decide) (by decide)
     (by rfl)⟩

end Rtpip
